import Mathlib

/-!
# Metric serialization: elasticsearch document encoders and dynatrace line serializer

A shallow embedding of

* `exporter/elasticsearchexporter/encode/metric.go`
  (`Gauge`, `Sum`, `Summary`, `Histogram`, `formatBucket`, `initCommonFields`,
  `setNumberValue`, `serializeDocument`),
* `exporter/dynatraceexporter/serialization/serialization.go`
  (`SerializeMetric`, `makeCombinedDimensions`),

followed by the theorems about them.

Conventions.  Go slices are lists, `nil` is `[]`; a Go `error` result is an
`Option error` (`none` is `nil`); `uint64`/`int64` values are `Nat`/`Int`
(no arithmetic is performed on them by the embedded code); a Go panic (a
`pdata` accessor applied to a metric of another data type) is `Option.none`.
Library functions that live outside the repository (`strconv`, `fmt`,
`pdata`, `dimensions`) are either modelled after their documented behaviour or
taken as parameters; each definition says which.
-/

set_option autoImplicit false
set_option maxRecDepth 100000

/-! ## Go runtime: strings, numbers -/

namespace golang

/-- Go `error` values are represented by their message. -/
abbrev error := String

/-- An IEEE-754 binary64 value, by what it denotes: `finite neg m e` is
`(-1)^neg * m * 2^e`. -/
inductive Float64 where
  | finite (neg : Bool) (mant : Nat) (exp : Int)
  | inf (neg : Bool)
  | nan
deriving DecidableEq, Repr

/-- True for NaN and the two infinities. -/
def Float64.nonFinite : Float64 → Bool
  | .finite _ _ _ => false
  | _ => true

/-- `strings.TrimRight(s, cutset)`: drop the longest suffix made of characters of `cutset`. -/
def TrimRight (s : String) (cutset : String) : String :=
  String.mk (s.data.rdropWhile (fun c => cutset.data.contains c))

/-- `strings.Replace(s, old, new, -1)` for a one-character `old` and `new`:
every occurrence is replaced. -/
def ReplaceChar (s : String) (old new : Char) : String :=
  String.mk (s.data.map (fun c => if c = old then new else c))

/-- `fmt.Sprintf("%d", n)` for a non-negative integer. -/
def itoa (n : Nat) : String := Nat.repr n

/-- `fmt.Sprintf("%0*d", width, n)` for a non-negative integer: decimal digits,
left-padded with zeros up to `width` characters. -/
def padZero (width : Nat) (n : Nat) : String :=
  String.mk (List.replicate (width - (itoa n).length) '0') ++ itoa n

/-- Round `num / den` to the nearest integer, ties to even (`den > 0`). -/
def roundHalfEven (num den : Nat) : Nat :=
  let q := num / den
  let r := num % den
  if 2 * r > den ∨ (2 * r = den ∧ q % 2 = 1) then q + 1 else q

/-- `fmt.Sprintf("%f", x)`: the exact value rounded (ties to even) to six decimals,
with a leading minus sign when the sign bit is set; `NaN`, `+Inf`, `-Inf` otherwise. -/
def sprintfF : Float64 → String
  | .nan => "NaN"
  | .inf false => "+Inf"
  | .inf true => "-Inf"
  | .finite neg m e =>
    let scaled : Nat :=
      match e with
      | .ofNat k => m * 2 ^ k * 1000000
      | .negSucc k => roundHalfEven (m * 1000000) (2 ^ (k + 1))
    (if neg then "-" else "") ++ itoa (scaled / 1000000) ++ "." ++ padZero 6 (scaled % 1000000)

end golang

/-! ## pdata: the metric data model (library `go.opentelemetry.io/collector/model/pdata`) -/

namespace pdata
open golang

/-- `pdata.AttributeValue`. -/
inductive AttributeValue where
  | Empty
  | String (s : String)
  | Int (i : Int)
  | Double (d : Float64)
  | Bool (b : Bool)
  | Map (m : List (String × AttributeValue))
  | Array (a : List AttributeValue)
  | Bytes (b : List Nat)

/-- `pdata.AttributeMap`: an ordered sequence of key/value entries; `Range`
visits them in this order. -/
abbrev AttributeMap := List (String × AttributeValue)

/-- `pdata.NewAttributeMap()`. -/
def NewAttributeMap : AttributeMap := []

/-- `AttributeMap.Insert*`: "adds the value to the map when the key does not
exist; no action is applied where the key already exists". -/
def AttributeMap.Insert (am : AttributeMap) (k : String) (v : AttributeValue) : AttributeMap :=
  if am.any (fun e => e.1 == k) then am else am ++ [(k, v)]

/-- `AttributeMap.Get`: the value of the first entry with the key, if any. -/
def AttributeMap.Get : AttributeMap → String → Option AttributeValue
  | [], _ => none
  | kv :: rest, key => if kv.1 = key then some kv.2 else AttributeMap.Get rest key

/-- `AttributeMap.InsertDouble`. -/
def AttributeMap.InsertDouble (am : AttributeMap) (k : String) (v : Float64) : AttributeMap :=
  am.Insert k (.Double v)

/-- `pdata.NewAttributeMapFromMap`: built here from the entries in the order
written in the source. -/
def NewAttributeMapFromMap (entries : List (String × AttributeValue)) : AttributeMap := entries

/-- `pdata.Timestamp`: nanoseconds since the Unix epoch. -/
abbrev Timestamp := Nat

/-- `pdata.Resource`. -/
structure Resource where
  Attributes : AttributeMap

/-- `pdata.InstrumentationLibrary`. -/
structure InstrumentationLibrary where
  Name : String
  Version : String

/-- The value held by a `pdata.NumberDataPoint`; the constructor is its `ValueType()`. -/
inductive NumberValue where
  | None
  | Int (v : Int)
  | Double (v : Float64)
deriving DecidableEq

/-- `pdata.NumberDataPoint`. -/
structure NumberDataPoint where
  Attributes : AttributeMap
  Timestamp : Timestamp
  Value : NumberValue

/-- `pdata.ValueAtQuantile`. -/
structure ValueAtQuantile where
  Quantile : Float64
  Value : Float64

/-- `pdata.SummaryDataPoint`. -/
structure SummaryDataPoint where
  Attributes : AttributeMap
  Timestamp : Timestamp
  Count : Nat
  Sum : Float64
  QuantileValues : List ValueAtQuantile

/-- `pdata.HistogramDataPoint`.  The library does not tie the length of
`BucketCounts` to the length of `ExplicitBounds`. -/
structure HistogramDataPoint where
  Attributes : AttributeMap
  Timestamp : Timestamp
  Count : Nat
  Sum : Float64
  BucketCounts : List Nat
  ExplicitBounds : List Float64

/-- `pdata.MetricAggregationTemporality`. -/
inductive AggregationTemporality where
  | Unspecified
  | Delta
  | Cumulative
deriving DecidableEq

/-- The data carried by a `pdata.Metric`, one constructor per `MetricDataType`. -/
inductive MetricData where
  | None
  | Gauge (dps : List NumberDataPoint)
  | Sum (isMonotonic : Bool) (temporality : AggregationTemporality) (dps : List NumberDataPoint)
  | Histogram (temporality : AggregationTemporality) (dps : List HistogramDataPoint)
  | ExponentialHistogram
  | Summary (dps : List SummaryDataPoint)

/-- `pdata.Metric`. -/
structure Metric where
  Name : String
  Unit : String
  Data : MetricData

/-- `MetricDataType.String()`. -/
def MetricData.typeString : MetricData → String
  | .None => "None"
  | .Gauge _ => "Gauge"
  | .Sum _ _ _ => "Sum"
  | .Histogram _ _ => "Histogram"
  | .ExponentialHistogram => "ExponentialHistogram"
  | .Summary _ => "Summary"

end pdata

/-! ## objmodel: output records (package `elasticsearchexporter/internal/objmodel`) -/

namespace objmodel
open golang pdata

/-- Modelled from the spec: the value kinds of `objmodel.Value`, whose declaration
is not among the sources.  A field is a "string, number, or nested attribute
group"; the numbers are the ones the encoders add (`AddInt`, `AddUInt`,
`AddDouble`, `AddTimestamp`). -/
inductive Value where
  | StringValue (s : String)
  | IntValue (i : Int)
  | UIntValue (n : Nat)
  | DoubleValue (d : Float64)
  | TimestampValue (t : Timestamp)
  | AttributesValue (m : AttributeMap)

/-- A named field of a record. -/
structure field where
  key : String
  value : Value

/-- Modelled from the spec: `objmodel.Document`, "an ordered ... set of named
fields"; the zero value (`var document objmodel.Document`) has no field. -/
structure Document where
  fields : List field := []

/-- Modelled from the spec: `Document.Add` appends a named field. -/
def Document.Add (doc : Document) (key : String) (v : Value) : Document :=
  { fields := doc.fields ++ [{ key := key, value := v }] }

/-- Modelled from the spec: `Document.AddString`. -/
def Document.AddString (doc : Document) (key : String) (v : String) : Document :=
  doc.Add key (.StringValue v)

/-- Modelled from the spec: `Document.AddInt`. -/
def Document.AddInt (doc : Document) (key : String) (v : Int) : Document :=
  doc.Add key (.IntValue v)

/-- Modelled from the spec: `Document.AddUInt`. -/
def Document.AddUInt (doc : Document) (key : String) (v : Nat) : Document :=
  doc.Add key (.UIntValue v)

/-- Modelled from the spec: `Document.AddDouble`. -/
def Document.AddDouble (doc : Document) (key : String) (v : Float64) : Document :=
  doc.Add key (.DoubleValue v)

/-- Modelled from the spec: `Document.AddTimestamp`. -/
def Document.AddTimestamp (doc : Document) (key : String) (ts : Timestamp) : Document :=
  doc.Add key (.TimestampValue ts)

/-- Modelled from the spec: `Document.AddAttributes` adds the attribute map as one
"nested attribute group" under `key`. -/
def Document.AddAttributes (doc : Document) (key : String) (attributes : AttributeMap) : Document :=
  doc.Add key (.AttributesValue attributes)

/-- Modelled from the spec: the order of field names, Go string comparison
(bytewise, which on UTF-8 is the lexicographic order of the code points). -/
def keyLE (a b : field) : Prop := a.key.data ≤ b.key.data

instance : DecidableRel keyLE := fun a b => inferInstanceAs (Decidable (a.key.data ≤ b.key.data))

/-- Last-write-wins removal of repeated names: a field is kept unless a later
field carries the same name. -/
def dedupFields : List field → List field
  | [] => []
  | f :: fs => if fs.any (fun g => g.key == f.key) then dedupFields fs else f :: dedupFields fs

/-- Modelled from the spec: `Document.Dedup`, "deduplicates field names
(last-write-wins) before sorting". -/
def Document.Dedup (doc : Document) : Document :=
  { fields := dedupFields doc.fields }

/-- Modelled from the spec: `Document.Sort`, "sorts fields by name" (stable). -/
def Document.Sort (doc : Document) : Document :=
  { fields := doc.fields.insertionSort keyLE }

/-- The type of `Document.Serialize(&buf, true)`: the bytes written to the buffer and
the error result.  The method is not among the sources; the encoders take it as a
parameter. -/
abbrev Serializer := Document → String × Option error

/-! ### A reference JSON rendering

`Document.Serialize` is not among the sources and the encoders are parametric in it.
The rendering below follows the spec ("compact JSON object"; "returns an error
(without partial bytes) if any field value cannot be represented (e.g., NaN/Inf
numeric values ...)") and reproduces the documents asserted in `metric_test.go`; it is
the instance at which the theorems are evaluated on concrete inputs. -/

/-- A JSON string literal; quotes and backslashes are escaped. -/
def quote (s : String) : String :=
  "\"" ++ String.mk (s.data.flatMap (fun c =>
    if c = '"' then ['\\', '"'] else if c = '\\' then ['\\', '\\'] else [c])) ++ "\""

/-- The calendar date (year, month, day) of a day number counted from 1970-01-01. -/
def civilFromDays (days : Nat) : Nat × Nat × Nat :=
  let z := days + 719468
  let era := z / 146097
  let doe := z % 146097
  let yoe := (doe - doe / 1460 + doe / 36524 - doe / 146096) / 365
  let doy := doe - (365 * yoe + yoe / 4 - yoe / 100)
  let mp := (5 * doy + 2) / 153
  let d := doy - (153 * mp + 2) / 5 + 1
  let m := if mp < 10 then mp + 3 else mp - 9
  let y := yoe + era * 400
  (if m ≤ 2 then y + 1 else y, m, d)

/-- A timestamp in UTC as `2006-01-02T15:04:05.000000000Z`. -/
def formatTimestamp (ts : Timestamp) : String :=
  let secs := ts / 1000000000
  let rem := secs % 86400
  let ymd := civilFromDays (secs / 86400)
  padZero 4 ymd.1 ++ "-" ++ padZero 2 ymd.2.1 ++ "-" ++ padZero 2 ymd.2.2 ++ "T" ++
    padZero 2 (rem / 3600) ++ ":" ++ padZero 2 (rem % 3600 / 60) ++ ":" ++ padZero 2 (rem % 60) ++
    "." ++ padZero 9 (ts % 1000000000) ++ "Z"

/-- A double as a JSON number; `none` for NaN and the infinities. -/
def renderDouble (FormatFloat : Float64 → String) (d : Float64) : Option String :=
  if d.nonFinite then none else some (FormatFloat d)

/-- Join the rendered members of an object or array; `none` if one of them failed. -/
def joinMembers : List (Option String) → Option String
  | [] => some ""
  | [x] => x
  | x :: rest => do
    let a ← x
    let b ← joinMembers rest
    pure (a ++ "," ++ b)

mutual
/-- An attribute value as JSON. -/
def renderAttributeValue (FormatFloat : Float64 → String) : AttributeValue → Option String
  | .Empty => some "null"
  | .String s => some (quote s)
  | .Int i => some (toString i)
  | .Double d => renderDouble FormatFloat d
  | .Bool b => some (if b then "true" else "false")
  | .Map m => (joinMembers (renderEntries FormatFloat m)).map (fun s => "\x7b" ++ s ++ "\x7d")
  | .Array a => (joinMembers (renderItems FormatFloat a)).map (fun s => "[" ++ s ++ "]")
  | .Bytes b => some (quote (String.mk (b.map Char.ofNat)))
/-- The members of an attribute group, each as `"key":value`. -/
def renderEntries (FormatFloat : Float64 → String) :
    List (String × AttributeValue) → List (Option String)
  | [] => []
  | (k, v) :: rest =>
    (renderAttributeValue FormatFloat v).map (fun s => quote k ++ ":" ++ s) ::
      renderEntries FormatFloat rest
/-- The items of an attribute array. -/
def renderItems (FormatFloat : Float64 → String) : List AttributeValue → List (Option String)
  | [] => []
  | v :: rest => renderAttributeValue FormatFloat v :: renderItems FormatFloat rest
end

/-- A field value as JSON. -/
def renderValue (FormatFloat : Float64 → String) : Value → Option String
  | .StringValue s => some (quote s)
  | .IntValue i => some (toString i)
  | .UIntValue n => some (itoa n)
  | .DoubleValue d => renderDouble FormatFloat d
  | .TimestampValue t => some (quote (formatTimestamp t))
  | .AttributesValue m =>
    (joinMembers (renderEntries FormatFloat m)).map (fun s => "\x7b" ++ s ++ "\x7d")

/-- True for the fields that are left out of the rendering: empty attribute groups. -/
def field.isEmpty (f : field) : Bool :=
  match f.value with
  | .AttributesValue [] => true
  | _ => false

/-- Modelled from the spec: `Document.Serialize`, which is not among the sources.
The fields are written in order as one compact JSON object, empty attribute groups
left out; if a value cannot be represented the result is an error and no bytes. -/
def Serialize (FormatFloat : Float64 → String) : Serializer := fun doc =>
  match joinMembers ((doc.fields.filter (fun f => !f.isEmpty)).map (fun f =>
      (renderValue FormatFloat f.value).map (fun s => quote f.key ++ ":" ++ s))) with
  | some s => ("\x7b" ++ s ++ "\x7d", none)
  | none => ("", some "json: unsupported value")

end objmodel

/-! ## encode: the elasticsearch metric encoders (`encode/metric.go`) -/

namespace encode
open golang pdata objmodel

/-- `initCommonFields`. -/
def initCommonFields (document : Document) (resource : Resource)
    (instrumentationLibrary : InstrumentationLibrary) (metric : Metric)
    (timestamp : Timestamp) (attributes : AttributeMap) : Document :=
  let document := document.AddTimestamp "@timestamp" timestamp
  let document := document.AddString "name" metric.Name
  let document := document.AddAttributes "resource" resource.Attributes
  let document := document.AddAttributes "attributes" attributes
  document.AddAttributes "instrumentationLibrary" (NewAttributeMapFromMap [
    ("name", .String instrumentationLibrary.Name),
    ("version", .String instrumentationLibrary.Version)])

/-- `setNumberValue`. -/
def setNumberValue (document : Document) (dp : NumberDataPoint) : Document :=
  match dp.Value with
  | .Double v => document.AddDouble "value" v
  | .Int v => document.AddInt "value" v
  | .None => document

/-- `serializeDocument`: dedup, sort, serialize; returns the buffer and the error. -/
def serializeDocument (Serialize : Serializer) (document : Document) : String × Option error :=
  let document := document.Dedup
  let document := document.Sort
  Serialize document

/-- The tail of every encoder loop body:
`if err == nil { documents = append(documents, ser) } else { errs = append(errs, err) }`. -/
def collect (acc : List String × List error) (res : String × Option error) :
    List String × List error :=
  match res.2 with
  | none => (acc.1 ++ [res.1], acc.2)
  | some err => (acc.1, acc.2 ++ [err])

/-- The document built by `Gauge` for one data point. -/
def gaugeDocument (resource : Resource) (instrumentationLibrary : InstrumentationLibrary)
    (metric : Metric) (dp : NumberDataPoint) : Document :=
  let document : Document := {}
  let document := document.AddString "type" "gauge"
  let document := initCommonFields document resource instrumentationLibrary metric
    dp.Timestamp dp.Attributes
  setNumberValue document dp

/-- `Gauge` serializes gauge metric data points into JSON documents. -/
def Gauge (Serialize : Serializer) (resource : Resource)
    (instrumentationLibrary : InstrumentationLibrary) (metric : Metric) :
    Option (List String × List error) :=
  match metric.Data with
  | .Gauge dps =>
    some (dps.foldl (fun acc dp =>
      collect acc (serializeDocument Serialize
        (gaugeDocument resource instrumentationLibrary metric dp))) ([], []))
  | _ => none

/-- The document built by `Sum` for one data point that holds a value. -/
def sumDocument (resource : Resource) (instrumentationLibrary : InstrumentationLibrary)
    (metric : Metric) (isMonotonic : Bool) (dp : NumberDataPoint) : Document :=
  let document : Document := {}
  let document :=
    if isMonotonic then document.AddString "type" "counter"
    else document.AddString "type" "gauge"
  let document := initCommonFields document resource instrumentationLibrary metric
    dp.Timestamp dp.Attributes
  setNumberValue document dp

/-- `Sum` serializes sum metric data points into JSON documents. -/
def Sum (Serialize : Serializer) (resource : Resource)
    (instrumentationLibrary : InstrumentationLibrary) (metric : Metric) :
    Option (List String × List error) :=
  match metric.Data with
  | .Sum isMonotonic _ dps =>
    some (dps.foldl (fun acc dp =>
      if dp.Value = NumberValue.None then acc
      else collect acc (serializeDocument Serialize
        (sumDocument resource instrumentationLibrary metric isMonotonic dp))) ([], []))
  | _ => none

/-- The key under which `Summary` stores a quantile:
`strings.Replace(strconv.FormatFloat(q, 'f', -1, 64), ".", "_", -1)`.
`strconv.FormatFloat(·, 'f', -1, 64)` (shortest decimal that reads back as the same
float) is the parameter `FormatFloat`. -/
def quantileKey (FormatFloat : Float64 → String) (q : Float64) : String :=
  let k := FormatFloat q
  ReplaceChar k '.' '_'

/-- The inner loop of `Summary`: the attribute map of quantile values. -/
def quantileAttributes (FormatFloat : Float64 → String) (qv : List ValueAtQuantile) :
    AttributeMap :=
  qv.foldl (fun quantiles qvj =>
    quantiles.InsertDouble (quantileKey FormatFloat qvj.Quantile) qvj.Value) NewAttributeMap

/-- The document built by `Summary` for one data point. -/
def summaryDocument (FormatFloat : Float64 → String) (resource : Resource)
    (instrumentationLibrary : InstrumentationLibrary) (metric : Metric)
    (dp : SummaryDataPoint) : Document :=
  let document : Document := {}
  let document := document.AddUInt "count" dp.Count
  let document := document.AddDouble "sum" dp.Sum
  let quantiles := quantileAttributes FormatFloat dp.QuantileValues
  let document := document.AddAttributes "quantileValues" quantiles
  let document := document.AddString "type" "summary"
  initCommonFields document resource instrumentationLibrary metric dp.Timestamp dp.Attributes

/-- `Summary` serializes summary metric data points into JSON documents. -/
def Summary (FormatFloat : Float64 → String) (Serialize : Serializer) (resource : Resource)
    (instrumentationLibrary : InstrumentationLibrary) (metric : Metric) :
    Option (List String × List error) :=
  match metric.Data with
  | .Summary dps =>
    some (dps.foldl (fun acc dp =>
      collect acc (serializeDocument Serialize
        (summaryDocument FormatFloat resource instrumentationLibrary metric dp))) ([], []))
  | _ => none

/-- `formatBucket`. -/
def formatBucket (bucket : Float64) : String :=
  TrimRight (TrimRight (sprintfF bucket) "0") "."

/-- The constant `lastBucket` of `Histogram`. -/
def lastBucket : String := "+inf"

/-- The document built by `Histogram` for the bucket `bucketID` (holding count `v`) of one
data point; `maxBucketIDLen` is the number of decimal digits of the number of buckets.
The test `bucketID < len(explicitBounds)` is the lookup `explicitBounds[bucketID]?`, which
finds a bound exactly when the index is below the length. -/
def histogramDocument (resource : Resource) (instrumentationLibrary : InstrumentationLibrary)
    (metric : Metric) (dp : HistogramDataPoint) (maxBucketIDLen : Nat)
    (bucketID : Nat) (v : Nat) : Document :=
  let explicitBounds := dp.ExplicitBounds
  let document : Document := {}
  let document := document.AddUInt "count" dp.Count
  let document := document.AddDouble "sum" dp.Sum
  let document := document.AddUInt "bucketId" bucketID
  let document :=
    match explicitBounds[bucketID]? with
    | some bound =>
      let bucket := formatBucket bound
      let document := document.AddString "bucket" bucket
      document.AddString "bucketText"
        (padZero maxBucketIDLen bucketID ++ " (" ++ bucket ++ ")")
    | none =>
      let document := document.AddString "bucket" lastBucket
      document.AddString "bucketText"
        (padZero maxBucketIDLen bucketID ++ " (" ++ lastBucket ++ ")")
  let document := document.AddUInt "bucketCount" v
  let document := document.AddString "type" "histogram"
  initCommonFields document resource instrumentationLibrary metric dp.Timestamp dp.Attributes

/-- The documents built by `Histogram` for one data point, in loop order
(`for bucketID, v := range dp.BucketCounts()`). -/
def histogramDocuments (resource : Resource) (instrumentationLibrary : InstrumentationLibrary)
    (metric : Metric) (dp : HistogramDataPoint) : List Document :=
  let maxBucketIDLen := (itoa dp.BucketCounts.length).length
  dp.BucketCounts.enum.map (fun iv =>
    histogramDocument resource instrumentationLibrary metric dp maxBucketIDLen iv.1 iv.2)

/-- `Histogram` serializes histogram data points into JSON documents. -/
def Histogram (Serialize : Serializer) (resource : Resource)
    (instrumentationLibrary : InstrumentationLibrary) (metric : Metric) :
    Option (List String × List error) :=
  match metric.Data with
  | .Histogram _ dps =>
    some (dps.foldl (fun acc dp =>
      (histogramDocuments resource instrumentationLibrary metric dp).foldl (fun acc document =>
        collect acc (serializeDocument Serialize document)) acc) ([], []))
  | _ => none

end encode

/-! ## dimensions: dimension lists (library `dynatrace-metric-utils-go/metric/dimensions`) -/

namespace dimensions

/-- `dimensions.Dimension`: a key/value pair. -/
structure Dimension where
  Key : String
  Value : String
deriving DecidableEq, Repr

/-- `dimensions.NewDimension`. -/
def NewDimension (key val : String) : Dimension := { Key := key, Value := val }

/-- `dimensions.NormalizedDimensionList`. -/
structure NormalizedDimensionList where
  dimensions : List Dimension
deriving DecidableEq, Repr

/-- Modelled from the spec: `dimensions.NewNormalizedDimensionList` belongs to a library
that is not among the sources.  The spec describes the data-point attributes as one of
the three merge inputs and no rewriting of their keys or values, so the list holds the
given dimensions in order. -/
def NewNormalizedDimensionList (dims : List Dimension) : NormalizedDimensionList :=
  { dimensions := dims }

/-- Write a dimension into a merged list: the entry that already carries its key is
overwritten in place, otherwise the dimension is appended. -/
def upsert : List Dimension → Dimension → List Dimension
  | [], d => [d]
  | e :: rest, d => if e.Key = d.Key then d :: rest else e :: upsert rest d

/-- Modelled from the spec: `dimensions.MergeLists` belongs to a library that is not
among the sources.  The lists are merged in argument order, "only one value per key
survives", and on a collision the later write wins (so that, in the call made by
`makeCombinedDimensions`, "static overrides win over data-point attributes, which win
over defaults"). -/
def MergeLists (lists : List NormalizedDimensionList) : NormalizedDimensionList :=
  { dimensions := (lists.flatMap (fun l => l.dimensions)).foldl upsert [] }

/-- The value a list holds for a key (the first entry with that key). -/
def valueOf : List Dimension → String → Option String
  | [], _ => none
  | d :: rest, key => if d.Key = key then some d.Value else valueOf rest key

end dimensions

/-! ## serialization: the dynatrace line serializer (`serialization/serialization.go`) -/

namespace serialization
open golang pdata dimensions

/-- The per-point serializers called by `SerializeMetric`.  `serializeGauge`,
`serializeSum` and `serializeHistogram` are defined in files of the package that are not
among the sources, so they are parameters here.  Each returns a line and an error;
`serializeSum` also reads and updates the cache `prev` (a `*ttlmap.TTLMap`), whose state
has type `σ`. -/
structure PointSerializers (σ : Type) where
  serializeGauge : String → String → NormalizedDimensionList → NumberDataPoint →
    String × Option error
  serializeSum : String → String → NormalizedDimensionList → AggregationTemporality →
    NumberDataPoint → σ → (String × Option error) × σ
  serializeHistogram : String → String → NormalizedDimensionList → AggregationTemporality →
    HistogramDataPoint → String × Option error

/-- `makeCombinedDimensions`.  `AsString` is `pdata.AttributeValue.AsString`. -/
def makeCombinedDimensions (AsString : AttributeValue → String) (labels : AttributeMap)
    (defaultDimensions staticDimensions : NormalizedDimensionList) : NormalizedDimensionList :=
  let dimsFromLabels : List Dimension :=
    labels.foldl (fun dimsFromLabels kv =>
      dimsFromLabels ++ [NewDimension kv.1 (AsString kv.2)]) []
  MergeLists [defaultDimensions, NewNormalizedDimensionList dimsFromLabels, staticDimensions]

/-- The data-point loop that `SerializeMetric` runs for each supported metric type:
the first error ends the call with `return nil, err`; a non-empty line is appended to
`metricLines`. -/
def pointLoop {α σ : Type} (serializePoint : α → σ → (String × Option error) × σ) :
    List α → List String → σ → (List String × Option error) × σ
  | [], metricLines, prev => ((metricLines, none), prev)
  | dp :: rest, metricLines, prev =>
    match serializePoint dp prev with
    | ((_, some err), prev) => (([], some err), prev)
    | ((line, none), prev) =>
      pointLoop serializePoint rest
        (if line ≠ "" then metricLines ++ [line] else metricLines) prev

/-- `SerializeMetric`.  The debug log entry written through `logger` is left out; the
final state of the cache `prev` is returned next to the Go results. -/
def SerializeMetric {σ : Type} (fns : PointSerializers σ) (AsString : AttributeValue → String)
    (pfx : String) (metric : Metric)
    (defaultDimensions staticDimensions : NormalizedDimensionList) (prev : σ) :
    (List String × Option error) × σ :=
  match metric.Data with
  | .Gauge dps =>
    pointLoop (fun dp prev =>
      (fns.serializeGauge metric.Name pfx
        (makeCombinedDimensions AsString dp.Attributes defaultDimensions staticDimensions)
        dp, prev)) dps [] prev
  | .Sum _ temporality dps =>
    pointLoop (fun dp prev =>
      fns.serializeSum metric.Name pfx
        (makeCombinedDimensions AsString dp.Attributes defaultDimensions staticDimensions)
        temporality dp prev) dps [] prev
  | .Histogram temporality dps =>
    pointLoop (fun dp prev =>
      (fns.serializeHistogram metric.Name pfx
        (makeCombinedDimensions AsString dp.Attributes defaultDimensions staticDimensions)
        temporality dp, prev)) dps [] prev
  | data => (([], some ("metric type " ++ data.typeString ++ " unsupported")), prev)

/-- Per-point serializers at which `SerializeMetric` is evaluated on concrete inputs:
a number point without a value is an error, an integer point gives the line
`name gauge,value` (`name count,value` for a sum); the cache is not used. -/
def examplePointSerializers : PointSerializers Unit where
  serializeGauge := fun name _ _ dp =>
    match dp.Value with
    | .Int v => (name ++ " gauge," ++ toString v, none)
    | _ => ("", some "unsupported value type")
  serializeSum := fun name _ _ _ dp prev =>
    match dp.Value with
    | .Int v => ((name ++ " count," ++ toString v, none), prev)
    | _ => (("", some "unsupported value type"), prev)
  serializeHistogram := fun _ _ _ _ _ => ("", none)

/-- A stand-in for `pdata.AttributeValue.AsString` on concrete inputs, covering the
string, integer, boolean and empty values. -/
def exampleAsString : AttributeValue → String
  | .String s => s
  | .Int i => toString i
  | .Bool b => if b then "true" else "false"
  | _ => ""

end serialization

/-! ## Reading encoder results -/

namespace encode
open golang pdata objmodel

/-- The value a record holds under a name, the last write winning. -/
def lookupField : List field → String → Option Value
  | [], _ => none
  | f :: fs, key =>
    match lookupField fs key with
    | some v => some v
    | none => if f.key = key then some f.value else none

/-- The record handed to the serializer for a document: deduplicated, then sorted. -/
def record (document : Document) : List field := document.Dedup.Sort.fields

/-- The documents among a sequence of serialization results, in order. -/
def documentsOf (results : List (String × Option error)) : List String :=
  results.filterMap (fun res => match res.2 with | none => some res.1 | some _ => none)

/-- The errors among a sequence of serialization results, in order. -/
def errorsOf (results : List (String × Option error)) : List error :=
  results.filterMap (fun res => res.2)

/-! ### A reference JSON decoder

Used to read back documents produced by the reference rendering on concrete inputs. -/

/-- A decoded JSON value; numbers and the literals `true`, `false`, `null` are kept as
their token. -/
inductive JSON where
  | str (s : String)
  | token (raw : String)
  | obj (members : List (String × JSON))
  | arr (items : List JSON)

/-- The characters of a string literal after its opening quote, up to the closing quote,
with the character after a backslash taken as it is (`escaped` tells that the previous
character was a backslash); returns the text and the input that follows. -/
def parseChars : Bool → List Char → Option (List Char × List Char)
  | _, [] => none
  | true, c :: rest => (parseChars false rest).map (fun sr => (c :: sr.1, sr.2))
  | false, c :: rest =>
    if c = '"' then some ([], rest)
    else if c = '\\' then parseChars true rest
    else (parseChars false rest).map (fun sr => (c :: sr.1, sr.2))

/-- Decode a string literal whose opening quote has been read. -/
def parseString (input : List Char) : Option (List Char × List Char) :=
  parseChars false input

/-- True for the characters that end a number or literal token. -/
def isDelimiter (c : Char) : Bool :=
  c = ',' || c = '}' || c = ']' || c = ':' || c = '"' || c = '{' || c = '['

mutual
/-- Decode one JSON value at the head of the input; `fuel` bounds the number of values. -/
def parseValue : Nat → List Char → Option (JSON × List Char)
  | 0, _ => none
  | _ + 1, [] => none
  | fuel + 1, c :: rest =>
    if c = '"' then
      (parseString rest).map (fun sr => (.str (String.mk sr.1), sr.2))
    else if c = '{' then
      match parseMembers fuel rest with
      | some mr => some (.obj mr.1, mr.2)
      | none =>
        match rest with
        | '}' :: rest => some (.obj [], rest)
        | _ => none
    else if c = '[' then
      match parseItems fuel rest with
      | some ir => some (.arr ir.1, ir.2)
      | none =>
        match rest with
        | ']' :: rest => some (.arr [], rest)
        | _ => none
    else if isDelimiter c then none
    else
      some (.token (String.mk (c :: rest.takeWhile (fun d => !isDelimiter d))),
        rest.dropWhile (fun d => !isDelimiter d))
/-- Decode the members of an object up to and including its closing brace. -/
def parseMembers : Nat → List Char → Option (List (String × JSON) × List Char)
  | 0, _ => none
  | fuel + 1, input =>
    match input with
    | '"' :: rest =>
      match parseString rest with
      | some (key, ':' :: rest) =>
        match parseValue fuel rest with
        | some (v, ',' :: rest) =>
          (parseMembers fuel rest).map (fun mr => ((String.mk key, v) :: mr.1, mr.2))
        | some (v, '}' :: rest) => some ([(String.mk key, v)], rest)
        | _ => none
      | _ => none
    | _ => none
/-- Decode the items of an array up to and including its closing bracket. -/
def parseItems : Nat → List Char → Option (List JSON × List Char)
  | 0, _ => none
  | fuel + 1, input =>
    match parseValue fuel input with
    | some (v, ',' :: rest) => (parseItems fuel rest).map (fun ir => (v :: ir.1, ir.2))
    | some (v, ']' :: rest) => some ([v], rest)
    | _ => none
end

/-- Decode a document: the members of its top-level object, in order. -/
def decodeObject (doc : String) : Option (List (String × JSON)) :=
  match parseValue (doc.length + 1) doc.data with
  | some (.obj members, []) => some members
  | _ => none

/-- The member of a decoded object with the given name (the first one). -/
def member : List (String × JSON) → String → Option JSON
  | [], _ => none
  | kv :: rest, key => if kv.1 = key then some kv.2 else member rest key

/-- A decoded value read as a string. -/
def JSON.asString : JSON → Option String
  | .str s => some s
  | _ => none

/-- The number denoted by a string of decimal digits. -/
def parseDigits : List Char → Nat → Option Nat
  | [], acc => some acc
  | c :: rest, acc =>
    if '0' ≤ c ∧ c ≤ '9' then parseDigits rest (acc * 10 + (c.toNat - '0'.toNat)) else none

/-- A decoded value read as an integer. -/
def JSON.asInt : JSON → Option Int
  | .token raw =>
    match raw.data with
    | [] => none
    | '-' :: c :: rest => (parseDigits (c :: rest) 0).map (fun n => - (n : Int))
    | c :: rest => (parseDigits (c :: rest) 0).map (fun n => (n : Int))
  | _ => none

/-- The escaped form of a string inside a JSON string literal. -/
def escapeChars (l : List Char) : List Char :=
  l.flatMap (fun c => if c = '"' then ['\\', '"'] else if c = '\\' then ['\\', '\\'] else [c])

/-- A number or literal token: not empty and free of delimiters. -/
def IsToken (s : String) : Prop :=
  s.data ≠ [] ∧ ∀ c ∈ s.data, isDelimiter c = false

/-- The input after a value: nothing, or something that starts with a delimiter. -/
def EndsValue (rest : List Char) : Prop :=
  ∀ c ∈ rest.head?, isDelimiter c = true

mutual
/-- The JSON value that the reference rendering writes for an attribute value. -/
def attributeJSON (FormatFloat : Float64 → String) : AttributeValue → JSON
  | .Empty => .token "null"
  | .String s => .str s
  | .Int i => .token (toString i)
  | .Double d => .token (FormatFloat d)
  | .Bool b => .token (if b then "true" else "false")
  | .Map m => .obj (entriesJSON FormatFloat m)
  | .Array a => .arr (itemsJSON FormatFloat a)
  | .Bytes b => .str (String.mk (b.map Char.ofNat))
/-- The JSON members written for the entries of an attribute group. -/
def entriesJSON (FormatFloat : Float64 → String) :
    List (String × AttributeValue) → List (String × JSON)
  | [] => []
  | (k, v) :: rest => (k, attributeJSON FormatFloat v) :: entriesJSON FormatFloat rest
/-- The JSON items written for an attribute array. -/
def itemsJSON (FormatFloat : Float64 → String) : List AttributeValue → List JSON
  | [] => []
  | v :: rest => attributeJSON FormatFloat v :: itemsJSON FormatFloat rest
end

/-- The JSON value that the reference rendering writes for a field value. -/
def valueJSON (FormatFloat : Float64 → String) : Value → JSON
  | .StringValue s => .str s
  | .IntValue i => .token (toString i)
  | .UIntValue n => .token (itoa n)
  | .DoubleValue d => .token (FormatFloat d)
  | .TimestampValue t => .str (formatTimestamp t)
  | .AttributesValue m => .obj (entriesJSON FormatFloat m)

/-- The value of the first quantile whose key is `key`, if any. -/
def valueAtKey (FormatFloat : Float64 → String) : List ValueAtQuantile → String → Option Float64
  | [], _ => none
  | qv :: rest, key =>
    if quantileKey FormatFloat qv.Quantile = key then some qv.Value
    else valueAtKey FormatFloat rest key

/-- Stand-in for `strconv.FormatFloat(·, 'f', -1, 64)` when the parametric definitions
are evaluated on the inputs of `metric_test.go`: six decimals with the trailing zeros
removed, which is the shortest rendering of the values used there
(0, 0.9, 0.95, 10.1, 10.2, 10.5). -/
def formatFloatSixTrim (x : Float64) : String :=
  TrimRight (TrimRight (sprintfF x) "0") "."

/-- The timestamp of `createTimestamp()` in `metric_test.go`:
2022-01-01T10:00:05.000000123Z. -/
def testTimestamp : Timestamp := 1641031205000000123

/-- The library of `createInstrumentationLibrary()` in `metric_test.go`. -/
def testLibrary : InstrumentationLibrary := { Name := "instlib", Version := "v1" }

/-- The resource of the tests in `metric_test.go`: `pdata.NewResource()`. -/
def testResource : Resource := { Attributes := [] }

/-- The data point of `Test_Gauge`, `Test_SumCounter` and `Test_SumGauge`: integer value 1. -/
def testNumberPoint : NumberDataPoint :=
  { Attributes := [], Timestamp := testTimestamp, Value := .Int 1 }

/-- The document asserted by `Test_Gauge`. -/
def testGaugeJSON : String :=
  "\x7b\"@timestamp\":\"2022-01-01T10:00:05.000000123Z\",\"instrumentationLibrary\":\x7b\"name\":\"instlib\",\"version\":\"v1\"\x7d,\"name\":\"gauge-metric\",\"type\":\"gauge\",\"value\":1\x7d"

/-- A number data point on which no value was set (`ValueType()` is
`MetricValueTypeNone`), as left by `AppendEmpty()` and `SetTimestamp`. -/
def emptyNumberPoint : NumberDataPoint :=
  { Attributes := [], Timestamp := testTimestamp, Value := .None }

/-- The double 0.9, that is 0x1CCCCCCCCCCCCD * 2^-53. -/
def float0_9 : Float64 := .finite false 0x1CCCCCCCCCCCCD (-53)

/-- The double 0.95, that is 0x1E666666666666 * 2^-53. -/
def float0_95 : Float64 := .finite false 0x1E666666666666 (-53)

/-- The double 10.1, that is 0x14333333333333 * 2^-49. -/
def float10_1 : Float64 := .finite false 0x14333333333333 (-49)

/-- The double 10.2, that is 0x14666666666666 * 2^-49. -/
def float10_2 : Float64 := .finite false 0x14666666666666 (-49)

/-- The double 10.5, that is 21 * 2^-1. -/
def float10_5 : Float64 := .finite false 21 (-1)

/-- The data point of `Test_Summary`: count 1, sum 10.1, attribute `dpLabel`, quantiles
0.9 (value 10.2) and 0.95 (value 10.5). -/
def testSummaryPoint : SummaryDataPoint :=
  { Attributes := [("dpLabel", .String "val1")], Timestamp := testTimestamp, Count := 1,
    Sum := float10_1,
    QuantileValues := [⟨float0_9, float10_2⟩, ⟨float0_95, float10_5⟩] }

/-- The double 5.87, that is 0x177AE147AE147B * 2^-50. -/
def float5_87 : Float64 := .finite false 0x177AE147AE147B (-50)

/-- The data point of `Test_Histogram`: count 4, bucket counts 1, 3, 0, bounds 5.87, 10. -/
def testHistogramPoint : HistogramDataPoint :=
  { Attributes := [], Timestamp := testTimestamp, Count := 4, Sum := .finite false 0 0,
    BucketCounts := [1, 3, 0], ExplicitBounds := [float5_87, .finite false 10 0] }

/-- The data point of `Test_Histogram` without its `SetBucketCounts` call: two bounds
and no bucket count. -/
def boundsOnlyHistogramPoint : HistogramDataPoint :=
  { Attributes := [], Timestamp := testTimestamp, Count := 4, Sum := .finite false 0 0,
    BucketCounts := [], ExplicitBounds := [float5_87, .finite false 10 0] }

end encode

/-! ## Reading records: order of names, state after serialization -/

namespace encode
open golang pdata objmodel

/-- Strict order of field names (Go `<` on strings). -/
def keyLT (a b : field) : Prop := a.key.data < b.key.data

instance : IsTotal field keyLE := ⟨fun a b => le_total a.key.data b.key.data⟩

instance : IsTrans field keyLE := ⟨fun _ _ _ hab hbc => le_trans hab hbc⟩

instance : IsAntisymm field keyLT := ⟨fun _ _ hab hba => absurd hba (lt_asymm hab)⟩

/-- The document as a call of `serializeDocument` leaves it: `Dedup` and `Sort` work in
place on the caller's document, so a second call on the same document starts from this. -/
def documentAfterSerialize (document : Document) : Document := document.Dedup.Sort

/-- The first document of `Test_Histogram`, as asserted there. -/
def testHistogramJSON : String :=
  "\x7b\"@timestamp\":\"2022-01-01T10:00:05.000000123Z\",\"bucket\":\"5.87\",\"bucketCount\":1,\"bucketId\":0,\"bucketText\":\"0 (5.87)\",\"count\":4,\"instrumentationLibrary\":\x7b\"name\":\"instlib\",\"version\":\"v1\"\x7d,\"name\":\"hist-metric\",\"sum\":0,\"type\":\"histogram\"\x7d"

end encode

namespace serialization
open golang pdata dimensions

/-- The results of serializing the data points of a list one after the other, the cache
being passed from one point to the next. -/
def pointResults {α σ : Type} (serializePoint : α → σ → (String × Option error) × σ) :
    List α → σ → List (String × Option error)
  | [], _ => []
  | dp :: rest, prev =>
    (serializePoint dp prev).1 :: pointResults serializePoint rest (serializePoint dp prev).2

/-- The per-point results behind a call of `SerializeMetric`, in input data-point order:
what `serializeGauge`, `serializeSum` or `serializeHistogram` returns for each data point
of the metric (none for a metric of another type). -/
def metricPointResults {σ : Type} (fns : PointSerializers σ)
    (AsString : AttributeValue → String) (pfx : String) (metric : Metric)
    (defaultDimensions staticDimensions : NormalizedDimensionList) (prev : σ) :
    List (String × Option error) :=
  match metric.Data with
  | .Gauge dps =>
    pointResults (fun dp prev =>
      (fns.serializeGauge metric.Name pfx
        (makeCombinedDimensions AsString dp.Attributes defaultDimensions staticDimensions)
        dp, prev)) dps prev
  | .Sum _ temporality dps =>
    pointResults (fun dp prev =>
      fns.serializeSum metric.Name pfx
        (makeCombinedDimensions AsString dp.Attributes defaultDimensions staticDimensions)
        temporality dp prev) dps prev
  | .Histogram temporality dps =>
    pointResults (fun dp prev =>
      (fns.serializeHistogram metric.Name pfx
        (makeCombinedDimensions AsString dp.Attributes defaultDimensions staticDimensions)
        temporality dp, prev)) dps prev
  | _ => []

end serialization

/-! ## The delta cache of the dynatrace sum serializer

`serializeSum` and the `ttlmap` cache it uses are not among the sources; what follows is
their model from the spec (§3 "Delta Cache Entry", §4.2, §4.4 "Sum"). -/

namespace serialization
open golang pdata dimensions

/-- Modelled from the spec: a delta cache entry, "(last cumulative value, last observation
instant, expiry instant)".  Cumulative values are integers here (an integer counter). -/
structure CacheEntry where
  lastValue : Int
  lastObserved : Nat
  expiry : Nat
deriving DecidableEq, Repr

/-- Modelled from the spec: the delta cache, a mapping from series identity to entry. -/
abbrev DeltaCache := List (String × CacheEntry)

/-- The entry stored under a series identity, if any. -/
def DeltaCache.get : DeltaCache → String → Option CacheEntry
  | [], _ => none
  | kv :: rest, seriesID => if kv.1 = seriesID then some kv.2 else DeltaCache.get rest seriesID

/-- Modelled from the spec: the live entry of a series at the instant `now`; an entry whose
expiry has elapsed counts as evicted ("eviction runs lazily"). -/
def DeltaCache.find (cache : DeltaCache) (seriesID : String) (now : Nat) : Option CacheEntry :=
  match cache.get seriesID with
  | some entry => if now < entry.expiry then some entry else none
  | none => none

/-- Store an entry under a series identity, replacing the one that is there. -/
def DeltaCache.put : DeltaCache → String → CacheEntry → DeltaCache
  | [], seriesID, entry => [(seriesID, entry)]
  | kv :: rest, seriesID, entry =>
    if kv.1 = seriesID then (seriesID, entry) :: rest
    else kv :: DeltaCache.put rest seriesID entry

/-- Modelled from the spec: `resolveDelta(seriesID, cumulativeValue, timestamp) →
(deltaValue, ok)` of §4.2, returned with the cache it leaves.  "`ok=false` on first
observation of a series ... or when the new cumulative value is smaller than the previous
one (counter reset) — in the reset case the cache treats the new value as the new
baseline"; "`ok=true` otherwise; returned delta = newCumulative − previousCumulative";
the entry's expiry is set to `now + TTL`. -/
def resolveDelta (ttl : Nat) (cache : DeltaCache) (seriesID : String) (cumulativeValue : Int)
    (timestamp : Nat) : (Int × Bool) × DeltaCache :=
  let refreshed := cache.put seriesID
    { lastValue := cumulativeValue, lastObserved := timestamp, expiry := timestamp + ttl }
  match cache.find seriesID timestamp with
  | none => ((0, false), refreshed)
  | some entry =>
    if cumulativeValue < entry.lastValue then ((0, false), refreshed)
    else ((cumulativeValue - entry.lastValue, true), refreshed)

/-- Modelled from the spec: the series identity, "metric name + sorted, stringified
dimension set (order-independent, case-sensitive)". -/
def seriesIdentity (name : String) (dims : NormalizedDimensionList) : String :=
  (dims.dimensions.insertionSort (fun a b => a.Key.data ≤ b.Key.data)).foldl
    (fun id d => id ++ "," ++ d.Key ++ "=" ++ d.Value) name

/-- Modelled from the spec: one line of the line protocol, "key=value line-protocol
tokens": the metric key, the dimensions, and the payload. -/
def metricLine (name pfx : String) (dims : NormalizedDimensionList) (payload : String) :
    String :=
  (if pfx = "" then name else pfx ++ "." ++ name) ++
    dims.dimensions.foldl (fun s d => s ++ "," ++ d.Key ++ "=" ++ d.Value) "" ++ " " ++ payload

/-- Modelled from the spec: `serializeSum` (§4.4 "Sum") for integer-valued points.  With
cumulative temporality the delta cache is consulted with the series identity of the point
and a line is emitted "only when a valid delta is available"; otherwise the point's own
value is emitted.  A point that holds no integer is reported as an error: the delta of
doubles is floating-point arithmetic and is left out of the model. -/
def serializeSum (ttl : Nat) (name pfx : String) (dims : NormalizedDimensionList)
    (temporality : AggregationTemporality) (dp : NumberDataPoint) (prev : DeltaCache) :
    (String × Option error) × DeltaCache :=
  match dp.Value with
  | .Int v =>
    match temporality with
    | .Cumulative =>
      match resolveDelta ttl prev (seriesIdentity name dims) v dp.Timestamp with
      | ((delta, true), prev) =>
        ((metricLine name pfx dims ("count,delta=" ++ toString delta), none), prev)
      | ((_, false), prev) => (("", none), prev)
    | _ => ((metricLine name pfx dims ("count,delta=" ++ toString v), none), prev)
  | _ => (("", some "unsupported value type"), prev)

/-- Per-point serializers whose `serializeSum` is the model above; the gauge and
histogram serializers are the ones given. -/
def deltaPointSerializers (ttl : Nat) (fns : PointSerializers Unit) :
    PointSerializers DeltaCache where
  serializeGauge := fns.serializeGauge
  serializeSum := serializeSum ttl
  serializeHistogram := fns.serializeHistogram

/-- A cumulative monotonic sum metric with one integer data point. -/
def cumulativeSumMetric (name : String) (attributes : AttributeMap) (timestamp : Nat)
    (value : Int) : Metric :=
  { Name := name, Unit := "",
    Data := .Sum true .Cumulative
      [{ Attributes := attributes, Timestamp := timestamp, Value := .Int value }] }

end serialization

/-! ## headerprocessor: configuration (`processor/headerprocessor/config.go`) -/

namespace headerprocessor
open golang

/-- `HeaderConfig` configures extraction for a single header. -/
structure HeaderConfig where
  Name : String := ""
  Attribute : String := ""
  Prefix : String := ""
deriving DecidableEq, Repr

/-- `Config` defines the configuration for the header processor. -/
structure Config where
  Headers : List HeaderConfig := []
  GlobalPrefix : String := ""
  Separator : String := ""
  IncludeAll : Bool := false
  ExcludePatterns : List String := []
deriving DecidableEq, Repr

/-- The loop of `Config.Validate` over the header entries. -/
def validateHeaders : List HeaderConfig → Option error
  | [] => none
  | hc :: rest =>
    if hc.Name = "" then some "header entry missing required field \"name\""
    else validateHeaders rest

/-- `Config.Validate` validates the configuration. -/
def Config.Validate (c : Config) : Option error :=
  if !c.IncludeAll && c.Headers.length = 0 then
    some "missing required field \"headers\" or set include_all: true"
  else validateHeaders c.Headers

end headerprocessor

/-! ## baggageprocessor: configuration (`processor/baggageprocessor/config.go`) -/

namespace baggageprocessor
open golang

/-- `ActionType` defines the type of action to perform on baggage entries. -/
abbrev ActionType := String

/-- `Extract` extracts baggage entries from the context and adds them as attributes. -/
def Extract : ActionType := "extract"

/-- `Inject` injects attributes as baggage entries into the context. -/
def Inject : ActionType := "inject"

/-- `Update` updates existing baggage entries with new values. -/
def Update : ActionType := "update"

/-- `Upsert` inserts or updates baggage entries. -/
def Upsert : ActionType := "upsert"

/-- `Delete` removes baggage entries from the context. -/
def Delete : ActionType := "delete"

/-- `Action` defines a single baggage processing action. -/
structure Action where
  Key : String := ""
  Action : ActionType := ""
  Value : String := ""
  FromAttribute : String := ""
  FromContext : Bool := false
  ToAttribute : String := ""
  Properties : List (String × String) := []
deriving DecidableEq, Repr

/-- `Config` defines the configuration for the baggage processor. -/
structure Config where
  Actions : List Action := []
  AttributePrefix : String := ""
  MaxBaggageSize : Int := 0
  DropInvalidBaggage : Bool := false
deriving DecidableEq, Repr

/-- `Action.validate` checks if an action configuration is valid. -/
def Action.validate (a : baggageprocessor.Action) : Option error :=
  if a.Key = "" then some "key must be specified"
  else if a.Action = Extract then
    if !a.FromContext then some "from_context must be true for extract action" else none
  else if a.Action = Inject then
    if a.Value = "" ∧ a.FromAttribute = "" then
      some "either value or from_attribute must be specified for inject action"
    else if a.Value ≠ "" ∧ a.FromAttribute ≠ "" then
      some "only one of value or from_attribute can be specified for inject action"
    else none
  else if a.Action = Update ∨ a.Action = Upsert then
    if a.Value = "" ∧ a.FromAttribute = "" then
      some "either value or from_attribute must be specified for update/upsert action"
    else if a.Value ≠ "" ∧ a.FromAttribute ≠ "" then
      some "only one of value or from_attribute can be specified for update/upsert action"
    else none
  else if a.Action = Delete then none
  else some ("unknown action type: " ++ a.Action)

/-- The loop of `Config.Validate` over the actions; `i` is the index of the first one. -/
def validateActions : List Action → Nat → Option error
  | [], _ => none
  | action :: rest, i =>
    match action.validate with
    | some err => some ("action " ++ itoa i ++ ": " ++ err)
    | none => validateActions rest (i + 1)

/-- `Config.Validate` checks if the processor configuration is valid. -/
def Config.Validate (cfg : Config) : Option error :=
  if cfg.Actions.length = 0 then some "at least one action must be specified"
  else
    match validateActions cfg.Actions 0 with
    | some err => some err
    | none =>
      if cfg.MaxBaggageSize < 0 then some "max_baggage_size must be non-negative" else none

/-- What makes an action valid, in the words of the documentation of the action types:
a key, and either an extract from the context, or an inject, update or upsert with
exactly one of `Value` and `FromAttribute`, or a delete. -/
def ActionValid (a : Action) : Prop :=
  a.Key ≠ "" ∧
  ((a.Action = Extract ∧ a.FromContext = true) ∨
   ((a.Action = Inject ∨ a.Action = Update ∨ a.Action = Upsert) ∧
     ((a.Value ≠ "" ∧ a.FromAttribute = "") ∨ (a.Value = "" ∧ a.FromAttribute ≠ ""))) ∨
   a.Action = Delete)

end baggageprocessor

/-! ## Go maps and the `strings` functions used by the header enricher -/

namespace golang

/-- `unicode.IsSpace`: the Unicode White_Space code points. -/
def isSpace (c : Char) : Bool :=
  let n := c.toNat
  (9 ≤ n && n ≤ 13) || n = 32 || n = 133 || n = 160 || n = 5760 ||
  (8192 ≤ n && n ≤ 8202) || n = 8232 || n = 8233 || n = 8239 || n = 8287 || n = 12288

/-- `strings.TrimSpace`: the string without its leading and trailing white space. -/
def TrimSpace (s : String) : String :=
  String.mk ((s.data.dropWhile isSpace).rdropWhile isSpace)

/-- `strings.Join`: the elements in order, with `sep` between two consecutive ones. -/
def Join : List String → String → String
  | [], _ => ""
  | [v], _ => v
  | v :: w :: rest, sep => v ++ sep ++ Join (w :: rest) sep

/-- A Go `map[string]V` as an association list without repeated keys; the nil map and the
empty map are both `[]`. -/
abbrev GoMap (V : Type) := List (String × V)

/-- The assignment `m[k] = v`: replaces the value of `k`, or adds the key. -/
def MapSet {V : Type} : GoMap V → String → V → GoMap V
  | [], k, v => [(k, v)]
  | (k', v') :: rest, k, v =>
    if k' = k then (k, v) :: rest else (k', v') :: MapSet rest k v

/-- The lookup `v, ok := m[k]`. -/
def MapGet {V : Type} : GoMap V → String → Option V
  | [], _ => none
  | (k', v') :: rest, k => if k' = k then some v' else MapGet rest k

/-- A stand-in for `strings.ToLower` that is exact on ASCII strings. -/
def toLowerASCII (s : String) : String := String.mk (s.data.map Char.toLower)

end golang

/-! ## The client metadata and regular expressions (external libraries) -/

namespace client

/-- `client.Metadata`: the request headers of a client, read through `Keys` and `Get`. -/
structure Metadata where
  Keys : List String := []
  Get : String → List String := fun _ => []

/-- `client.Info`: what the context knows about the client. -/
structure Info where
  Metadata : Metadata := {}

/-- A `context.Context`, reduced to the client information it carries. -/
abbrev Context := Info

/-- `client.FromContext` returns the client information of the context. -/
def FromContext (ctx : Context) : Info := ctx

end client

namespace regexp

/-- A compiled regular expression, reduced to `MatchString`. -/
structure Regexp where
  MatchString : String → Bool

end regexp

/-! ## headerprocessor: the enricher (`processor/headerprocessor/enricher.go`) -/

namespace headerprocessor
open golang

/-- The `headerEnricher` of the source. -/
structure headerEnricher where
  cfg : Config
  sep : String
  excludeMatchers : List regexp.Regexp

/-- The loop of `newHeaderEnricher` that compiles the patterns in order and stops at the
first one that does not compile. -/
def compilePatterns (Compile : String → Except error regexp.Regexp) :
    List String → Except error (List regexp.Regexp)
  | [] => .ok []
  | p :: rest =>
    match Compile p with
    | .error err => .error err
    | .ok r =>
      match compilePatterns Compile rest with
      | .error err => .error err
      | .ok matchers => .ok (r :: matchers)

/-- `newHeaderEnricher`, with `regexp.Compile` as a parameter. -/
def newHeaderEnricher (Compile : String → Except error regexp.Regexp) (cfg : Config) :
    Except error headerEnricher :=
  let sep := if cfg.Separator = "" then ";" else cfg.Separator
  let patterns :=
    if cfg.IncludeAll && cfg.ExcludePatterns.length = 0 then
      ["^authorization$", "^cookie$"]
    else cfg.ExcludePatterns
  match compilePatterns Compile patterns with
  | .error err => .error err
  | .ok matchers => .ok { cfg := cfg, sep := sep, excludeMatchers := matchers }

/-- `excluded` reports whether one of the exclude matchers matches the header name. -/
def headerEnricher.excluded (he : headerEnricher) (lowerHeader : String) : Bool :=
  he.excludeMatchers.any (fun r => r.MatchString lowerHeader)

/-- `buildAttrKey` puts the trimmed per-header prefix, or else the trimmed global prefix,
in front of the name. -/
def headerEnricher.buildAttrKey (he : headerEnricher) (perHeaderPrefix name : String) :
    String :=
  let pfx := TrimSpace perHeaderPrefix
  let pfx := if pfx = "" then TrimSpace he.cfg.GlobalPrefix else pfx
  pfx ++ name

/-- `firstNonEmpty` returns the first of the strings that is not empty. -/
def firstNonEmpty : List String → String
  | [] => ""
  | v :: rest => if v ≠ "" then v else firstNonEmpty rest

/-- The body of the loop over all metadata keys: the attribute it writes for the key `k`,
or `none` when it continues with the next key. -/
def headerEnricher.includeAllEntry (ToLower : String → String) (he : headerEnricher)
    (md : client.Metadata) (k : String) : Option (String × String) :=
  if he.excluded (ToLower k) then none
  else
    let values := md.Get k
    if values.length = 0 then none
    else some (he.buildAttrKey "" k, Join values he.sep)

/-- The map from lower-cased header name to the actual key in the metadata. -/
def lowerToActual (ToLower : String → String) (md : client.Metadata) : GoMap String :=
  md.Keys.foldl (fun m k => MapSet m (ToLower k) k) []

/-- The body of the loop over the configured headers: the attribute it writes for the
rule `hc`, or `none` when it continues with the next rule. -/
def headerEnricher.headerEntry (ToLower : String → String) (he : headerEnricher)
    (md : client.Metadata) (hc : HeaderConfig) : Option (String × String) :=
  match MapGet (lowerToActual ToLower md) (ToLower hc.Name) with
  | none => none
  | some actual =>
    let values := md.Get actual
    if values.length = 0 then none
    else some (he.buildAttrKey hc.Prefix (firstNonEmpty [hc.Attribute, hc.Name]),
               Join values he.sep)

/-- One round of either loop: the assignment `attrs[key] = value`, or nothing. -/
def assign (attrs : GoMap String) : Option (String × String) → GoMap String
  | none => attrs
  | some (key, value) => MapSet attrs key value

/-- `attributesFromContext` extracts headers from the client metadata of the context and
returns the map of attribute name to value; `strings.ToLower` is a parameter. -/
def headerEnricher.attributesFromContext (ToLower : String → String) (he : headerEnricher)
    (ctx : client.Context) : GoMap String :=
  let info := client.FromContext ctx
  let md := info.Metadata
  if he.cfg.IncludeAll then
    md.Keys.foldl (fun attrs k => assign attrs (he.includeAllEntry ToLower md k)) []
  else
    he.cfg.Headers.foldl (fun attrs hc => assign attrs (he.headerEntry ToLower md hc)) []

/-- The attribute key of a header rule in specific-header mode. -/
def headerEnricher.ruleKey (he : headerEnricher) (hc : HeaderConfig) : String :=
  he.buildAttrKey hc.Prefix (firstNonEmpty [hc.Attribute, hc.Name])

/-- A stand-in for `regexp.Compile` that knows the anchored literals `^name$` only. -/
def compileAnchored (p : String) : Except error regexp.Regexp :=
  match p.data with
  | '^' :: rest =>
    match rest.reverse with
    | '$' :: body => .ok { MatchString := fun s => s.data = body.reverse }
    | _ => .error "unsupported pattern"
  | _ => .error "unsupported pattern"

/-- The metadata `client.NewMetadata` builds from a map: lower-cased keys, and a lookup
that lower-cases the name asked for. -/
def newTestMetadata (headers : List (String × List String)) : client.Metadata where
  Keys := headers.map (fun kv => toLowerASCII kv.1)
  Get := fun key =>
    match headers.find? (fun kv => toLowerASCII kv.1 = toLowerASCII key) with
    | some kv => kv.2
    | none => []

/-- The configuration of `TestEnricherSpecificHeaders`. -/
def testSpecificConfig : Config :=
  { Headers := [{ Name := "User-Agent", Attribute := "http.user_agent" },
                { Name := "x-correlation-id", Prefix := "req." }],
    GlobalPrefix := "", Separator := ";" }

/-- The enricher `newHeaderEnricher` returns for `testSpecificConfig`. -/
def testSpecificEnricher : headerEnricher :=
  { cfg := testSpecificConfig, sep := ";", excludeMatchers := [] }

/-- The client metadata of `TestEnricherSpecificHeaders`. -/
def testSpecificMetadata : client.Metadata :=
  newTestMetadata [("user-agent", ["UA-1"]), ("X-Correlation-Id", ["abc", "def"]),
                   ("ignore", ["nope"])]

end headerprocessor

/-! ## headerprocessor: stand-ins and inputs of the include-all tests -/

namespace headerprocessor
open golang

/-- Whether the characters `l` occur consecutively somewhere in the list. -/
def hasInfix (l : List Char) : List Char → Bool
  | [] => l.isPrefixOf []
  | c :: rest => l.isPrefixOf (c :: rest) || hasInfix l rest

/-- The characters with a special meaning in a regular expression. -/
def isMetaChar (c : Char) : Bool :=
  [36, 40, 41, 42, 43, 46, 63, 91, 92, 93, 94, 123, 124, 125].contains c.toNat

/-- A stand-in for `regexp.Compile` on the patterns `^?literal(.*)?$?`: an optional start
anchor, characters without special meaning, an optional `.*` and an optional end anchor. -/
def compileSimple (p : String) : Except error regexp.Regexp :=
  let startAnchored := p.data.head? = some '^'
  let body := if startAnchored then p.data.drop 1 else p.data
  let endAnchored := body.getLast? = some '$'
  let body := if endAnchored then body.dropLast else body
  let wildcard := ['.', '*'].isSuffixOf body
  let literal := if wildcard then body.take (body.length - 2) else body
  if literal.any isMetaChar then .error "unsupported pattern"
  else
    .ok { MatchString := fun s =>
      if startAnchored then
        if wildcard || !endAnchored then literal.isPrefixOf s.data else s.data = literal
      else
        if wildcard || !endAnchored then hasInfix literal s.data
        else literal.isSuffixOf s.data }

/-- The configuration of `TestEnricherIncludeAllWithExclude`. -/
def testIncludeAllConfig : Config :=
  { IncludeAll := true, GlobalPrefix := "http.header.", Separator := ";",
    ExcludePatterns := ["^authorization$", "^x-forwarded-.*$"] }

/-- The client metadata of `TestEnricherIncludeAllWithExclude`. -/
def testIncludeAllMetadata : client.Metadata :=
  newTestMetadata [("Authorization", ["secret"]), ("User-Agent", ["UA-1"]),
                   ("x-forwarded-for", ["10.0.0.1"])]

/-- The attributes extracted by the enricher built for a configuration, when the
patterns compile under `compileSimple`. -/
def extractSimple (cfg : Config) (ctx : client.Context) : Option (GoMap String) :=
  match newHeaderEnricher compileSimple cfg with
  | .ok he => some (he.attributesFromContext toLowerASCII ctx)
  | .error _ => none

end headerprocessor

namespace headerprocessor
open golang

/-- The enricher the tests build for a configuration, with `compileSimple`; the tests
stop when `newHeaderEnricher` fails. -/
def enricherOf (cfg : Config) : headerEnricher :=
  match newHeaderEnricher compileSimple cfg with
  | .ok he => he
  | .error _ => { cfg := cfg, sep := ";", excludeMatchers := [] }

/-- The patterns `newHeaderEnricher` compiles for a configuration. -/
def excludePatternsOf (cfg : Config) : List String :=
  if cfg.IncludeAll && cfg.ExcludePatterns.length = 0 then
    ["^authorization$", "^cookie$"]
  else cfg.ExcludePatterns

/-- Client metadata with the two sensitive headers and a harmless one. -/
def testSensitiveMetadata : client.Metadata :=
  newTestMetadata [("Authorization", ["secret"]), ("Cookie", ["sid=1"]),
                   ("User-Agent", ["UA-1"])]

end headerprocessor

/-! ## diskscraper: device filtering (`diskscraper/disk_scraper_others.go`) -/

namespace golang

/-- The statement `delete(m, k)`. -/
def MapDelete {V : Type} (m : GoMap V) (k : String) : GoMap V :=
  m.filter (fun kv => decide (kv.1 ≠ k))

end golang

namespace filterset

/-- `filterset.FilterSet` (library), reduced to `Matches`. -/
structure FilterSet where
  Matches : String → Bool

end filterset

namespace disk

/-- `disk.IOCountersStat` (library `gopsutil`): the counters the scraper reads. -/
structure IOCountersStat where
  ReadCount : Nat := 0
  WriteCount : Nat := 0
  ReadBytes : Nat := 0
  WriteBytes : Nat := 0
  ReadTime : Nat := 0
  WriteTime : Nat := 0
  IopsInProgress : Nat := 0
  IoTime : Nat := 0
deriving DecidableEq, Repr

end disk

namespace diskscraper
open golang

/-- The `scraper` of the source: the two optional filter sets (nil is `none`), the mocked
`ioCounters` call, and the metrics the builder emits for the counters recorded by the six
`record...` calls (`mb.Emit`, of the generated package `metadata`). -/
structure scraper (Metric : Type) where
  includeFS : Option filterset.FilterSet := none
  excludeFS : Option filterset.FilterSet := none
  ioCounters : Except error (GoMap disk.IOCountersStat)
  emit : GoMap disk.IOCountersStat → List Metric

/-- `includeDevice`. -/
def scraper.includeDevice {Metric : Type} (s : scraper Metric) (deviceName : String) : Bool :=
  (match s.includeFS with
    | none => true
    | some fs => fs.Matches deviceName) &&
  (match s.excludeFS with
    | none => true
    | some fs => !fs.Matches deviceName)

/-- `filterByDevice`: deletes from the map every device that `includeDevice` rejects. -/
def scraper.filterByDevice {Metric : Type} (s : scraper Metric)
    (ioCounters : GoMap disk.IOCountersStat) : GoMap disk.IOCountersStat :=
  if s.includeFS.isNone && s.excludeFS.isNone then ioCounters
  else
    ioCounters.foldl
      (fun m kv => if !s.includeDevice kv.1 then MapDelete m kv.1 else m) ioCounters

/-- `scrape`: the metrics of the single metric slice of the result, and the error. -/
def scraper.scrape {Metric : Type} (s : scraper Metric) : List Metric × Option error :=
  match s.ioCounters with
  | .error err => ([], some err)
  | .ok ioCounters =>
    let ioCounters := s.filterByDevice ioCounters
    if ioCounters.length > 0 then (s.emit ioCounters, none) else ([], none)

/-- A strict filter set: matches the listed names only. -/
def strictFilterSet (names : List String) : filterset.FilterSet :=
  { Matches := fun d => names.contains d }

/-- Counters of three devices. -/
def testCounters : GoMap disk.IOCountersStat :=
  [("sda", { ReadCount := 1, ReadBytes := 10 }), ("sdb", { WriteCount := 2 }),
   ("loop0", { IoTime := 3 })]

end diskscraper

/-! ## Reading the histogram labels -/

namespace golang

/-- The `width` low-order decimal digits of `n`, most significant first. -/
def fixedDigits : Nat → Nat → List Char
  | 0, _ => []
  | width + 1, n => fixedDigits width (n / 10) ++ [Nat.digitChar (n % 10)]

end golang

namespace encode
open golang pdata objmodel

/-- The `bucketText` label that `Histogram` gives the bucket `bucketID` of a data point:
the ordinal padded to the number of digits of the number of buckets, and the bound. -/
def bucketText (dp : HistogramDataPoint) (bucketID : Nat) : String :=
  padZero (itoa dp.BucketCounts.length).length bucketID ++ " (" ++
    (match dp.ExplicitBounds[bucketID]? with
     | some bound => formatBucket bound
     | none => lastBucket) ++ ")"

/-- A histogram data point with twelve buckets, so that the ordinals have two digits. -/
def twelveBucketPoint : HistogramDataPoint :=
  { Attributes := [], Timestamp := testTimestamp, Count := 12, Sum := .finite false 0 0,
    BucketCounts := [1, 1, 1, 1, 1, 1, 1, 1, 1, 1, 1, 1],
    ExplicitBounds := [float5_87, float10_5] }

end encode

/-! ## pcommon, ptrace, plog, pmetric: the telemetry model (library
`go.opentelemetry.io/collector/pdata`) -/

namespace pcommon
open golang

/-- `pcommon.Value`: an attribute value. -/
abbrev Value := pdata.AttributeValue

/-- `Value.Str`: the string of a string value, and the empty string otherwise. -/
def Value.Str : Value → String
  | .String s => s
  | _ => ""

/-- `pcommon.Map`: the attributes of a record, without repeated keys. -/
abbrev Map := GoMap Value

/-- `pcommon.NewMap`. -/
def NewMap : Map := []

/-- `Map.PutStr`: inserts the string value, or updates the value of the key. -/
def Map.PutStr (m : Map) (k v : String) : Map := MapSet m k (.String v)

/-- `Map.Get`: the value of the key, if the map has it. -/
def Map.Get (m : Map) (k : String) : Option Value := MapGet m k

/-- `pcommon.Resource`. -/
structure Resource where
  Attributes : Map := []

/-- `pcommon.InstrumentationScope`. -/
structure InstrumentationScope where
  Name : String := ""
  Version : String := ""

end pcommon

namespace ptrace

/-- `ptrace.Span`. -/
structure Span where
  Name : String := ""
  StartTimestamp : Nat := 0
  EndTimestamp : Nat := 0
  Attributes : pcommon.Map := []

/-- `ptrace.ScopeSpans`. -/
structure ScopeSpans where
  Scope : pcommon.InstrumentationScope := {}
  Spans : List Span := []

/-- `ptrace.ResourceSpans`. -/
structure ResourceSpans where
  Resource : pcommon.Resource := {}
  ScopeSpans : List ScopeSpans := []

/-- `ptrace.Traces`. -/
structure Traces where
  ResourceSpans : List ResourceSpans := []

/-- The spans of the traces, in order. -/
def Traces.allSpans (td : Traces) : List Span :=
  td.ResourceSpans.flatMap (fun rs => rs.ScopeSpans.flatMap (fun ils => ils.Spans))

end ptrace

namespace plog

/-- `plog.LogRecord`. -/
structure LogRecord where
  Timestamp : Nat := 0
  SeverityText : String := ""
  Body : pcommon.Value := .Empty
  Attributes : pcommon.Map := []

/-- `plog.ScopeLogs`. -/
structure ScopeLogs where
  Scope : pcommon.InstrumentationScope := {}
  LogRecords : List LogRecord := []

/-- `plog.ResourceLogs`. -/
structure ResourceLogs where
  Resource : pcommon.Resource := {}
  ScopeLogs : List ScopeLogs := []

/-- `plog.Logs`. -/
structure Logs where
  ResourceLogs : List ResourceLogs := []

/-- The log records of the logs, in order. -/
def Logs.allRecords (ld : Logs) : List LogRecord :=
  ld.ResourceLogs.flatMap (fun rls => rls.ScopeLogs.flatMap (fun sls => sls.LogRecords))

end plog

namespace pmetric
open golang

/-- `pmetric.NumberDataPoint`. -/
structure NumberDataPoint where
  Attributes : pcommon.Map := []
  Timestamp : Nat := 0
  Value : pdata.NumberValue := .None

/-- `pmetric.HistogramDataPoint`. -/
structure HistogramDataPoint where
  Attributes : pcommon.Map := []
  Timestamp : Nat := 0
  Count : Nat := 0
  BucketCounts : List Nat := []
  ExplicitBounds : List Float64 := []

/-- `pmetric.ExponentialHistogramDataPoint`. -/
structure ExponentialHistogramDataPoint where
  Attributes : pcommon.Map := []
  Timestamp : Nat := 0
  Count : Nat := 0
  Scale : Int := 0
  ZeroCount : Nat := 0

/-- `pmetric.SummaryDataPoint`. -/
structure SummaryDataPoint where
  Attributes : pcommon.Map := []
  Timestamp : Nat := 0
  Count : Nat := 0
  Sum : Float64 := .finite false 0 0

/-- The data of a metric, by `pmetric.MetricType`. -/
inductive MetricData where
  | Empty
  | Gauge (dps : List NumberDataPoint)
  | Sum (dps : List NumberDataPoint)
  | Histogram (dps : List HistogramDataPoint)
  | ExponentialHistogram (dps : List ExponentialHistogramDataPoint)
  | Summary (dps : List SummaryDataPoint)

/-- `pmetric.Metric`. -/
structure Metric where
  Name : String := ""
  Description : String := ""
  Unit : String := ""
  Data : MetricData := .Empty

/-- `pmetric.ScopeMetrics`. -/
structure ScopeMetrics where
  Scope : pcommon.InstrumentationScope := {}
  Metrics : List Metric := []

/-- `pmetric.ResourceMetrics`. -/
structure ResourceMetrics where
  Resource : pcommon.Resource := {}
  ScopeMetrics : List ScopeMetrics := []

/-- `pmetric.Metrics`. -/
structure Metrics where
  ResourceMetrics : List ResourceMetrics := []

/-- The metrics of the metrics data, in order. -/
def Metrics.allMetrics (md : Metrics) : List Metric :=
  md.ResourceMetrics.flatMap (fun rs => rs.ScopeMetrics.flatMap (fun ils => ils.Metrics))

/-- The attribute maps of the data points of a metric, in order. -/
def Metric.pointAttributes (m : Metric) : List pcommon.Map :=
  match m.Data with
  | .Empty => []
  | .Gauge dps => dps.map (fun dp => dp.Attributes)
  | .Sum dps => dps.map (fun dp => dp.Attributes)
  | .Histogram dps => dps.map (fun dp => dp.Attributes)
  | .ExponentialHistogram dps => dps.map (fun dp => dp.Attributes)
  | .Summary dps => dps.map (fun dp => dp.Attributes)

end pmetric

/-! ## headerprocessor: the three processors
(`traces_processor.go`, `logs_processor.go`, `metrics_processor.go`) -/

namespace headerprocessor
open golang

/-- The loop over `kvs` that calls `attrs.PutStr(k, v)` for every entry. -/
def putAll (attrs : pcommon.Map) (kvs : GoMap String) : pcommon.Map :=
  kvs.foldl (fun attrs kv => attrs.PutStr kv.1 kv.2) attrs

/-- The `tracesProcessor` of the source. -/
structure tracesProcessor where
  enricher : headerEnricher

/-- The `logsProcessor` of the source. -/
structure logsProcessor where
  enricher : headerEnricher

/-- The `metricsProcessor` of the source. -/
structure metricsProcessor where
  enricher : headerEnricher

/-- `processTraces`: puts the extracted attributes on every span. -/
def tracesProcessor.processTraces (ToLower : String → String) (p : tracesProcessor)
    (ctx : client.Context) (td : ptrace.Traces) : ptrace.Traces × Option error :=
  let kvs := p.enricher.attributesFromContext ToLower ctx
  if kvs.length = 0 then (td, none)
  else
    ({ ResourceSpans := td.ResourceSpans.map (fun rs =>
        { rs with ScopeSpans := rs.ScopeSpans.map (fun ils =>
          { ils with Spans := ils.Spans.map (fun span =>
            { span with Attributes := putAll span.Attributes kvs }) }) }) }, none)

/-- `processLogs`: puts the extracted attributes on every log record. -/
def logsProcessor.processLogs (ToLower : String → String) (p : logsProcessor)
    (ctx : client.Context) (ld : plog.Logs) : plog.Logs × Option error :=
  let kvs := p.enricher.attributesFromContext ToLower ctx
  if kvs.length = 0 then (ld, none)
  else
    ({ ResourceLogs := ld.ResourceLogs.map (fun rls =>
        { rls with ScopeLogs := rls.ScopeLogs.map (fun sls =>
          { sls with LogRecords := sls.LogRecords.map (fun record =>
            { record with Attributes := putAll record.Attributes kvs }) }) }) }, none)

/-- `applyToMetric`: puts the attributes on every data point of the metric. -/
def metricsProcessor.applyToMetric (m : pmetric.Metric) (kvs : GoMap String) : pmetric.Metric :=
  match m.Data with
  | .Gauge dps =>
    { m with Data := .Gauge (dps.map (fun dp =>
        { dp with Attributes := putAll dp.Attributes kvs })) }
  | .Sum dps =>
    { m with Data := .Sum (dps.map (fun dp =>
        { dp with Attributes := putAll dp.Attributes kvs })) }
  | .Histogram dps =>
    { m with Data := .Histogram (dps.map (fun dp =>
        { dp with Attributes := putAll dp.Attributes kvs })) }
  | .ExponentialHistogram dps =>
    { m with Data := .ExponentialHistogram (dps.map (fun dp =>
        { dp with Attributes := putAll dp.Attributes kvs })) }
  | .Summary dps =>
    { m with Data := .Summary (dps.map (fun dp =>
        { dp with Attributes := putAll dp.Attributes kvs })) }
  | .Empty => m

/-- `processMetrics`: applies `applyToMetric` to every metric. -/
def metricsProcessor.processMetrics (ToLower : String → String) (p : metricsProcessor)
    (ctx : client.Context) (md : pmetric.Metrics) : pmetric.Metrics × Option error :=
  let kvs := p.enricher.attributesFromContext ToLower ctx
  if kvs.length = 0 then (md, none)
  else
    ({ ResourceMetrics := md.ResourceMetrics.map (fun rs =>
        { rs with ScopeMetrics := rs.ScopeMetrics.map (fun ils =>
          { ils with Metrics := ils.Metrics.map (fun m =>
            metricsProcessor.applyToMetric m kvs) }) }) }, none)

/-- The configuration of the processor tests: one rule, `X-Test` to `test_attr`. -/
def testProcessorConfig : Config :=
  { Headers := [{ Name := "X-Test", Attribute := "test_attr" }] }

/-- The context of the processor tests with headers. -/
def testProcessorContext : client.Context :=
  { Metadata := newTestMetadata [("X-Test", ["val1"])] }

/-- The logs of `TestLogsProcessor`: one record with the body `test-log`. -/
def testLogs : plog.Logs :=
  { ResourceLogs := [{ ScopeLogs := [{ LogRecords := [{ Body := .String "test-log" }] }] }] }

/-- The traces of `TestTracesProcessor`: one span. -/
def testTraces : ptrace.Traces :=
  { ResourceSpans := [{ ScopeSpans := [{ Spans := [{ Name := "test-span" }] }] }] }

/-- The metrics of `TestMetricsProcessor`: one metric of each type with one data point,
and a metric of empty type. -/
def testMetrics : pmetric.Metrics :=
  { ResourceMetrics := [{ ScopeMetrics := [{ Metrics :=
      [{ Name := "gauge", Data := .Gauge [{}] },
       { Name := "sum", Data := .Sum [{}] },
       { Name := "histogram", Data := .Histogram [{}] },
       { Name := "exp_histogram", Data := .ExponentialHistogram [{}] },
       { Name := "summary", Data := .Summary [{}] },
       { Name := "empty" }] }] }] }

end headerprocessor

/-! ## baggage: the W3C baggage library (`go.opentelemetry.io/otel/baggage`) -/

namespace baggage
open golang

/-- The operations of the baggage library that the processor calls, over the library's
types of baggage `B`, of members `M` and of properties `P`.  `Member` returns a member
with an empty key when the baggage has none for the key. -/
structure Library (B M P : Type) where
  NewKeyValueProperty : String → String → Except error P
  PropertyString : P → String
  NewMember : String → String → List P → Except error M
  MemberKey : M → String
  MemberValue : M → String
  MemberProperties : M → List P
  Member : B → String → M
  SetMember : B → M → Except error B
  DeleteMember : B → String → B
  BaggageString : B → String

/-- A property of the reference library. -/
structure RefProperty where
  key : String
  value : String
deriving DecidableEq, Repr

/-- A member of the reference library. -/
structure RefMember where
  key : String := ""
  value : String := ""
  properties : List RefProperty := []
deriving DecidableEq, Repr

/-- A baggage of the reference library: its members, with distinct keys. -/
abbrev RefBaggage := List RefMember

/-- The characters of a key: visible ASCII characters that are not delimiters. -/
def isKeyChar (c : Char) : Bool :=
  33 ≤ c.toNat && c.toNat ≤ 126 &&
  !([34, 40, 41, 44, 47, 58, 59, 60, 61, 62, 63, 64, 91, 92, 93, 123, 125].contains c.toNat)

/-- The characters of a value: visible ASCII characters but the double quote, the comma,
the semicolon and the backslash. -/
def isValueChar (c : Char) : Bool :=
  33 ≤ c.toNat && c.toNat ≤ 126 && !([34, 44, 59, 92].contains c.toNat)

/-- A valid key is a non-empty string of key characters. -/
def validKey (s : String) : Bool := s != "" && s.data.all isKeyChar

/-- A valid value is a string of value characters. -/
def validValue (s : String) : Bool := s.data.all isValueChar

/-- How the reference library renders a member: `key=value`, then the properties. -/
def RefMember.render (m : RefMember) : String :=
  Join ((m.key ++ "=" ++ m.value) :: m.properties.map (fun p => p.key ++ "=" ++ p.value)) ";"

/-- `SetMember` of the reference library: replaces the member of the same key, or adds. -/
def RefBaggage.set : RefBaggage → RefMember → RefBaggage
  | [], m => [m]
  | m0 :: rest, m => if m0.key = m.key then m :: rest else m0 :: RefBaggage.set rest m

/-- A reference implementation of the library, used to evaluate the processor. -/
def reference : Library RefBaggage RefMember RefProperty where
  NewKeyValueProperty := fun k v =>
    if validKey k && validValue v then .ok { key := k, value := v }
    else .error "invalid property"
  PropertyString := fun p => p.key ++ "=" ++ p.value
  NewMember := fun k v props =>
    if validKey k && validValue v then .ok { key := k, value := v, properties := props }
    else .error "invalid member"
  MemberKey := fun m => m.key
  MemberValue := fun m => m.value
  MemberProperties := fun m => m.properties
  Member := fun b key =>
    match b.find? (fun m => m.key = key) with
    | some m => m
    | none => {}
  SetMember := fun b m => if m.key = "" then .error "invalid member" else .ok (b.set m)
  DeleteMember := fun b key => b.filter (fun m => m.key ≠ key)
  BaggageString := fun b => Join (b.map RefMember.render) ","

end baggage

/-! ## baggageprocessor: the processor (`processor/baggageprocessor/processor.go`) -/

namespace baggageprocessor
open golang

/-- The `baggageProcessor` of the source. -/
structure baggageProcessor where
  config : Config

/-- `newBaggageProcessor`. -/
def newBaggageProcessor (config : Config) : baggageProcessor := { config := config }

/-- `extractBaggage` extracts a baggage entry and adds it as attributes; returns the
attribute map and the error. -/
def baggageProcessor.extractBaggage {B M P : Type} (lib : baggage.Library B M P)
    (bp : baggageProcessor) (action : Action) (attrs : pcommon.Map) (currentBaggage : B) :
    pcommon.Map × Option error :=
  let member := lib.Member currentBaggage action.Key
  if lib.MemberKey member = "" then (attrs, none)
  else
    let attrName :=
      if action.ToAttribute = "" then bp.config.AttributePrefix ++ action.Key
      else action.ToAttribute
    let attrs := attrs.PutStr attrName (lib.MemberValue member)
    let properties := lib.MemberProperties member
    let attrs :=
      if properties.length > 0 then
        attrs.PutStr (attrName ++ "_properties")
          (Join (properties.map lib.PropertyString) ";")
      else attrs
    (attrs, none)

/-- The first part of `injectBaggage`: the value to inject, or `none` when the source
attribute is not found and the action is skipped. -/
def resolveValue (AsString : pcommon.Value → String) (action : Action) (attrs : pcommon.Map) :
    Option String :=
  if action.Value ≠ "" then some action.Value
  else if action.FromAttribute ≠ "" then
    match attrs.Get action.FromAttribute with
    | none => none
    | some attrVal => some (AsString attrVal)
  else some ""

/-- The loop of `injectBaggage` over the configured properties: the properties built, or
the error of the first invalid one when invalid baggage is not dropped. -/
def baggageProcessor.buildProperties {B M P : Type} (lib : baggage.Library B M P)
    (bp : baggageProcessor) : List (String × String) → Except error (List P)
  | [] => .ok []
  | (key, val) :: rest =>
    match lib.NewKeyValueProperty key val with
    | .error propErr =>
      if bp.config.DropInvalidBaggage then bp.buildProperties lib rest
      else .error ("invalid baggage property " ++ key ++ "=" ++ val ++ ": " ++ propErr)
    | .ok prop =>
      match bp.buildProperties lib rest with
      | .error err => .error err
      | .ok props => .ok (prop :: props)

/-- `injectBaggage` injects an attribute or a value as a baggage entry; returns the baggage
that `currentBaggage` points to afterwards, and the error. -/
def baggageProcessor.injectBaggage {B M P : Type} (lib : baggage.Library B M P)
    (AsString : pcommon.Value → String) (bp : baggageProcessor) (action : Action)
    (attrs : pcommon.Map) (currentBaggage : B) : B × Option error :=
  match resolveValue AsString action attrs with
  | none => (currentBaggage, none)
  | some value =>
    match bp.buildProperties lib action.Properties with
    | .error err => (currentBaggage, some err)
    | .ok props =>
      match lib.NewMember action.Key value props with
      | .error err =>
        if bp.config.DropInvalidBaggage then (currentBaggage, none)
        else (currentBaggage, some ("failed to create baggage member: " ++ err))
      | .ok member =>
        match lib.SetMember currentBaggage member with
        | .error err =>
          if bp.config.DropInvalidBaggage then (currentBaggage, none)
          else (currentBaggage, some ("failed to set baggage member: " ++ err))
        | .ok newBaggage =>
          let baggageStr := lib.BaggageString newBaggage
          if 0 < bp.config.MaxBaggageSize ∧
              bp.config.MaxBaggageSize < (baggageStr.utf8ByteSize : Int) then
            if bp.config.DropInvalidBaggage then (currentBaggage, none)
            else
              (currentBaggage,
                some ("baggage size " ++ itoa baggageStr.utf8ByteSize ++ " exceeds limit " ++
                  toString bp.config.MaxBaggageSize))
          else (newBaggage, none)

/-- `updateBaggage` updates existing baggage entries, or inserts them when `upsert`. -/
def baggageProcessor.updateBaggage {B M P : Type} (lib : baggage.Library B M P)
    (AsString : pcommon.Value → String) (bp : baggageProcessor) (action : Action)
    (attrs : pcommon.Map) (currentBaggage : B) (upsert : Bool) : B × Option error :=
  let member := lib.Member currentBaggage action.Key
  if lib.MemberKey member = "" ∧ upsert = false then (currentBaggage, none)
  else bp.injectBaggage lib AsString action attrs currentBaggage

/-- `deleteBaggage` removes a baggage entry. -/
def deleteBaggage {B M P : Type} (lib : baggage.Library B M P) (action : Action)
    (currentBaggage : B) : B × Option error :=
  (lib.DeleteMember currentBaggage action.Key, none)

/-- `processAction` processes a single baggage action; returns the attribute map, the
current baggage and the error. -/
def baggageProcessor.processAction {B M P : Type} (lib : baggage.Library B M P)
    (AsString : pcommon.Value → String) (bp : baggageProcessor) (action : Action)
    (attrs : pcommon.Map) (currentBaggage : B) : (pcommon.Map × B) × Option error :=
  if action.Action = Extract then
    let r := bp.extractBaggage lib action attrs currentBaggage
    ((r.1, currentBaggage), r.2)
  else if action.Action = Inject then
    let r := bp.injectBaggage lib AsString action attrs currentBaggage
    ((attrs, r.1), r.2)
  else if action.Action = Update then
    let r := bp.updateBaggage lib AsString action attrs currentBaggage false
    ((attrs, r.1), r.2)
  else if action.Action = Upsert then
    let r := bp.updateBaggage lib AsString action attrs currentBaggage true
    ((attrs, r.1), r.2)
  else if action.Action = Delete then
    let r := deleteBaggage lib action currentBaggage
    ((attrs, r.1), r.2)
  else ((attrs, currentBaggage), some ("unknown action type: " ++ action.Action))

/-- The loop of `processAttributes` over the actions, from the given attribute map and
current baggage. -/
def baggageProcessor.processActions {B M P : Type} (lib : baggage.Library B M P)
    (AsString : pcommon.Value → String) (bp : baggageProcessor) :
    List Action → pcommon.Map → B → (pcommon.Map × B) × Option error
  | [], attrs, currentBaggage => ((attrs, currentBaggage), none)
  | action :: rest, attrs, currentBaggage =>
    match bp.processAction lib AsString action attrs currentBaggage with
    | (state, some err) =>
      (state, some ("failed to process action for key " ++ action.Key ++ ": " ++ err))
    | (state, none) => bp.processActions lib AsString rest state.1 state.2

/-- `processAttributes` processes attributes according to the configured actions; the
context is reduced to the baggage it carries (`baggage.FromContext`).  Returns the
attribute map as the call leaves it, and the error. -/
def baggageProcessor.processAttributes {B M P : Type} (lib : baggage.Library B M P)
    (AsString : pcommon.Value → String) (bp : baggageProcessor) (ctx : B)
    (attrs : pcommon.Map) : pcommon.Map × Option error :=
  let currentBaggage := ctx
  let r := bp.processActions lib AsString bp.config.Actions attrs currentBaggage
  (r.1.1, r.2)

/-- A loop over a slice whose body may return from the function with an error: the
elements as the loop leaves them, and the error of the round that returned. -/
def forEach {α : Type} (body : α → α × Option error) : List α → List α × Option error
  | [] => ([], none)
  | x :: rest =>
    match body x with
    | (x', some err) => (x' :: rest, some err)
    | (x', none) =>
      let r := forEach body rest
      (x' :: r.1, r.2)

/-- What the processor loops do with the error of one record: it is logged, and returned
only when invalid baggage is not dropped. -/
def baggageProcessor.keepError (bp : baggageProcessor) (err : Option error) : Option error :=
  match err with
  | some e => if !bp.config.DropInvalidBaggage then some e else none
  | none => none

/-- `processTraces` processes trace data. -/
def baggageProcessor.processTraces {B M P : Type} (lib : baggage.Library B M P)
    (AsString : pcommon.Value → String) (bp : baggageProcessor) (ctx : B)
    (td : ptrace.Traces) : ptrace.Traces × Option error :=
  let r := forEach (fun (rs : ptrace.ResourceSpans) =>
    let r := forEach (fun (ss : ptrace.ScopeSpans) =>
      let r := forEach (fun (span : ptrace.Span) =>
        let r := bp.processAttributes lib AsString ctx span.Attributes
        ({ span with Attributes := r.1 }, bp.keepError r.2)) ss.Spans
      ({ ss with Spans := r.1 }, r.2)) rs.ScopeSpans
    ({ rs with ScopeSpans := r.1 }, r.2)) td.ResourceSpans
  ({ ResourceSpans := r.1 }, r.2)

/-- `processLogs` processes log data. -/
def baggageProcessor.processLogs {B M P : Type} (lib : baggage.Library B M P)
    (AsString : pcommon.Value → String) (bp : baggageProcessor) (ctx : B)
    (ld : plog.Logs) : plog.Logs × Option error :=
  let r := forEach (fun (rl : plog.ResourceLogs) =>
    let r := forEach (fun (sl : plog.ScopeLogs) =>
      let r := forEach (fun (logRecord : plog.LogRecord) =>
        let r := bp.processAttributes lib AsString ctx logRecord.Attributes
        ({ logRecord with Attributes := r.1 }, bp.keepError r.2)) sl.LogRecords
      ({ sl with LogRecords := r.1 }, r.2)) rl.ScopeLogs
    ({ rl with ScopeLogs := r.1 }, r.2)) ld.ResourceLogs
  ({ ResourceLogs := r.1 }, r.2)

/-- `processMetricDataPoints` processes the data points of a metric and stops at the first
error. -/
def baggageProcessor.processMetricDataPoints {B M P : Type} (lib : baggage.Library B M P)
    (AsString : pcommon.Value → String) (bp : baggageProcessor) (ctx : B)
    (metric : pmetric.Metric) : pmetric.Metric × Option error :=
  match metric.Data with
  | .Gauge dps =>
    let r := forEach (fun (dp : pmetric.NumberDataPoint) =>
      let r := bp.processAttributes lib AsString ctx dp.Attributes
      ({ dp with Attributes := r.1 }, r.2)) dps
    ({ metric with Data := .Gauge r.1 }, r.2)
  | .Sum dps =>
    let r := forEach (fun (dp : pmetric.NumberDataPoint) =>
      let r := bp.processAttributes lib AsString ctx dp.Attributes
      ({ dp with Attributes := r.1 }, r.2)) dps
    ({ metric with Data := .Sum r.1 }, r.2)
  | .Histogram dps =>
    let r := forEach (fun (dp : pmetric.HistogramDataPoint) =>
      let r := bp.processAttributes lib AsString ctx dp.Attributes
      ({ dp with Attributes := r.1 }, r.2)) dps
    ({ metric with Data := .Histogram r.1 }, r.2)
  | .ExponentialHistogram dps =>
    let r := forEach (fun (dp : pmetric.ExponentialHistogramDataPoint) =>
      let r := bp.processAttributes lib AsString ctx dp.Attributes
      ({ dp with Attributes := r.1 }, r.2)) dps
    ({ metric with Data := .ExponentialHistogram r.1 }, r.2)
  | .Summary dps =>
    let r := forEach (fun (dp : pmetric.SummaryDataPoint) =>
      let r := bp.processAttributes lib AsString ctx dp.Attributes
      ({ dp with Attributes := r.1 }, r.2)) dps
    ({ metric with Data := .Summary r.1 }, r.2)
  | .Empty => (metric, none)

/-- `processMetrics` processes metric data. -/
def baggageProcessor.processMetrics {B M P : Type} (lib : baggage.Library B M P)
    (AsString : pcommon.Value → String) (bp : baggageProcessor) (ctx : B)
    (md : pmetric.Metrics) : pmetric.Metrics × Option error :=
  let r := forEach (fun (rm : pmetric.ResourceMetrics) =>
    let r := forEach (fun (sm : pmetric.ScopeMetrics) =>
      let r := forEach (fun (metric : pmetric.Metric) =>
        let r := bp.processMetricDataPoints lib AsString ctx metric
        (r.1, bp.keepError r.2)) sm.Metrics
      ({ sm with Metrics := r.1 }, r.2)) rm.ScopeMetrics
    ({ rm with ScopeMetrics := r.1 }, r.2)) md.ResourceMetrics
  ({ ResourceMetrics := r.1 }, r.2)

/-- The processor of the tests (`newTestProcessor`). -/
def newTestProcessor (cfg : Option Config) : baggageProcessor :=
  match cfg with
  | none => newBaggageProcessor { AttributePrefix := "baggage.", MaxBaggageSize := 8192 }
  | some cfg => newBaggageProcessor cfg

end baggageprocessor

namespace baggageprocessor
open golang

/-- The baggage of `TestExtractBaggage_DefaultPrefixAndProperties`: the member
`user.id=123` with the properties `source=test` and `env=dev`. -/
def testUserBaggage : baggage.RefBaggage :=
  [{ key := "user.id", value := "123",
     properties := [{ key := "source", value := "test" }, { key := "env", value := "dev" }] }]

/-- The baggage of `TestExtractBaggage_ToAttributeOverride`. -/
def testSessionBaggage : baggage.RefBaggage := [{ key := "session.id", value := "s-42" }]

/-- The baggage of `TestUpdateAndUpsertBehavior`: the member `a=old`. -/
def testExistingBaggage : baggage.RefBaggage := [{ key := "a", value := "old" }]

/-- A configuration that drops invalid baggage and has an action of unknown type. -/
def testUnknownActionConfig : Config :=
  { DropInvalidBaggage := true, Actions := [{ Key := "k", Action := "rename" }] }

/-- The string values of an attribute map, for comparison. -/
def stringsOf (attrs : pcommon.Map) : List (String × String) :=
  attrs.map (fun kv => (kv.1, pcommon.Value.Str kv.2))

end baggageprocessor

/-! ## memcachedreceiver: the calculated hit ratios (`memcachedreceiver/scraper.go`) -/

namespace golang

/-- `strconv.ParseInt(s, 10, 64)`: an optional sign and decimal digits, the value within
the range of `int64`; `none` is the error. -/
def ParseInt (s : String) : Option Int :=
  let signed : Bool × List Char :=
    match s.data with
    | '-' :: rest => (true, rest)
    | '+' :: rest => (false, rest)
    | rest => (false, rest)
  if signed.2 = [] ∨ signed.2.all Char.isDigit = false then none
  else
    let n : Nat := signed.2.foldl (fun acc c => acc * 10 + (c.toNat - 48)) 0
    let v : Int := if signed.1 then -(n : Int) else n
    if -(2 : Int) ^ 63 ≤ v ∧ v < (2 : Int) ^ 63 then some v else none

/-- The sum of two `int64` values, with wrap-around. -/
def addInt64 (a b : Int) : Int := (a + b + 2 ^ 63) % 2 ^ 64 - 2 ^ 63

end golang

namespace memcachedreceiver
open golang

/-- `calculateHitRatio`, with the parameter names of the source.  The `float64`
arithmetic is carried out exactly, in the rational numbers. -/
def calculateHitRatio (misses hits : Int) : ℚ :=
  if addInt64 misses hits = 0 then 0
  else
    let hitsFloat : ℚ := hits
    let missesFloat : ℚ := misses
    hitsFloat / (hitsFloat + missesFloat) * 100

/-- `parseInt` converts a string to `int64`; the second component of the source's result
is whether the option holds a value. -/
def parseInt (value : String) : Option Int := ParseInt value

/-- A data point of the hit-ratio gauge: its attributes, timestamp and double value. -/
structure DoublePoint where
  Attributes : pdata.AttributeMap
  Timestamp : pdata.Timestamp
  Value : ℚ

/-- One of the three blocks of "calculated metrics" of `scrape` for one server: the data
point added to the hit-ratio gauge for the operation, if both counters parse.  A key that
the server does not report reads as the empty string; `operationKey` is the constant
`metadata.A.Operation`. -/
def hitRatioPoint (operationKey : String) (now : pdata.Timestamp) (stats : GoMap String)
    (operation hitKey missKey : String) : Option DoublePoint :=
  let attributes := (pdata.NewAttributeMap).Insert operationKey (.String operation)
  match parseInt ((MapGet stats hitKey).getD ""), parseInt ((MapGet stats missKey).getD "") with
  | some parsedHit, some parsedMiss =>
    some { Attributes := attributes, Timestamp := now,
           Value := calculateHitRatio parsedHit parsedMiss }
  | _, _ => none

/-- The data points that `scrape` adds to the hit-ratio gauge, for all servers in order:
increment, decrement, get. -/
def hitRatioPoints (operationKey : String) (now : pdata.Timestamp)
    (allServerStats : List (GoMap String)) : List DoublePoint :=
  allServerStats.flatMap (fun stats =>
    [hitRatioPoint operationKey now stats "increment" "incr_hits" "incr_misses",
     hitRatioPoint operationKey now stats "decrement" "decr_hits" "decr_misses",
     hitRatioPoint operationKey now stats "get" "get_hits" "get_misses"].filterMap id)

end memcachedreceiver

/-! ## baggageprocessor: configurations of the action-list examples -/

namespace baggageprocessor
open golang

/-- A configuration without extract action: inject, update, upsert, delete, and an action
of unknown type. -/
def testNoExtractConfig : Config :=
  { AttributePrefix := "baggage.", MaxBaggageSize := 8192,
    Actions := [{ Key := "tenant", Action := Inject, Value := "acme" },
                { Key := "a", Action := Update, Value := "new" },
                { Key := "b", Action := Upsert, FromAttribute := "region" },
                { Key := "a", Action := Delete },
                { Key := "c", Action := "rename" }] }

/-- The action list `[inject k with the value v, extract k]`. -/
def injectThenExtract (k v : String) : List Action :=
  [{ Key := k, Action := Inject, Value := v }, { Key := k, Action := Extract, FromContext := true }]

/-- The action list `[delete k, extract k]`. -/
def deleteThenExtract (k : String) : List Action :=
  [{ Key := k, Action := Delete }, { Key := k, Action := Extract, FromContext := true }]

end baggageprocessor

/-! ## Telemetry with changed attributes only -/

namespace ptrace

/-- The traces with `f` applied to the attributes of every span, and nothing else
changed. -/
def Traces.withAttributes (f : pcommon.Map → pcommon.Map) (td : Traces) : Traces :=
  { ResourceSpans := td.ResourceSpans.map (fun rs =>
      { rs with ScopeSpans := rs.ScopeSpans.map (fun ils =>
        { ils with Spans := ils.Spans.map (fun span =>
          { span with Attributes := f span.Attributes }) }) }) }

end ptrace

namespace plog

/-- The logs with `f` applied to the attributes of every log record, and nothing else
changed. -/
def Logs.withAttributes (f : pcommon.Map → pcommon.Map) (ld : Logs) : Logs :=
  { ResourceLogs := ld.ResourceLogs.map (fun rls =>
      { rls with ScopeLogs := rls.ScopeLogs.map (fun sls =>
        { sls with LogRecords := sls.LogRecords.map (fun record =>
          { record with Attributes := f record.Attributes }) }) }) }

end plog

namespace pmetric

/-- The metric with `f` applied to the attributes of every data point, and nothing else
changed. -/
def Metric.withAttributes (f : pcommon.Map → pcommon.Map) (m : Metric) : Metric :=
  match m.Data with
  | .Gauge dps =>
    { m with Data := .Gauge (dps.map (fun dp => { dp with Attributes := f dp.Attributes })) }
  | .Sum dps =>
    { m with Data := .Sum (dps.map (fun dp => { dp with Attributes := f dp.Attributes })) }
  | .Histogram dps =>
    { m with Data := .Histogram (dps.map (fun dp => { dp with Attributes := f dp.Attributes })) }
  | .ExponentialHistogram dps =>
    { m with
      Data := .ExponentialHistogram
        (dps.map (fun dp => { dp with Attributes := f dp.Attributes })) }
  | .Summary dps =>
    { m with Data := .Summary (dps.map (fun dp => { dp with Attributes := f dp.Attributes })) }
  | .Empty => m

/-- The metrics data with `f` applied to the attributes of every data point, and nothing
else changed. -/
def Metrics.withAttributes (f : pcommon.Map → pcommon.Map) (md : Metrics) : Metrics :=
  { ResourceMetrics := md.ResourceMetrics.map (fun rs =>
      { rs with ScopeMetrics := rs.ScopeMetrics.map (fun ils =>
        { ils with Metrics := ils.Metrics.map (fun m => m.withAttributes f) }) }) }

/-- The number of data points of a metric. -/
def Metric.pointCount (m : Metric) : Nat :=
  match m.Data with
  | .Empty => 0
  | .Gauge dps => dps.length
  | .Sum dps => dps.length
  | .Histogram dps => dps.length
  | .ExponentialHistogram dps => dps.length
  | .Summary dps => dps.length

end pmetric

/-! ## Lemmas on records and on the encoder loops -/

namespace encode
open golang pdata objmodel

theorem collect_foldl (acc : List String × List error) (results : List (String × Option error)) :
    results.foldl collect acc = (acc.1 ++ documentsOf results, acc.2 ++ errorsOf results) := by
  induction results generalizing acc with
  | nil => simp [documentsOf, errorsOf]
  | cons res rest ih =>
    rw [List.foldl_cons, ih]
    rcases res with ⟨ser, err⟩
    cases err <;> simp [collect, documentsOf, errorsOf, List.filterMap_cons]

theorem collect_foldl_map {α : Type} (f : α → String × Option error)
    (acc : List String × List error) (xs : List α) :
    xs.foldl (fun acc x => collect acc (f x)) acc
      = (acc.1 ++ documentsOf (xs.map f), acc.2 ++ errorsOf (xs.map f)) := by
  rw [← collect_foldl, List.foldl_map]

theorem documentsOf_append (xs ys : List (String × Option error)) :
    documentsOf (xs ++ ys) = documentsOf xs ++ documentsOf ys := by
  simp [documentsOf, List.filterMap_append]

theorem errorsOf_append (xs ys : List (String × Option error)) :
    errorsOf (xs ++ ys) = errorsOf xs ++ errorsOf ys := by
  simp [errorsOf, List.filterMap_append]

theorem documentsOf_length_add_errorsOf_length (results : List (String × Option error)) :
    (documentsOf results).length + (errorsOf results).length = results.length := by
  induction results with
  | nil => simp [documentsOf, errorsOf]
  | cons res rest ih =>
    rcases res with ⟨ser, err⟩
    cases err <;>
      simp [documentsOf, errorsOf, List.filterMap_cons] at ih ⊢ <;> omega

theorem lookupField_eq_none {fs : List field} {key : String} :
    lookupField fs key = none ↔ ∀ g ∈ fs, g.key ≠ key := by
  induction fs with
  | nil => simp [lookupField]
  | cons f rest ih =>
    simp only [lookupField, List.mem_cons, forall_eq_or_imp]
    cases h : lookupField rest key with
    | some v =>
      have : ¬ ∀ g ∈ rest, g.key ≠ key := fun hall => by
        rw [ih.mpr hall] at h; cases h
      simp [this]
    | none =>
      have hall := ih.mp h
      by_cases hk : f.key = key
      · simp [hk]
      · simpa [hk] using hall

theorem lookupField_dedupFields (fs : List field) (key : String) :
    lookupField (dedupFields fs) key = lookupField fs key := by
  induction fs with
  | nil => rfl
  | cons f rest ih =>
    unfold dedupFields
    split
    · rename_i hany
      rw [ih]
      simp only [lookupField]
      cases h : lookupField rest key with
      | some v => rfl
      | none =>
        have hall := lookupField_eq_none.mp h
        have hne : ¬ f.key = key := by
          intro hk
          obtain ⟨g, hg, hgk⟩ := List.any_eq_true.mp hany
          exact hall g hg (by rw [← hk]; simpa using hgk)
        simp [hne]
    · simp only [lookupField, ih]

theorem dedupFields_keys_subset (fs : List field) :
    ∀ g ∈ dedupFields fs, ∃ f ∈ fs, f.key = g.key := by
  induction fs with
  | nil => simp [dedupFields]
  | cons f rest ih =>
    intro g hg
    unfold dedupFields at hg
    split at hg
    · obtain ⟨f', hf', hk⟩ := ih g hg
      exact ⟨f', List.mem_cons_of_mem _ hf', hk⟩
    · rcases List.mem_cons.mp hg with rfl | hg
      · exact ⟨g, List.mem_cons_self _ _, rfl⟩
      · obtain ⟨f', hf', hk⟩ := ih g hg
        exact ⟨f', List.mem_cons_of_mem _ hf', hk⟩

theorem dedupFields_keys_nodup (fs : List field) :
    ((dedupFields fs).map (fun f => f.key)).Nodup := by
  induction fs with
  | nil => simp [dedupFields]
  | cons f rest ih =>
    unfold dedupFields
    split
    · exact ih
    · rename_i hany
      rw [List.map_cons, List.nodup_cons]
      refine ⟨?_, ih⟩
      intro hmem
      obtain ⟨g, hg, hgk⟩ := List.mem_map.mp hmem
      obtain ⟨f', hf', hk⟩ := dedupFields_keys_subset rest g hg
      apply hany
      exact List.any_eq_true.mpr ⟨f', hf', by simp [hk, hgk]⟩

theorem lookupField_eq_some_iff {fs : List field}
    (hnd : (fs.map (fun f => f.key)).Nodup) (key : String) (v : Value) :
    lookupField fs key = some v ↔ ∃ f ∈ fs, f.key = key ∧ f.value = v := by
  induction fs with
  | nil => simp [lookupField]
  | cons f rest ih =>
    rw [List.map_cons, List.nodup_cons] at hnd
    have ih := ih hnd.2
    simp only [lookupField, List.mem_cons, exists_eq_or_imp]
    cases h : lookupField rest key with
    | some w =>
      have hne : ¬ f.key = key := by
        intro hk
        have hex : ∃ g ∈ rest, g.key = key := by
          by_contra hcon
          have hnone : lookupField rest key = none :=
            lookupField_eq_none.mpr (fun g hg hgk => hcon ⟨g, hg, hgk⟩)
          rw [hnone] at h
          cases h
        obtain ⟨g, hg, hgk⟩ := hex
        exact hnd.1 (List.mem_map.mpr ⟨g, hg, by rw [hgk, hk]⟩)
      rw [h] at ih
      simp [hne, ih]
    | none =>
      rw [h] at ih
      have hno : ¬ ∃ g ∈ rest, g.key = key ∧ g.value = v := by
        intro hex
        have := ih.mpr hex
        cases this
      by_cases hk : f.key = key
      · simp [hk, hno]
      · simp [hk, hno]

theorem lookupField_perm {l₁ l₂ : List field} (hp : l₁.Perm l₂)
    (hnd : (l₁.map (fun f => f.key)).Nodup) (key : String) :
    lookupField l₁ key = lookupField l₂ key := by
  have hnd₂ : (l₂.map (fun f => f.key)).Nodup := (hp.map _).nodup_iff.mp hnd
  apply Option.ext
  intro v
  simp only [Option.mem_def]
  rw [lookupField_eq_some_iff hnd, lookupField_eq_some_iff hnd₂]
  constructor
  · rintro ⟨f, hf, h⟩
    exact ⟨f, hp.subset hf, h⟩
  · rintro ⟨f, hf, h⟩
    exact ⟨f, hp.symm.subset hf, h⟩

/-- Deduplicating and sorting a document keeps, under every name, the value written last. -/
theorem lookupField_record (document : Document) (key : String) :
    lookupField (record document) key = lookupField document.fields key := by
  unfold record Document.Sort Document.Dedup
  simp only
  rw [lookupField_perm (List.perm_insertionSort keyLE (dedupFields document.fields))
    ((List.perm_insertionSort keyLE (dedupFields document.fields)).map _ |>.nodup_iff.mpr
      (dedupFields_keys_nodup _)) key]
  exact lookupField_dedupFields _ _

end encode

/-! ## Theorems: the elasticsearch encoders -/

namespace encode
open golang pdata objmodel

theorem Histogram_loop (Serialize : Serializer) (resource : Resource)
    (lib : InstrumentationLibrary) (metric : Metric) (dps : List HistogramDataPoint)
    (acc : List String × List error) :
    dps.foldl (fun acc dp =>
      (histogramDocuments resource lib metric dp).foldl (fun acc document =>
        collect acc (serializeDocument Serialize document)) acc) acc
      = (acc.1 ++ documentsOf ((dps.flatMap (histogramDocuments resource lib metric)).map
            (serializeDocument Serialize)),
         acc.2 ++ errorsOf ((dps.flatMap (histogramDocuments resource lib metric)).map
            (serializeDocument Serialize))) := by
  induction dps generalizing acc with
  | nil => simp [documentsOf, errorsOf]
  | cons dp rest ih =>
    rw [List.foldl_cons, ih, collect_foldl_map]
    simp [List.flatMap_cons, documentsOf_append, errorsOf_append, List.append_assoc]

theorem lookupField_histogramDocument_bucketId (resource : Resource)
    (lib : InstrumentationLibrary) (metric : Metric) (dp : HistogramDataPoint)
    (w bucketID v : Nat) :
    lookupField (record (histogramDocument resource lib metric dp w bucketID v)) "bucketId"
      = some (.UIntValue bucketID) := by
  rw [lookupField_record]
  unfold histogramDocument
  cases h : dp.ExplicitBounds[bucketID]? <;>
    simp [h, initCommonFields, Document.AddAttributes, Document.AddString, Document.AddUInt,
      Document.AddDouble, Document.AddTimestamp, Document.Add, lookupField]

theorem lookupField_histogramDocument_bucket (resource : Resource)
    (lib : InstrumentationLibrary) (metric : Metric) (dp : HistogramDataPoint)
    (w bucketID v : Nat) :
    lookupField (record (histogramDocument resource lib metric dp w bucketID v)) "bucket"
      = some (.StringValue
          (match dp.ExplicitBounds[bucketID]? with
           | some bound => formatBucket bound
           | none => "+inf")) := by
  rw [lookupField_record]
  unfold histogramDocument
  cases h : dp.ExplicitBounds[bucketID]? <;>
    simp [h, initCommonFields, Document.AddAttributes, Document.AddString, Document.AddUInt,
      Document.AddDouble, Document.AddTimestamp, Document.Add, lookupField, lastBucket]

/-- C1: for a histogram data point with `k` explicit bounds (and the `k+1` bucket counts
that the data model gives such a point, hypothesis `hlen`), `Histogram` builds exactly
`k+1` records for that point, each of which ends up as a returned document or a returned
error; their `bucketId` values are `0..k` in that order and the `bucket` label of the
last one is exactly `"+inf"`.  The output of `Histogram` is the concatenation, in point
order, of what the points yield. -/
theorem Histogram_records_of_point (Serialize : Serializer) (resource : Resource)
    (lib : InstrumentationLibrary) (name unit : String) (temporality : AggregationTemporality)
    (dps : List HistogramDataPoint) (dp : HistogramDataPoint)
    (hlen : dp.BucketCounts.length = dp.ExplicitBounds.length + 1) :
    Histogram Serialize resource lib ⟨name, unit, .Histogram temporality dps⟩
      = some
        (documentsOf ((dps.flatMap
            (histogramDocuments resource lib ⟨name, unit, .Histogram temporality dps⟩)).map
            (serializeDocument Serialize)),
         errorsOf ((dps.flatMap
            (histogramDocuments resource lib ⟨name, unit, .Histogram temporality dps⟩)).map
            (serializeDocument Serialize))) ∧
    (histogramDocuments resource lib ⟨name, unit, .Histogram temporality dps⟩ dp).length
      = dp.ExplicitBounds.length + 1 ∧
    (documentsOf ((histogramDocuments resource lib ⟨name, unit, .Histogram temporality dps⟩
        dp).map (serializeDocument Serialize))).length
      + (errorsOf ((histogramDocuments resource lib ⟨name, unit, .Histogram temporality dps⟩
        dp).map (serializeDocument Serialize))).length
      = dp.ExplicitBounds.length + 1 ∧
    (histogramDocuments resource lib ⟨name, unit, .Histogram temporality dps⟩ dp).map
        (fun document => lookupField (record document) "bucketId")
      = (List.range (dp.ExplicitBounds.length + 1)).map (fun i => some (.UIntValue i)) ∧
    ((histogramDocuments resource lib ⟨name, unit, .Histogram temporality dps⟩ dp).getLast?).bind
        (fun document => lookupField (record document) "bucket")
      = some (.StringValue "+inf") := by
  refine ⟨?_, ?_, ?_, ?_, ?_⟩
  · simp only [Histogram]
    rw [Histogram_loop]
    simp
  · simp [histogramDocuments, List.enum_length, hlen]
  · rw [documentsOf_length_add_errorsOf_length]
    simp [histogramDocuments, List.enum_length, hlen]
  · simp only [histogramDocuments, List.map_map]
    rw [← hlen, ← List.enum_map_fst, List.map_map]
    apply List.map_congr_left
    intro iv _
    simp [lookupField_histogramDocument_bucketId]
  · have hk : dp.ExplicitBounds.length < dp.BucketCounts.length := by omega
    have hnone : dp.ExplicitBounds[dp.ExplicitBounds.length]? = none :=
      List.getElem?_eq_none (Nat.le_refl _)
    unfold histogramDocuments
    simp only []
    rw [List.getLast?_map, List.getLast?_eq_getElem?, List.enum_length, List.getElem?_enum, hlen,
      Nat.add_sub_cancel, List.getElem?_eq_getElem hk]
    simp [lookupField_histogramDocument_bucket, hnone]

/-- C1, evaluated on the data point of `Test_Histogram` (two bounds, three bucket counts):
the bucket ids are 0, 1, 2, the last label is `"+inf"`, and the three documents are the
ones the test asserts. -/
theorem Histogram_records_of_point_witness :
    testHistogramPoint.BucketCounts.length = testHistogramPoint.ExplicitBounds.length + 1 ∧
    (histogramDocuments testResource testLibrary
        ⟨"hist-metric", "", .Histogram .Unspecified [testHistogramPoint]⟩
        testHistogramPoint).map (fun document => lookupField (record document) "bucketId")
      = [some (.UIntValue 0), some (.UIntValue 1), some (.UIntValue 2)] ∧
    ((histogramDocuments testResource testLibrary
        ⟨"hist-metric", "", .Histogram .Unspecified [testHistogramPoint]⟩
        testHistogramPoint).getLast?).bind
        (fun document => lookupField (record document) "bucket")
      = some (.StringValue "+inf") ∧
    Histogram (Serialize formatFloatSixTrim) testResource testLibrary
        ⟨"hist-metric", "", .Histogram .Unspecified [testHistogramPoint]⟩
      = some ([
        "\x7b\"@timestamp\":\"2022-01-01T10:00:05.000000123Z\",\"bucket\":\"5.87\",\"bucketCount\":1,\"bucketId\":0,\"bucketText\":\"0 (5.87)\",\"count\":4,\"instrumentationLibrary\":\x7b\"name\":\"instlib\",\"version\":\"v1\"\x7d,\"name\":\"hist-metric\",\"sum\":0,\"type\":\"histogram\"\x7d",
        "\x7b\"@timestamp\":\"2022-01-01T10:00:05.000000123Z\",\"bucket\":\"10\",\"bucketCount\":3,\"bucketId\":1,\"bucketText\":\"1 (10)\",\"count\":4,\"instrumentationLibrary\":\x7b\"name\":\"instlib\",\"version\":\"v1\"\x7d,\"name\":\"hist-metric\",\"sum\":0,\"type\":\"histogram\"\x7d",
        "\x7b\"@timestamp\":\"2022-01-01T10:00:05.000000123Z\",\"bucket\":\"+inf\",\"bucketCount\":0,\"bucketId\":2,\"bucketText\":\"2 (+inf)\",\"count\":4,\"instrumentationLibrary\":\x7b\"name\":\"instlib\",\"version\":\"v1\"\x7d,\"name\":\"hist-metric\",\"sum\":0,\"type\":\"histogram\"\x7d"],
        []) :=
  ⟨by decide,
   (Histogram_records_of_point (Serialize formatFloatSixTrim) testResource testLibrary
      "hist-metric" "" .Unspecified [testHistogramPoint] testHistogramPoint (by decide)).2.2.2.1,
   (Histogram_records_of_point (Serialize formatFloatSixTrim) testResource testLibrary
      "hist-metric" "" .Unspecified [testHistogramPoint] testHistogramPoint (by decide)).2.2.2.2,
   by decide⟩

/-- Outside the data model (bucket counts are one more than the bounds): on a data
point with two explicit bounds and no bucket count the loop of `Histogram` has nothing
to range over and yields no record. -/
theorem Histogram_bounds_without_counts :
    boundsOnlyHistogramPoint.ExplicitBounds.length = 2 ∧
    histogramDocuments testResource testLibrary
        ⟨"hist-metric", "", .Histogram .Unspecified [boundsOnlyHistogramPoint]⟩
        boundsOnlyHistogramPoint = [] ∧
    Histogram (Serialize formatFloatSixTrim) testResource testLibrary
        ⟨"hist-metric", "", .Histogram .Unspecified [boundsOnlyHistogramPoint]⟩
      = some ([], []) :=
  ⟨by decide, by rfl, by decide⟩

end encode

/-! ## Theorems: the dynatrace serializer -/

namespace dimensions

theorem valueOf_upsert (dims : List Dimension) (d : Dimension) (key : String) :
    valueOf (upsert dims d) key = if d.Key = key then some d.Value else valueOf dims key := by
  induction dims with
  | nil => simp [upsert, valueOf]
  | cons e rest ih =>
    unfold upsert
    by_cases hed : e.Key = d.Key
    · by_cases h : d.Key = key
      · simp [hed, valueOf, h]
      · simp [hed, valueOf, h]
    · by_cases hek : e.Key = key
      · subst hek
        have hde : ¬ d.Key = e.Key := fun h => hed h.symm
        simp [hed, valueOf, hde]
      · simp [hed, valueOf, hek, ih]

theorem upsert_keys (dims : List Dimension) (d : Dimension) :
    (upsert dims d).map (fun e => e.Key)
      = if d.Key ∈ dims.map (fun e => e.Key) then dims.map (fun e => e.Key)
        else dims.map (fun e => e.Key) ++ [d.Key] := by
  induction dims with
  | nil => simp [upsert]
  | cons e rest ih =>
    unfold upsert
    by_cases hed : e.Key = d.Key
    · simp [hed]
    · have hde : ¬ d.Key = e.Key := fun h => hed h.symm
      simp only [hed, if_false, List.map_cons, ih, List.mem_cons, hde, false_or]
      split <;> simp

theorem upsert_keys_nodup (dims : List Dimension) (d : Dimension)
    (h : (dims.map (fun e => e.Key)).Nodup) : ((upsert dims d).map (fun e => e.Key)).Nodup := by
  rw [upsert_keys]
  split
  · exact h
  · rename_i hnot
    exact List.Nodup.append h (List.nodup_singleton _) (by simpa using hnot)

theorem foldl_upsert_keys_nodup (xs acc : List Dimension)
    (h : (acc.map (fun e => e.Key)).Nodup) :
    ((xs.foldl upsert acc).map (fun e => e.Key)).Nodup := by
  induction xs generalizing acc with
  | nil => exact h
  | cons x rest ih => exact ih _ (upsert_keys_nodup acc x h)

theorem valueOf_append (xs ys : List Dimension) (key : String) :
    valueOf (xs ++ ys) key
      = match valueOf xs key with
        | some v => some v
        | none => valueOf ys key := by
  induction xs with
  | nil => simp [valueOf]
  | cons x rest ih =>
    by_cases h : x.Key = key
    · simp [valueOf, h]
    · simpa [valueOf, h] using ih

theorem valueOf_foldl_upsert (xs acc : List Dimension) (key : String) :
    valueOf (xs.foldl upsert acc) key
      = match valueOf xs.reverse key with
        | some v => some v
        | none => valueOf acc key := by
  induction xs generalizing acc with
  | nil => simp [valueOf]
  | cons x rest ih =>
    rw [List.foldl_cons, ih, List.reverse_cons, valueOf_append, valueOf_upsert]
    cases valueOf rest.reverse key with
    | some v => rfl
    | none =>
      by_cases h : x.Key = key <;> simp [valueOf, h]

end dimensions

namespace serialization
open golang pdata dimensions

theorem dimsFromLabels_eq (AsString : AttributeValue → String) (labels : AttributeMap)
    (acc : List Dimension) :
    labels.foldl (fun dimsFromLabels kv =>
      dimsFromLabels ++ [NewDimension kv.1 (AsString kv.2)]) acc
      = acc ++ labels.map (fun kv => NewDimension kv.1 (AsString kv.2)) := by
  induction labels generalizing acc with
  | nil => simp
  | cons kv rest ih => simp [ih]

theorem valueOf_map_labels (AsString : AttributeValue → String) (labels : AttributeMap)
    (key : String) :
    valueOf (labels.map (fun kv => NewDimension kv.1 (AsString kv.2))) key
      = (AttributeMap.Get labels key).map AsString := by
  induction labels with
  | nil => simp [valueOf, AttributeMap.Get]
  | cons kv rest ih =>
    by_cases h : kv.1 = key
    · simp [valueOf, AttributeMap.Get, NewDimension, h]
    · simpa [valueOf, AttributeMap.Get, NewDimension, h] using ih

/-- C2: the list returned by `makeCombinedDimensions` has no duplicate key, and the
value it holds under a key is the static-dimension value if the static list has the
key, else the stringified data-point attribute if the attributes have the key, else the
default-dimension value (where an input itself repeats a key, its last entry counts);
a key of no input is absent. -/
theorem makeCombinedDimensions_precedence (AsString : AttributeValue → String)
    (labels : AttributeMap) (defaultDimensions staticDimensions : NormalizedDimensionList) :
    ((makeCombinedDimensions AsString labels defaultDimensions
        staticDimensions).dimensions.map (fun d => d.Key)).Nodup ∧
    ∀ key : String,
      valueOf (makeCombinedDimensions AsString labels defaultDimensions
          staticDimensions).dimensions key
        = match valueOf staticDimensions.dimensions.reverse key with
          | some v => some v
          | none =>
            match AttributeMap.Get labels.reverse key with
            | some v => some (AsString v)
            | none => valueOf defaultDimensions.dimensions.reverse key := by
  constructor
  · exact foldl_upsert_keys_nodup _ [] (by simp)
  · intro key
    simp only [makeCombinedDimensions, MergeLists, NewNormalizedDimensionList, dimsFromLabels_eq,
      List.flatMap_cons, List.flatMap_nil, List.append_nil, List.nil_append]
    rw [valueOf_foldl_upsert, List.reverse_append, List.reverse_append, valueOf_append,
      valueOf_append, ← List.map_reverse, valueOf_map_labels]
    cases valueOf staticDimensions.dimensions.reverse key with
    | some v => rfl
    | none =>
      cases AttributeMap.Get labels.reverse key with
      | some v => simp [valueOf]
      | none =>
        cases valueOf defaultDimensions.dimensions.reverse key <;> simp [valueOf]

theorem pointLoop_error_no_lines {α σ : Type}
    (serializePoint : α → σ → (String × Option error) × σ) (dps : List α)
    (metricLines : List String) (prev : σ) (err : error)
    (h : (pointLoop serializePoint dps metricLines prev).1.2 = some err) :
    (pointLoop serializePoint dps metricLines prev).1.1 = [] := by
  induction dps generalizing metricLines prev with
  | nil => simp [pointLoop] at h
  | cons dp rest ih =>
    unfold pointLoop at h ⊢
    rcases hres : serializePoint dp prev with ⟨⟨line, e⟩, prev1⟩
    rw [hres] at h
    cases e with
    | some e1 => rfl
    | none => exact ih _ _ h

theorem pointLoop_fails {α σ : Type}
    (serializePoint : α → σ → (String × Option error) × σ) (dps : List α) (dp : α)
    (hmem : dp ∈ dps) (hfail : ∀ prev, (serializePoint dp prev).1.2 ≠ none)
    (metricLines : List String) (prev : σ) :
    ∃ err, (pointLoop serializePoint dps metricLines prev).1 = ([], some err) := by
  induction dps generalizing metricLines prev with
  | nil => cases hmem
  | cons d rest ih =>
    unfold pointLoop
    rcases hres : serializePoint d prev with ⟨⟨line, e⟩, prev1⟩
    cases e with
    | some e1 => exact ⟨e1, rfl⟩
    | none =>
      rcases List.mem_cons.mp hmem with rfl | hrest
      · exact absurd (by rw [hres]) (hfail prev)
      · exact ih hrest _ _

/-- C3 (amended): a failure while serializing one data point is not scoped to that data
point.  Whenever `SerializeMetric` returns an error it returns no line at all, so the
lines of the sibling data points that were serialized successfully are dropped; and if
some data point of a gauge, sum or histogram metric cannot be serialized (for a sum:
whatever the state of the cache), `SerializeMetric` returns an error and no line. -/
theorem SerializeMetric_error_no_lines {σ : Type} (fns : PointSerializers σ)
    (AsString : AttributeValue → String) (pfx : String)
    (defaultDimensions staticDimensions : NormalizedDimensionList) (prev : σ) :
    (∀ (metric : Metric) (err : error),
      (SerializeMetric fns AsString pfx metric defaultDimensions staticDimensions prev).1.2
        = some err →
      (SerializeMetric fns AsString pfx metric defaultDimensions staticDimensions prev).1.1
        = []) ∧
    (∀ (name unit : String) (dps : List NumberDataPoint) (dp : NumberDataPoint), dp ∈ dps →
      (fns.serializeGauge name pfx (makeCombinedDimensions AsString dp.Attributes
        defaultDimensions staticDimensions) dp).2 ≠ none →
      ∃ err, (SerializeMetric fns AsString pfx ⟨name, unit, .Gauge dps⟩ defaultDimensions
        staticDimensions prev).1 = ([], some err)) ∧
    (∀ (name unit : String) (isMonotonic : Bool) (temporality : AggregationTemporality)
      (dps : List NumberDataPoint) (dp : NumberDataPoint), dp ∈ dps →
      (∀ cache, (fns.serializeSum name pfx (makeCombinedDimensions AsString dp.Attributes
        defaultDimensions staticDimensions) temporality dp cache).1.2 ≠ none) →
      ∃ err, (SerializeMetric fns AsString pfx ⟨name, unit, .Sum isMonotonic temporality dps⟩
        defaultDimensions staticDimensions prev).1 = ([], some err)) ∧
    (∀ (name unit : String) (temporality : AggregationTemporality)
      (dps : List HistogramDataPoint) (dp : HistogramDataPoint), dp ∈ dps →
      (fns.serializeHistogram name pfx (makeCombinedDimensions AsString dp.Attributes
        defaultDimensions staticDimensions) temporality dp).2 ≠ none →
      ∃ err, (SerializeMetric fns AsString pfx ⟨name, unit, .Histogram temporality dps⟩
        defaultDimensions staticDimensions prev).1 = ([], some err)) := by
  refine ⟨?_, ?_, ?_, ?_⟩
  · intro metric err h
    rcases metric with ⟨name, unit, data⟩
    cases data with
    | Gauge dps => exact pointLoop_error_no_lines _ dps [] prev err h
    | Sum isMonotonic temporality dps => exact pointLoop_error_no_lines _ dps [] prev err h
    | Histogram temporality dps => exact pointLoop_error_no_lines _ dps [] prev err h
    | None => rfl
    | ExponentialHistogram => rfl
    | Summary dps => rfl
  · intro name unit dps dp hmem hfail
    exact pointLoop_fails _ dps dp hmem (fun _ => hfail) [] prev
  · intro name unit isMonotonic temporality dps dp hmem hfail
    exact pointLoop_fails (fun dp prev =>
      fns.serializeSum name pfx
        (makeCombinedDimensions AsString dp.Attributes defaultDimensions staticDimensions)
        temporality dp prev) dps dp hmem hfail [] prev
  · intro name unit temporality dps dp hmem hfail
    exact pointLoop_fails _ dps dp hmem (fun _ => hfail) [] prev

/-- C3 evaluated on a sum metric whose second data point of three has no value: the
call returns the error of that data point and no line. -/
theorem SerializeMetric_error_no_lines_witness :
    (SerializeMetric examplePointSerializers exampleAsString ""
        ⟨"requests", "", .Sum true .Delta [⟨[], 1, .Int 1⟩, ⟨[], 2, .None⟩, ⟨[], 3, .Int 3⟩]⟩
        ⟨[]⟩ ⟨[]⟩ ()).1.2 = some "unsupported value type" ∧
    (SerializeMetric examplePointSerializers exampleAsString ""
        ⟨"requests", "", .Sum true .Delta [⟨[], 1, .Int 1⟩, ⟨[], 2, .None⟩, ⟨[], 3, .Int 3⟩]⟩
        ⟨[]⟩ ⟨[]⟩ ()).1.1 = [] ∧
    (⟨[], 2, .None⟩ : NumberDataPoint) ∈
      [(⟨[], 1, .Int 1⟩ : NumberDataPoint), ⟨[], 2, .None⟩, ⟨[], 3, .Int 3⟩] ∧
    (∀ cache, (examplePointSerializers.serializeSum "requests" ""
        (makeCombinedDimensions exampleAsString [] ⟨[]⟩ ⟨[]⟩) .Delta ⟨[], 2, .None⟩ cache).1.2
      ≠ none) ∧
    (∃ err, (SerializeMetric examplePointSerializers exampleAsString ""
        ⟨"requests", "", .Sum true .Delta [⟨[], 1, .Int 1⟩, ⟨[], 2, .None⟩, ⟨[], 3, .Int 3⟩]⟩
        ⟨[]⟩ ⟨[]⟩ ()).1 = ([], some err)) :=
  ⟨by decide,
   (SerializeMetric_error_no_lines examplePointSerializers exampleAsString "" ⟨[]⟩ ⟨[]⟩ ()).1
     ⟨"requests", "", .Sum true .Delta [⟨[], 1, .Int 1⟩, ⟨[], 2, .None⟩, ⟨[], 3, .Int 3⟩]⟩
     "unsupported value type" (by decide),
   List.mem_cons_of_mem _ (List.mem_cons_self _ _),
   fun _ => by simp [examplePointSerializers],
   (SerializeMetric_error_no_lines examplePointSerializers exampleAsString "" ⟨[]⟩ ⟨[]⟩
     ()).2.2.1 "requests" "" true .Delta
     [⟨[], 1, .Int 1⟩, ⟨[], 2, .None⟩, ⟨[], 3, .Int 3⟩] ⟨[], 2, .None⟩
     (List.mem_cons_of_mem _ (List.mem_cons_self _ _))
     (fun _ => by simp [examplePointSerializers])⟩

/-- C3 as stated fails: in a gauge metric whose first data point serializes to the line
`load gauge,1` and whose second data point fails, `SerializeMetric` returns the error
and `nil`; the line of the first data point is not returned. -/
theorem SerializeMetric_drops_sibling_lines :
    examplePointSerializers.serializeGauge "load" ""
        (makeCombinedDimensions exampleAsString [] ⟨[]⟩ ⟨[]⟩) ⟨[], 1, .Int 1⟩
      = ("load gauge,1", none) ∧
    SerializeMetric examplePointSerializers exampleAsString ""
        ⟨"load", "", .Gauge [⟨[], 1, .Int 1⟩, ⟨[], 2, .None⟩]⟩ ⟨[]⟩ ⟨[]⟩ ()
      = (([], some "unsupported value type"), ()) :=
  ⟨by decide, by decide⟩

end serialization

/-! ## Theorems: the elasticsearch `Gauge` and `Sum` encoders -/

namespace encode
open golang pdata objmodel

theorem Sum_loop (f : NumberDataPoint → String × Option error) (dps : List NumberDataPoint)
    (acc : List String × List error) :
    dps.foldl (fun acc dp =>
      if dp.Value = NumberValue.None then acc else collect acc (f dp)) acc
      = (acc.1 ++ documentsOf ((dps.filter (fun dp => dp.Value ≠ NumberValue.None)).map f),
         acc.2 ++ errorsOf ((dps.filter (fun dp => dp.Value ≠ NumberValue.None)).map f)) := by
  induction dps generalizing acc with
  | nil => simp [documentsOf, errorsOf]
  | cons dp rest ih =>
    rw [List.foldl_cons, ih]
    by_cases h : dp.Value = NumberValue.None
    · simp [h]
    · rcases hres : f dp with ⟨ser, err⟩
      cases err <;>
        simp [h, hres, collect, documentsOf, errorsOf, List.filterMap_cons]

theorem mem_documentsOf {α : Type} (f : α → String × Option error) (xs : List α)
    (doc : String) (h : doc ∈ documentsOf (xs.map f)) :
    ∃ x ∈ xs, f x = (doc, none) := by
  simp only [documentsOf, List.mem_filterMap, List.mem_map] at h
  obtain ⟨res, ⟨x, hx, rfl⟩, hres⟩ := h
  refine ⟨x, hx, ?_⟩
  rcases hfx : f x with ⟨ser, err⟩
  rw [hfx] at hres
  cases err with
  | none => simp at hres; rw [hres]
  | some e => simp at hres

theorem lookupField_sumDocument_type (resource : Resource) (lib : InstrumentationLibrary)
    (metric : Metric) (isMonotonic : Bool) (dp : NumberDataPoint) :
    lookupField (record (sumDocument resource lib metric isMonotonic dp)) "type"
      = some (.StringValue (if isMonotonic then "counter" else "gauge")) := by
  rw [lookupField_record]
  unfold sumDocument setNumberValue
  cases isMonotonic <;> cases dp.Value <;>
    simp [initCommonFields, Document.AddAttributes, Document.AddString, Document.AddInt,
      Document.AddDouble, Document.AddTimestamp, Document.Add, lookupField]

/-- C4: every document returned by `Sum` is the serialization of a record whose `type`
field is `"counter"` when the sum is monotonic and `"gauge"` when it is not. -/
theorem Sum_type_field (Serialize : Serializer) (resource : Resource)
    (lib : InstrumentationLibrary) (name unit : String) (isMonotonic : Bool)
    (temporality : AggregationTemporality) (dps : List NumberDataPoint) :
    ∃ documents errs,
      Sum Serialize resource lib ⟨name, unit, .Sum isMonotonic temporality dps⟩
        = some (documents, errs) ∧
      ∀ doc ∈ documents, ∃ dp ∈ dps,
        Serialize ⟨record (sumDocument resource lib
            ⟨name, unit, .Sum isMonotonic temporality dps⟩ isMonotonic dp)⟩ = (doc, none) ∧
        lookupField (record (sumDocument resource lib
            ⟨name, unit, .Sum isMonotonic temporality dps⟩ isMonotonic dp)) "type"
          = some (.StringValue (if isMonotonic then "counter" else "gauge")) := by
  refine ⟨documentsOf ((dps.filter (fun dp => dp.Value ≠ NumberValue.None)).map (fun dp =>
      serializeDocument Serialize (sumDocument resource lib
        ⟨name, unit, .Sum isMonotonic temporality dps⟩ isMonotonic dp))),
    errorsOf ((dps.filter (fun dp => dp.Value ≠ NumberValue.None)).map (fun dp =>
      serializeDocument Serialize (sumDocument resource lib
        ⟨name, unit, .Sum isMonotonic temporality dps⟩ isMonotonic dp))), ?_, ?_⟩
  · simp only [Sum]
    rw [Sum_loop]
    simp
  · intro doc hdoc
    obtain ⟨dp, hdp, hser⟩ := mem_documentsOf _ _ doc hdoc
    exact ⟨dp, (List.mem_filter.mp hdp).1, hser, lookupField_sumDocument_type _ _ _ _ _⟩

/-- C4 evaluated on `Test_SumCounter` and `Test_SumGauge`: the monotonic sum yields a
document of type `counter`, the non-monotonic one a document of type `gauge`. -/
theorem Sum_type_field_witness :
    (∃ documents errs,
      Sum (Serialize formatFloatSixTrim) testResource testLibrary
          ⟨"counter-metric", "", .Sum true .Unspecified [testNumberPoint]⟩
        = some (documents, errs) ∧
      ∀ doc ∈ documents, ∃ dp ∈ [testNumberPoint],
        Serialize formatFloatSixTrim ⟨record (sumDocument testResource testLibrary
            ⟨"counter-metric", "", .Sum true .Unspecified [testNumberPoint]⟩ true dp)⟩
          = (doc, none) ∧
        lookupField (record (sumDocument testResource testLibrary
            ⟨"counter-metric", "", .Sum true .Unspecified [testNumberPoint]⟩ true dp)) "type"
          = some (.StringValue "counter")) ∧
    Sum (Serialize formatFloatSixTrim) testResource testLibrary
        ⟨"counter-metric", "", .Sum true .Unspecified [testNumberPoint]⟩
      = some (["\x7b\"@timestamp\":\"2022-01-01T10:00:05.000000123Z\",\"instrumentationLibrary\":\x7b\"name\":\"instlib\",\"version\":\"v1\"\x7d,\"name\":\"counter-metric\",\"type\":\"counter\",\"value\":1\x7d"], []) ∧
    Sum (Serialize formatFloatSixTrim) testResource testLibrary
        ⟨"gauge-metric", "", .Sum false .Unspecified [testNumberPoint]⟩
      = some (["\x7b\"@timestamp\":\"2022-01-01T10:00:05.000000123Z\",\"instrumentationLibrary\":\x7b\"name\":\"instlib\",\"version\":\"v1\"\x7d,\"name\":\"gauge-metric\",\"type\":\"gauge\",\"value\":1\x7d"], []) :=
  ⟨Sum_type_field (Serialize formatFloatSixTrim) testResource testLibrary "counter-metric" ""
     true .Unspecified [testNumberPoint],
   by decide, by decide⟩

/-- C5 (amended): `Sum` accounts for one record per data point that holds a value; data
points whose value type is none are skipped without a document or an error.  The number
of returned documents plus the number of returned errors is the number of data points
whose value type is not none. -/
theorem Sum_record_count (Serialize : Serializer) (resource : Resource)
    (lib : InstrumentationLibrary) (name unit : String) (isMonotonic : Bool)
    (temporality : AggregationTemporality) (dps : List NumberDataPoint) :
    ∃ documents errs,
      Sum Serialize resource lib ⟨name, unit, .Sum isMonotonic temporality dps⟩
        = some (documents, errs) ∧
      documents.length + errs.length
        = (dps.filter (fun dp => dp.Value ≠ NumberValue.None)).length := by
  refine ⟨documentsOf ((dps.filter (fun dp => dp.Value ≠ NumberValue.None)).map (fun dp =>
      serializeDocument Serialize (sumDocument resource lib
        ⟨name, unit, .Sum isMonotonic temporality dps⟩ isMonotonic dp))),
    errorsOf ((dps.filter (fun dp => dp.Value ≠ NumberValue.None)).map (fun dp =>
      serializeDocument Serialize (sumDocument resource lib
        ⟨name, unit, .Sum isMonotonic temporality dps⟩ isMonotonic dp))), ?_, ?_⟩
  · simp only [Sum]
    rw [Sum_loop]
    simp
  · rw [documentsOf_length_add_errorsOf_length, List.length_map]

/-- C5 as stated fails: a sum metric with one data point on which no value was set
yields no document and no error, so documents plus errors is 0 and not 1. -/
theorem Sum_skips_point_without_value :
    Sum (Serialize formatFloatSixTrim) testResource testLibrary
        ⟨"counter-metric", "", .Sum true .Unspecified [emptyNumberPoint]⟩
      = some ([], []) :=
  by decide

theorem Gauge_loop (f : NumberDataPoint → String × Option error) (dps : List NumberDataPoint) :
    dps.foldl (fun acc dp => collect acc (f dp)) ([], [])
      = (documentsOf (dps.map f), errorsOf (dps.map f)) := by
  rw [collect_foldl_map]
  simp

/-- C6: `Gauge` accounts for one record per data point: the number of returned documents
plus the number of returned errors equals the number of data points. -/
theorem Gauge_record_count (Serialize : Serializer) (resource : Resource)
    (lib : InstrumentationLibrary) (name unit : String) (dps : List NumberDataPoint) :
    ∃ documents errs,
      Gauge Serialize resource lib ⟨name, unit, .Gauge dps⟩ = some (documents, errs) ∧
      documents.length + errs.length = dps.length := by
  refine ⟨documentsOf (dps.map (fun dp =>
      serializeDocument Serialize (gaugeDocument resource lib ⟨name, unit, .Gauge dps⟩ dp))),
    errorsOf (dps.map (fun dp =>
      serializeDocument Serialize (gaugeDocument resource lib ⟨name, unit, .Gauge dps⟩ dp))),
    ?_, ?_⟩
  · simp only [Gauge]
    rw [Gauge_loop]
  · rw [documentsOf_length_add_errorsOf_length, List.length_map]

end encode

/-! ## Theorems: the elasticsearch `Summary` encoder -/

namespace encode
open golang pdata objmodel

theorem Get_eq_none_iff (am : AttributeMap) (key : String) :
    AttributeMap.Get am key = none ↔ am.any (fun e => e.1 == key) = false := by
  induction am with
  | nil => simp [AttributeMap.Get]
  | cons kv rest ih =>
    by_cases h : kv.1 = key
    · simp [AttributeMap.Get, h]
    · have hb : (kv.1 == key) = false := by simpa using h
      simp only [AttributeMap.Get, h, if_false, ih, List.any_cons, hb, Bool.false_or]

theorem Get_append (am bm : AttributeMap) (key : String) :
    AttributeMap.Get (am ++ bm) key
      = match AttributeMap.Get am key with
        | some v => some v
        | none => AttributeMap.Get bm key := by
  induction am with
  | nil => simp [AttributeMap.Get]
  | cons kv rest ih =>
    by_cases h : kv.1 = key
    · simp [AttributeMap.Get, h]
    · simpa [AttributeMap.Get, h] using ih

theorem Get_Insert (am : AttributeMap) (k : String) (v : AttributeValue) (key : String) :
    AttributeMap.Get (am.Insert k v) key
      = match AttributeMap.Get am key with
        | some x => some x
        | none => if k = key then some v else none := by
  unfold AttributeMap.Insert
  by_cases hany : am.any (fun e => e.1 == k) = true
  · simp only [hany, if_true]
    cases hget : AttributeMap.Get am key with
    | some x => rfl
    | none =>
      have hne : ¬ k = key := by
        intro hk
        rw [← hk, Get_eq_none_iff] at hget
        rw [hget] at hany
        cases hany
      simp [hne]
  · simp only [hany]
    rw [if_neg (by simp), Get_append]
    cases AttributeMap.Get am key with
    | some x => rfl
    | none => by_cases hk : k = key <;> simp [AttributeMap.Get, hk]

theorem Insert_keys_nodup (am : AttributeMap) (k : String) (v : AttributeValue)
    (h : (am.map (fun e => e.1)).Nodup) : ((am.Insert k v).map (fun e => e.1)).Nodup := by
  unfold AttributeMap.Insert
  split
  · exact h
  · rename_i hany
    rw [List.map_append]
    refine List.Nodup.append h (List.nodup_singleton _) ?_
    intro key hkey hk
    obtain ⟨e, he, hek⟩ := List.mem_map.mp hkey
    have hkk : key = k := by simpa using hk
    apply hany
    exact List.any_eq_true.mpr ⟨e, he, by simp [hek, hkk]⟩

theorem quantile_foldl (FormatFloat : Float64 → String) (qv : List ValueAtQuantile)
    (acc : AttributeMap) (hacc : (acc.map (fun e => e.1)).Nodup) :
    ((qv.foldl (fun quantiles qvj =>
        quantiles.InsertDouble (quantileKey FormatFloat qvj.Quantile) qvj.Value)
        acc).map (fun e => e.1)).Nodup ∧
    ∀ key, AttributeMap.Get (qv.foldl (fun quantiles qvj =>
        quantiles.InsertDouble (quantileKey FormatFloat qvj.Quantile) qvj.Value) acc) key
      = match AttributeMap.Get acc key with
        | some x => some x
        | none => (valueAtKey FormatFloat qv key).map AttributeValue.Double := by
  induction qv generalizing acc with
  | nil =>
    refine ⟨hacc, fun key => ?_⟩
    simp only [List.foldl_nil]
    cases AttributeMap.Get acc key <;> simp [valueAtKey]
  | cons q rest ih =>
    have hins := Insert_keys_nodup acc (quantileKey FormatFloat q.Quantile) (.Double q.Value) hacc
    obtain ⟨hnd, hget⟩ := ih (acc.InsertDouble (quantileKey FormatFloat q.Quantile) q.Value) hins
    refine ⟨hnd, fun key => ?_⟩
    rw [List.foldl_cons, hget key]
    unfold AttributeMap.InsertDouble
    rw [Get_Insert]
    cases AttributeMap.Get acc key with
    | some x => rfl
    | none =>
      by_cases hk : quantileKey FormatFloat q.Quantile = key <;> simp [valueAtKey, hk]

/-- The quantile group built by `Summary`: its keys are distinct, and under each key it
holds the value of the first quantile with that key. -/
theorem quantileAttributes_spec (FormatFloat : Float64 → String) (qv : List ValueAtQuantile) :
    ((quantileAttributes FormatFloat qv).map (fun e => e.1)).Nodup ∧
    ∀ key, AttributeMap.Get (quantileAttributes FormatFloat qv) key
      = (valueAtKey FormatFloat qv key).map AttributeValue.Double := by
  have h := quantile_foldl FormatFloat qv NewAttributeMap (by simp [NewAttributeMap])
  exact ⟨h.1, fun key => by rw [quantileAttributes, h.2 key]; simp [NewAttributeMap, AttributeMap.Get]⟩

theorem valueAtKey_isSome_of_mem (FormatFloat : Float64 → String) (qv : List ValueAtQuantile)
    (q : ValueAtQuantile) (hq : q ∈ qv) :
    ∃ v, valueAtKey FormatFloat qv (quantileKey FormatFloat q.Quantile) = some v := by
  induction qv with
  | nil => cases hq
  | cons p rest ih =>
    by_cases hk : quantileKey FormatFloat p.Quantile = quantileKey FormatFloat q.Quantile
    · exact ⟨p.Value, by simp [valueAtKey, hk]⟩
    · rcases List.mem_cons.mp hq with rfl | hmem
      · exact absurd rfl hk
      · obtain ⟨v, hv⟩ := ih hmem
        exact ⟨v, by simp [valueAtKey, hk, hv]⟩

theorem lookupField_summaryDocument (FormatFloat : Float64 → String) (resource : Resource)
    (lib : InstrumentationLibrary) (metric : Metric) (dp : SummaryDataPoint) :
    lookupField (record (summaryDocument FormatFloat resource lib metric dp)) "count"
      = some (.UIntValue dp.Count) ∧
    lookupField (record (summaryDocument FormatFloat resource lib metric dp)) "sum"
      = some (.DoubleValue dp.Sum) ∧
    lookupField (record (summaryDocument FormatFloat resource lib metric dp)) "type"
      = some (.StringValue "summary") ∧
    lookupField (record (summaryDocument FormatFloat resource lib metric dp)) "quantileValues"
      = some (.AttributesValue (quantileAttributes FormatFloat dp.QuantileValues)) := by
  simp only [lookupField_record]
  simp [summaryDocument, initCommonFields, Document.AddAttributes, Document.AddString,
    Document.AddUInt, Document.AddDouble, Document.AddTimestamp, Document.Add, lookupField]

/-- C8 (amended): for a summary data point, whatever the number `q` of its quantile
values, `Summary` builds one record for the point, not one per quantile (the results are
one per data point, in order).  That record carries the point's count, its sum, and one
`quantileValues` group in which every quantile of the point has an entry under its key. -/
theorem Summary_one_record_per_point (FormatFloat : Float64 → String) (Serialize : Serializer)
    (resource : Resource) (lib : InstrumentationLibrary) (name unit : String)
    (dps : List SummaryDataPoint) :
    Summary FormatFloat Serialize resource lib ⟨name, unit, .Summary dps⟩
      = some
        (documentsOf (dps.map (fun dp => serializeDocument Serialize
          (summaryDocument FormatFloat resource lib ⟨name, unit, .Summary dps⟩ dp))),
         errorsOf (dps.map (fun dp => serializeDocument Serialize
          (summaryDocument FormatFloat resource lib ⟨name, unit, .Summary dps⟩ dp)))) ∧
    ∀ dp : SummaryDataPoint,
      lookupField (record (summaryDocument FormatFloat resource lib
          ⟨name, unit, .Summary dps⟩ dp)) "count" = some (.UIntValue dp.Count) ∧
      lookupField (record (summaryDocument FormatFloat resource lib
          ⟨name, unit, .Summary dps⟩ dp)) "sum" = some (.DoubleValue dp.Sum) ∧
      ∃ group : AttributeMap,
        lookupField (record (summaryDocument FormatFloat resource lib
          ⟨name, unit, .Summary dps⟩ dp)) "quantileValues" = some (.AttributesValue group) ∧
        ∀ q ∈ dp.QuantileValues, ∃ v,
          AttributeMap.Get group (quantileKey FormatFloat q.Quantile) = some (.Double v) := by
  constructor
  · simp only [Summary]
    rw [collect_foldl_map]
    simp
  · intro dp
    obtain ⟨hc, hs, _, hq⟩ := lookupField_summaryDocument FormatFloat resource lib
      ⟨name, unit, .Summary dps⟩ dp
    refine ⟨hc, hs, _, hq, ?_⟩
    intro q hmem
    obtain ⟨v, hv⟩ := valueAtKey_isSome_of_mem FormatFloat dp.QuantileValues q hmem
    exact ⟨v, by rw [(quantileAttributes_spec FormatFloat dp.QuantileValues).2, hv]; rfl⟩

/-- C8 evaluated on the data point of `Test_Summary`: its record carries count 1, sum
10.1, and a `quantileValues` group with an entry for the quantile 0.9 and one for 0.95. -/
theorem Summary_one_record_per_point_witness :
    float0_9 ∈ testSummaryPoint.QuantileValues.map (fun q => q.Quantile) ∧
    lookupField (record (summaryDocument formatFloatSixTrim testResource testLibrary
        ⟨"summary-metric", "", .Summary [testSummaryPoint]⟩ testSummaryPoint)) "count"
      = some (.UIntValue 1) ∧
    lookupField (record (summaryDocument formatFloatSixTrim testResource testLibrary
        ⟨"summary-metric", "", .Summary [testSummaryPoint]⟩ testSummaryPoint)) "sum"
      = some (.DoubleValue float10_1) ∧
    ∃ group : AttributeMap,
      lookupField (record (summaryDocument formatFloatSixTrim testResource testLibrary
        ⟨"summary-metric", "", .Summary [testSummaryPoint]⟩ testSummaryPoint)) "quantileValues"
        = some (.AttributesValue group) ∧
      ∀ q ∈ testSummaryPoint.QuantileValues, ∃ v,
        AttributeMap.Get group (quantileKey formatFloatSixTrim q.Quantile) = some (.Double v) :=
  ⟨by decide,
   (Summary_one_record_per_point formatFloatSixTrim (Serialize formatFloatSixTrim) testResource
      testLibrary "summary-metric" "" [testSummaryPoint]).2 testSummaryPoint⟩

/-- C8 as stated fails: the data point of `Test_Summary` has two quantile values and
`Summary` returns one document for it (the one the test asserts), not two. -/
theorem Summary_two_quantiles_one_document :
    testSummaryPoint.QuantileValues.length = 2 ∧
    Summary formatFloatSixTrim (Serialize formatFloatSixTrim) testResource testLibrary
        ⟨"summary-metric", "", .Summary [testSummaryPoint]⟩
      = some (["\x7b\"@timestamp\":\"2022-01-01T10:00:05.000000123Z\",\"attributes\":\x7b\"dpLabel\":\"val1\"\x7d,\"count\":1,\"instrumentationLibrary\":\x7b\"name\":\"instlib\",\"version\":\"v1\"\x7d,\"name\":\"summary-metric\",\"quantileValues\":\x7b\"0_9\":10.2,\"0_95\":10.5\x7d,\"sum\":10.1,\"type\":\"summary\"\x7d"], []) :=
  ⟨by decide, by decide⟩

theorem documentsOf_map_of_ok {α : Type} (f : α → String × Option error) (xs : List α)
    (h : ∀ x ∈ xs, (f x).2 = none) :
    documentsOf (xs.map f) = xs.map (fun x => (f x).1) ∧ errorsOf (xs.map f) = [] := by
  induction xs with
  | nil => simp [documentsOf, errorsOf]
  | cons x rest ih =>
    have hx : (f x).2 = none := h x (List.mem_cons_self _ _)
    obtain ⟨hd, he⟩ := ih (fun y hy => h y (List.mem_cons_of_mem _ hy))
    simp only [documentsOf, errorsOf] at hd he ⊢
    constructor
    · simp only [List.map_cons, List.filterMap_cons, hx, hd]
    · simp only [List.map_cons, List.filterMap_cons, hx, he]

/-- C9: on a summary metric with data points `dps`, `Summary` returns, in point order, the
serialization of one record per data point: the documents are the serializations that
succeed and the errors those that fail, so their counts sum to the number of data
points, whatever the number of quantiles, and when no serialization fails there is
exactly one document per data point.  The record of a data point carries the point's
count, its sum, the type `"summary"` and a single `quantileValues` group; the keys of the
group are distinct, and under each key the group holds the value of the quantile with
that key (of the first one, should two quantiles of the point have the same key). -/
theorem Summary_documents (FormatFloat : Float64 → String) (Serialize : Serializer)
    (resource : Resource) (lib : InstrumentationLibrary) (name unit : String)
    (dps : List SummaryDataPoint) :
    Summary FormatFloat Serialize resource lib ⟨name, unit, .Summary dps⟩
      = some
        (documentsOf (dps.map (fun dp => Serialize ⟨record (summaryDocument FormatFloat
          resource lib ⟨name, unit, .Summary dps⟩ dp)⟩)),
         errorsOf (dps.map (fun dp => Serialize ⟨record (summaryDocument FormatFloat
          resource lib ⟨name, unit, .Summary dps⟩ dp)⟩))) ∧
    (documentsOf (dps.map (fun dp => Serialize ⟨record (summaryDocument FormatFloat
          resource lib ⟨name, unit, .Summary dps⟩ dp)⟩))).length
      + (errorsOf (dps.map (fun dp => Serialize ⟨record (summaryDocument FormatFloat
          resource lib ⟨name, unit, .Summary dps⟩ dp)⟩))).length = dps.length ∧
    ((∀ dp ∈ dps, (Serialize ⟨record (summaryDocument FormatFloat resource lib
          ⟨name, unit, .Summary dps⟩ dp)⟩).2 = none) →
      Summary FormatFloat Serialize resource lib ⟨name, unit, .Summary dps⟩
        = some (dps.map (fun dp => (Serialize ⟨record (summaryDocument FormatFloat
            resource lib ⟨name, unit, .Summary dps⟩ dp)⟩).1), [])) ∧
    (∀ doc, doc ∈ documentsOf (dps.map (fun dp => Serialize ⟨record (summaryDocument
          FormatFloat resource lib ⟨name, unit, .Summary dps⟩ dp)⟩)) ↔
      ∃ dp ∈ dps, Serialize ⟨record (summaryDocument FormatFloat resource lib
          ⟨name, unit, .Summary dps⟩ dp)⟩ = (doc, none)) ∧
    ∀ dp : SummaryDataPoint,
      lookupField (record (summaryDocument FormatFloat resource lib
          ⟨name, unit, .Summary dps⟩ dp)) "count" = some (.UIntValue dp.Count) ∧
      lookupField (record (summaryDocument FormatFloat resource lib
          ⟨name, unit, .Summary dps⟩ dp)) "sum" = some (.DoubleValue dp.Sum) ∧
      lookupField (record (summaryDocument FormatFloat resource lib
          ⟨name, unit, .Summary dps⟩ dp)) "type" = some (.StringValue "summary") ∧
      lookupField (record (summaryDocument FormatFloat resource lib
          ⟨name, unit, .Summary dps⟩ dp)) "quantileValues"
        = some (.AttributesValue (quantileAttributes FormatFloat dp.QuantileValues)) ∧
      ((quantileAttributes FormatFloat dp.QuantileValues).map (fun e => e.1)).Nodup ∧
      ∀ key, AttributeMap.Get (quantileAttributes FormatFloat dp.QuantileValues) key
        = (valueAtKey FormatFloat dp.QuantileValues key).map AttributeValue.Double := by
  have hrun : Summary FormatFloat Serialize resource lib ⟨name, unit, .Summary dps⟩
      = some
        (documentsOf (dps.map (fun dp => Serialize ⟨record (summaryDocument FormatFloat
          resource lib ⟨name, unit, .Summary dps⟩ dp)⟩)),
         errorsOf (dps.map (fun dp => Serialize ⟨record (summaryDocument FormatFloat
          resource lib ⟨name, unit, .Summary dps⟩ dp)⟩))) := by
    simp only [Summary]
    rw [collect_foldl_map]
    simp
    constructor <;> rfl
  refine ⟨hrun, ?_, ?_, ?_, ?_⟩
  · rw [documentsOf_length_add_errorsOf_length, List.length_map]
  · intro hok
    obtain ⟨hd, he⟩ := documentsOf_map_of_ok (fun dp => Serialize ⟨record (summaryDocument
      FormatFloat resource lib ⟨name, unit, .Summary dps⟩ dp)⟩) dps hok
    rw [hrun, hd, he]
  · intro doc
    constructor
    · intro hdoc
      exact mem_documentsOf _ _ doc hdoc
    · rintro ⟨dp, hdp, hser⟩
      simp only [documentsOf, List.mem_filterMap, List.mem_map]
      exact ⟨_, ⟨dp, hdp, rfl⟩, by rw [hser]⟩
  · intro dp
    obtain ⟨hc, hs, ht, hq⟩ := lookupField_summaryDocument FormatFloat resource lib
      ⟨name, unit, .Summary dps⟩ dp
    exact ⟨hc, hs, ht, hq, quantileAttributes_spec FormatFloat dp.QuantileValues⟩

/-- C9 evaluated on `Test_Summary`: the data point with quantiles 0.9 and 0.95 serializes
without error, and `Summary` returns the one document the test asserts and no error;
the `quantileValues` group of that document is `0_9 ↦ 10.2`, `0_95 ↦ 10.5`. -/
theorem Summary_documents_witness :
    (∀ dp ∈ [testSummaryPoint], (Serialize formatFloatSixTrim ⟨record (summaryDocument
        formatFloatSixTrim testResource testLibrary
        ⟨"summary-metric", "", .Summary [testSummaryPoint]⟩ dp)⟩).2 = none) ∧
    Summary formatFloatSixTrim (Serialize formatFloatSixTrim) testResource testLibrary
        ⟨"summary-metric", "", .Summary [testSummaryPoint]⟩
      = some (["\x7b\"@timestamp\":\"2022-01-01T10:00:05.000000123Z\",\"attributes\":\x7b\"dpLabel\":\"val1\"\x7d,\"count\":1,\"instrumentationLibrary\":\x7b\"name\":\"instlib\",\"version\":\"v1\"\x7d,\"name\":\"summary-metric\",\"quantileValues\":\x7b\"0_9\":10.2,\"0_95\":10.5\x7d,\"sum\":10.1,\"type\":\"summary\"\x7d"], []) ∧
    quantileAttributes formatFloatSixTrim testSummaryPoint.QuantileValues
      = [("0_9", .Double float10_2), ("0_95", .Double float10_5)] ∧
    renderValue formatFloatSixTrim
        (.AttributesValue (quantileAttributes formatFloatSixTrim testSummaryPoint.QuantileValues))
      = some "\x7b\"0_9\":10.2,\"0_95\":10.5\x7d" :=
  ⟨by decide,
   ((Summary_documents formatFloatSixTrim (Serialize formatFloatSixTrim) testResource
      testLibrary "summary-metric" "" [testSummaryPoint]).2.2.1 (by decide)).trans (by decide),
   by rfl, by decide⟩

end encode

/-! ## Theorems: the quantile key -/

namespace encode
open golang pdata objmodel

theorem map_replace_injective (old new : Char) :
    ∀ (l₁ l₂ : List Char), new ∉ l₁ → new ∉ l₂ →
      l₁.map (fun c => if c = old then new else c) = l₂.map (fun c => if c = old then new else c) →
      l₁ = l₂
  | [], [], _, _, _ => rfl
  | [], _ :: _, _, _, h => by simp at h
  | _ :: _, [], _, _, h => by simp at h
  | a :: l₁, b :: l₂, h₁, h₂, h => by
    simp only [List.map_cons, List.cons.injEq] at h
    have ha : ¬ new = a := fun e => h₁ (e ▸ List.mem_cons_self _ _)
    have hb : ¬ new = b := fun e => h₂ (e ▸ List.mem_cons_self _ _)
    have htail := map_replace_injective old new l₁ l₂
      (fun hm => h₁ (List.mem_cons_of_mem _ hm)) (fun hm => h₂ (List.mem_cons_of_mem _ hm)) h.2
    have hhead : a = b := by
      have h1 := h.1
      by_cases hao : a = old <;> by_cases hbo : b = old
      · rw [hao, hbo]
      · simp only [hao, hbo, if_true, if_false] at h1
        exact absurd h1 hb
      · simp only [hao, hbo, if_true, if_false] at h1
        exact absurd h1.symm ha
      · simpa [hao, hbo] using h1
    rw [hhead, htail]

theorem ReplaceChar_not_mem (s : String) (old new : Char) (h : old ≠ new) :
    old ∉ (ReplaceChar s old new).data := by
  simp only [ReplaceChar, List.mem_map, not_exists, not_and]
  intro c _ hc
  by_cases hco : c = old
  · simp only [hco, if_true] at hc
    exact h hc.symm
  · simp only [hco, if_false] at hc

/-- C10: the quantile key of `Summary` is the decimal rendering of the quantile with
every `.` replaced by `_`.  A quantile rendered `0.9` gets the key `0_9` and one rendered
`0.95` the key `0_95`; no key contains a `.`; and two quantiles with different decimal
renderings (in which no `_` occurs) never get the same key. -/
theorem quantileKey_spec (FormatFloat : Float64 → String) :
    (∀ q, FormatFloat q = "0.9" → quantileKey FormatFloat q = "0_9") ∧
    (∀ q, FormatFloat q = "0.95" → quantileKey FormatFloat q = "0_95") ∧
    (∀ q, '.' ∉ (quantileKey FormatFloat q).data) ∧
    (∀ q₁ q₂, '_' ∉ (FormatFloat q₁).data → '_' ∉ (FormatFloat q₂).data →
      FormatFloat q₁ ≠ FormatFloat q₂ →
      quantileKey FormatFloat q₁ ≠ quantileKey FormatFloat q₂) := by
  refine ⟨?_, ?_, ?_, ?_⟩
  · intro q h
    rw [quantileKey, h]
    decide
  · intro q h
    rw [quantileKey, h]
    decide
  · intro q
    exact ReplaceChar_not_mem _ '.' '_' (by decide)
  · intro q₁ q₂ h₁ h₂ hne hkey
    apply hne
    have hdata := congrArg String.data hkey
    simp only [quantileKey, ReplaceChar] at hdata
    exact String.ext (map_replace_injective '.' '_' _ _ h₁ h₂ hdata)

/-- C10 evaluated on the quantiles 0.9 and 0.95 of `Test_Summary`: the keys are `0_9`
and `0_95`, and they differ. -/
theorem quantileKey_spec_witness :
    formatFloatSixTrim float0_9 = "0.9" ∧
    formatFloatSixTrim float0_95 = "0.95" ∧
    quantileKey formatFloatSixTrim float0_9 = "0_9" ∧
    quantileKey formatFloatSixTrim float0_95 = "0_95" ∧
    quantileKey formatFloatSixTrim float0_9 ≠ quantileKey formatFloatSixTrim float0_95 :=
  ⟨by decide, by decide,
   (quantileKey_spec formatFloatSixTrim).1 float0_9 (by decide),
   (quantileKey_spec formatFloatSixTrim).2.1 float0_95 (by decide),
   (quantileKey_spec formatFloatSixTrim).2.2.2 float0_9 float0_95 (by decide) (by decide)
     (by decide)⟩

end encode

/-! ## Lemmas: decoding the reference rendering -/

namespace encode
open golang pdata objmodel

theorem quote_data (s : String) : (quote s).data = '"' :: (escapeChars s.data ++ ['"']) := by
  simp [quote, escapeChars, String.data_append]

theorem parseString_escapeChars (l rest : List Char) :
    parseString (escapeChars l ++ '"' :: rest) = some (l, rest) := by
  unfold parseString
  induction l with
  | nil => simp [escapeChars, parseChars]
  | cons c l ih =>
    have hcons : escapeChars (c :: l)
        = (if c = '"' then ['\\', '"'] else if c = '\\' then ['\\', '\\'] else [c])
          ++ escapeChars l := by
      simp [escapeChars]
    rw [hcons]
    by_cases h1 : c = '"'
    · subst h1
      simp [parseChars, ih]
    · by_cases h2 : c = '\\'
      · subst h2
        simp [parseChars, ih]
      · simp [h1, h2, parseChars, ih]

theorem digitChar_spec (k : Nat) (hk : k < 10) :
    '0' ≤ Nat.digitChar k ∧ Nat.digitChar k ≤ '9' ∧
    (Nat.digitChar k).toNat - '0'.toNat = k ∧ isDelimiter (Nat.digitChar k) = false := by
  interval_cases k <;> decide

theorem parseDigits_toDigitsCore (fuel n : Nat) (ds : List Char) (h : n < fuel) :
    parseDigits (Nat.toDigitsCore 10 fuel n ds) 0 = parseDigits ds n := by
  induction fuel generalizing n ds with
  | zero => omega
  | succ fuel ih =>
    have hd := digitChar_spec (n % 10) (Nat.mod_lt _ (by decide))
    unfold Nat.toDigitsCore
    simp only []
    by_cases h0 : n / 10 = 0
    · simp only [h0, if_true]
      have hn : n % 10 = n := Nat.mod_eq_of_lt (by omega)
      rw [hn] at hd ⊢
      simp only [parseDigits, hd.1, hd.2.1, and_self, if_true, hd.2.2.1, Nat.zero_mul,
        Nat.zero_add]
    · simp only [h0, if_false]
      rw [ih (n / 10) _ (by omega)]
      simp only [parseDigits, hd.1, hd.2.1, and_self, if_true, hd.2.2.1]
      congr 1
      omega

theorem parseDigits_repr (n : Nat) : parseDigits (Nat.repr n).data 0 = some n := by
  have := parseDigits_toDigitsCore (n + 1) n [] (by omega)
  simpa [Nat.repr, Nat.toDigits, List.asString, parseDigits] using this

theorem toDigitsCore_chars (fuel n : Nat) (ds : List Char) :
    ∀ c ∈ Nat.toDigitsCore 10 fuel n ds, (∃ k, k < 10 ∧ c = Nat.digitChar k) ∨ c ∈ ds := by
  induction fuel generalizing n ds with
  | zero => intro c hc; right; simpa [Nat.toDigitsCore] using hc
  | succ fuel ih =>
    intro c hc
    unfold Nat.toDigitsCore at hc
    simp only [] at hc
    split at hc
    · rcases List.mem_cons.mp hc with rfl | hc
      · exact Or.inl ⟨n % 10, Nat.mod_lt _ (by decide), rfl⟩
      · exact Or.inr hc
    · rcases ih _ _ c hc with h | h
      · exact Or.inl h
      · rcases List.mem_cons.mp h with rfl | h
        · exact Or.inl ⟨n % 10, Nat.mod_lt _ (by decide), rfl⟩
        · exact Or.inr h

theorem repr_chars (n : Nat) : ∀ c ∈ (Nat.repr n).data, ∃ k, k < 10 ∧ c = Nat.digitChar k := by
  intro c hc
  have : c ∈ Nat.toDigitsCore 10 (n + 1) n [] := by
    simpa [Nat.repr, Nat.toDigits, List.asString] using hc
  rcases toDigitsCore_chars _ _ _ c this with h | h
  · exact h
  · cases h

theorem toDigitsCore_ne_nil (fuel n : Nat) (ds : List Char) (h : 0 < fuel) :
    Nat.toDigitsCore 10 fuel n ds ≠ [] := by
  induction fuel generalizing n ds with
  | zero => omega
  | succ fuel ih =>
    unfold Nat.toDigitsCore
    simp only []
    split
    · simp
    · cases fuel with
      | zero => simp [Nat.toDigitsCore]
      | succ fuel => exact ih _ _ (by omega)

theorem repr_ne_nil (n : Nat) : (Nat.repr n).data ≠ [] := by
  have := toDigitsCore_ne_nil (n + 1) n [] (by omega)
  simpa [Nat.repr, Nat.toDigits, List.asString] using this

theorem takeWhile_append_of_all {p : Char → Bool} (cs rest : List Char)
    (hcs : ∀ c ∈ cs, p c = true) (hrest : ∀ c ∈ rest.head?, p c = false) :
    (cs ++ rest).takeWhile p = cs ∧ (cs ++ rest).dropWhile p = rest := by
  induction cs with
  | nil =>
    cases rest with
    | nil => simp
    | cons r rest =>
      have hr : p r = false := hrest r (by simp)
      simp [List.takeWhile, List.dropWhile, hr]
  | cons c cs ih =>
    have hc : p c = true := hcs c (List.mem_cons_self _ _)
    have := ih (fun d hd => hcs d (List.mem_cons_of_mem _ hd))
    simp [List.takeWhile, List.dropWhile, hc, this.1, this.2]

theorem parseValue_token (s : String) (hs : IsToken s) (fuel : Nat) (rest : List Char)
    (hfuel : 0 < fuel) (hrest : EndsValue rest) :
    parseValue fuel (s.data ++ rest) = some (.token s, rest) := by
  obtain ⟨hne, hall⟩ := hs
  cases fuel with
  | zero => omega
  | succ fuel =>
    rcases hdata : s.data with _ | ⟨c, cs⟩
    · exact absurd hdata hne
    · have hc : isDelimiter c = false := hall c (by rw [hdata]; exact List.mem_cons_self _ _)
      have hcs : ∀ d ∈ cs, (!isDelimiter d) = true := fun d hd => by
        rw [hall d (by rw [hdata]; exact List.mem_cons_of_mem _ hd)]; rfl
      have hr : ∀ d ∈ rest.head?, (!isDelimiter d) = false := fun d hd => by
        rw [hrest d hd]; rfl
      have htd := takeWhile_append_of_all cs rest hcs hr
      have h1 : ¬ c = '"' := by rintro rfl; simp [isDelimiter] at hc
      have h2 : ¬ c = '\x7b' := by rintro rfl; simp [isDelimiter] at hc
      have h3 : ¬ c = '[' := by rintro rfl; simp [isDelimiter] at hc
      have hstr : s = String.mk (c :: cs) := by
        rw [← hdata]
      simp only [List.cons_append, parseValue, h1, h2, h3, if_false, hc, htd.1, htd.2]
      rw [hstr]
      simp

theorem parseValue_quote (s : String) (fuel : Nat) (rest : List Char) (hfuel : 0 < fuel) :
    parseValue fuel ((quote s).data ++ rest) = some (.str s, rest) := by
  cases fuel with
  | zero => omega
  | succ fuel =>
    rw [quote_data]
    simp only [List.cons_append, List.append_assoc, List.singleton_append, parseValue, if_true,
      parseString_escapeChars]
    simp

theorem parseMembers_join {α : Type} (key : α → String) (rend : α → Option String)
    (js : α → JSON) (xs : List α)
    (hxs : ∀ x ∈ xs, ∀ s, rend x = some s → ∀ fuel rest, s.data.length < fuel →
      EndsValue rest → parseValue fuel (s.data ++ rest) = some (js x, rest))
    (hne : xs ≠ []) (s : String)
    (hjoin : joinMembers (xs.map (fun x => (rend x).map (fun s => quote (key x) ++ ":" ++ s)))
      = some s)
    (fuel : Nat) (rest : List Char) (hfuel : s.data.length < fuel) :
    parseMembers fuel (s.data ++ '\x7d' :: rest) = some (xs.map (fun x => (key x, js x)), rest) := by
  induction xs generalizing s fuel with
  | nil => exact absurd rfl hne
  | cons x xs ih =>
    cases fuel with
    | zero => omega
    | succ fuel =>
      cases hr : rend x with
      | none =>
        cases xs <;> simp [joinMembers, hr] at hjoin
      | some vs =>
        have hx := hxs x (List.mem_cons_self _ _) vs hr
        cases xs with
        | nil =>
          simp only [List.map_cons, List.map_nil, joinMembers, hr, Option.map_some',
            Option.some.injEq] at hjoin
          subst hjoin
          have hlen : vs.data.length < fuel := by
            simp only [String.data_append, List.length_append, quote_data, List.length_cons] at hfuel
            omega
          have hv := hx fuel ('\x7d' :: rest) hlen (by simp [EndsValue, isDelimiter])
          have hcolon : (":" : String).data = [':'] := rfl
          simp only [String.data_append, quote_data, List.cons_append, List.append_assoc,
            List.singleton_append, List.nil_append, parseMembers, parseString_escapeChars,
            hcolon, hv, List.map_cons, List.map_nil]
        | cons y ys =>
          simp only [List.map_cons, joinMembers, hr, Option.map_some', Option.bind_eq_bind,
            Option.some_bind] at hjoin
          cases hb : joinMembers ((rend y).map (fun s => quote (key y) ++ ":" ++ s) ::
              ys.map (fun x => (rend x).map (fun s => quote (key x) ++ ":" ++ s))) with
          | none => simp [hb] at hjoin
          | some b =>
            simp only [hb, Option.some_bind, Option.pure_def, Option.some.injEq] at hjoin
            subst hjoin
            have hcolon : (":" : String).data = [':'] := rfl
            have hcomma : ("," : String).data = [','] := rfl
            simp only [String.data_append, List.length_append, quote_data, List.length_cons,
              hcolon, hcomma] at hfuel
            have hv := hx fuel (',' :: (b.data ++ '\x7d' :: rest)) (by omega)
              (by simp [EndsValue, isDelimiter])
            have hrest := ih (fun z hz => hxs z (List.mem_cons_of_mem _ hz)) (by simp) b
              (by simpa using hb) fuel (by simp only [List.length_nil] at hfuel; omega)
            simp only [String.data_append, quote_data, List.cons_append, List.append_assoc,
              List.singleton_append, List.nil_append, parseMembers, parseString_escapeChars,
              hcolon, hcomma, hv, hrest, Option.map_some', List.map_cons]

theorem parseItems_join {α : Type} (rend : α → Option String) (js : α → JSON) (xs : List α)
    (hxs : ∀ x ∈ xs, ∀ s, rend x = some s → ∀ fuel rest, s.data.length < fuel →
      EndsValue rest → parseValue fuel (s.data ++ rest) = some (js x, rest))
    (hne : xs ≠ []) (s : String)
    (hjoin : joinMembers (xs.map rend) = some s)
    (fuel : Nat) (rest : List Char) (hfuel : s.data.length + 1 < fuel) :
    parseItems fuel (s.data ++ ']' :: rest) = some (xs.map js, rest) := by
  induction xs generalizing s fuel with
  | nil => exact absurd rfl hne
  | cons x xs ih =>
    cases fuel with
    | zero => omega
    | succ fuel =>
      cases hr : rend x with
      | none =>
        cases xs <;> simp [joinMembers, hr] at hjoin
      | some vs =>
        have hx := hxs x (List.mem_cons_self _ _) vs hr
        cases xs with
        | nil =>
          simp only [List.map_cons, List.map_nil, joinMembers, hr, Option.some.injEq] at hjoin
          subst hjoin
          have hv := hx fuel (']' :: rest) (by omega) (by simp [EndsValue, isDelimiter])
          simp only [parseItems, hv, List.map_cons, List.map_nil]
        | cons y ys =>
          simp only [List.map_cons, joinMembers, hr, Option.bind_eq_bind,
            Option.some_bind] at hjoin
          cases hb : joinMembers (rend y :: ys.map rend) with
          | none => simp [hb] at hjoin
          | some b =>
            simp only [hb, Option.some_bind, Option.pure_def, Option.some.injEq] at hjoin
            subst hjoin
            have hcomma : ("," : String).data = [','] := rfl
            simp only [String.data_append, List.length_append, hcomma, List.length_cons,
              List.length_nil] at hfuel
            have hv := hx fuel (',' :: (b.data ++ ']' :: rest)) (by omega)
              (by simp [EndsValue, isDelimiter])
            have hrest := ih (fun z hz => hxs z (List.mem_cons_of_mem _ hz)) (by simp) b
              (by simpa using hb) fuel (by omega)
            simp only [String.data_append, List.append_assoc, hcomma, List.singleton_append,
              List.cons_append, List.nil_append, parseItems, hv, hrest, Option.map_some',
              List.map_cons]

theorem renderEntries_eq_map (FormatFloat : Float64 → String) (m : List (String × AttributeValue)) :
    renderEntries FormatFloat m
      = m.map (fun kv => (renderAttributeValue FormatFloat kv.2).map
          (fun s => quote kv.1 ++ ":" ++ s)) := by
  induction m with
  | nil => simp [renderEntries]
  | cons kv rest ih =>
    rcases kv with ⟨k, v⟩
    simp [renderEntries, ih]

theorem renderItems_eq_map (FormatFloat : Float64 → String) (a : List AttributeValue) :
    renderItems FormatFloat a = a.map (renderAttributeValue FormatFloat) := by
  induction a with
  | nil => simp [renderItems]
  | cons v rest ih => simp [renderItems, ih]

theorem entriesJSON_eq_map (FormatFloat : Float64 → String) (m : List (String × AttributeValue)) :
    entriesJSON FormatFloat m = m.map (fun kv => (kv.1, attributeJSON FormatFloat kv.2)) := by
  induction m with
  | nil => simp [entriesJSON]
  | cons kv rest ih =>
    rcases kv with ⟨k, v⟩
    simp [entriesJSON, ih]

theorem itemsJSON_eq_map (FormatFloat : Float64 → String) (a : List AttributeValue) :
    itemsJSON FormatFloat a = a.map (attributeJSON FormatFloat) := by
  induction a with
  | nil => simp [itemsJSON]
  | cons v rest ih => simp [itemsJSON, ih]

theorem isToken_repr (n : Nat) : IsToken (Nat.repr n) := by
  refine ⟨repr_ne_nil n, fun c hc => ?_⟩
  obtain ⟨k, hk, rfl⟩ := repr_chars n c hc
  exact (digitChar_spec k hk).2.2.2

theorem isToken_int (i : Int) : IsToken (toString i) := by
  cases i with
  | ofNat n => exact isToken_repr n
  | negSucc n =>
    have h := isToken_repr (n + 1)
    have hs : toString (Int.negSucc n) = "-" ++ Nat.repr (n + 1) := rfl
    rw [hs]
    refine ⟨by simp [String.data_append], fun c hc => ?_⟩
    simp only [String.data_append, List.mem_append] at hc
    rcases hc with hc | hc
    · have : c = '-' := by simpa using hc
      subst this
      decide
    · exact h.2 c hc

theorem parseMembers_brace (fuel : Nat) (rest : List Char) :
    parseMembers fuel ('\x7d' :: rest) = none := by
  cases fuel <;> simp [parseMembers]

theorem parseItems_bracket (fuel : Nat) (rest : List Char) :
    parseItems fuel (']' :: rest) = none := by
  cases fuel with
  | zero => simp [parseItems]
  | succ fuel =>
    have : parseValue fuel (']' :: rest) = none := by
      cases fuel <;> simp [parseValue, isDelimiter]
    simp [parseItems, this]

theorem parseValue_object {α : Type} (key : α → String) (rend : α → Option String)
    (js : α → JSON) (xs : List α)
    (hxs : ∀ x ∈ xs, ∀ s, rend x = some s → ∀ fuel rest, s.data.length < fuel →
      EndsValue rest → parseValue fuel (s.data ++ rest) = some (js x, rest))
    (body : String)
    (hjoin : joinMembers (xs.map (fun x => (rend x).map (fun s => quote (key x) ++ ":" ++ s)))
      = some body)
    (fuel : Nat) (rest : List Char) (hfuel : body.data.length + 2 < fuel) :
    parseValue fuel (("\x7b" ++ body ++ "\x7d").data ++ rest)
      = some (.obj (xs.map (fun x => (key x, js x))), rest) := by
  cases fuel with
  | zero => omega
  | succ fuel =>
    have hopen : ("\x7b" : String).data = ['\x7b'] := rfl
    have hclose : ("\x7d" : String).data = ['\x7d'] := rfl
    simp only [String.data_append, hopen, hclose, List.singleton_append, List.cons_append,
      List.append_assoc, List.nil_append]
    cases xs with
    | nil =>
      simp only [List.map_nil, joinMembers, Option.some.injEq] at hjoin
      subst hjoin
      have hb : ("" : String).data = [] := rfl
      simp [parseValue, hb, parseMembers_brace]
    | cons x xs =>
      have hm := parseMembers_join key rend js (x :: xs) hxs (by simp) body hjoin fuel rest
        (by omega)
      simp [parseValue, hm]

theorem parseValue_array {α : Type} (rend : α → Option String) (js : α → JSON) (xs : List α)
    (hxs : ∀ x ∈ xs, ∀ s, rend x = some s → ∀ fuel rest, s.data.length < fuel →
      EndsValue rest → parseValue fuel (s.data ++ rest) = some (js x, rest))
    (body : String) (hjoin : joinMembers (xs.map rend) = some body)
    (fuel : Nat) (rest : List Char) (hfuel : body.data.length + 2 < fuel) :
    parseValue fuel (("[" ++ body ++ "]").data ++ rest) = some (.arr (xs.map js), rest) := by
  cases fuel with
  | zero => omega
  | succ fuel =>
    have hopen : ("[" : String).data = ['['] := rfl
    have hclose : ("]" : String).data = [']'] := rfl
    simp only [String.data_append, hopen, hclose, List.singleton_append, List.cons_append,
      List.append_assoc, List.nil_append]
    cases xs with
    | nil =>
      simp only [List.map_nil, joinMembers, Option.some.injEq] at hjoin
      subst hjoin
      have hb : ("" : String).data = [] := rfl
      simp [parseValue, hb, parseItems_bracket]
    | cons x xs =>
      have hm := parseItems_join rend js (x :: xs) hxs (by simp) body hjoin fuel rest (by omega)
      simp [parseValue, hm]

theorem isToken_null : IsToken "null" := ⟨by decide, by decide⟩

theorem isToken_bool (b : Bool) : IsToken (if b then "true" else "false") := by
  cases b <;> exact ⟨by decide, by decide⟩

theorem renderDouble_token (FormatFloat : Float64 → String)
    (hfmt : ∀ d : Float64, d.nonFinite = false → IsToken (FormatFloat d))
    (d : Float64) (s : String) (h : renderDouble FormatFloat d = some s) :
    s = FormatFloat d ∧ IsToken s := by
  unfold renderDouble at h
  by_cases hd : d.nonFinite = true
  · simp [hd] at h
  · have hd' : d.nonFinite = false := by simpa using hd
    simp only [hd', Bool.false_eq_true, if_false, Option.some.injEq] at h
    subst h
    exact ⟨rfl, hfmt d hd'⟩

mutual
theorem parseValue_attribute (FormatFloat : Float64 → String)
    (hfmt : ∀ d : Float64, d.nonFinite = false → IsToken (FormatFloat d)) :
    ∀ (v : AttributeValue) (s : String), renderAttributeValue FormatFloat v = some s →
      ∀ (fuel : Nat) (rest : List Char), s.data.length < fuel → EndsValue rest →
      parseValue fuel (s.data ++ rest) = some (attributeJSON FormatFloat v, rest)
  | .Empty, s, h, fuel, rest, hfuel, hrest => by
    simp only [renderAttributeValue, Option.some.injEq] at h
    subst h
    exact parseValue_token _ isToken_null fuel rest (by omega) hrest
  | .String t, s, h, fuel, rest, hfuel, _ => by
    simp only [renderAttributeValue, Option.some.injEq] at h
    subst h
    exact parseValue_quote t fuel rest (by omega)
  | .Int i, s, h, fuel, rest, hfuel, hrest => by
    simp only [renderAttributeValue, Option.some.injEq] at h
    subst h
    exact parseValue_token _ (isToken_int i) fuel rest (by omega) hrest
  | .Double d, s, h, fuel, rest, hfuel, hrest => by
    simp only [renderAttributeValue] at h
    obtain ⟨hs, htok⟩ := renderDouble_token FormatFloat hfmt d s h
    have := parseValue_token s htok fuel rest (by omega) hrest
    rw [this, attributeJSON, hs]
  | .Bool b, s, h, fuel, rest, hfuel, hrest => by
    simp only [renderAttributeValue, Option.some.injEq] at h
    subst h
    exact parseValue_token _ (isToken_bool b) fuel rest (by omega) hrest
  | .Bytes b, s, h, fuel, rest, hfuel, _ => by
    simp only [renderAttributeValue, Option.some.injEq] at h
    subst h
    exact parseValue_quote _ fuel rest (by omega)
  | .Map m, s, h, fuel, rest, hfuel, _ => by
    simp only [renderAttributeValue, renderEntries_eq_map] at h
    cases hb : joinMembers (m.map (fun kv => (renderAttributeValue FormatFloat kv.2).map
        (fun s => quote kv.1 ++ ":" ++ s))) with
    | none => simp [hb] at h
    | some body =>
      simp only [hb, Option.map_some', Option.some.injEq] at h
      subst h
      have hlen : body.data.length + 2 < fuel := by
        simp only [String.data_append, List.length_append, List.length_cons,
          List.length_nil] at hfuel
        omega
      rw [attributeJSON, entriesJSON_eq_map]
      exact parseValue_object (fun kv => kv.1) (fun kv => renderAttributeValue FormatFloat kv.2)
        (fun kv => attributeJSON FormatFloat kv.2) m
        (parseValue_entries FormatFloat hfmt m) body hb fuel rest hlen
  | .Array a, s, h, fuel, rest, hfuel, _ => by
    simp only [renderAttributeValue, renderItems_eq_map] at h
    cases hb : joinMembers (a.map (renderAttributeValue FormatFloat)) with
    | none => simp [hb] at h
    | some body =>
      simp only [hb, Option.map_some', Option.some.injEq] at h
      subst h
      have hlen : body.data.length + 2 < fuel := by
        simp only [String.data_append, List.length_append, List.length_cons,
          List.length_nil] at hfuel
        omega
      rw [attributeJSON, itemsJSON_eq_map]
      exact parseValue_array (renderAttributeValue FormatFloat) (attributeJSON FormatFloat) a
        (parseValue_items FormatFloat hfmt a) body hb fuel rest hlen
theorem parseValue_entries (FormatFloat : Float64 → String)
    (hfmt : ∀ d : Float64, d.nonFinite = false → IsToken (FormatFloat d)) :
    ∀ (m : List (String × AttributeValue)), ∀ kv ∈ m, ∀ (s : String),
      renderAttributeValue FormatFloat kv.2 = some s →
      ∀ (fuel : Nat) (rest : List Char), s.data.length < fuel → EndsValue rest →
      parseValue fuel (s.data ++ rest) = some (attributeJSON FormatFloat kv.2, rest)
  | [], kv, hkv => by cases hkv
  | (k, v) :: m, kv, hkv => by
    rcases List.mem_cons.mp hkv with rfl | hmem
    · exact parseValue_attribute FormatFloat hfmt v
    · exact parseValue_entries FormatFloat hfmt m kv hmem
theorem parseValue_items (FormatFloat : Float64 → String)
    (hfmt : ∀ d : Float64, d.nonFinite = false → IsToken (FormatFloat d)) :
    ∀ (a : List AttributeValue), ∀ v ∈ a, ∀ (s : String),
      renderAttributeValue FormatFloat v = some s →
      ∀ (fuel : Nat) (rest : List Char), s.data.length < fuel → EndsValue rest →
      parseValue fuel (s.data ++ rest) = some (attributeJSON FormatFloat v, rest)
  | [], v, hv => by cases hv
  | w :: a, v, hv => by
    rcases List.mem_cons.mp hv with rfl | hmem
    · exact parseValue_attribute FormatFloat hfmt v
    · exact parseValue_items FormatFloat hfmt a v hmem
end

theorem parseValue_value (FormatFloat : Float64 → String)
    (hfmt : ∀ d : Float64, d.nonFinite = false → IsToken (FormatFloat d))
    (val : Value) (s : String) (h : renderValue FormatFloat val = some s)
    (fuel : Nat) (rest : List Char) (hfuel : s.data.length < fuel) (hrest : EndsValue rest) :
    parseValue fuel (s.data ++ rest) = some (valueJSON FormatFloat val, rest) := by
  cases val with
  | StringValue t =>
    simp only [renderValue, Option.some.injEq] at h
    subst h
    exact parseValue_quote t fuel rest (by omega)
  | IntValue i =>
    simp only [renderValue, Option.some.injEq] at h
    subst h
    exact parseValue_token _ (isToken_int i) fuel rest (by omega) hrest
  | UIntValue n =>
    simp only [renderValue, Option.some.injEq] at h
    subst h
    exact parseValue_token _ (isToken_repr n) fuel rest (by omega) hrest
  | DoubleValue d =>
    simp only [renderValue] at h
    obtain ⟨hs, htok⟩ := renderDouble_token FormatFloat hfmt d s h
    have := parseValue_token s htok fuel rest (by omega) hrest
    rw [this, valueJSON, hs]
  | TimestampValue t =>
    simp only [renderValue, Option.some.injEq] at h
    subst h
    exact parseValue_quote _ fuel rest (by omega)
  | AttributesValue m =>
    simp only [renderValue, renderEntries_eq_map] at h
    cases hb : joinMembers (m.map (fun kv => (renderAttributeValue FormatFloat kv.2).map
        (fun s => quote kv.1 ++ ":" ++ s))) with
    | none => simp [hb] at h
    | some body =>
      simp only [hb, Option.map_some', Option.some.injEq] at h
      subst h
      have hlen : body.data.length + 2 < fuel := by
        simp only [String.data_append, List.length_append, List.length_cons,
          List.length_nil] at hfuel
        omega
      rw [valueJSON, entriesJSON_eq_map]
      exact parseValue_object (fun kv => kv.1) (fun kv => renderAttributeValue FormatFloat kv.2)
        (fun kv => attributeJSON FormatFloat kv.2) m
        (parseValue_entries FormatFloat hfmt m) body hb fuel rest hlen

/-- Decoding what the reference rendering wrote gives back the fields that were written:
their names, in order, each with the JSON form of its value. -/
theorem decodeObject_Serialize (FormatFloat : Float64 → String)
    (hfmt : ∀ d : Float64, d.nonFinite = false → IsToken (FormatFloat d))
    (doc : Document) (out : String) (h : Serialize FormatFloat doc = (out, none)) :
    decodeObject out
      = some ((doc.fields.filter (fun f => !f.isEmpty)).map
          (fun f => (f.key, valueJSON FormatFloat f.value))) := by
  unfold Serialize at h
  cases hb : joinMembers ((doc.fields.filter (fun f => !f.isEmpty)).map (fun f =>
      (renderValue FormatFloat f.value).map (fun s => quote f.key ++ ":" ++ s))) with
  | none => simp [hb] at h
  | some body =>
    simp only [hb, Prod.mk.injEq, and_true] at h
    subst h
    have hp := parseValue_object (fun f : field => f.key)
      (fun f => renderValue FormatFloat f.value) (fun f => valueJSON FormatFloat f.value)
      (doc.fields.filter (fun f => !f.isEmpty))
      (fun f _ s hs fuel rest hfuel hrest =>
        parseValue_value FormatFloat hfmt f.value s hs fuel rest hfuel hrest)
      body hb (("\x7b" ++ body ++ "\x7d").length + 1) []
      (by
        have hl : ∀ t : String, t.length = t.data.length := fun _ => rfl
        simp only [hl, String.data_append, List.length_append, List.length_cons,
          List.length_nil]
        omega)
    rw [List.append_nil] at hp
    simp only [decodeObject, hp]

theorem member_of_mem (members : List (String × JSON)) (key : String) (j : JSON)
    (hnd : (members.map (fun kv => kv.1)).Nodup) (hmem : (key, j) ∈ members) :
    member members key = some j := by
  induction members with
  | nil => cases hmem
  | cons kv rest ih =>
    rw [List.map_cons, List.nodup_cons] at hnd
    rcases List.mem_cons.mp hmem with h | h
    · subst h
      simp [member]
    · have hne : ¬ kv.1 = key := by
        intro hk
        exact hnd.1 (List.mem_map.mpr ⟨(key, j), h, hk.symm⟩)
      simp [member, hne, ih hnd.2 h]

theorem member_decoded (FormatFloat : Float64 → String) (fs : List field)
    (hnd : (fs.map (fun f => f.key)).Nodup) (key : String) (v : Value)
    (hv : lookupField fs key = some v) (hnonempty : ∀ f : field, f.value = v → f.isEmpty = false) :
    member ((fs.filter (fun f => !f.isEmpty)).map
        (fun f => (f.key, valueJSON FormatFloat f.value))) key
      = some (valueJSON FormatFloat v) := by
  obtain ⟨f, hf, hk, hval⟩ := (lookupField_eq_some_iff hnd key v).mp hv
  apply member_of_mem
  · rw [List.map_map]
    have hsub : ((fs.filter (fun f => !f.isEmpty)).map (fun f => f.key)).Sublist
        (fs.map (fun f => f.key)) := (List.filter_sublist _).map _
    exact hnd.sublist hsub
  · refine List.mem_map.mpr ⟨f, List.mem_filter.mpr ⟨hf, ?_⟩, ?_⟩
    · simp [hnonempty f hval]
    · rw [hk, hval]

theorem asInt_token (i : Int) : JSON.asInt (.token (toString i)) = some i := by
  cases i with
  | ofNat n =>
    have hs : toString (Int.ofNat n) = Nat.repr n := rfl
    have hd := parseDigits_repr n
    rcases hdata : (Nat.repr n).data with _ | ⟨c, rest⟩
    · exact absurd hdata (repr_ne_nil n)
    · have hc : c ≠ '-' := by
        obtain ⟨k, hk, hck⟩ := repr_chars n c (by rw [hdata]; exact List.mem_cons_self _ _)
        rw [hck]
        have := (digitChar_spec k hk).1
        intro hminus
        rw [hminus] at this
        exact absurd this (by decide)
      rw [hdata] at hd
      simp only [JSON.asInt, hs, hdata]
      split
      · rename_i heq; cases heq
      · rename_i heq
        simp only [List.cons.injEq] at heq
        exact absurd heq.1 hc
      · rename_i c' rest' _ heq
        simp only [List.cons.injEq] at heq
        rw [← heq.1, ← heq.2, hd]
        rfl
  | negSucc n =>
    have hs : toString (Int.negSucc n) = "-" ++ Nat.repr (n + 1) := rfl
    have hd := parseDigits_repr (n + 1)
    rcases hdata : (Nat.repr (n + 1)).data with _ | ⟨c, rest⟩
    · exact absurd hdata (repr_ne_nil _)
    · rw [hdata] at hd
      have hminus : ("-" : String).data = ['-'] := rfl
      simp only [JSON.asInt, hs, String.data_append, hdata, hminus, List.singleton_append, hd,
        Option.map_some']
      rfl

theorem sprintfF_finite_shape (neg : Bool) (m : Nat) (e : Int) :
    ∃ pre frac : List Char,
      (sprintfF (.finite neg m e)).data = pre ++ '.' :: frac ∧ pre ≠ [] ∧
      (∀ c ∈ pre, c = '-' ∨ ∃ k, k < 10 ∧ c = Nat.digitChar k) ∧
      (∀ c ∈ frac, ∃ k, k < 10 ∧ c = Nat.digitChar k) := by
  obtain ⟨scaled, hscaled⟩ : ∃ scaled, sprintfF (.finite neg m e)
      = (if neg then "-" else "") ++ itoa (scaled / 1000000) ++ "." ++
        padZero 6 (scaled % 1000000) := ⟨_, rfl⟩
  rw [hscaled]
  refine ⟨((if neg then "-" else "") ++ itoa (scaled / 1000000)).data,
    (padZero 6 (scaled % 1000000)).data, ?_, ?_, ?_, ?_⟩
  · have hdot : (".": String).data = ['.'] := rfl
    simp only [String.data_append, hdot, List.append_assoc, List.singleton_append]
  · simp only [String.data_append, ne_eq, List.append_eq_nil, not_and]
    intro _
    exact repr_ne_nil _
  · intro c hc
    simp only [String.data_append, List.mem_append] at hc
    rcases hc with hc | hc
    · left
      cases neg
      · simp at hc
      · simpa using hc
    · exact Or.inr (repr_chars _ c hc)
  · intro c hc
    simp only [padZero, String.data_append, List.mem_append, List.mem_replicate] at hc
    rcases hc with hc | hc
    · exact ⟨0, by decide, hc.2⟩
    · exact repr_chars _ c hc

theorem isToken_formatFloatSixTrim (d : Float64) (hd : d.nonFinite = false) :
    IsToken (formatFloatSixTrim d) := by
  cases d with
  | nan => cases hd
  | inf neg => cases hd
  | finite neg m e =>
    obtain ⟨pre, frac, hdata, hpre, hprechars, hfrac⟩ := sprintfF_finite_shape neg m e
    have hchars : ∀ c ∈ (sprintfF (.finite neg m e)).data, isDelimiter c = false := by
      intro c hc
      rw [hdata] at hc
      rcases List.mem_append.mp hc with hc | hc
      · rcases hprechars c hc with rfl | ⟨k, hk, rfl⟩
        · decide
        · exact (digitChar_spec k hk).2.2.2
      · rcases List.mem_cons.mp hc with rfl | hc
        · decide
        · obtain ⟨k, hk, rfl⟩ := hfrac c hc
          exact (digitChar_spec k hk).2.2.2
    have hpre1 : ((sprintfF (.finite neg m e)).data.rdropWhile
        (fun c => ("0" : String).data.contains c)).IsPrefix (sprintfF (.finite neg m e)).data :=
      List.rdropWhile_prefix _ _
    have hpre2 := List.rdropWhile_prefix (fun c => (".": String).data.contains c)
      ((sprintfF (.finite neg m e)).data.rdropWhile (fun c => ("0" : String).data.contains c))
    refine ⟨?_, fun c hc => hchars c (hpre1.subset (hpre2.subset hc))⟩
    intro hnil
    have hnil' : ((sprintfF (.finite neg m e)).data.rdropWhile
        (fun c => ("0" : String).data.contains c)).rdropWhile
        (fun c => ("." : String).data.contains c) = [] := hnil
    have hall := List.rdropWhile_eq_nil_iff.mp hnil'
    rcases ht : (sprintfF (.finite neg m e)).data.rdropWhile
        (fun c => ("0" : String).data.contains c) with _ | ⟨a, t⟩
    · have hzero := List.rdropWhile_eq_nil_iff.mp ht
      have hdot : '.' ∈ (sprintfF (.finite neg m e)).data := by
        rw [hdata]; simp
      have := hzero '.' hdot
      revert this
      decide
    · rw [ht] at hall hpre1
      have ha := hall a (List.mem_cons_self _ _)
      have ha' : a = '.' := by
        have : ("." : String).data = ['.'] := rfl
        simpa [this] using ha
      rcases pre with _ | ⟨b, pre'⟩
      · exact hpre rfl
      · rw [hdata] at hpre1
        obtain ⟨u, hu⟩ := hpre1
        simp only [List.cons_append, List.cons.injEq] at hu
        have hab : a = b := hu.1
        rcases hprechars b (List.mem_cons_self _ _) with hb | ⟨k, hk, hb⟩
        · rw [← hab, ha'] at hb
          revert hb
          decide
        · have h0 := (digitChar_spec k hk).1
          rw [← hb, ← hab, ha'] at h0
          revert h0
          decide

end encode

/-! ## Theorems: the gauge round trip -/

namespace encode
open golang pdata objmodel

theorem mem_documentsOf_of_ok {α : Type} (f : α → String × Option error) (xs : List α)
    (x : α) (doc : String) (hx : x ∈ xs) (h : f x = (doc, none)) :
    doc ∈ documentsOf (xs.map f) := by
  simp only [documentsOf, List.mem_filterMap, List.mem_map]
  exact ⟨f x, ⟨x, hx, rfl⟩, by rw [h]⟩

theorem record_keys_nodup (document : Document) :
    ((record document).map (fun f => f.key)).Nodup := by
  unfold record Document.Sort Document.Dedup
  exact ((List.perm_insertionSort keyLE (dedupFields document.fields)).map _).nodup_iff.mpr
    (dedupFields_keys_nodup _)

/-- The record that `Gauge` hands to the serializer for a data point holding the integer
`v`: its `value` field is the integer `v` and its `type` field is the string `"gauge"`. -/
theorem gaugeDocument_int_fields (resource : Resource) (lib : InstrumentationLibrary)
    (metric : Metric) (dp : NumberDataPoint) (v : Int) (hval : dp.Value = .Int v) :
    lookupField (record (gaugeDocument resource lib metric dp)) "value" = some (.IntValue v) ∧
    lookupField (record (gaugeDocument resource lib metric dp)) "type"
      = some (.StringValue "gauge") := by
  constructor <;>
  · rw [lookupField_record]
    simp [gaugeDocument, setNumberValue, hval, initCommonFields, Document.AddAttributes,
      Document.AddString, Document.AddInt, Document.AddTimestamp, Document.Add, lookupField]

/-- C7: for a gauge data point holding the integer value `v`, the JSON document that
`Gauge` emits for it (with the reference rendering, for any float formatter whose output
for finite values is a number token) is among the returned documents and decodes to an
object whose `value` field is the number `v` and whose `type` field is the string
`"gauge"`. -/
theorem Gauge_int_point (FormatFloat : Float64 → String)
    (hfmt : ∀ d : Float64, d.nonFinite = false → IsToken (FormatFloat d))
    (resource : Resource) (lib : InstrumentationLibrary) (name unit : String)
    (dps : List NumberDataPoint) (dp : NumberDataPoint) (v : Int) (doc : String)
    (hmem : dp ∈ dps) (hval : dp.Value = .Int v)
    (hser : serializeDocument (Serialize FormatFloat)
        (gaugeDocument resource lib ⟨name, unit, .Gauge dps⟩ dp) = (doc, none)) :
    (∃ documents errs,
      Gauge (Serialize FormatFloat) resource lib ⟨name, unit, .Gauge dps⟩
        = some (documents, errs) ∧
      doc ∈ documents) ∧
    ∃ obj, decodeObject doc = some obj ∧
      (member obj "value").bind JSON.asInt = some v ∧
      (member obj "type").bind JSON.asString = some "gauge" := by
  have hfields := gaugeDocument_int_fields resource lib ⟨name, unit, .Gauge dps⟩ dp v hval
  have hnd := record_keys_nodup (gaugeDocument resource lib ⟨name, unit, .Gauge dps⟩ dp)
  refine ⟨⟨documentsOf (dps.map (fun dp => serializeDocument (Serialize FormatFloat)
      (gaugeDocument resource lib ⟨name, unit, .Gauge dps⟩ dp))),
    errorsOf (dps.map (fun dp => serializeDocument (Serialize FormatFloat)
      (gaugeDocument resource lib ⟨name, unit, .Gauge dps⟩ dp))), ?_, ?_⟩,
    _, decodeObject_Serialize FormatFloat hfmt _ doc hser, ?_, ?_⟩
  · simp only [Gauge]
    rw [Gauge_loop]
  · exact mem_documentsOf_of_ok _ dps dp doc hmem hser
  · have hm := member_decoded FormatFloat _ hnd "value" (.IntValue v) hfields.1
      (fun f hf => by simp [field.isEmpty, hf])
    change member ((List.filter (fun f => !f.isEmpty)
      (record (gaugeDocument resource lib ⟨name, unit, .Gauge dps⟩ dp))).map
      (fun f => (f.key, valueJSON FormatFloat f.value))) "value" = _ at hm
    change (member ((List.filter (fun f => !f.isEmpty)
      (record (gaugeDocument resource lib ⟨name, unit, .Gauge dps⟩ dp))).map
      (fun f => (f.key, valueJSON FormatFloat f.value))) "value").bind JSON.asInt = _
    rw [hm]
    exact asInt_token v
  · have hm := member_decoded FormatFloat _ hnd "type" (.StringValue "gauge") hfields.2
      (fun f hf => by simp [field.isEmpty, hf])
    change (member ((List.filter (fun f => !f.isEmpty)
      (record (gaugeDocument resource lib ⟨name, unit, .Gauge dps⟩ dp))).map
      (fun f => (f.key, valueJSON FormatFloat f.value))) "type").bind JSON.asString = _
    rw [hm]
    rfl

/-- C7 evaluated on `Test_Gauge` (name `gauge-metric`, value 1): the emitted document is
the one the test asserts, and it decodes to an object whose `value` is 1 and whose `type`
is `"gauge"`. -/
theorem Gauge_int_point_witness :
    (∀ d : Float64, d.nonFinite = false → IsToken (formatFloatSixTrim d)) ∧
    testNumberPoint ∈ [testNumberPoint] ∧
    testNumberPoint.Value = .Int 1 ∧
    serializeDocument (Serialize formatFloatSixTrim) (gaugeDocument testResource testLibrary
        ⟨"gauge-metric", "", .Gauge [testNumberPoint]⟩ testNumberPoint)
      = (testGaugeJSON, none) ∧
    (∃ obj, decodeObject testGaugeJSON = some obj ∧
      (member obj "value").bind JSON.asInt = some 1 ∧
      (member obj "type").bind JSON.asString = some "gauge") ∧
    Gauge (Serialize formatFloatSixTrim) testResource testLibrary
        ⟨"gauge-metric", "", .Gauge [testNumberPoint]⟩
      = some ([testGaugeJSON], []) :=
  ⟨isToken_formatFloatSixTrim, List.mem_cons_self _ _, by decide, by decide,
   (Gauge_int_point formatFloatSixTrim isToken_formatFloatSixTrim testResource testLibrary
      "gauge-metric" "" [testNumberPoint] testNumberPoint 1 testGaugeJSON
      (List.mem_cons_self _ _) (by decide) (by decide)).2,
   by decide⟩

end encode

/-! ## Theorems: field order and determinism of `serializeDocument` -/

namespace encode
open golang pdata objmodel

theorem sorted_keyLT_of_sorted_keyLE {fs : List field} (hs : fs.Sorted keyLE)
    (hnd : (fs.map (fun f => f.key)).Nodup) : fs.Sorted keyLT := by
  have hne : fs.Pairwise (fun a b => a.key ≠ b.key) := by
    have := hnd
    rw [List.Nodup, List.pairwise_map] at this
    exact this
  exact (List.Pairwise.and hs hne).imp (fun {a b} h =>
    lt_of_le_of_ne h.1 (fun hd => h.2 (String.ext hd)))

theorem record_sorted (document : Document) : (record document).Sorted keyLT := by
  apply sorted_keyLT_of_sorted_keyLE _ (record_keys_nodup document)
  unfold record Document.Sort
  exact List.sorted_insertionSort keyLE _

theorem sorted_keyLT_names {fs : List field} (hs : fs.Sorted keyLT) :
    (fs.map (fun f => f.key.data)).Sorted (· < ·) := by
  rw [List.Sorted, List.pairwise_map]
  exact hs

theorem dedupFields_of_nodup {fs : List field} (hnd : (fs.map (fun f => f.key)).Nodup) :
    dedupFields fs = fs := by
  induction fs with
  | nil => rfl
  | cons f rest ih =>
    rw [List.map_cons, List.nodup_cons] at hnd
    unfold dedupFields
    have hany : ¬ rest.any (fun g => g.key == f.key) = true := by
      intro h
      obtain ⟨g, hg, hgk⟩ := List.any_eq_true.mp h
      exact hnd.1 (List.mem_map.mpr ⟨g, hg, by simpa using hgk⟩)
    rw [if_neg hany, ih hnd.2]

theorem record_of_perm {d₁ d₂ : Document} (hp : d₁.fields.Perm d₂.fields)
    (hnd : (d₁.fields.map (fun f => f.key)).Nodup) : record d₁ = record d₂ := by
  have hnd₂ : (d₂.fields.map (fun f => f.key)).Nodup := (hp.map _).nodup_iff.mp hnd
  have h₁ := record_sorted d₁
  have h₂ := record_sorted d₂
  apply List.eq_of_perm_of_sorted _ h₁ h₂
  unfold record Document.Sort Document.Dedup
  simp only [dedupFields_of_nodup hnd, dedupFields_of_nodup hnd₂]
  exact (List.perm_insertionSort keyLE _).trans (hp.trans (List.perm_insertionSort keyLE _).symm)

theorem record_record (document : Document) : record ⟨record document⟩ = record document := by
  have hnd := record_keys_nodup document
  have hs : (record document).Sorted keyLE := by
    unfold record Document.Sort
    exact List.sorted_insertionSort keyLE _
  show List.insertionSort keyLE (dedupFields (record document)) = record document
  rw [dedupFields_of_nodup hnd]
  exact List.Sorted.insertionSort_eq hs

theorem encoder_document_sorted (Serialize : Serializer) {α : Type} (build : α → Document)
    (xs : List α) (doc : String)
    (h : doc ∈ documentsOf (xs.map (fun x => serializeDocument Serialize (build x)))) :
    ∃ document, serializeDocument Serialize document = (doc, none) ∧
      (record document).Sorted keyLT := by
  obtain ⟨x, _, hx⟩ := mem_documentsOf _ xs doc h
  exact ⟨build x, hx, record_sorted _⟩

/-- C11: `serializeDocument` hands the serializer the record of the document, whose field
names are unique and in strictly ascending order whatever the order in which the fields
were added; so is every document returned by `Gauge`, `Sum`, `Summary` and `Histogram`;
and with the reference rendering the top-level names read back from a returned document
are in strictly ascending order. -/
theorem serializeDocument_names_ascending (Serialize : Serializer)
    (FormatFloat : Float64 → String)
    (hfmt : ∀ d : Float64, d.nonFinite = false → IsToken (FormatFloat d)) :
    (∀ document : Document,
      serializeDocument Serialize document = Serialize ⟨record document⟩ ∧
      (record document).Sorted keyLT ∧
      ((record document).map (fun f => f.key)).Nodup) ∧
    (∀ (resource : Resource) (lib : InstrumentationLibrary) (metric : Metric)
      (documents : List String) (errs : List error),
      (Gauge Serialize resource lib metric = some (documents, errs) ∨
       Sum Serialize resource lib metric = some (documents, errs) ∨
       Summary FormatFloat Serialize resource lib metric = some (documents, errs) ∨
       Histogram Serialize resource lib metric = some (documents, errs)) →
      ∀ doc ∈ documents, ∃ document,
        serializeDocument Serialize document = (doc, none) ∧
        (record document).Sorted keyLT) ∧
    (∀ (document : Document) (doc : String),
      serializeDocument (objmodel.Serialize FormatFloat) document = (doc, none) →
      ∃ obj, decodeObject doc = some obj ∧
        (obj.map (fun kv => kv.1.data)).Sorted (· < ·)) := by
  refine ⟨fun document => ⟨rfl, record_sorted document, record_keys_nodup document⟩, ?_, ?_⟩
  · intro resource lib metric documents errs h doc hdoc
    rcases metric with ⟨name, unit, data⟩
    rcases h with h | h | h | h
    · cases data <;> simp only [Gauge] at h <;> try contradiction
      rename_i dps
      rw [Gauge_loop] at h
      simp only [Option.some.injEq, Prod.mk.injEq] at h
      rw [← h.1] at hdoc
      exact encoder_document_sorted Serialize _ dps doc hdoc
    · cases data <;> simp only [Sum] at h <;> try contradiction
      rename_i isMonotonic temporality dps
      rw [Sum_loop] at h
      simp only [Option.some.injEq, Prod.mk.injEq, List.nil_append] at h
      rw [← h.1] at hdoc
      exact encoder_document_sorted Serialize _ _ doc hdoc
    · cases data <;> simp only [Summary] at h <;> try contradiction
      rename_i dps
      rw [collect_foldl_map] at h
      simp only [Option.some.injEq, Prod.mk.injEq] at h
      rw [← h.1] at hdoc
      exact encoder_document_sorted Serialize _ dps doc hdoc
    · cases data <;> simp only [Histogram] at h <;> try contradiction
      rename_i temporality dps
      rw [Histogram_loop] at h
      simp only [Option.some.injEq, Prod.mk.injEq, List.nil_append] at h
      rw [← h.1] at hdoc
      exact encoder_document_sorted Serialize (fun d => d) _ doc (by simpa using hdoc)
  · intro document doc h
    refine ⟨_, decodeObject_Serialize FormatFloat hfmt _ doc h, ?_⟩
    rw [List.map_map]
    have hs := sorted_keyLT_names (record_sorted document)
    have hsub : ((List.filter (fun f => !f.isEmpty) (record document)).map
        (fun f => f.key.data)).Sublist ((record document).map (fun f => f.key.data)) :=
      (List.filter_sublist _).map _
    exact hs.sublist hsub

/-- C11 evaluated on the first document of `Test_Histogram`: the names read back are
`@timestamp`, `bucket`, `bucketCount`, `bucketId`, `bucketText`, `count`,
`instrumentationLibrary`, `name`, `sum`, `type`, although the encoder added `count`
first and `@timestamp` eighth. -/
theorem serializeDocument_names_ascending_witness :
    (∀ d : Float64, d.nonFinite = false → IsToken (formatFloatSixTrim d)) ∧
    serializeDocument (objmodel.Serialize formatFloatSixTrim)
        (histogramDocument testResource testLibrary
          ⟨"hist-metric", "", .Histogram .Unspecified [testHistogramPoint]⟩
          testHistogramPoint 1 0 1)
      = (testHistogramJSON, none) ∧
    (∃ obj, decodeObject testHistogramJSON = some obj ∧
      (obj.map (fun kv => kv.1.data)).Sorted (· < ·)) ∧
    (decodeObject testHistogramJSON).map (fun obj => obj.map (fun kv => kv.1))
      = some ["@timestamp", "bucket", "bucketCount", "bucketId", "bucketText", "count",
          "instrumentationLibrary", "name", "sum", "type"] ∧
    (histogramDocument testResource testLibrary
          ⟨"hist-metric", "", .Histogram .Unspecified [testHistogramPoint]⟩
          testHistogramPoint 1 0 1).fields.map (fun f => f.key)
      = ["count", "sum", "bucketId", "bucket", "bucketText", "bucketCount", "type",
          "@timestamp", "name", "resource", "attributes", "instrumentationLibrary"] :=
  ⟨isToken_formatFloatSixTrim, by decide,
   (serializeDocument_names_ascending (objmodel.Serialize formatFloatSixTrim) formatFloatSixTrim
      isToken_formatFloatSixTrim).2.2
      (histogramDocument testResource testLibrary
        ⟨"hist-metric", "", .Histogram .Unspecified [testHistogramPoint]⟩
        testHistogramPoint 1 0 1) testHistogramJSON (by decide),
   by decide, by decide⟩

/-- C12: rendering is deterministic.  A second call of `serializeDocument` on a document
(which the first call has left deduplicated and sorted) returns what the first call
returned, and two documents that hold the same uniquely named fields, added in different
orders, are serialized to the same bytes and error. -/
theorem serializeDocument_deterministic (Serialize : Serializer) :
    (∀ document : Document,
      serializeDocument Serialize (documentAfterSerialize document)
        = serializeDocument Serialize document) ∧
    (∀ d₁ d₂ : Document, d₁.fields.Perm d₂.fields →
      (d₁.fields.map (fun f => f.key)).Nodup →
      serializeDocument Serialize d₁ = serializeDocument Serialize d₂) := by
  constructor
  · intro document
    show Serialize ⟨record ⟨record document⟩⟩ = Serialize ⟨record document⟩
    rw [record_record]
  · intro d₁ d₂ hp hnd
    show Serialize ⟨record d₁⟩ = Serialize ⟨record d₂⟩
    rw [record_of_perm hp hnd]

/-- C12 evaluated on the fields `type` and `value` added in the two possible orders:
both documents are serialized to the same bytes. -/
theorem serializeDocument_deterministic_witness :
    ((({} : Document).AddString "type" "gauge").AddInt "value" 1).fields.Perm
      ((({} : Document).AddInt "value" 1).AddString "type" "gauge").fields ∧
    (((({} : Document).AddString "type" "gauge").AddInt "value" 1).fields.map
      (fun f => f.key)).Nodup ∧
    serializeDocument (objmodel.Serialize formatFloatSixTrim)
        ((({} : Document).AddString "type" "gauge").AddInt "value" 1)
      = serializeDocument (objmodel.Serialize formatFloatSixTrim)
        ((({} : Document).AddInt "value" 1).AddString "type" "gauge") ∧
    serializeDocument (objmodel.Serialize formatFloatSixTrim)
        ((({} : Document).AddInt "value" 1).AddString "type" "gauge")
      = ("\x7b\"type\":\"gauge\",\"value\":1\x7d", none) :=
  ⟨List.Perm.swap _ _ _, by decide,
   (serializeDocument_deterministic (objmodel.Serialize formatFloatSixTrim)).2 _ _
     (List.Perm.swap _ _ _) (by decide),
   by decide⟩

end encode

/-! ## Theorems: unsupported metric types and output order -/

namespace serialization
open golang pdata dimensions

/-- C13: for a metric whose type is none of gauge, sum and histogram, `SerializeMetric`
returns no line and the error `metric type <type> unsupported`; this is the case of
summary and exponential histogram metrics. -/
theorem SerializeMetric_unsupported {σ : Type} (fns : PointSerializers σ)
    (AsString : AttributeValue → String) (pfx : String) (metric : Metric)
    (defaultDimensions staticDimensions : NormalizedDimensionList) (prev : σ)
    (hgauge : ∀ dps, metric.Data ≠ .Gauge dps)
    (hsum : ∀ isMonotonic temporality dps, metric.Data ≠ .Sum isMonotonic temporality dps)
    (hhist : ∀ temporality dps, metric.Data ≠ .Histogram temporality dps) :
    SerializeMetric fns AsString pfx metric defaultDimensions staticDimensions prev
      = (([], some ("metric type " ++ metric.Data.typeString ++ " unsupported")), prev) ∧
    (∀ name unit dps,
      SerializeMetric fns AsString pfx ⟨name, unit, .Summary dps⟩ defaultDimensions
          staticDimensions prev
        = (([], some "metric type Summary unsupported"), prev)) ∧
    (∀ name unit,
      SerializeMetric fns AsString pfx ⟨name, unit, .ExponentialHistogram⟩ defaultDimensions
          staticDimensions prev
        = (([], some "metric type ExponentialHistogram unsupported"), prev)) := by
  refine ⟨?_, fun _ _ _ => rfl, fun _ _ => rfl⟩
  rcases metric with ⟨name, unit, data⟩
  cases data with
  | Gauge dps => exact absurd rfl (hgauge dps)
  | Sum isMonotonic temporality dps => exact absurd rfl (hsum isMonotonic temporality dps)
  | Histogram temporality dps => exact absurd rfl (hhist temporality dps)
  | None => rfl
  | ExponentialHistogram => rfl
  | Summary dps => rfl

/-- C13 evaluated on a summary metric: no line, and the error names the type. -/
theorem SerializeMetric_unsupported_witness :
    (∀ dps, (⟨"latency", "", .Summary []⟩ : Metric).Data ≠ .Gauge dps) ∧
    (∀ isMonotonic temporality dps,
      (⟨"latency", "", .Summary []⟩ : Metric).Data ≠ .Sum isMonotonic temporality dps) ∧
    (∀ temporality dps,
      (⟨"latency", "", .Summary []⟩ : Metric).Data ≠ .Histogram temporality dps) ∧
    SerializeMetric examplePointSerializers exampleAsString "" ⟨"latency", "", .Summary []⟩
        ⟨[]⟩ ⟨[]⟩ ()
      = (([], some "metric type Summary unsupported"), ()) :=
  ⟨fun _ h => (by cases h), fun _ _ _ h => (by cases h), fun _ _ h => (by cases h),
   (SerializeMetric_unsupported examplePointSerializers exampleAsString ""
      ⟨"latency", "", .Summary []⟩ ⟨[]⟩ ⟨[]⟩ () (fun _ h => (by cases h))
      (fun _ _ _ h => (by cases h)) (fun _ _ h => (by cases h))).1⟩

theorem pointLoop_lines {α σ : Type}
    (serializePoint : α → σ → (String × Option error) × σ) (dps : List α)
    (metricLines : List String) (prev : σ) :
    ((pointLoop serializePoint dps metricLines prev).1.2 = none →
      (pointLoop serializePoint dps metricLines prev).1.1
        = metricLines ++ ((pointResults serializePoint dps prev).map (fun r => r.1)).filter
            (fun line => line ≠ "") ∧
      ∀ r ∈ pointResults serializePoint dps prev, r.2 = none) ∧
    ((pointLoop serializePoint dps metricLines prev).1.2 ≠ none →
      (pointLoop serializePoint dps metricLines prev).1.1 = []) := by
  induction dps generalizing metricLines prev with
  | nil => simp [pointLoop, pointResults]
  | cons dp rest ih =>
    unfold pointLoop pointResults
    rcases hres : serializePoint dp prev with ⟨⟨line, e⟩, prev1⟩
    cases e with
    | some e1 => simp
    | none =>
      simp only []
      have := ih (if line ≠ "" then metricLines ++ [line] else metricLines) prev1
      refine ⟨fun h => ?_, fun h => this.2 h⟩
      obtain ⟨hlines, hall⟩ := this.1 h
      refine ⟨?_, ?_⟩
      · rw [hlines]
        by_cases hl : line = ""
        · simp [hl]
        · simp [hl, List.filter_cons]
      · intro r hr
        rcases List.mem_cons.mp hr with rfl | hr
        · rfl
        · exact hall r hr

theorem SerializeMetric_eq_pointLoop_or_unsupported {σ : Type} (fns : PointSerializers σ)
    (AsString : AttributeValue → String) (pfx : String) (metric : Metric)
    (defaultDimensions staticDimensions : NormalizedDimensionList) (prev : σ) :
    ((SerializeMetric fns AsString pfx metric defaultDimensions staticDimensions prev).1.2
        = none →
      (SerializeMetric fns AsString pfx metric defaultDimensions staticDimensions prev).1.1
        = ((metricPointResults fns AsString pfx metric defaultDimensions staticDimensions
            prev).map (fun r => r.1)).filter (fun line => line ≠ "") ∧
      ∀ r ∈ metricPointResults fns AsString pfx metric defaultDimensions staticDimensions prev,
        r.2 = none) ∧
    ((SerializeMetric fns AsString pfx metric defaultDimensions staticDimensions prev).1.2
        ≠ none →
      (SerializeMetric fns AsString pfx metric defaultDimensions staticDimensions prev).1.1
        = []) := by
  rcases metric with ⟨name, unit, data⟩
  cases data with
  | Gauge dps => simpa using pointLoop_lines _ dps [] prev
  | Sum isMonotonic temporality dps => simpa using pointLoop_lines _ dps [] prev
  | Histogram temporality dps => simpa using pointLoop_lines _ dps [] prev
  | None => simp [SerializeMetric, metricPointResults]
  | ExponentialHistogram => simp [SerializeMetric, metricPointResults]
  | Summary dps => simp [SerializeMetric, metricPointResults]

end serialization

namespace encode
open golang pdata objmodel serialization dimensions

theorem documentsOf_sublist (results : List (String × Option error)) :
    (documentsOf results).Sublist (results.map (fun r => r.1)) := by
  induction results with
  | nil => simp [documentsOf]
  | cons res rest ih =>
    rcases res with ⟨ser, err⟩
    cases err with
    | none =>
      simp only [documentsOf, List.filterMap_cons, List.map_cons]
      exact ih.cons₂ _
    | some e =>
      simp only [documentsOf, List.filterMap_cons, List.map_cons]
      exact ih.cons _

/-- C14: output order follows input order.  The documents returned by `Gauge`, `Sum`,
`Summary` and `Histogram` are the successfully serialized ones among the per-point
results taken in data-point order (for `Histogram`: point order, then ascending bucket
index; for `Sum`: the points that hold a value), and the lines returned by
`SerializeMetric` are a subsequence of the per-point lines in data-point order: all the
non-empty ones when no error is returned, none otherwise. -/
theorem output_order_follows_input (Serialize : Serializer) (FormatFloat : Float64 → String)
    (resource : Resource) (lib : InstrumentationLibrary) (name unit : String)
    {σ : Type} (fns : PointSerializers σ) (AsString : AttributeValue → String)
    (pfx : String) (metric : Metric)
    (defaultDimensions staticDimensions : NormalizedDimensionList) (prev : σ) :
    (∀ dps : List NumberDataPoint,
      ∃ errs, Gauge Serialize resource lib ⟨name, unit, .Gauge dps⟩
        = some (documentsOf (dps.map (fun dp => serializeDocument Serialize
            (gaugeDocument resource lib ⟨name, unit, .Gauge dps⟩ dp))), errs)) ∧
    (∀ (isMonotonic : Bool) (temporality : AggregationTemporality)
      (dps : List NumberDataPoint),
      ∃ errs, Sum Serialize resource lib ⟨name, unit, .Sum isMonotonic temporality dps⟩
        = some (documentsOf ((dps.filter (fun dp => dp.Value ≠ NumberValue.None)).map
            (fun dp => serializeDocument Serialize (sumDocument resource lib
              ⟨name, unit, .Sum isMonotonic temporality dps⟩ isMonotonic dp))), errs)) ∧
    (∀ dps : List SummaryDataPoint,
      ∃ errs, Summary FormatFloat Serialize resource lib ⟨name, unit, .Summary dps⟩
        = some (documentsOf (dps.map (fun dp => serializeDocument Serialize
            (summaryDocument FormatFloat resource lib ⟨name, unit, .Summary dps⟩ dp))),
          errs)) ∧
    (∀ (temporality : AggregationTemporality) (dps : List HistogramDataPoint),
      (∃ errs, Histogram Serialize resource lib ⟨name, unit, .Histogram temporality dps⟩
        = some (documentsOf ((dps.flatMap (histogramDocuments resource lib
            ⟨name, unit, .Histogram temporality dps⟩)).map (serializeDocument Serialize)),
          errs)) ∧
      ∀ dp : HistogramDataPoint,
        (histogramDocuments resource lib ⟨name, unit, .Histogram temporality dps⟩ dp).map
            (fun document => lookupField (record document) "bucketId")
          = (List.range dp.BucketCounts.length).map (fun i => some (.UIntValue i))) ∧
    (∀ results : List (String × Option error),
      (documentsOf results).Sublist (results.map (fun r => r.1))) ∧
    (((SerializeMetric fns AsString pfx metric defaultDimensions staticDimensions prev).1.1).Sublist
        ((metricPointResults fns AsString pfx metric defaultDimensions staticDimensions
          prev).map (fun r => r.1)) ∧
      ((SerializeMetric fns AsString pfx metric defaultDimensions staticDimensions prev).1.2
          = none →
        (SerializeMetric fns AsString pfx metric defaultDimensions staticDimensions prev).1.1
          = ((metricPointResults fns AsString pfx metric defaultDimensions staticDimensions
              prev).map (fun r => r.1)).filter (fun line => line ≠ ""))) := by
  refine ⟨?_, ?_, ?_, ?_, documentsOf_sublist, ?_⟩
  · intro dps
    exact ⟨_, by simp only [Gauge]; rw [Gauge_loop]⟩
  · intro isMonotonic temporality dps
    exact ⟨errorsOf ((dps.filter (fun dp => dp.Value ≠ NumberValue.None)).map
      (fun dp => serializeDocument Serialize (sumDocument resource lib
        ⟨name, unit, .Sum isMonotonic temporality dps⟩ isMonotonic dp))),
      by simp only [Sum]; rw [Sum_loop]; simp⟩
  · intro dps
    exact ⟨errorsOf (dps.map (fun dp => serializeDocument Serialize
      (summaryDocument FormatFloat resource lib ⟨name, unit, .Summary dps⟩ dp))),
      by simp only [Summary]; rw [collect_foldl_map]; simp⟩
  · intro temporality dps
    refine ⟨⟨errorsOf ((dps.flatMap (histogramDocuments resource lib
        ⟨name, unit, .Histogram temporality dps⟩)).map (serializeDocument Serialize)),
      by simp only [Histogram]; rw [Histogram_loop]; simp⟩, fun dp => ?_⟩
    simp only [histogramDocuments, List.map_map]
    rw [← List.enum_map_fst, List.map_map]
    apply List.map_congr_left
    intro iv _
    simp [lookupField_histogramDocument_bucketId]
  · have h := SerializeMetric_eq_pointLoop_or_unsupported fns AsString pfx metric
      defaultDimensions staticDimensions prev
    refine ⟨?_, fun hnone => (h.1 hnone).1⟩
    cases herr : (SerializeMetric fns AsString pfx metric defaultDimensions staticDimensions
        prev).1.2 with
    | none =>
      rw [(h.1 herr).1]
      exact List.filter_sublist _
    | some e =>
      rw [h.2 (by rw [herr]; simp)]
      exact List.nil_sublist _

/-- C14 evaluated on a gauge metric with the values 1, 2, 3: no error, and the lines come
out in the order of the data points. -/
theorem output_order_follows_input_witness :
    (SerializeMetric examplePointSerializers exampleAsString ""
        ⟨"load", "", .Gauge [⟨[], 1, .Int 1⟩, ⟨[], 2, .Int 2⟩, ⟨[], 3, .Int 3⟩]⟩
        ⟨[]⟩ ⟨[]⟩ ()).1.2 = none ∧
    (SerializeMetric examplePointSerializers exampleAsString ""
        ⟨"load", "", .Gauge [⟨[], 1, .Int 1⟩, ⟨[], 2, .Int 2⟩, ⟨[], 3, .Int 3⟩]⟩
        ⟨[]⟩ ⟨[]⟩ ()).1.1
      = ((metricPointResults examplePointSerializers exampleAsString ""
          ⟨"load", "", .Gauge [⟨[], 1, .Int 1⟩, ⟨[], 2, .Int 2⟩, ⟨[], 3, .Int 3⟩]⟩
          ⟨[]⟩ ⟨[]⟩ ()).map (fun r => r.1)).filter (fun line => line ≠ "") ∧
    (SerializeMetric examplePointSerializers exampleAsString ""
        ⟨"load", "", .Gauge [⟨[], 1, .Int 1⟩, ⟨[], 2, .Int 2⟩, ⟨[], 3, .Int 3⟩]⟩
        ⟨[]⟩ ⟨[]⟩ ()).1.1 = ["load gauge,1", "load gauge,2", "load gauge,3"] :=
  ⟨by decide,
   (output_order_follows_input (objmodel.Serialize formatFloatSixTrim) formatFloatSixTrim
      testResource testLibrary "load" "" examplePointSerializers exampleAsString ""
      ⟨"load", "", .Gauge [⟨[], 1, .Int 1⟩, ⟨[], 2, .Int 2⟩, ⟨[], 3, .Int 3⟩]⟩
      ⟨[]⟩ ⟨[]⟩ ()).2.2.2.2.2.2 (by decide),
   by decide⟩

end encode

/-! ## Theorems: the delta cache -/

namespace serialization
open golang pdata dimensions

theorem DeltaCache.get_put (cache : DeltaCache) (seriesID : String) (entry : CacheEntry) :
    (cache.put seriesID entry).get seriesID = some entry := by
  induction cache with
  | nil => simp [DeltaCache.put, DeltaCache.get]
  | cons kv rest ih =>
    unfold DeltaCache.put
    by_cases h : kv.1 = seriesID
    · simp [h, DeltaCache.get]
    · simp [h, DeltaCache.get, ih]

theorem DeltaCache.find_put (cache : DeltaCache) (seriesID : String) (entry : CacheEntry)
    (now : Nat) (h : now < entry.expiry) :
    (cache.put seriesID entry).find seriesID now = some entry := by
  simp [DeltaCache.find, DeltaCache.get_put, h]

theorem resolveDelta_first (ttl : Nat) (cache : DeltaCache) (seriesID : String) (v : Int)
    (t : Nat) (h : cache.find seriesID t = none) :
    resolveDelta ttl cache seriesID v t
      = ((0, false), cache.put seriesID ⟨v, t, t + ttl⟩) := by
  simp [resolveDelta, h]

theorem resolveDelta_next (ttl : Nat) (cache : DeltaCache) (seriesID : String) (v : Int)
    (t : Nat) (entry : CacheEntry) (h : cache.find seriesID t = some entry) :
    resolveDelta ttl cache seriesID v t
      = (if v < entry.lastValue then ((0, false), cache.put seriesID ⟨v, t, t + ttl⟩)
         else ((v - entry.lastValue, true), cache.put seriesID ⟨v, t, t + ttl⟩)) := by
  simp [resolveDelta, h]

theorem metricLine_ne_empty (name pfx : String) (dims : NormalizedDimensionList)
    (payload : String) : metricLine name pfx dims payload ≠ "" := by
  intro hcon
  have := congrArg String.data hcon
  simp [metricLine, String.data_append] at this

/-- C15: a series observed with the cumulative values 10, 15, 12 under one series
identity and one cache (each observation made before the entry of the previous one
expires, the series being unknown to the cache at first): the first observation yields
no delta and sets the baseline, the second yields the delta 5, the third yields no delta
and leaves 12 as the cached baseline.  Accordingly `SerializeMetric`, called on three
cumulative sum metrics carrying these observations with the cache passed along, returns
no line, then the line of the delta 5, then no line. -/
theorem delta_sequence_10_15_12 (ttl : Nat) (cache : DeltaCache) (seriesID : String)
    (t1 t2 t3 : Nat) (hnew : cache.find seriesID t1 = none)
    (h12 : t2 < t1 + ttl) (h23 : t3 < t2 + ttl)
    (fns : PointSerializers Unit) (AsString : AttributeValue → String)
    (name pfx : String) (attributes : AttributeMap)
    (defaultDimensions staticDimensions : NormalizedDimensionList)
    (hid : seriesID = seriesIdentity name
      (makeCombinedDimensions AsString attributes defaultDimensions staticDimensions)) :
    (resolveDelta ttl cache seriesID 10 t1).1 = (0, false) ∧
    (resolveDelta ttl (resolveDelta ttl cache seriesID 10 t1).2 seriesID 15 t2).1 = (5, true) ∧
    (resolveDelta ttl (resolveDelta ttl (resolveDelta ttl cache seriesID 10 t1).2
      seriesID 15 t2).2 seriesID 12 t3).1 = (0, false) ∧
    ((resolveDelta ttl (resolveDelta ttl (resolveDelta ttl cache seriesID 10 t1).2
      seriesID 15 t2).2 seriesID 12 t3).2.get seriesID).map (fun e => e.lastValue)
      = some 12 ∧
    (SerializeMetric (deltaPointSerializers ttl fns) AsString pfx
        (cumulativeSumMetric name attributes t1 10) defaultDimensions staticDimensions
        cache).1 = ([], none) ∧
    (SerializeMetric (deltaPointSerializers ttl fns) AsString pfx
        (cumulativeSumMetric name attributes t2 15) defaultDimensions staticDimensions
        (resolveDelta ttl cache seriesID 10 t1).2)
      = (([metricLine name pfx
            (makeCombinedDimensions AsString attributes defaultDimensions staticDimensions)
            "count,delta=5"], none),
          (resolveDelta ttl (resolveDelta ttl cache seriesID 10 t1).2 seriesID 15 t2).2) ∧
    (SerializeMetric (deltaPointSerializers ttl fns) AsString pfx
        (cumulativeSumMetric name attributes t3 12) defaultDimensions staticDimensions
        (resolveDelta ttl (resolveDelta ttl cache seriesID 10 t1).2 seriesID 15 t2).2)
      = (([], none),
          (resolveDelta ttl (resolveDelta ttl (resolveDelta ttl cache seriesID 10 t1).2
            seriesID 15 t2).2 seriesID 12 t3).2) := by
  have h1 := resolveDelta_first ttl cache seriesID 10 t1 hnew
  have hf1 := DeltaCache.find_put cache seriesID ⟨10, t1, t1 + ttl⟩ t2 h12
  have h2 := resolveDelta_next ttl (cache.put seriesID ⟨10, t1, t1 + ttl⟩) seriesID 15 t2 _ hf1
  simp only [show ¬ ((15 : Int) < 10) by decide, if_false] at h2
  have hf2 := DeltaCache.find_put (cache.put seriesID ⟨10, t1, t1 + ttl⟩) seriesID
    ⟨15, t2, t2 + ttl⟩ t3 h23
  have h3 := resolveDelta_next ttl
    ((cache.put seriesID ⟨10, t1, t1 + ttl⟩).put seriesID ⟨15, t2, t2 + ttl⟩) seriesID 12 t3 _ hf2
  simp only [show ((12 : Int) < 15) by decide, if_true] at h3
  have hline : ∀ payload, metricLine name pfx
      (makeCombinedDimensions AsString attributes defaultDimensions staticDimensions)
      payload ≠ "" := fun payload => metricLine_ne_empty _ _ _ _
  have h5 : "count,delta=" ++ toString ((15 : Int) - 10) = "count,delta=5" := by decide
  refine ⟨?_, ?_, ?_, ?_, ?_, ?_, ?_⟩
  · rw [h1]
  · rw [h1, h2]
    rfl
  · rw [h1, h2, h3]
  · rw [h1, h2, h3]
    simp [DeltaCache.get_put]
  · simp only [SerializeMetric, cumulativeSumMetric, pointLoop, deltaPointSerializers,
      serializeSum, ← hid, h1]
    simp
  · rw [h1]
    simp only [SerializeMetric, cumulativeSumMetric, pointLoop, deltaPointSerializers,
      serializeSum, ← hid, h2, h5]
    simp [hline]
  · rw [h1, h2]
    simp only [SerializeMetric, cumulativeSumMetric, pointLoop, deltaPointSerializers,
      serializeSum, ← hid, h3]
    simp

/-- C15 evaluated on the series `requests,host=a`, observed at the instants 100, 160 and
220 with a time to live of 300 and an empty cache: no delta, delta 5 (the line
`requests,host=a count,delta=5`), no delta with 12 left as the baseline. -/
theorem delta_sequence_10_15_12_witness :
    DeltaCache.find [] "requests,host=a" 100 = none ∧
    160 < 100 + 300 ∧ 220 < 160 + 300 ∧
    "requests,host=a" = seriesIdentity "requests"
      (makeCombinedDimensions exampleAsString [("host", .String "a")] ⟨[]⟩ ⟨[]⟩) ∧
    (resolveDelta 300 [] "requests,host=a" 10 100).1 = (0, false) ∧
    (resolveDelta 300 (resolveDelta 300 [] "requests,host=a" 10 100).2
      "requests,host=a" 15 160).1 = (5, true) ∧
    (resolveDelta 300 (resolveDelta 300 (resolveDelta 300 [] "requests,host=a" 10 100).2
      "requests,host=a" 15 160).2 "requests,host=a" 12 220).1 = (0, false) ∧
    ((resolveDelta 300 (resolveDelta 300 (resolveDelta 300 [] "requests,host=a" 10 100).2
      "requests,host=a" 15 160).2 "requests,host=a" 12 220).2.get "requests,host=a").map
      (fun e => e.lastValue) = some 12 ∧
    (SerializeMetric (deltaPointSerializers 300 examplePointSerializers) exampleAsString ""
        (cumulativeSumMetric "requests" [("host", .String "a")] 160 15) ⟨[]⟩ ⟨[]⟩
        (resolveDelta 300 [] "requests,host=a" 10 100).2).1
      = (["requests,host=a count,delta=5"], none) :=
  ⟨by decide, by decide, by decide, by decide,
   (delta_sequence_10_15_12 300 [] "requests,host=a" 100 160 220 (by decide) (by decide)
      (by decide) examplePointSerializers exampleAsString "requests" ""
      [("host", .String "a")] ⟨[]⟩ ⟨[]⟩ (by decide)).1,
   (delta_sequence_10_15_12 300 [] "requests,host=a" 100 160 220 (by decide) (by decide)
      (by decide) examplePointSerializers exampleAsString "requests" ""
      [("host", .String "a")] ⟨[]⟩ ⟨[]⟩ (by decide)).2.1,
   (delta_sequence_10_15_12 300 [] "requests,host=a" 100 160 220 (by decide) (by decide)
      (by decide) examplePointSerializers exampleAsString "requests" ""
      [("host", .String "a")] ⟨[]⟩ ⟨[]⟩ (by decide)).2.2.1,
   (delta_sequence_10_15_12 300 [] "requests,host=a" 100 160 220 (by decide) (by decide)
      (by decide) examplePointSerializers exampleAsString "requests" ""
      [("host", .String "a")] ⟨[]⟩ ⟨[]⟩ (by decide)).2.2.2.1,
   by decide⟩

end serialization

/-! ## Theorems: configuration validation -/

namespace headerprocessor
open golang

theorem validateHeaders_ne_none (hs : List HeaderConfig) :
    validateHeaders hs ≠ none ↔ ∃ hc ∈ hs, hc.Name = "" := by
  induction hs with
  | nil => simp [validateHeaders]
  | cons hc rest ih =>
    unfold validateHeaders
    by_cases h : hc.Name = ""
    · simp [h]
    · simp [h, ih]

/-- C16: `Config.Validate` returns an error if and only if `IncludeAll` is false and
`Headers` is empty, or some entry of `Headers` has an empty `Name`.  In particular
`IncludeAll = true` with no headers is valid, and a header entry with only `Attribute`
set is invalid. -/
theorem Validate_error_iff (c : Config) :
    (c.Validate ≠ none ↔
      (c.IncludeAll = false ∧ c.Headers = []) ∨ ∃ hc ∈ c.Headers, hc.Name = "") ∧
    (∀ globalPrefix separator patterns,
      Config.Validate
        { Headers := [], GlobalPrefix := globalPrefix, Separator := separator,
          IncludeAll := true, ExcludePatterns := patterns } = none) ∧
    (∀ (attr : String) (includeAll : Bool),
      Config.Validate { Headers := [{ Attribute := attr }], IncludeAll := includeAll }
        ≠ none) := by
  refine ⟨?_, ?_, ?_⟩
  · unfold Config.Validate
    by_cases h : (!c.IncludeAll && decide (c.Headers.length = 0)) = true
    · simp only [h, if_true]
      simp only [Bool.and_eq_true, Bool.not_eq_true', decide_eq_true_eq,
        List.length_eq_zero] at h
      simp [h.1, h.2]
    · simp only [h]
      rw [if_neg (by simp), validateHeaders_ne_none]
      simp only [Bool.and_eq_true, Bool.not_eq_true', decide_eq_true_eq, List.length_eq_zero,
        not_and] at h
      constructor
      · exact fun hex => Or.inr hex
      · rintro (⟨h1, h2⟩ | hex)
        · exact absurd h2 (h h1)
        · exact hex
  · intro globalPrefix separator patterns
    rfl
  · intro attr includeAll
    cases includeAll <;> simp [Config.Validate, validateHeaders]

/-- C16 evaluated on the five configurations of `TestConfigValidate`. -/
theorem Validate_error_iff_witness :
    Config.Validate { Headers := [{ Name := "X-Test", Attribute := "test" }] } = none ∧
    Config.Validate { IncludeAll := true } = none ∧
    Config.Validate { IncludeAll := false, Headers := [] } ≠ none ∧
    Config.Validate { Headers := [{ Attribute := "test" }] } ≠ none ∧
    Config.Validate { Headers := [{ Name := "X-Test-1" }, { Name := "X-Test-2" }] } = none :=
  ⟨by decide, by decide,
   (Validate_error_iff { IncludeAll := false, Headers := [] }).1.mpr (Or.inl ⟨rfl, rfl⟩),
   (Validate_error_iff {}).2.2 "test" false,
   by decide⟩

end headerprocessor

namespace baggageprocessor
open golang

theorem Action.validate_eq_none_iff (a : baggageprocessor.Action) :
    a.validate = none ↔ ActionValid a := by
  unfold Action.validate ActionValid
  simp only [Extract, Inject, Update, Upsert, Delete]
  by_cases hk : a.Key = ""
  · simp [hk]
  · by_cases he : a.Action = "extract"
    · cases hf : a.FromContext <;> simp [hk, he, hf]
    · by_cases hi : a.Action = "inject"
      · by_cases hv : a.Value = "" <;> by_cases hfa : a.FromAttribute = "" <;>
          simp [hk, hi, hv, hfa]
      · by_cases hu : a.Action = "update"
        · by_cases hv : a.Value = "" <;> by_cases hfa : a.FromAttribute = "" <;>
            simp [hk, hu, hv, hfa]
        · by_cases hp : a.Action = "upsert"
          · by_cases hv : a.Value = "" <;> by_cases hfa : a.FromAttribute = "" <;>
              simp [hk, hp, hv, hfa]
          · by_cases hd : a.Action = "delete"
            · simp [hk, hd]
            · simp [hk, he, hi, hu, hp, hd]

theorem validateActions_eq_none_iff (actions : List Action) (i : Nat) :
    validateActions actions i = none ↔ ∀ a ∈ actions, ActionValid a := by
  induction actions generalizing i with
  | nil => simp [validateActions]
  | cons a rest ih =>
    unfold validateActions
    cases hv : a.validate with
    | some err =>
      have : ¬ ActionValid a := fun h => by
        rw [(Action.validate_eq_none_iff a).mpr h] at hv; cases hv
      simp [this]
    | none =>
      have := (Action.validate_eq_none_iff a).mp hv
      simp [this, ih]

theorem validateActions_first_invalid (pre post : List Action) (a : Action) (err : error)
    (i : Nat) (hpre : ∀ b ∈ pre, ActionValid b) (ha : a.validate = some err) :
    validateActions (pre ++ a :: post) i
      = some ("action " ++ itoa (i + pre.length) ++ ": " ++ err) := by
  induction pre generalizing i with
  | nil => simp [validateActions, ha]
  | cons b pre ih =>
    have hb := (Action.validate_eq_none_iff b).mpr (hpre b (List.mem_cons_self _ _))
    have hstep : validateActions (b :: pre ++ a :: post) i
        = validateActions (pre ++ a :: post) (i + 1) := by
      rw [List.cons_append, validateActions, hb]
    rw [hstep, ih (i + 1) (fun c hc => hpre c (List.mem_cons_of_mem _ hc))]
    have hidx : i + 1 + pre.length = i + (b :: pre).length := by
      simp only [List.length_cons]; omega
    rw [hidx]

/-- C17: `Config.Validate` returns nil if and only if `Actions` is non-empty,
`MaxBaggageSize` is not negative and every action is valid (a non-empty key, and an
extract with `FromContext`, or an inject, update or upsert with exactly one of `Value`
and `FromAttribute`, or a delete).  When an action is invalid, the error is the one of the
first invalid action in list order, prefixed by its index, whatever `MaxBaggageSize`. -/
theorem Validate_nil_iff (cfg : Config) :
    (cfg.Validate = none ↔
      cfg.Actions ≠ [] ∧ 0 ≤ cfg.MaxBaggageSize ∧ ∀ a ∈ cfg.Actions, ActionValid a) ∧
    (∀ (pre post : List Action) (a : Action) (err : error),
      cfg.Actions = pre ++ a :: post → (∀ b ∈ pre, ActionValid b) → a.validate = some err →
      cfg.Validate = some ("action " ++ itoa pre.length ++ ": " ++ err)) := by
  constructor
  · unfold Config.Validate
    by_cases hlen : cfg.Actions.length = 0
    · simp [hlen, List.length_eq_zero.mp hlen]
    · have hne : cfg.Actions ≠ [] := fun h => hlen (by rw [h]; rfl)
      simp only [hlen, if_false]
      cases hv : validateActions cfg.Actions 0 with
      | some err =>
        have : ¬ ∀ a ∈ cfg.Actions, ActionValid a := fun h => by
          rw [(validateActions_eq_none_iff _ 0).mpr h] at hv; cases hv
        simp [this]
      | none =>
        have := (validateActions_eq_none_iff _ 0).mp hv
        by_cases hs : cfg.MaxBaggageSize < 0
        · simp [hs, hne]
        · simp only [hs, if_false, true_iff]
          exact ⟨hne, not_lt.mp hs, this⟩
  · intro pre post a err hact hpre ha
    unfold Config.Validate
    have hlen : ¬ cfg.Actions.length = 0 := by rw [hact]; simp
    have := validateActions_first_invalid pre post a err 0 hpre ha
    rw [Nat.zero_add] at this
    rw [if_neg hlen, hact, this]

/-- C17 evaluated on a configuration whose second and third actions are invalid and whose
`MaxBaggageSize` is negative: the error is the one of the second action. -/
theorem Validate_nil_iff_witness :
    (∀ b ∈ [({ Key := "user", Action := Delete } : Action)], ActionValid b) ∧
    ({ Key := "", Action := Inject, Value := "v" } : Action).validate
      = some "key must be specified" ∧
    Config.Validate
        { Actions := [{ Key := "user", Action := Delete },
                      { Key := "", Action := Inject, Value := "v" },
                      { Key := "k", Action := "rename" }],
          MaxBaggageSize := -1 }
      = some "action 1: key must be specified" ∧
    Config.Validate { Actions := [{ Key := "user", Action := Delete }], MaxBaggageSize := -1 }
      = some "max_baggage_size must be non-negative" ∧
    Config.Validate { Actions := [{ Key := "user", Action := Extract, FromContext := true }] }
      = none :=
  ⟨fun b hb => (Action.validate_eq_none_iff b).mp (by
      rw [List.mem_singleton.mp hb]; decide),
   by decide,
   (Validate_nil_iff
      { Actions := [{ Key := "user", Action := Delete },
                    { Key := "", Action := Inject, Value := "v" },
                    { Key := "k", Action := "rename" }],
        MaxBaggageSize := -1 }).2
      [{ Key := "user", Action := Delete }] [{ Key := "k", Action := "rename" }]
      { Key := "", Action := Inject, Value := "v" } "key must be specified" rfl
      (fun b hb => (Action.validate_eq_none_iff b).mp (by
        rw [List.mem_singleton.mp hb]; decide))
      (by decide),
   by decide, by decide⟩

end baggageprocessor

/-! ## Lemmas on Go maps and on the loops of the header enricher -/

namespace golang

theorem MapGet_MapSet {V : Type} (m : GoMap V) (k k' : String) (v : V) :
    MapGet (MapSet m k v) k' = if k = k' then some v else MapGet m k' := by
  induction m with
  | nil => simp [MapSet, MapGet]
  | cons kv rest ih =>
    obtain ⟨k0, v0⟩ := kv
    unfold MapSet
    by_cases h0 : k0 = k
    · subst h0
      by_cases h1 : k0 = k' <;> simp [MapGet, h1]
    · simp only [h0, if_false, MapGet, ih]
      by_cases h1 : k0 = k'
      · have : ¬ k = k' := fun h => h0 (h1.trans h.symm)
        simp [h1, this]
      · simp [h1]

theorem mem_MapSet {V : Type} (m : GoMap V) (k : String) (v : V) (kv : String × V)
    (h : kv ∈ MapSet m k v) : kv = (k, v) ∨ kv ∈ m := by
  induction m with
  | nil => simpa [MapSet] using h
  | cons kv0 rest ih =>
    obtain ⟨k0, v0⟩ := kv0
    unfold MapSet at h
    by_cases h0 : k0 = k
    · simp only [h0, if_true, List.mem_cons] at h
      rcases h with h | h
      · exact Or.inl h
      · exact Or.inr (List.mem_cons_of_mem _ h)
    · simp only [h0, if_false, List.mem_cons] at h
      rcases h with h | h
      · exact Or.inr (h ▸ List.mem_cons_self _ _)
      · rcases ih h with h | h
        · exact Or.inl h
        · exact Or.inr (List.mem_cons_of_mem _ h)

theorem mem_of_MapGet {V : Type} (m : GoMap V) (k : String) (v : V)
    (h : MapGet m k = some v) : (k, v) ∈ m := by
  induction m with
  | nil => simp [MapGet] at h
  | cons kv0 rest ih =>
    obtain ⟨k0, v0⟩ := kv0
    unfold MapGet at h
    by_cases h0 : k0 = k
    · simp only [h0, if_true, Option.some.injEq] at h
      subst h0; subst h
      exact List.mem_cons_self _ _
    · simp only [h0, if_false] at h
      exact List.mem_cons_of_mem _ (ih h)

end golang

namespace headerprocessor
open golang

theorem mem_foldl_assign {α : Type} (entry : α → Option (String × String)) (xs : List α)
    (m : GoMap String) (kv : String × String)
    (h : kv ∈ xs.foldl (fun attrs x => assign attrs (entry x)) m) :
    kv ∈ m ∨ ∃ x ∈ xs, entry x = some kv := by
  induction xs generalizing m with
  | nil => exact Or.inl h
  | cons x rest ih =>
    rw [List.foldl_cons] at h
    rcases ih _ h with h1 | ⟨y, hy, hey⟩
    · cases hx : entry x with
      | none =>
        rw [hx] at h1
        exact Or.inl h1
      | some e =>
        obtain ⟨key, value⟩ := e
        rw [hx] at h1
        rcases mem_MapSet _ _ _ _ h1 with h2 | h2
        · exact Or.inr ⟨x, List.mem_cons_self _ _, by rw [hx, h2]⟩
        · exact Or.inl h2
    · exact Or.inr ⟨y, List.mem_cons_of_mem _ hy, hey⟩

theorem MapGet_foldl_assign_of_ne {α : Type} (entry : α → Option (String × String))
    (xs : List α) (m : GoMap String) (K : String)
    (h : ∀ x ∈ xs, ∀ kv, entry x = some kv → kv.1 ≠ K) :
    MapGet (xs.foldl (fun attrs x => assign attrs (entry x)) m) K = MapGet m K := by
  induction xs generalizing m with
  | nil => rfl
  | cons x rest ih =>
    rw [List.foldl_cons, ih _ (fun y hy => h y (List.mem_cons_of_mem _ hy))]
    cases hx : entry x with
    | none => rfl
    | some e =>
      obtain ⟨key, value⟩ := e
      have hne : ¬ key = K := h x (List.mem_cons_self _ _) (key, value) hx
      simp only [assign, MapGet_MapSet, hne, if_false]

theorem MapGet_foldl_assign_last {α : Type} (entry : α → Option (String × String))
    (pre post : List α) (x : α) (m : GoMap String) (K v : String)
    (hx : entry x = some (K, v))
    (hpost : ∀ y ∈ post, ∀ kv, entry y = some kv → kv.1 ≠ K) :
    MapGet ((pre ++ x :: post).foldl (fun attrs x => assign attrs (entry x)) m) K
      = some v := by
  rw [List.foldl_append, List.foldl_cons, MapGet_foldl_assign_of_ne entry post _ K hpost, hx]
  simp only [assign, MapGet_MapSet, if_true]

theorem MapGet_foldl_assign_isSome {α : Type} (entry : α → Option (String × String))
    (xs : List α) (m : GoMap String) (x : α) (K v : String) (hmem : x ∈ xs)
    (hx : entry x = some (K, v)) :
    ∃ w, MapGet (xs.foldl (fun attrs x => assign attrs (entry x)) m) K = some w := by
  induction xs generalizing m x v with
  | nil => cases hmem
  | cons y rest ih =>
    rw [List.foldl_cons]
    by_cases hrest : ∃ z ∈ rest, ∃ w, entry z = some (K, w)
    · obtain ⟨z, hz, w, hw⟩ := hrest
      exact ih _ z w hz hw
    · have hy : y = x := by
        rcases List.mem_cons.mp hmem with h | h
        · exact h.symm
        · exact absurd ⟨x, h, v, hx⟩ hrest
      subst hy
      refine ⟨v, ?_⟩
      rw [MapGet_foldl_assign_of_ne entry rest _ K, hx]
      · simp only [assign, MapGet_MapSet, if_true]
      · intro z hz kv hkv hK
        exact hrest ⟨z, hz, kv.2, by rw [hkv, ← hK]⟩

end headerprocessor
namespace headerprocessor
open golang

theorem lowerToActual_eq (ToLower : String → String) (md : client.Metadata) :
    lowerToActual ToLower md
      = md.Keys.foldl (fun m k => assign m ((fun k => some (ToLower k, k)) k)) [] := rfl

theorem lowerToActual_some (ToLower : String → String) (md : client.Metadata)
    (lk actual : String) (h : MapGet (lowerToActual ToLower md) lk = some actual) :
    actual ∈ md.Keys ∧ ToLower actual = lk := by
  have hmem := mem_of_MapGet _ _ _ h
  rw [lowerToActual_eq] at hmem
  rcases mem_foldl_assign _ _ _ _ hmem with h1 | ⟨k, hk, hek⟩
  · cases h1
  · simp only [Option.some.injEq, Prod.mk.injEq] at hek
    obtain ⟨h1, h2⟩ := hek
    subst h2
    exact ⟨hk, h1⟩

theorem lowerToActual_present (ToLower : String → String) (md : client.Metadata)
    (k : String) (hk : k ∈ md.Keys) :
    ∃ actual, MapGet (lowerToActual ToLower md) (ToLower k) = some actual := by
  rw [lowerToActual_eq]
  exact MapGet_foldl_assign_isSome _ _ _ k (ToLower k) k hk rfl

theorem headerEntry_some (ToLower : String → String) (he : headerEnricher)
    (md : client.Metadata) (hc : HeaderConfig) (kv : String × String)
    (h : he.headerEntry ToLower md hc = some kv) :
    kv.1 = he.ruleKey hc ∧
    ∃ k ∈ md.Keys, ToLower k = ToLower hc.Name ∧ md.Get k ≠ [] ∧
      kv.2 = Join (md.Get k) he.sep := by
  unfold headerEnricher.headerEntry at h
  cases hget : MapGet (lowerToActual ToLower md) (ToLower hc.Name) with
  | none => rw [hget] at h; cases h
  | some actual =>
    rw [hget] at h
    obtain ⟨hmem, hlow⟩ := lowerToActual_some _ _ _ _ hget
    by_cases hlen : (md.Get actual).length = 0
    · simp [hlen] at h
    · simp only [hlen, if_false, Option.some.injEq] at h
      subst h
      exact ⟨rfl, actual, hmem, hlow, fun hnil => hlen (by rw [hnil]; rfl), rfl⟩

theorem headerEntry_present (ToLower : String → String) (he : headerEnricher)
    (md : client.Metadata) (hc : HeaderConfig)
    (hpresent : ∃ k ∈ md.Keys, ToLower k = ToLower hc.Name)
    (hvalues : ∀ k ∈ md.Keys, ToLower k = ToLower hc.Name → md.Get k ≠ []) :
    ∃ k ∈ md.Keys, ToLower k = ToLower hc.Name ∧
      he.headerEntry ToLower md hc = some (he.ruleKey hc, Join (md.Get k) he.sep) := by
  obtain ⟨k, hk, hlow⟩ := hpresent
  obtain ⟨actual, hget⟩ := lowerToActual_present ToLower md k hk
  rw [hlow] at hget
  obtain ⟨hmem, hlow2⟩ := lowerToActual_some _ _ _ _ hget
  refine ⟨actual, hmem, hlow2, ?_⟩
  unfold headerEnricher.headerEntry
  rw [hget]
  have hlen : ¬ (md.Get actual).length = 0 := fun h =>
    hvalues actual hmem hlow2 (List.length_eq_zero.mp h)
  simp only [hlen, if_false]
  rfl

theorem includeAllEntry_some (ToLower : String → String) (he : headerEnricher)
    (md : client.Metadata) (k : String) (kv : String × String)
    (h : he.includeAllEntry ToLower md k = some kv) :
    he.excluded (ToLower k) = false ∧ md.Get k ≠ [] ∧
      kv = (he.buildAttrKey "" k, Join (md.Get k) he.sep) := by
  unfold headerEnricher.includeAllEntry at h
  cases hex : he.excluded (ToLower k) with
  | true => simp [hex] at h
  | false =>
    by_cases hlen : (md.Get k).length = 0
    · simp [hex, hlen] at h
    · simp only [hex, hlen, if_false, Bool.false_eq_true, Option.some.injEq] at h
      exact ⟨rfl, fun hnil => hlen (by rw [hnil]; rfl), h.symm⟩

theorem attributesFromContext_specific (ToLower : String → String) (he : headerEnricher)
    (ctx : client.Context) (hmode : he.cfg.IncludeAll = false) :
    he.attributesFromContext ToLower ctx
      = he.cfg.Headers.foldl
          (fun attrs hc => assign attrs (he.headerEntry ToLower ctx.Metadata hc)) [] := by
  unfold headerEnricher.attributesFromContext
  simp [hmode, client.FromContext]

theorem attributesFromContext_includeAll (ToLower : String → String) (he : headerEnricher)
    (ctx : client.Context) (hmode : he.cfg.IncludeAll = true) :
    he.attributesFromContext ToLower ctx
      = ctx.Metadata.Keys.foldl
          (fun attrs k => assign attrs (he.includeAllEntry ToLower ctx.Metadata k)) [] := by
  unfold headerEnricher.attributesFromContext
  simp [hmode, client.FromContext]

theorem newHeaderEnricher_ok (Compile : String → Except error regexp.Regexp) (cfg : Config)
    (he : headerEnricher) (h : newHeaderEnricher Compile cfg = .ok he) :
    he.cfg = cfg ∧ he.sep = (if cfg.Separator = "" then ";" else cfg.Separator) := by
  unfold newHeaderEnricher at h
  simp only at h
  split at h
  · cases h
  · cases h
    exact ⟨rfl, rfl⟩

theorem ruleKey_eq (he : headerEnricher) (hc : HeaderConfig) :
    he.ruleKey hc
      = (if TrimSpace hc.Prefix ≠ "" then TrimSpace hc.Prefix
          else TrimSpace he.cfg.GlobalPrefix)
        ++ (if hc.Attribute ≠ "" then hc.Attribute else hc.Name) := by
  unfold headerEnricher.ruleKey headerEnricher.buildAttrKey firstNonEmpty firstNonEmpty
    firstNonEmpty
  by_cases hp : TrimSpace hc.Prefix = "" <;> by_cases ha : hc.Attribute = "" <;>
    by_cases hn : hc.Name = "" <;> simp [hp, ha, hn]

end headerprocessor
/-! ## Theorems: the attributes extracted from the client metadata -/

namespace headerprocessor
open golang

/-- C18 (counterexample): the prefix is trimmed before it is used.  With the rule prefix
`" req."` the attribute key is `req.x-correlation-id` and the key that starts with the
rule's prefix as configured is not set; with a rule prefix of blanks only, the global
prefix is used although the rule's prefix is not empty. -/
theorem attributesFromContext_trims_prefix :
    (∃ he, newHeaderEnricher compileAnchored
          { Headers := [{ Name := "x-correlation-id", Prefix := " req." }] } = .ok he ∧
        he.attributesFromContext toLowerASCII { Metadata := testSpecificMetadata }
          = [("req.x-correlation-id", "abc;def")] ∧
        MapGet (he.attributesFromContext toLowerASCII { Metadata := testSpecificMetadata })
          (" req." ++ "x-correlation-id") = none) ∧
    (∃ he, newHeaderEnricher compileAnchored
          { Headers := [{ Name := "x-correlation-id", Prefix := "  " }],
            GlobalPrefix := "g." } = .ok he ∧
        he.attributesFromContext toLowerASCII { Metadata := testSpecificMetadata }
          = [("g.x-correlation-id", "abc;def")] ∧
        MapGet (he.attributesFromContext toLowerASCII { Metadata := testSpecificMetadata })
          ("  " ++ "x-correlation-id") = none) :=
  ⟨⟨_, rfl, by decide, by decide⟩, ⟨_, rfl, by decide, by decide⟩⟩

/-- C18 (amended): in specific-header mode, for every header rule whose header is present
in the metadata with at least one value, `attributesFromContext` sets the attribute whose
key is `P ++ A`, where `A` is the rule's `Attribute` if it is non-empty and the rule's
`Name` otherwise, and `P` is the rule's `Prefix` without its leading and trailing white
space if that is non-empty, and `GlobalPrefix` without its leading and trailing white space
otherwise. -/
theorem attributesFromContext_rule_key (ToLower : String → String) (he : headerEnricher)
    (ctx : client.Context) (hc : HeaderConfig)
    (hmode : he.cfg.IncludeAll = false) (hrule : hc ∈ he.cfg.Headers)
    (hpresent : ∃ k ∈ ctx.Metadata.Keys, ToLower k = ToLower hc.Name)
    (hvalues : ∀ k ∈ ctx.Metadata.Keys, ToLower k = ToLower hc.Name →
      ctx.Metadata.Get k ≠ []) :
    ∃ v, MapGet (he.attributesFromContext ToLower ctx)
        ((if TrimSpace hc.Prefix ≠ "" then TrimSpace hc.Prefix
            else TrimSpace he.cfg.GlobalPrefix)
          ++ (if hc.Attribute ≠ "" then hc.Attribute else hc.Name)) = some v := by
  obtain ⟨k, _, _, hentry⟩ := headerEntry_present ToLower he ctx.Metadata hc hpresent hvalues
  rw [attributesFromContext_specific ToLower he ctx hmode, ← ruleKey_eq]
  exact MapGet_foldl_assign_isSome _ _ _ hc _ _ hrule hentry

/-- C18 on the rules of `TestEnricherSpecificHeaders` and `TestIntegrationLogs`: name
`x-correlation-id` with prefix `req.` gives the key `req.x-correlation-id`, and attribute
`log.attr` with prefix `custom.` gives `custom.log.attr`. -/
theorem attributesFromContext_rule_key_witness :
    (∃ v, MapGet (testSpecificEnricher.attributesFromContext toLowerASCII
        { Metadata := testSpecificMetadata }) "req.x-correlation-id" = some v) ∧
    (∃ v, MapGet
        (headerEnricher.attributesFromContext toLowerASCII
          { cfg := { Headers := [{ Name := "X-Log-Header", Attribute := "log.attr",
                                   Prefix := "custom." }],
                     Separator := ";" },
            sep := ";", excludeMatchers := [] }
          { Metadata := newTestMetadata [("X-Log-Header", ["log-value"])] })
        "custom.log.attr" = some v) :=
  ⟨attributesFromContext_rule_key toLowerASCII testSpecificEnricher
      { Metadata := testSpecificMetadata } { Name := "x-correlation-id", Prefix := "req." }
      (by decide) (by decide) (by decide) (by decide),
   attributesFromContext_rule_key toLowerASCII
      { cfg := { Headers := [{ Name := "X-Log-Header", Attribute := "log.attr",
                               Prefix := "custom." }],
                 Separator := ";" },
        sep := ";", excludeMatchers := [] }
      { Metadata := newTestMetadata [("X-Log-Header", ["log-value"])] }
      { Name := "X-Log-Header", Attribute := "log.attr", Prefix := "custom." }
      (by decide) (by decide) (by decide) (by decide)⟩

/-- C19: for an enricher built by `newHeaderEnricher`, the separator is
`Config.Separator`, or `";"` when that is empty, and the value of every attribute that
`attributesFromContext` produces is the list of values `v1, ..., vn` (`n ≥ 1`) of a
metadata header, joined in order with the separator. -/
theorem attribute_value_joined (Compile : String → Except error regexp.Regexp)
    (ToLower : String → String) (cfg : Config) (he : headerEnricher) (ctx : client.Context)
    (hnew : newHeaderEnricher Compile cfg = .ok he) :
    he.sep = (if cfg.Separator = "" then ";" else cfg.Separator) ∧
    (∀ K v, MapGet (he.attributesFromContext ToLower ctx) K = some v →
      ∃ k ∈ ctx.Metadata.Keys, ctx.Metadata.Get k ≠ [] ∧
        v = Join (ctx.Metadata.Get k) he.sep) ∧
    (∀ v1 sep, Join [v1] sep = v1) ∧
    (∀ v1 v2 rest sep, Join (v1 :: v2 :: rest) sep = v1 ++ sep ++ Join (v2 :: rest) sep) := by
  refine ⟨(newHeaderEnricher_ok Compile cfg he hnew).2, ?_, fun _ _ => rfl,
    fun _ _ _ _ => rfl⟩
  intro K v hget
  have hmem := mem_of_MapGet _ _ _ hget
  cases hmode : he.cfg.IncludeAll with
  | true =>
    rw [attributesFromContext_includeAll ToLower he ctx hmode] at hmem
    rcases mem_foldl_assign _ _ _ _ hmem with h | ⟨k, hk, hentry⟩
    · cases h
    · obtain ⟨_, hne, hkv⟩ := includeAllEntry_some ToLower he ctx.Metadata k _ hentry
      exact ⟨k, hk, hne, (Prod.mk.inj hkv).2⟩
  | false =>
    rw [attributesFromContext_specific ToLower he ctx hmode] at hmem
    rcases mem_foldl_assign _ _ _ _ hmem with h | ⟨hc, _, hentry⟩
    · cases h
    · obtain ⟨_, k, hk, _, hne, hv⟩ := headerEntry_some ToLower he ctx.Metadata hc _ hentry
      exact ⟨k, hk, hne, hv⟩

/-- C19 on `TestEnricherSpecificHeaders`: the values `abc` and `def` give `abc;def`, also
when the separator of the configuration is empty. -/
theorem attribute_value_joined_witness :
    testSpecificEnricher.sep = ";" ∧
    MapGet (testSpecificEnricher.attributesFromContext toLowerASCII
      { Metadata := testSpecificMetadata }) "req.x-correlation-id" = some "abc;def" ∧
    (∃ k ∈ testSpecificMetadata.Keys, testSpecificMetadata.Get k ≠ [] ∧
      "abc;def" = Join (testSpecificMetadata.Get k) testSpecificEnricher.sep) ∧
    Join ["abc", "def"] ";" = "abc;def" ∧
    (∃ he, newHeaderEnricher compileAnchored
        { Headers := [{ Name := "x-correlation-id" }], Separator := "" } = .ok he ∧
      he.attributesFromContext toLowerASCII { Metadata := testSpecificMetadata }
        = [("x-correlation-id", "abc;def")]) :=
  ⟨(attribute_value_joined compileAnchored toLowerASCII testSpecificConfig
      testSpecificEnricher { Metadata := testSpecificMetadata } rfl).1,
   by decide,
   (attribute_value_joined compileAnchored toLowerASCII testSpecificConfig
      testSpecificEnricher { Metadata := testSpecificMetadata } rfl).2.1
      "req.x-correlation-id" "abc;def" (by decide),
   by decide,
   ⟨_, rfl, by decide⟩⟩

/-- C20: in specific-header mode the rules match header names without regard to letter
case.  For a rule and a metadata key that are equal after lower-casing (the key being the
only one with that lower-cased name, and no later rule writing the same attribute), the
attribute of the rule holds the joined values of that header; every attribute of the
result comes from a rule and a metadata key that are equal after lower-casing, so a header
that matches no rule yields no attribute; and when no rule matches a key the result is
empty. -/
theorem header_matching_case_insensitive (ToLower : String → String) (he : headerEnricher)
    (ctx : client.Context) (hmode : he.cfg.IncludeAll = false) :
    (∀ (pre : List HeaderConfig) (hc : HeaderConfig) (post : List HeaderConfig) (k : String),
      he.cfg.Headers = pre ++ hc :: post → k ∈ ctx.Metadata.Keys →
      ToLower hc.Name = ToLower k →
      (∀ k' ∈ ctx.Metadata.Keys, ToLower k' = ToLower k → k' = k) →
      ctx.Metadata.Get k ≠ [] →
      (∀ r ∈ post, he.ruleKey r ≠ he.ruleKey hc) →
      MapGet (he.attributesFromContext ToLower ctx) (he.ruleKey hc)
        = some (Join (ctx.Metadata.Get k) he.sep)) ∧
    (∀ K v, MapGet (he.attributesFromContext ToLower ctx) K = some v →
      ∃ hc ∈ he.cfg.Headers, ∃ k ∈ ctx.Metadata.Keys,
        ToLower hc.Name = ToLower k ∧ ctx.Metadata.Get k ≠ [] ∧ K = he.ruleKey hc ∧
        v = Join (ctx.Metadata.Get k) he.sep) ∧
    ((∀ hc ∈ he.cfg.Headers, ∀ k ∈ ctx.Metadata.Keys, ToLower hc.Name ≠ ToLower k) →
      he.attributesFromContext ToLower ctx = []) := by
  rw [attributesFromContext_specific ToLower he ctx hmode]
  refine ⟨?_, ?_, ?_⟩
  · intro pre hc post k hsplit hk hlow huniq hne hpost
    have hvalues : ∀ k' ∈ ctx.Metadata.Keys, ToLower k' = ToLower hc.Name →
        ctx.Metadata.Get k' ≠ [] := by
      intro k' hk' hlow'
      rw [huniq k' hk' (hlow'.trans hlow)]
      exact hne
    obtain ⟨k2, hk2, hlow2, hentry⟩ :=
      headerEntry_present ToLower he ctx.Metadata hc ⟨k, hk, hlow.symm⟩ hvalues
    rw [huniq k2 hk2 (hlow2.trans hlow)] at hentry
    rw [hsplit]
    refine MapGet_foldl_assign_last _ pre post hc [] _ _ hentry ?_
    intro r hr kv hkv heq
    exact hpost r hr ((headerEntry_some ToLower he ctx.Metadata r kv hkv).1 ▸ heq)
  · intro K v hget
    have hmem := mem_of_MapGet _ _ _ hget
    rcases mem_foldl_assign _ _ _ _ hmem with h | ⟨hc, hhc, hentry⟩
    · cases h
    · obtain ⟨hK, k, hk, hlow, hne, hv⟩ :=
        headerEntry_some ToLower he ctx.Metadata hc _ hentry
      exact ⟨hc, hhc, k, hk, hlow.symm, hne, hK, hv⟩
  · intro hnone
    rw [List.eq_nil_iff_forall_not_mem]
    intro kv hmem
    rcases mem_foldl_assign _ _ _ _ hmem with h | ⟨hc, hhc, hentry⟩
    · cases h
    · obtain ⟨_, k, hk, hlow, _, _⟩ := headerEntry_some ToLower he ctx.Metadata hc _ hentry
      exact hnone hc hhc k hk hlow.symm

/-- C20 on `TestEnricherSpecificHeaders`: the rule `User-Agent` matches the metadata key
`user-agent`, and the header `ignore`, which matches no rule, gives no attribute. -/
theorem header_matching_case_insensitive_witness :
    MapGet (testSpecificEnricher.attributesFromContext toLowerASCII
      { Metadata := testSpecificMetadata }) "http.user_agent" = some "UA-1" ∧
    MapGet (testSpecificEnricher.attributesFromContext toLowerASCII
      { Metadata := testSpecificMetadata }) "ignore" = none ∧
    testSpecificEnricher.attributesFromContext toLowerASCII
      { Metadata := newTestMetadata [("ignore", ["nope"])] } = [] :=
  ⟨(header_matching_case_insensitive toLowerASCII testSpecificEnricher
      { Metadata := testSpecificMetadata } rfl).1
      [] { Name := "User-Agent", Attribute := "http.user_agent" }
      [{ Name := "x-correlation-id", Prefix := "req." }] "user-agent" rfl
      (by decide) (by decide) (by decide) (by decide) (by decide),
   by decide,
   (header_matching_case_insensitive toLowerASCII testSpecificEnricher
      { Metadata := newTestMetadata [("ignore", ["nope"])] } rfl).2.2 (by decide)⟩

end headerprocessor

/-! ## Lemmas: the include-all loop -/

namespace golang

theorem string_append_left_cancel (a k k' : String) (h : a ++ k = a ++ k') : k = k' := by
  have hd := congrArg String.data h
  simp only [String.data_append] at hd
  exact String.ext (List.append_cancel_left hd)

theorem MapSet_of_not_mem {V : Type} (m : GoMap V) (k : String) (v : V)
    (h : k ∉ m.map Prod.fst) : MapSet m k v = m ++ [(k, v)] := by
  induction m with
  | nil => rfl
  | cons kv rest ih =>
    obtain ⟨k0, v0⟩ := kv
    simp only [List.map_cons, List.mem_cons, not_or] at h
    have h0 : ¬ k0 = k := fun e => h.1 e.symm
    simp only [MapSet, h0, if_false, ih h.2, List.cons_append]

end golang

namespace headerprocessor
open golang

theorem foldl_assign_append {α : Type} (entry : α → Option (String × String)) (xs : List α)
    (m : GoMap String)
    (hnodup : (m.map Prod.fst ++ (xs.filterMap entry).map Prod.fst).Nodup) :
    xs.foldl (fun attrs x => assign attrs (entry x)) m = m ++ xs.filterMap entry := by
  induction xs generalizing m with
  | nil => simp
  | cons x rest ih =>
    rw [List.foldl_cons]
    cases hx : entry x with
    | none =>
      simp only [List.filterMap_cons, hx] at hnodup ⊢
      exact ih m hnodup
    | some kv =>
      obtain ⟨key, value⟩ := kv
      simp only [List.filterMap_cons, hx, List.map_cons] at hnodup ⊢
      have hkey : key ∉ m.map Prod.fst := by
        intro hmem
        have := List.nodup_append.mp hnodup
        exact this.2.2 hmem (List.mem_cons_self _ _) 
      have hset : assign m (some (key, value)) = m ++ [(key, value)] :=
        MapSet_of_not_mem m key value hkey
      rw [hset, ih]
      · simp
      · simpa [List.map_append] using hnodup

theorem TrimSpace_empty : TrimSpace "" = "" := by decide

theorem buildAttrKey_empty (he : headerEnricher) (k : String) :
    he.buildAttrKey "" k = TrimSpace he.cfg.GlobalPrefix ++ k := by
  simp [headerEnricher.buildAttrKey, TrimSpace_empty]

theorem includeAllEntry_eq (ToLower : String → String) (he : headerEnricher)
    (md : client.Metadata) (k : String) :
    he.includeAllEntry ToLower md k
      = if he.excluded (ToLower k) = false ∧ md.Get k ≠ [] then
          some (TrimSpace he.cfg.GlobalPrefix ++ k, Join (md.Get k) he.sep)
        else none := by
  unfold headerEnricher.includeAllEntry
  rw [buildAttrKey_empty]
  cases hex : he.excluded (ToLower k) with
  | true => simp
  | false =>
    by_cases hlen : md.Get k = []
    · simp [hlen]
    · have : ¬ (md.Get k).length = 0 := fun h => hlen (List.length_eq_zero.mp h)
      simp [hlen, this]

theorem filterMap_includeAllEntry (ToLower : String → String) (he : headerEnricher)
    (md : client.Metadata) (keys : List String) :
    keys.filterMap (he.includeAllEntry ToLower md)
      = (keys.filter (fun k => !he.excluded (ToLower k) && decide (md.Get k ≠ []))).map
          (fun k => (TrimSpace he.cfg.GlobalPrefix ++ k, Join (md.Get k) he.sep)) := by
  induction keys with
  | nil => rfl
  | cons k rest ih =>
    rw [List.filterMap_cons, includeAllEntry_eq]
    by_cases hq : he.excluded (ToLower k) = false ∧ md.Get k ≠ []
    · have hb : (!he.excluded (ToLower k) && decide (md.Get k ≠ [])) = true := by
        simp [hq.1, hq.2]
      rw [if_pos hq]
      simp only [List.filter_cons, hb, if_true, List.map_cons, ih]
    · have hb : ¬ (!he.excluded (ToLower k) && decide (md.Get k ≠ [])) = true := by
        intro hb
        simp only [Bool.and_eq_true, Bool.not_eq_true', decide_eq_true_eq] at hb
        exact hq hb
      rw [if_neg hq]
      simp only [List.filter_cons, hb, if_false, ih, Bool.false_eq_true]

theorem includeAll_lookup (ToLower : String → String) (he : headerEnricher)
    (ctx : client.Context) (hmode : he.cfg.IncludeAll = true) (K v : String)
    (h : MapGet (he.attributesFromContext ToLower ctx) K = some v) :
    ∃ k ∈ ctx.Metadata.Keys, ctx.Metadata.Get k ≠ [] ∧ he.excluded (ToLower k) = false ∧
      K = TrimSpace he.cfg.GlobalPrefix ++ k ∧ v = Join (ctx.Metadata.Get k) he.sep := by
  have hmem := mem_of_MapGet _ _ _ h
  rw [attributesFromContext_includeAll ToLower he ctx hmode] at hmem
  rcases mem_foldl_assign _ _ _ _ hmem with h0 | ⟨k, hk, hentry⟩
  · cases h0
  · obtain ⟨hex, hne, hkv⟩ := includeAllEntry_some ToLower he ctx.Metadata k _ hentry
    rw [buildAttrKey_empty] at hkv
    exact ⟨k, hk, hne, hex, (Prod.mk.inj hkv).1, (Prod.mk.inj hkv).2⟩

theorem includeAll_present (ToLower : String → String) (he : headerEnricher)
    (ctx : client.Context) (hmode : he.cfg.IncludeAll = true) (k : String)
    (hk : k ∈ ctx.Metadata.Keys) (hne : ctx.Metadata.Get k ≠ [])
    (hex : he.excluded (ToLower k) = false) :
    MapGet (he.attributesFromContext ToLower ctx) (TrimSpace he.cfg.GlobalPrefix ++ k)
      = some (Join (ctx.Metadata.Get k) he.sep) := by
  have hentry : he.includeAllEntry ToLower ctx.Metadata k
      = some (TrimSpace he.cfg.GlobalPrefix ++ k, Join (ctx.Metadata.Get k) he.sep) := by
    rw [includeAllEntry_eq, if_pos ⟨hex, hne⟩]
  obtain ⟨w, hw⟩ : ∃ w, MapGet (he.attributesFromContext ToLower ctx)
      (TrimSpace he.cfg.GlobalPrefix ++ k) = some w := by
    rw [attributesFromContext_includeAll ToLower he ctx hmode]
    exact MapGet_foldl_assign_isSome _ _ _ k _ _ hk hentry
  obtain ⟨k', _, _, _, hK, hv⟩ := includeAll_lookup ToLower he ctx hmode _ _ hw
  rw [hw, hv, ← string_append_left_cancel _ _ _ hK]

end headerprocessor
namespace headerprocessor
open golang

theorem compilePatterns_ok (Compile : String → Except error regexp.Regexp)
    (ps : List String) (ms : List regexp.Regexp) (h : compilePatterns Compile ps = .ok ms) :
    List.Forall₂ (fun p r => Compile p = .ok r) ps ms := by
  induction ps generalizing ms with
  | nil =>
    simp only [compilePatterns] at h
    cases h
    exact List.Forall₂.nil
  | cons p rest ih =>
    unfold compilePatterns at h
    cases hp : Compile p with
    | error e => rw [hp] at h; cases h
    | ok r =>
      rw [hp] at h
      cases hrest : compilePatterns Compile rest with
      | error e => rw [hrest] at h; cases h
      | ok rs =>
        rw [hrest] at h
        cases h
        exact List.Forall₂.cons hp (ih rs hrest)

theorem newHeaderEnricher_matchers (Compile : String → Except error regexp.Regexp)
    (cfg : Config) (he : headerEnricher) (h : newHeaderEnricher Compile cfg = .ok he) :
    List.Forall₂ (fun p r => Compile p = .ok r) (excludePatternsOf cfg) he.excludeMatchers := by
  unfold newHeaderEnricher at h
  simp only at h
  split at h
  · cases h
  · next matchers hm =>
    cases h
    exact compilePatterns_ok Compile _ _ hm

theorem excluded_iff (Compile : String → Except error regexp.Regexp)
    (cfg : Config) (he : headerEnricher) (h : newHeaderEnricher Compile cfg = .ok he)
    (lowerHeader : String) :
    he.excluded lowerHeader = true ↔
      ∃ p ∈ excludePatternsOf cfg, ∃ r, Compile p = .ok r ∧ r.MatchString lowerHeader = true := by
  have hall := newHeaderEnricher_matchers Compile cfg he h
  unfold headerEnricher.excluded
  generalize excludePatternsOf cfg = ps at hall
  generalize he.excludeMatchers = ms at hall
  induction hall with
  | nil => simp
  | @cons p r ps ms hpr _ ih =>
    simp only [List.any_cons, Bool.or_eq_true, ih, List.mem_cons, exists_eq_or_imp]
    constructor
    · rintro (hm | hrest)
      · exact Or.inl ⟨r, hpr, hm⟩
      · exact Or.inr hrest
    · rintro (⟨r', hr', hm⟩ | hrest)
      · rw [hpr] at hr'
        cases hr'
        exact Or.inl hm
      · exact Or.inr hrest

/-- C21 (counterexample): with the global prefix `" http.header."` the keys start with
the trimmed prefix `http.header.`, and the key made of the configured prefix followed by
the header name is not set. -/
theorem includeAll_trims_global_prefix :
    extractSimple
        { IncludeAll := true, GlobalPrefix := " http.header.", Separator := ";",
          ExcludePatterns := ["^authorization$", "^x-forwarded-.*$"] }
        { Metadata := testIncludeAllMetadata }
      = some [("http.header.user-agent", "UA-1")] ∧
    MapGet [("http.header.user-agent", "UA-1")] (" http.header." ++ "user-agent") = none :=
  ⟨by decide, by decide⟩

/-- C21 (amended): when `IncludeAll` is true, the result of `attributesFromContext` has an
entry for exactly those metadata headers that have at least one value and whose lower-cased
name matches none of the exclude patterns.  The key of the entry is `GlobalPrefix` without
its leading and trailing white space, followed by the header's name as the metadata holds
it, and the value is the joined values; a header that an exclude pattern matches, or that
has no value, contributes no attribute; and when the metadata keys are distinct, the
result is the list of these entries, one per header. -/
theorem includeAll_entries (ToLower : String → String) (he : headerEnricher)
    (ctx : client.Context) (hmode : he.cfg.IncludeAll = true) :
    (∀ k ∈ ctx.Metadata.Keys, ctx.Metadata.Get k ≠ [] → he.excluded (ToLower k) = false →
      MapGet (he.attributesFromContext ToLower ctx) (TrimSpace he.cfg.GlobalPrefix ++ k)
        = some (Join (ctx.Metadata.Get k) he.sep)) ∧
    (∀ K v, MapGet (he.attributesFromContext ToLower ctx) K = some v →
      ∃ k ∈ ctx.Metadata.Keys, ctx.Metadata.Get k ≠ [] ∧ he.excluded (ToLower k) = false ∧
        K = TrimSpace he.cfg.GlobalPrefix ++ k ∧ v = Join (ctx.Metadata.Get k) he.sep) ∧
    (∀ k, he.excluded (ToLower k) = true ∨ ctx.Metadata.Get k = [] →
      MapGet (he.attributesFromContext ToLower ctx) (TrimSpace he.cfg.GlobalPrefix ++ k)
        = none) ∧
    (ctx.Metadata.Keys.Nodup →
      he.attributesFromContext ToLower ctx
        = (ctx.Metadata.Keys.filter
            (fun k => !he.excluded (ToLower k) && decide (ctx.Metadata.Get k ≠ []))).map
            (fun k => (TrimSpace he.cfg.GlobalPrefix ++ k,
                       Join (ctx.Metadata.Get k) he.sep))) := by
  refine ⟨fun k hk hne hex => includeAll_present ToLower he ctx hmode k hk hne hex,
    fun K v h => includeAll_lookup ToLower he ctx hmode K v h, ?_, ?_⟩
  · intro k hk
    cases hget : MapGet (he.attributesFromContext ToLower ctx)
        (TrimSpace he.cfg.GlobalPrefix ++ k) with
    | none => rfl
    | some v =>
      obtain ⟨k', _, hne, hex, hK, _⟩ := includeAll_lookup ToLower he ctx hmode _ _ hget
      have hkk : k = k' := string_append_left_cancel _ _ _ hK
      subst hkk
      rcases hk with h | h
      · rw [hex] at h; cases h
      · exact absurd h hne
  · intro hnodup
    rw [attributesFromContext_includeAll ToLower he ctx hmode, foldl_assign_append,
      filterMap_includeAllEntry, List.nil_append]
    rw [filterMap_includeAllEntry, List.map_nil, List.nil_append, List.map_map]
    refine List.Nodup.map ?_ (hnodup.filter _)
    intro a b hab
    exact string_append_left_cancel _ _ _ hab

/-- C21 on `TestEnricherIncludeAllWithExclude`: only `user-agent` gives an attribute, with
the key `http.header.user-agent`; `authorization` and `x-forwarded-for` are excluded. -/
theorem includeAll_entries_witness :
    MapGet ((enricherOf testIncludeAllConfig).attributesFromContext toLowerASCII
      { Metadata := testIncludeAllMetadata }) "http.header.user-agent" = some "UA-1" ∧
    MapGet ((enricherOf testIncludeAllConfig).attributesFromContext toLowerASCII
      { Metadata := testIncludeAllMetadata }) "http.header.authorization" = none ∧
    MapGet ((enricherOf testIncludeAllConfig).attributesFromContext toLowerASCII
      { Metadata := testIncludeAllMetadata }) "http.header.x-forwarded-for" = none ∧
    (enricherOf testIncludeAllConfig).attributesFromContext toLowerASCII
      { Metadata := testIncludeAllMetadata } = [("http.header.user-agent", "UA-1")] :=
  ⟨(includeAll_entries toLowerASCII (enricherOf testIncludeAllConfig)
      { Metadata := testIncludeAllMetadata } rfl).1 "user-agent"
      (by decide) (by decide) (by decide),
   (includeAll_entries toLowerASCII (enricherOf testIncludeAllConfig)
      { Metadata := testIncludeAllMetadata } rfl).2.2.1 "authorization"
      (Or.inl (by decide)),
   (includeAll_entries toLowerASCII (enricherOf testIncludeAllConfig)
      { Metadata := testIncludeAllMetadata } rfl).2.2.1 "x-forwarded-for"
      (Or.inl (by decide)),
   (includeAll_entries toLowerASCII (enricherOf testIncludeAllConfig)
      { Metadata := testIncludeAllMetadata } rfl).2.2.2 (by decide)⟩

/-- C22: when `IncludeAll` is true and no exclude pattern is configured, the headers
`authorization` and `cookie`, in any letter case, give no attribute, whatever the metadata
and the prefix: no entry has the key of such a header, and every entry of the result
comes from a header whose lower-cased name is neither of the two.  The regular expression
library is assumed to match `^authorization$` against `authorization` and `^cookie$`
against `cookie`. -/
theorem sensitive_headers_excluded_by_default
    (Compile : String → Except error regexp.Regexp) (ToLower : String → String)
    (cfg : Config) (he : headerEnricher) (ctx : client.Context)
    (hnew : newHeaderEnricher Compile cfg = .ok he)
    (hall : cfg.IncludeAll = true) (hpat : cfg.ExcludePatterns = [])
    (hauth : ∀ r, Compile "^authorization$" = .ok r → r.MatchString "authorization" = true)
    (hcookie : ∀ r, Compile "^cookie$" = .ok r → r.MatchString "cookie" = true) :
    (∀ k, ToLower k = "authorization" ∨ ToLower k = "cookie" →
      MapGet (he.attributesFromContext ToLower ctx) (TrimSpace cfg.GlobalPrefix ++ k)
        = none) ∧
    (∀ K v, MapGet (he.attributesFromContext ToLower ctx) K = some v →
      ∃ k ∈ ctx.Metadata.Keys, ToLower k ≠ "authorization" ∧ ToLower k ≠ "cookie" ∧
        K = TrimSpace cfg.GlobalPrefix ++ k ∧ v = Join (ctx.Metadata.Get k) he.sep) := by
  have hcfg : he.cfg = cfg := (newHeaderEnricher_ok Compile cfg he hnew).1
  have hmode : he.cfg.IncludeAll = true := by rw [hcfg]; exact hall
  have hpats : excludePatternsOf cfg = ["^authorization$", "^cookie$"] := by
    simp [excludePatternsOf, hall, hpat]
  have hmatchers := newHeaderEnricher_matchers Compile cfg he hnew
  rw [hpats] at hmatchers
  have hsens : ∀ k, ToLower k = "authorization" ∨ ToLower k = "cookie" →
      he.excluded (ToLower k) = true := by
    intro k hk
    rw [excluded_iff Compile cfg he hnew, hpats]
    obtain ⟨r1, ms1, h1, hrest, _⟩ := List.forall₂_cons_left_iff.mp hmatchers
    obtain ⟨r2, ms2, h2, _, _⟩ := List.forall₂_cons_left_iff.mp hrest
    rcases hk with hk | hk
    · exact ⟨_, List.mem_cons_self _ _, r1, h1, by rw [hk]; exact hauth _ h1⟩
    · exact ⟨_, List.mem_cons_of_mem _ (List.mem_cons_self _ _), r2, h2,
        by rw [hk]; exact hcookie _ h2⟩
  constructor
  · intro k hk
    cases hget : MapGet (he.attributesFromContext ToLower ctx)
        (TrimSpace cfg.GlobalPrefix ++ k) with
    | none => rfl
    | some v =>
      obtain ⟨k', _, _, hex, hK, _⟩ := includeAll_lookup ToLower he ctx hmode _ _ hget
      rw [hcfg] at hK
      have hkk : k = k' := string_append_left_cancel _ _ _ hK
      subst hkk
      rw [hsens k hk] at hex
      cases hex
  · intro K v hget
    obtain ⟨k, hk, _, hex, hK, hv⟩ := includeAll_lookup ToLower he ctx hmode _ _ hget
    rw [hcfg] at hK
    refine ⟨k, hk, ?_, ?_, hK, hv⟩
    · intro h
      rw [hsens k (Or.inl h)] at hex
      cases hex
    · intro h
      rw [hsens k (Or.inr h)] at hex
      cases hex

/-- C22 on a request with `Authorization`, `Cookie` and `User-Agent` headers and the
prefix `http.header.`: only `user-agent` gives an attribute. -/
theorem sensitive_headers_excluded_by_default_witness :
    MapGet ((enricherOf { IncludeAll := true, GlobalPrefix := "http.header." }).attributesFromContext
      toLowerASCII { Metadata := testSensitiveMetadata }) "http.header.authorization" = none ∧
    MapGet ((enricherOf { IncludeAll := true, GlobalPrefix := "http.header." }).attributesFromContext
      toLowerASCII { Metadata := testSensitiveMetadata }) "http.header.cookie" = none ∧
    (enricherOf { IncludeAll := true, GlobalPrefix := "http.header." }).attributesFromContext
      toLowerASCII { Metadata := testSensitiveMetadata }
      = [("http.header.user-agent", "UA-1")] :=
  ⟨(sensitive_headers_excluded_by_default compileSimple toLowerASCII
      { IncludeAll := true, GlobalPrefix := "http.header." }
      (enricherOf { IncludeAll := true, GlobalPrefix := "http.header." })
      { Metadata := testSensitiveMetadata } rfl rfl rfl
      (fun r h => by
        have hm : (match compileSimple "^authorization$" with
          | .ok r => r.MatchString "authorization" | .error _ => false) = true := by decide
        rw [h] at hm; exact hm)
      (fun r h => by
        have hm : (match compileSimple "^cookie$" with
          | .ok r => r.MatchString "cookie" | .error _ => false) = true := by decide
        rw [h] at hm; exact hm)).1 "authorization" (Or.inl (by decide)),
   (sensitive_headers_excluded_by_default compileSimple toLowerASCII
      { IncludeAll := true, GlobalPrefix := "http.header." }
      (enricherOf { IncludeAll := true, GlobalPrefix := "http.header." })
      { Metadata := testSensitiveMetadata } rfl rfl rfl
      (fun r h => by
        have hm : (match compileSimple "^authorization$" with
          | .ok r => r.MatchString "authorization" | .error _ => false) = true := by decide
        rw [h] at hm; exact hm)
      (fun r h => by
        have hm : (match compileSimple "^cookie$" with
          | .ok r => r.MatchString "cookie" | .error _ => false) = true := by decide
        rw [h] at hm; exact hm)).1 "cookie" (Or.inr (by decide)),
   by decide⟩

end headerprocessor

/-! ## Theorems: device filtering of the disk scraper -/

namespace diskscraper
open golang

theorem foldl_delete_eq_filter {V : Type} (p : String → Bool) (xs m : GoMap V) :
    xs.foldl (fun m kv => if !p kv.1 then MapDelete m kv.1 else m) m
      = m.filter (fun kv => !(xs.any (fun x => decide (x.1 = kv.1) && !p x.1))) := by
  induction xs generalizing m with
  | nil => simp
  | cons x rest ih =>
    rw [List.foldl_cons, ih]
    cases hp : p x.1 with
    | true =>
      simp only [Bool.not_true, Bool.false_eq_true, if_false]
      apply List.filter_congr
      intro kv _
      simp [hp]
    | false =>
      simp only [Bool.not_false, if_true, MapDelete, List.filter_filter]
      apply List.filter_congr
      intro kv _
      by_cases hk : x.1 = kv.1
      · have hpk : p kv.1 = false := hk ▸ hp
        simp [hk, hpk]
      · have hk' : ¬ kv.1 = x.1 := fun h => hk h.symm
        simp [hp, hk, hk']

theorem filterByDevice_eq_filter {Metric : Type} (s : scraper Metric)
    (ioCounters : GoMap disk.IOCountersStat) :
    s.filterByDevice ioCounters = ioCounters.filter (fun kv => s.includeDevice kv.1) := by
  unfold scraper.filterByDevice
  by_cases hnil : (s.includeFS.isNone && s.excludeFS.isNone) = true
  · simp only [hnil, if_true]
    simp only [Bool.and_eq_true, Option.isNone_iff_eq_none] at hnil
    have hall : ∀ d, s.includeDevice d = true := by
      intro d
      simp [scraper.includeDevice, hnil.1, hnil.2]
    simp [hall]
  · simp only [hnil, if_false, foldl_delete_eq_filter]
    apply List.filter_congr
    intro kv hkv
    cases hp : s.includeDevice kv.1 with
    | true =>
      simp only [Bool.not_eq_true', List.any_eq_false, Bool.and_eq_true, decide_eq_true_eq,
        Bool.not_eq_true', not_and, Bool.not_eq_false]
      intro x _ hx
      rw [hx, hp]
    | false =>
      simp only [Bool.not_eq_false', List.any_eq_true, Bool.and_eq_true, decide_eq_true_eq,
        Bool.not_eq_true']
      exact ⟨kv, hkv, rfl, hp⟩

/-- C29: `filterByDevice` returns exactly the entries of its input whose device name
satisfies `includeDevice`, in the same order and with the same counters, where
`includeDevice d` holds if and only if no include filter is configured or it matches `d`,
and no exclude filter is configured or it does not match `d`.  So a match of the exclude
filter always wins, and an include filter that matches no device gives an empty result
and a scrape without metrics and without error. -/
theorem filterByDevice_spec {Metric : Type} (s : scraper Metric)
    (ioCounters : GoMap disk.IOCountersStat) :
    s.filterByDevice ioCounters = ioCounters.filter (fun kv => s.includeDevice kv.1) ∧
    (∀ d c, (d, c) ∈ s.filterByDevice ioCounters ↔
      (d, c) ∈ ioCounters ∧ s.includeDevice d = true) ∧
    (∀ d, s.includeDevice d = true ↔
      (s.includeFS = none ∨ ∃ fs, s.includeFS = some fs ∧ fs.Matches d = true) ∧
      (s.excludeFS = none ∨ ∃ fs, s.excludeFS = some fs ∧ fs.Matches d = false)) ∧
    (∀ fs d, s.excludeFS = some fs → fs.Matches d = true → s.includeDevice d = false) ∧
    (∀ fs, s.includeFS = some fs → (∀ kv ∈ ioCounters, fs.Matches kv.1 = false) →
      s.filterByDevice ioCounters = [] ∧
      (s.ioCounters = .ok ioCounters → s.scrape = ([], none))) := by
  have hinc : ∀ d, s.includeDevice d = true ↔
      (s.includeFS = none ∨ ∃ fs, s.includeFS = some fs ∧ fs.Matches d = true) ∧
      (s.excludeFS = none ∨ ∃ fs, s.excludeFS = some fs ∧ fs.Matches d = false) := by
    intro d
    unfold scraper.includeDevice
    cases hi : s.includeFS <;> cases he : s.excludeFS <;> simp
  refine ⟨filterByDevice_eq_filter s ioCounters, ?_, hinc, ?_, ?_⟩
  · intro d c
    rw [filterByDevice_eq_filter, List.mem_filter]
  · intro fs d hfs hm
    cases hd : s.includeDevice d with
    | false => rfl
    | true =>
      rcases ((hinc d).mp hd).2 with h | ⟨fs', h, hm'⟩
      · rw [hfs] at h; cases h
      · rw [hfs] at h; cases h; rw [hm] at hm'; cases hm'
  · intro fs hfs hnone
    have hempty : s.filterByDevice ioCounters = [] := by
      rw [filterByDevice_eq_filter, List.filter_eq_nil_iff]
      intro kv hkv hd
      rcases ((hinc kv.1).mp hd).1 with h | ⟨fs', h, hm'⟩
      · rw [hfs] at h; cases h
      · rw [hfs] at h; cases h; rw [hnone kv hkv] at hm'; cases hm'
    refine ⟨hempty, fun hio => ?_⟩
    unfold scraper.scrape
    rw [hio]
    simp [hempty]

/-- C29 on three devices: the include filter keeps `sda` and `sdb`, the exclude filter
removes `sdb` although it is included, and an include filter that matches nothing gives
no metric. -/
theorem filterByDevice_spec_witness :
    scraper.filterByDevice
        ({ includeFS := some (strictFilterSet ["sda", "sdb"]),
           excludeFS := some (strictFilterSet ["sdb"]),
           ioCounters := .ok testCounters, emit := fun m => m.map Prod.fst } : scraper String)
        testCounters
      = [("sda", { ReadCount := 1, ReadBytes := 10 })] ∧
    scraper.scrape
        ({ includeFS := some (strictFilterSet ["@*^#&*$^#)"]),
           ioCounters := .ok testCounters, emit := fun m => m.map Prod.fst } : scraper String)
      = ([], none) ∧
    scraper.scrape
        ({ ioCounters := .ok testCounters, emit := fun m => m.map Prod.fst } : scraper String)
      = (["sda", "sdb", "loop0"], none) :=
  ⟨by decide,
   ((filterByDevice_spec
      ({ includeFS := some (strictFilterSet ["@*^#&*$^#)"]),
         ioCounters := .ok testCounters, emit := fun m => m.map Prod.fst } : scraper String)
      testCounters).2.2.2.2 (strictFilterSet ["@*^#&*$^#)"]) rfl (by decide)).2 rfl,
   by decide⟩

end diskscraper

/-! ## Lemmas: decimal digits and lexical order -/

namespace golang

theorem fixedDigits_length (w n : Nat) : (fixedDigits w n).length = w := by
  induction w generalizing n with
  | zero => rfl
  | succ w ih => simp [fixedDigits, ih]

theorem fixedDigits_zero (w : Nat) : fixedDigits w 0 = List.replicate w '0' := by
  induction w with
  | zero => rfl
  | succ w ih =>
    simp only [fixedDigits, Nat.zero_div, Nat.zero_mod, ih]
    rw [show [Nat.digitChar 0] = List.replicate 1 '0' from rfl, ← List.replicate_add]

theorem fixedDigits_pad (e k n : Nat) (h : n < 10 ^ e) :
    fixedDigits (k + e) n = List.replicate k '0' ++ fixedDigits e n := by
  induction e generalizing n with
  | zero =>
    have : n = 0 := by simpa using h
    subst this
    simp [fixedDigits, fixedDigits_zero]
  | succ e ih =>
    have hdiv : n / 10 < 10 ^ e := by
      rw [Nat.div_lt_iff_lt_mul (by decide)]
      rw [pow_succ] at h
      exact h
    rw [← Nat.add_assoc]
    simp only [fixedDigits, ih _ hdiv, List.append_assoc]

theorem toDigitsCore_fixedDigits (fuel n : Nat) (ds : List Char) (h : n < fuel) :
    ∃ e, Nat.toDigitsCore 10 fuel n ds = fixedDigits e n ++ ds ∧ 1 ≤ e ∧ n < 10 ^ e ∧
      (e = 1 ∨ 10 ^ (e - 1) ≤ n) := by
  induction fuel generalizing n ds with
  | zero => omega
  | succ fuel ih =>
    unfold Nat.toDigitsCore
    simp only []
    by_cases h0 : n / 10 = 0
    · refine ⟨1, ?_, le_refl _, ?_, Or.inl rfl⟩
      · simp [h0, fixedDigits]
      · simp only [pow_one]; omega
    · obtain ⟨e, he, h1, hlt, _⟩ := ih (n / 10) (Nat.digitChar (n % 10) :: ds) (by omega)
      refine ⟨e + 1, ?_, by omega, ?_, Or.inr ?_⟩
      · simp only [h0, if_false, he, fixedDigits, List.append_assoc, List.singleton_append]
      · rw [pow_succ]; omega
      · simp only [Nat.add_sub_cancel]
        rcases ‹e = 1 ∨ 10 ^ (e - 1) ≤ n / 10› with h | h
        · subst h; simp only [pow_one]; omega
        · have : 10 ^ e = 10 ^ (e - 1) * 10 := by
            rw [← pow_succ]; congr 1; omega
          omega

theorem itoa_fixedDigits (n : Nat) :
    ∃ e, (itoa n).data = fixedDigits e n ∧ 1 ≤ e ∧ n < 10 ^ e ∧ (e = 1 ∨ 10 ^ (e - 1) ≤ n) := by
  obtain ⟨e, he, h⟩ := toDigitsCore_fixedDigits (n + 1) n [] (by omega)
  exact ⟨e, by simpa [itoa, Nat.repr, Nat.toDigits, List.asString] using he, h⟩

theorem padZero_fixedDigits (count n : Nat) (h : n < count) :
    (padZero (itoa count).length n).data = fixedDigits (itoa count).length n ∧
      n < 10 ^ (itoa count).length := by
  obtain ⟨w, hw, hw1, hwlt, hwge⟩ := itoa_fixedDigits count
  obtain ⟨e, he, he1, helt, hege⟩ := itoa_fixedDigits n
  have hlenw : (itoa count).length = w := by
    rw [String.length, hw, fixedDigits_length]
  have hlene : (itoa n).length = e := by
    rw [String.length, he, fixedDigits_length]
  have hew : e ≤ w := by
    rcases hege with h1 | hge
    · omega
    · by_contra hcon
      have hle : 10 ^ w ≤ 10 ^ (e - 1) := Nat.pow_le_pow_right (by decide) (by omega)
      omega
  refine ⟨?_, by rw [hlenw]; omega⟩
  unfold padZero
  rw [String.data_append, hlenw, hlene, he]
  have := fixedDigits_pad e (w - e) n helt
  rw [Nat.sub_add_cancel hew] at this
  rw [this]

theorem digitChar_lt (a b : Nat) (hab : a < b) (hb : b < 10) :
    Nat.digitChar a < Nat.digitChar b := by
  have ha : a < 10 := by omega
  interval_cases b <;> interval_cases a <;> first | omega | decide

theorem lex_append_of_length_eq {a b : List Char} (s t : List Char) (h : a < b)
    (hlen : a.length = b.length) : a ++ s < b ++ t := by
  induction h with
  | nil => simp at hlen
  | cons _ ih =>
    simp only [List.length_cons, Nat.add_right_cancel_iff] at hlen
    exact List.Lex.cons (ih hlen)
  | rel hr => exact List.Lex.rel hr

theorem lex_append_left (a : List Char) {s t : List Char} (h : s < t) : a ++ s < a ++ t := by
  induction a with
  | nil => exact h
  | cons c a ih => exact List.Lex.cons ih

theorem fixedDigits_lt (w i j : Nat) (hij : i < j) (hj : j < 10 ^ w) :
    fixedDigits w i < fixedDigits w j := by
  induction w generalizing i j with
  | zero => simp at hj; omega
  | succ w ih =>
    simp only [fixedDigits]
    rw [pow_succ] at hj
    by_cases hdiv : i / 10 = j / 10
    · rw [hdiv]
      apply lex_append_left
      exact List.Lex.rel (digitChar_lt _ _ (by omega) (Nat.mod_lt _ (by decide)))
    · apply lex_append_of_length_eq
      · exact ih _ _ (by omega) (by omega)
      · rw [fixedDigits_length, fixedDigits_length]

end golang

/-! ## Theorems: the order of the histogram labels -/

namespace encode
open golang pdata objmodel

theorem lookupField_histogramDocument_bucketText (resource : Resource)
    (lib : InstrumentationLibrary) (metric : Metric) (dp : HistogramDataPoint)
    (bucketID v : Nat) :
    lookupField (record (histogramDocument resource lib metric dp
        (itoa dp.BucketCounts.length).length bucketID v)) "bucketText"
      = some (.StringValue (bucketText dp bucketID)) := by
  rw [lookupField_record]
  unfold histogramDocument bucketText
  cases h : dp.ExplicitBounds[bucketID]? <;>
    simp [h, initCommonFields, Document.AddAttributes, Document.AddString, Document.AddUInt,
      Document.AddDouble, Document.AddTimestamp, Document.Add, lookupField, lastBucket]

theorem histogramDocuments_getElem? (resource : Resource) (lib : InstrumentationLibrary)
    (metric : Metric) (dp : HistogramDataPoint) (k : Nat) :
    (histogramDocuments resource lib metric dp)[k]?
      = dp.BucketCounts[k]?.map (fun v =>
          histogramDocument resource lib metric dp (itoa dp.BucketCounts.length).length k v) := by
  unfold histogramDocuments
  simp only [List.getElem?_map, List.getElem?_enum]
  cases dp.BucketCounts[k]? <;> rfl

/-- C30: the `bucketText` labels of one histogram data point sort lexically in bucket
order.  The label of bucket `k` in the document that `Histogram` builds is the ordinal
`k`, zero-padded to the number of decimal digits of the number of buckets, followed by the
bound; all padded ordinals of the point have that same width; and for two buckets `i < j`
of the point the label of `i` is strictly less than the label of `j` in the
character-by-character order of strings. -/
theorem bucketText_order (resource : Resource) (lib : InstrumentationLibrary)
    (metric : Metric) (dp : HistogramDataPoint) (i j : Nat) (hij : i < j)
    (hj : j < dp.BucketCounts.length) :
    (∀ k, k < dp.BucketCounts.length →
      ∃ document, (histogramDocuments resource lib metric dp)[k]? = some document ∧
        lookupField (record document) "bucketText" = some (.StringValue (bucketText dp k)) ∧
        (padZero (itoa dp.BucketCounts.length).length k).length
          = (itoa dp.BucketCounts.length).length) ∧
    (bucketText dp i).data < (bucketText dp j).data := by
  constructor
  · intro k hk
    refine ⟨histogramDocument resource lib metric dp (itoa dp.BucketCounts.length).length k
      dp.BucketCounts[k], ?_, lookupField_histogramDocument_bucketText _ _ _ _ _ _, ?_⟩
    · rw [histogramDocuments_getElem?, List.getElem?_eq_getElem hk]
      rfl
    · rw [String.length, (padZero_fixedDigits _ k hk).1, fixedDigits_length]
  · have hi := padZero_fixedDigits dp.BucketCounts.length i (by omega)
    have hjj := padZero_fixedDigits dp.BucketCounts.length j hj
    unfold bucketText
    simp only [String.data_append, List.append_assoc]
    rw [hi.1, hjj.1]
    apply lex_append_of_length_eq
    · exact fixedDigits_lt _ i j hij hjj.2
    · rw [fixedDigits_length, fixedDigits_length]

/-- C30 on the point of `Test_Histogram` and on a point with twelve buckets: `0 (5.87)`
comes before `1 (10)`, and `02 (+inf)` before `10 (+inf)`. -/
theorem bucketText_order_witness :
    (bucketText testHistogramPoint 0).data < (bucketText testHistogramPoint 1).data ∧
    bucketText testHistogramPoint 0 = "0 (5.87)" ∧
    bucketText testHistogramPoint 1 = "1 (10)" ∧
    bucketText testHistogramPoint 2 = "2 (+inf)" ∧
    (bucketText twelveBucketPoint 2).data < (bucketText twelveBucketPoint 10).data ∧
    bucketText twelveBucketPoint 2 = "02 (+inf)" ∧
    bucketText twelveBucketPoint 10 = "10 (+inf)" :=
  ⟨(bucketText_order testResource testLibrary ⟨"hist-metric", "", .Histogram .Delta []⟩
      testHistogramPoint 0 1 (by decide) (by decide)).2,
   by decide, by decide, by decide,
   (bucketText_order testResource testLibrary ⟨"hist-metric", "", .Histogram .Delta []⟩
      twelveBucketPoint 2 10 (by decide) (by decide)).2,
   by decide, by decide⟩

end encode

/-! ## Lemmas: the header processors -/

namespace golang

theorem MapSet_keys_nodup {V : Type} (m : GoMap V) (k : String) (v : V)
    (h : (m.map Prod.fst).Nodup) : ((MapSet m k v).map Prod.fst).Nodup := by
  induction m with
  | nil => simp [MapSet]
  | cons kv rest ih =>
    obtain ⟨k0, v0⟩ := kv
    unfold MapSet
    by_cases h0 : k0 = k
    · subst h0
      simpa using h
    · simp only [h0, if_false, List.map_cons, List.nodup_cons] at h ⊢
      refine ⟨?_, ih h.2⟩
      intro hmem
      obtain ⟨kv, hkv, hk⟩ := List.mem_map.mp hmem
      rcases mem_MapSet _ _ _ _ hkv with hnew | hold
      · rw [hnew] at hk
        exact h0 hk.symm
      · exact h.1 (List.mem_map.mpr ⟨kv, hold, hk⟩)

end golang

namespace headerprocessor
open golang

theorem foldl_assign_keys_nodup {α : Type} (entry : α → Option (String × String))
    (xs : List α) (m : GoMap String) (h : (m.map Prod.fst).Nodup) :
    ((xs.foldl (fun attrs x => assign attrs (entry x)) m).map Prod.fst).Nodup := by
  induction xs generalizing m with
  | nil => exact h
  | cons x rest ih =>
    rw [List.foldl_cons]
    apply ih
    cases hx : entry x with
    | none => exact h
    | some kv => exact MapSet_keys_nodup m kv.1 kv.2 h

theorem attributesFromContext_keys_nodup (ToLower : String → String) (he : headerEnricher)
    (ctx : client.Context) :
    ((he.attributesFromContext ToLower ctx).map Prod.fst).Nodup := by
  unfold headerEnricher.attributesFromContext
  simp only []
  split
  · exact foldl_assign_keys_nodup _ _ _ List.nodup_nil
  · exact foldl_assign_keys_nodup _ _ _ List.nodup_nil

theorem MapGet_eq_none_of_not_mem {V : Type} (m : GoMap V) (k : String)
    (h : k ∉ m.map Prod.fst) : MapGet m k = none := by
  induction m with
  | nil => rfl
  | cons kv rest ih =>
    obtain ⟨k0, v0⟩ := kv
    simp only [List.map_cons, List.mem_cons, not_or] at h
    have h0 : ¬ k0 = k := fun e => h.1 e.symm
    simp only [MapGet, h0, if_false, ih h.2]

theorem Get_putAll (attrs : pcommon.Map) (kvs : GoMap String)
    (hnodup : (kvs.map Prod.fst).Nodup) (K : String) :
    (putAll attrs kvs).Get K
      = match MapGet kvs K with
        | some v => some (.String v)
        | none => attrs.Get K := by
  induction kvs generalizing attrs with
  | nil => rfl
  | cons kv rest ih =>
    obtain ⟨k, v⟩ := kv
    simp only [List.map_cons, List.nodup_cons] at hnodup
    unfold putAll
    rw [List.foldl_cons]
    have hrec := ih (attrs.PutStr k v) hnodup.2
    unfold putAll at hrec
    rw [hrec]
    by_cases hk : k = K
    · subst hk
      rw [MapGet_eq_none_of_not_mem rest k hnodup.1]
      simp [MapGet, pcommon.Map.Get, pcommon.Map.PutStr, MapGet_MapSet]
    · simp only [MapGet, hk, if_false]
      cases MapGet rest K with
      | some w => rfl
      | none => simp [pcommon.Map.Get, pcommon.Map.PutStr, MapGet_MapSet, hk]

theorem attributesFromContext_of_no_keys (ToLower : String → String) (he : headerEnricher)
    (ctx : client.Context) (h : ctx.Metadata.Keys = []) :
    he.attributesFromContext ToLower ctx = [] := by
  unfold headerEnricher.attributesFromContext
  simp only [client.FromContext]
  split
  · rw [h]; rfl
  · rw [List.eq_nil_iff_forall_not_mem]
    intro kv hmem
    rcases mem_foldl_assign _ _ _ _ hmem with h0 | ⟨hc, _, hentry⟩
    · cases h0
    · obtain ⟨_, k, hk, _⟩ := headerEntry_some ToLower he ctx.Metadata hc _ hentry
      rw [h] at hk
      cases hk

theorem attributesFromContext_of_no_match (ToLower : String → String) (he : headerEnricher)
    (ctx : client.Context) (hmode : he.cfg.IncludeAll = false)
    (hnone : ∀ hc ∈ he.cfg.Headers, ∀ k ∈ ctx.Metadata.Keys, ToLower hc.Name ≠ ToLower k) :
    he.attributesFromContext ToLower ctx = [] := by
  rw [attributesFromContext_specific ToLower he ctx hmode, List.eq_nil_iff_forall_not_mem]
  intro kv hmem
  rcases mem_foldl_assign _ _ _ _ hmem with h | ⟨hc, hhc, hentry⟩
  · cases h
  · obtain ⟨_, k, hk, hlow, _, _⟩ := headerEntry_some ToLower he ctx.Metadata hc _ hentry
    exact hnone hc hhc k hk hlow.symm

theorem allSpans_processTraces (ToLower : String → String) (p : tracesProcessor)
    (ctx : client.Context) (td : ptrace.Traces) :
    (p.processTraces ToLower ctx td).1.allSpans
      = td.allSpans.map (fun span =>
          { span with
            Attributes :=
              putAll span.Attributes (p.enricher.attributesFromContext ToLower ctx) }) := by
  unfold tracesProcessor.processTraces
  simp only []
  split
  · next h =>
    rw [List.length_eq_zero.mp h]
    simp [putAll]
  · simp [ptrace.Traces.allSpans, List.flatMap_map, List.map_flatMap]

theorem allRecords_processLogs (ToLower : String → String) (p : logsProcessor)
    (ctx : client.Context) (ld : plog.Logs) :
    (p.processLogs ToLower ctx ld).1.allRecords
      = ld.allRecords.map (fun record =>
          { record with
            Attributes :=
              putAll record.Attributes (p.enricher.attributesFromContext ToLower ctx) }) := by
  unfold logsProcessor.processLogs
  simp only []
  split
  · next h =>
    rw [List.length_eq_zero.mp h]
    simp [putAll]
  · simp [plog.Logs.allRecords, List.flatMap_map, List.map_flatMap]

theorem applyToMetric_nil (m : pmetric.Metric) : metricsProcessor.applyToMetric m [] = m := by
  unfold metricsProcessor.applyToMetric
  obtain ⟨name, desc, unit, data⟩ := m
  cases data <;> simp [putAll]

theorem allMetrics_processMetrics (ToLower : String → String) (p : metricsProcessor)
    (ctx : client.Context) (md : pmetric.Metrics) :
    (p.processMetrics ToLower ctx md).1.allMetrics
      = md.allMetrics.map (fun m =>
          metricsProcessor.applyToMetric m (p.enricher.attributesFromContext ToLower ctx)) := by
  unfold metricsProcessor.processMetrics
  simp only []
  split
  · next h =>
    rw [List.length_eq_zero.mp h]
    simp [applyToMetric_nil]
  · simp [pmetric.Metrics.allMetrics, List.flatMap_map, List.map_flatMap]

theorem pointAttributes_applyToMetric (m : pmetric.Metric) (kvs : GoMap String) :
    (metricsProcessor.applyToMetric m kvs).pointAttributes
      = m.pointAttributes.map (fun attrs => putAll attrs kvs) := by
  unfold metricsProcessor.applyToMetric
  obtain ⟨name, desc, unit, data⟩ := m
  cases data <;> simp [pmetric.Metric.pointAttributes, Function.comp_def]

end headerprocessor
/-! ## Theorems: the header processors -/

namespace headerprocessor
open golang

/-- C23: when no attribute is extracted from the context, `processTraces`, `processLogs`
and `processMetrics` return their input unchanged and a nil error; and no attribute is
extracted when the context has no client metadata, or when, in specific-header mode, no
configured header is present in the metadata. -/
theorem processors_unchanged_without_attributes (ToLower : String → String)
    (he : headerEnricher) (ctx : client.Context) :
    (he.attributesFromContext ToLower ctx = [] →
      (∀ td, tracesProcessor.processTraces ToLower ⟨he⟩ ctx td = (td, none)) ∧
      (∀ ld, logsProcessor.processLogs ToLower ⟨he⟩ ctx ld = (ld, none)) ∧
      (∀ md, metricsProcessor.processMetrics ToLower ⟨he⟩ ctx md = (md, none))) ∧
    (ctx.Metadata.Keys = [] → he.attributesFromContext ToLower ctx = []) ∧
    (he.cfg.IncludeAll = false →
      (∀ hc ∈ he.cfg.Headers, ∀ k ∈ ctx.Metadata.Keys, ToLower hc.Name ≠ ToLower k) →
      he.attributesFromContext ToLower ctx = []) := by
  refine ⟨fun hnone => ⟨fun td => ?_, fun ld => ?_, fun md => ?_⟩,
    attributesFromContext_of_no_keys ToLower he ctx,
    attributesFromContext_of_no_match ToLower he ctx⟩
  · simp [tracesProcessor.processTraces, hnone]
  · simp [logsProcessor.processLogs, hnone]
  · simp [metricsProcessor.processMetrics, hnone]

/-- C23 on the tests without headers (`TestLogsProcessorNoHeaders`,
`TestTracesProcessorNoHeaders`, `TestMetricsProcessorNoHeaders`): the context carries no
client metadata and the telemetry comes back as it was. -/
theorem processors_unchanged_without_attributes_witness :
    (enricherOf testProcessorConfig).attributesFromContext toLowerASCII {} = [] ∧
    tracesProcessor.processTraces toLowerASCII ⟨enricherOf testProcessorConfig⟩ {} testTraces
      = (testTraces, none) ∧
    logsProcessor.processLogs toLowerASCII ⟨enricherOf testProcessorConfig⟩ {} testLogs
      = (testLogs, none) ∧
    metricsProcessor.processMetrics toLowerASCII ⟨enricherOf testProcessorConfig⟩ {}
      testMetrics = (testMetrics, none) ∧
    (enricherOf testProcessorConfig).attributesFromContext toLowerASCII
      { Metadata := newTestMetadata [("X-Other", ["v"])] } = [] :=
  ⟨(processors_unchanged_without_attributes toLowerASCII (enricherOf testProcessorConfig)
      {}).2.1 rfl,
   ((processors_unchanged_without_attributes toLowerASCII (enricherOf testProcessorConfig)
      {}).1 (by decide)).1 testTraces,
   ((processors_unchanged_without_attributes toLowerASCII (enricherOf testProcessorConfig)
      {}).1 (by decide)).2.1 testLogs,
   ((processors_unchanged_without_attributes toLowerASCII (enricherOf testProcessorConfig)
      {}).1 (by decide)).2.2 testMetrics,
   (processors_unchanged_without_attributes toLowerASCII (enricherOf testProcessorConfig)
      { Metadata := newTestMetadata [("X-Other", ["v"])] }).2.2 rfl (by decide)⟩

/-- C24: when the context yields the attribute `K = v`, after `processTraces` every span
carries `K = v`, after `processLogs` every log record does, and after `processMetrics`
every data point of every gauge, sum, histogram, exponential-histogram and summary metric
of every resource and scope does, whatever value `K` had before; no error is returned.
The processed spans, records and metrics are the input ones, in order, with the extracted
attributes put on their attribute maps, and a metric of empty type is left as it is. -/
theorem processors_put_attributes (ToLower : String → String) (he : headerEnricher)
    (ctx : client.Context) (K v : String)
    (hkv : MapGet (he.attributesFromContext ToLower ctx) K = some v) :
    (∀ td,
      (tracesProcessor.processTraces ToLower ⟨he⟩ ctx td).2 = none ∧
      (tracesProcessor.processTraces ToLower ⟨he⟩ ctx td).1.allSpans.length
        = td.allSpans.length ∧
      ∀ span ∈ (tracesProcessor.processTraces ToLower ⟨he⟩ ctx td).1.allSpans,
        span.Attributes.Get K = some (.String v)) ∧
    (∀ ld,
      (logsProcessor.processLogs ToLower ⟨he⟩ ctx ld).2 = none ∧
      (logsProcessor.processLogs ToLower ⟨he⟩ ctx ld).1.allRecords.length
        = ld.allRecords.length ∧
      ∀ record ∈ (logsProcessor.processLogs ToLower ⟨he⟩ ctx ld).1.allRecords,
        record.Attributes.Get K = some (.String v)) ∧
    (∀ md,
      (metricsProcessor.processMetrics ToLower ⟨he⟩ ctx md).2 = none ∧
      (metricsProcessor.processMetrics ToLower ⟨he⟩ ctx md).1.allMetrics
        = md.allMetrics.map (fun m =>
            metricsProcessor.applyToMetric m (he.attributesFromContext ToLower ctx)) ∧
      ∀ m ∈ (metricsProcessor.processMetrics ToLower ⟨he⟩ ctx md).1.allMetrics,
        ∀ attrs ∈ m.pointAttributes, attrs.Get K = some (.String v)) ∧
    (∀ m : pmetric.Metric,
      (metricsProcessor.applyToMetric m (he.attributesFromContext ToLower ctx)).pointAttributes
        = m.pointAttributes.map
            (fun attrs => putAll attrs (he.attributesFromContext ToLower ctx)) ∧
      (m.pointAttributes.length = match m.Data with
        | .Empty => 0
        | .Gauge dps => dps.length
        | .Sum dps => dps.length
        | .Histogram dps => dps.length
        | .ExponentialHistogram dps => dps.length
        | .Summary dps => dps.length)) ∧
    (∀ name description unit,
      metricsProcessor.applyToMetric ⟨name, description, unit, .Empty⟩
          (he.attributesFromContext ToLower ctx)
        = ⟨name, description, unit, .Empty⟩) := by
  have hnodup := attributesFromContext_keys_nodup ToLower he ctx
  have hput : ∀ attrs : pcommon.Map,
      (putAll attrs (he.attributesFromContext ToLower ctx)).Get K = some (.String v) := by
    intro attrs
    rw [Get_putAll attrs _ hnodup K, hkv]
  refine ⟨fun td => ⟨?_, ?_, ?_⟩, fun ld => ⟨?_, ?_, ?_⟩, fun md => ⟨?_, ?_, ?_⟩,
    fun m => ⟨pointAttributes_applyToMetric m _, ?_⟩, fun _ _ _ => rfl⟩
  · unfold tracesProcessor.processTraces
    simp only []
    split <;> rfl
  · rw [allSpans_processTraces, List.length_map]
  · intro span hspan
    rw [allSpans_processTraces] at hspan
    obtain ⟨s, _, rfl⟩ := List.mem_map.mp hspan
    exact hput _
  · unfold logsProcessor.processLogs
    simp only []
    split <;> rfl
  · rw [allRecords_processLogs, List.length_map]
  · intro record hrecord
    rw [allRecords_processLogs] at hrecord
    obtain ⟨r, _, rfl⟩ := List.mem_map.mp hrecord
    exact hput _
  · unfold metricsProcessor.processMetrics
    simp only []
    split <;> rfl
  · exact allMetrics_processMetrics ToLower ⟨he⟩ ctx md
  · intro m hm attrs hattrs
    rw [allMetrics_processMetrics] at hm
    obtain ⟨m0, _, rfl⟩ := List.mem_map.mp hm
    rw [pointAttributes_applyToMetric] at hattrs
    obtain ⟨a, _, rfl⟩ := List.mem_map.mp hattrs
    exact hput _
  · obtain ⟨name, desc, unit, data⟩ := m
    cases data <;> simp [pmetric.Metric.pointAttributes]

/-- C24 on `TestTracesProcessor`, `TestLogsProcessor` and `TestMetricsProcessor`: the
header `X-Test: val1` puts `test_attr = val1` on the span, on the log record and on the
data point of each of the five metrics. -/
theorem processors_put_attributes_witness :
    (∀ span ∈ (tracesProcessor.processTraces toLowerASCII ⟨enricherOf testProcessorConfig⟩
        testProcessorContext testTraces).1.allSpans,
      span.Attributes.Get "test_attr" = some (.String "val1")) ∧
    (∀ record ∈ (logsProcessor.processLogs toLowerASCII ⟨enricherOf testProcessorConfig⟩
        testProcessorContext testLogs).1.allRecords,
      record.Attributes.Get "test_attr" = some (.String "val1")) ∧
    (∀ m ∈ (metricsProcessor.processMetrics toLowerASCII ⟨enricherOf testProcessorConfig⟩
        testProcessorContext testMetrics).1.allMetrics,
      ∀ attrs ∈ m.pointAttributes, attrs.Get "test_attr" = some (.String "val1")) ∧
    (metricsProcessor.processMetrics toLowerASCII ⟨enricherOf testProcessorConfig⟩
        testProcessorContext testMetrics).1.allMetrics.map
        (fun m => (m.Name, m.pointAttributes.map (fun attrs =>
          (attrs.Get "test_attr").map pcommon.Value.Str)))
      = [("gauge", [some "val1"]), ("sum", [some "val1"]), ("histogram", [some "val1"]),
         ("exp_histogram", [some "val1"]), ("summary", [some "val1"]), ("empty", [])] :=
  ⟨((processors_put_attributes toLowerASCII (enricherOf testProcessorConfig)
      testProcessorContext "test_attr" "val1" (by decide)).1 testTraces).2.2,
   ((processors_put_attributes toLowerASCII (enricherOf testProcessorConfig)
      testProcessorContext "test_attr" "val1" (by decide)).2.1 testLogs).2.2,
   ((processors_put_attributes toLowerASCII (enricherOf testProcessorConfig)
      testProcessorContext "test_attr" "val1" (by decide)).2.2.1 testMetrics).2.2,
   by decide⟩

end headerprocessor

/-! ## Theorems: the baggage processor -/

namespace baggageprocessor
open golang

theorem ne_append_properties (a : String) : a ≠ a ++ "_properties" := by
  intro h
  have hd := congrArg String.data h
  rw [String.data_append] at hd
  have hlen := congrArg List.length hd
  simp at hlen

/-- C25: `extractBaggage` never returns an error.  If the baggage has no member for
`action.Key` (the member it returns has an empty key) the attribute map is unchanged.
Otherwise, with `A` the attribute `action.ToAttribute` if it is non-empty and
`AttributePrefix ++ action.Key` otherwise, the attribute `A` is set to the member's value,
and when the member has properties the attribute `A ++ "_properties"` is set to the
properties rendered and joined with `";"`; nothing else is put in the map. -/
theorem extractBaggage_spec {B M P : Type} (lib : baggage.Library B M P)
    (bp : baggageProcessor) (action : Action) (attrs : pcommon.Map) (currentBaggage : B) :
    (bp.extractBaggage lib action attrs currentBaggage).2 = none ∧
    (lib.MemberKey (lib.Member currentBaggage action.Key) = "" →
      (bp.extractBaggage lib action attrs currentBaggage).1 = attrs) ∧
    (lib.MemberKey (lib.Member currentBaggage action.Key) ≠ "" →
      (bp.extractBaggage lib action attrs currentBaggage).1.Get
          (if action.ToAttribute ≠ "" then action.ToAttribute
            else bp.config.AttributePrefix ++ action.Key)
        = some (.String (lib.MemberValue (lib.Member currentBaggage action.Key))) ∧
      (lib.MemberProperties (lib.Member currentBaggage action.Key) = [] →
        (bp.extractBaggage lib action attrs currentBaggage).1
          = attrs.PutStr
              (if action.ToAttribute ≠ "" then action.ToAttribute
                else bp.config.AttributePrefix ++ action.Key)
              (lib.MemberValue (lib.Member currentBaggage action.Key))) ∧
      (lib.MemberProperties (lib.Member currentBaggage action.Key) ≠ [] →
        (bp.extractBaggage lib action attrs currentBaggage).1
          = (attrs.PutStr
              (if action.ToAttribute ≠ "" then action.ToAttribute
                else bp.config.AttributePrefix ++ action.Key)
              (lib.MemberValue (lib.Member currentBaggage action.Key))).PutStr
              ((if action.ToAttribute ≠ "" then action.ToAttribute
                else bp.config.AttributePrefix ++ action.Key) ++ "_properties")
              (Join ((lib.MemberProperties (lib.Member currentBaggage action.Key)).map
                lib.PropertyString) ";") ∧
        (bp.extractBaggage lib action attrs currentBaggage).1.Get
            ((if action.ToAttribute ≠ "" then action.ToAttribute
              else bp.config.AttributePrefix ++ action.Key) ++ "_properties")
          = some (.String
              (Join ((lib.MemberProperties (lib.Member currentBaggage action.Key)).map
                lib.PropertyString) ";")))) := by
  have hname : (if action.ToAttribute = "" then bp.config.AttributePrefix ++ action.Key
        else action.ToAttribute)
      = (if action.ToAttribute ≠ "" then action.ToAttribute
          else bp.config.AttributePrefix ++ action.Key) := by
    by_cases h : action.ToAttribute = "" <;> simp [h]
  generalize hA : (if action.ToAttribute ≠ "" then action.ToAttribute
    else bp.config.AttributePrefix ++ action.Key) = A at hname ⊢
  unfold baggageProcessor.extractBaggage
  simp only [hname]
  by_cases hkey : lib.MemberKey (lib.Member currentBaggage action.Key) = ""
  · simp [hkey]
  · simp only [hkey, if_false, false_implies, true_and, not_false_eq_true, true_implies]
    by_cases hprops : lib.MemberProperties (lib.Member currentBaggage action.Key) = []
    · simp [hprops, pcommon.Map.Get, pcommon.Map.PutStr, MapGet_MapSet]
    · have hlen : (lib.MemberProperties (lib.Member currentBaggage action.Key)).length > 0 :=
        List.length_pos.mpr hprops
      simp only [hlen, if_true, hprops, false_implies, not_false_eq_true, true_implies,
        true_and, and_true]
      have hne : ¬ A ++ "_properties" = A := fun h => ne_append_properties A h.symm
      simp [pcommon.Map.Get, pcommon.Map.PutStr, MapGet_MapSet, hne]

/-- C25 on `TestExtractBaggage_DefaultPrefixAndProperties` and
`TestExtractBaggage_ToAttributeOverride`. -/
theorem extractBaggage_spec_witness :
    stringsOf ((newTestProcessor (some { AttributePrefix := "baggage." })).extractBaggage
        baggage.reference { Key := "user.id", Action := Extract, FromContext := true }
        pcommon.NewMap testUserBaggage).1
      = [("baggage.user.id", "123"), ("baggage.user.id_properties", "source=test;env=dev")] ∧
    (newTestProcessor none).extractBaggage baggage.reference
        { Key := "session.id", Action := Extract, FromContext := true,
          ToAttribute := "custom.session.id" } pcommon.NewMap testSessionBaggage
      = ((pcommon.NewMap).PutStr "custom.session.id" "s-42", none) ∧
    ((newTestProcessor none).extractBaggage baggage.reference
        { Key := "absent", Action := Extract, FromContext := true }
        pcommon.NewMap testSessionBaggage).1 = pcommon.NewMap :=
  ⟨by decide,
   Prod.ext
     (((extractBaggage_spec baggage.reference (newTestProcessor none)
        { Key := "session.id", Action := Extract, FromContext := true,
          ToAttribute := "custom.session.id" } pcommon.NewMap testSessionBaggage).2.2
        (by decide)).2.1 rfl)
     (extractBaggage_spec baggage.reference (newTestProcessor none)
        { Key := "session.id", Action := Extract, FromContext := true,
          ToAttribute := "custom.session.id" } pcommon.NewMap testSessionBaggage).1,
   (extractBaggage_spec baggage.reference (newTestProcessor none)
      { Key := "absent", Action := Extract, FromContext := true }
      pcommon.NewMap testSessionBaggage).2.1 rfl⟩

end baggageprocessor
namespace baggageprocessor
open golang

theorem injectBaggage_of_set {B M P : Type} (lib : baggage.Library B M P)
    (AsString : pcommon.Value → String) (bp : baggageProcessor) (action : Action)
    (attrs : pcommon.Map) (currentBaggage : B) (value : String) (props : List P) (member : M)
    (newBaggage : B)
    (hvalue : resolveValue AsString action attrs = some value)
    (hprops : bp.buildProperties lib action.Properties = .ok props)
    (hmember : lib.NewMember action.Key value props = .ok member)
    (hset : lib.SetMember currentBaggage member = .ok newBaggage) :
    bp.injectBaggage lib AsString action attrs currentBaggage
      = if 0 < bp.config.MaxBaggageSize ∧
            bp.config.MaxBaggageSize < ((lib.BaggageString newBaggage).utf8ByteSize : Int) then
          if bp.config.DropInvalidBaggage then (currentBaggage, none)
          else
            (currentBaggage,
              some ("baggage size " ++ itoa (lib.BaggageString newBaggage).utf8ByteSize ++
                " exceeds limit " ++ toString bp.config.MaxBaggageSize))
        else (newBaggage, none) := by
  unfold baggageProcessor.injectBaggage
  simp only [hvalue, hprops, hmember, hset]

theorem updateBaggage_eq_inject {B M P : Type} (lib : baggage.Library B M P)
    (AsString : pcommon.Value → String) (bp : baggageProcessor) (action : Action)
    (attrs : pcommon.Map) (currentBaggage : B) (upsert : Bool)
    (h : lib.MemberKey (lib.Member currentBaggage action.Key) ≠ "" ∨ upsert = true) :
    bp.updateBaggage lib AsString action attrs currentBaggage upsert
      = bp.injectBaggage lib AsString action attrs currentBaggage := by
  unfold baggageProcessor.updateBaggage
  have : ¬ (lib.MemberKey (lib.Member currentBaggage action.Key) = "" ∧ upsert = false) := by
    rintro ⟨h1, h2⟩
    rcases h with h | h
    · exact h h1
    · rw [h2] at h; cases h
  simp only [this, if_false]

theorem buildProperties_drop {B M P : Type} (lib : baggage.Library B M P)
    (bp : baggageProcessor) (hdrop : bp.config.DropInvalidBaggage = true)
    (properties : List (String × String)) :
    bp.buildProperties lib properties
      = .ok (properties.filterMap (fun kv =>
          match lib.NewKeyValueProperty kv.1 kv.2 with
          | .ok prop => some prop
          | .error _ => none)) := by
  induction properties with
  | nil => rfl
  | cons kv rest ih =>
    obtain ⟨key, val⟩ := kv
    unfold baggageProcessor.buildProperties
    cases hp : lib.NewKeyValueProperty key val with
    | error e => simp [hdrop, ih, hp]
    | ok prop => simp [ih, hp]

theorem buildProperties_invalid {B M P : Type} (lib : baggage.Library B M P)
    (bp : baggageProcessor) (hdrop : bp.config.DropInvalidBaggage = false)
    (properties : List (String × String)) (key val : String) (propErr : error)
    (hmem : (key, val) ∈ properties)
    (hinvalid : lib.NewKeyValueProperty key val = .error propErr) :
    ∃ err, bp.buildProperties lib properties = .error err := by
  induction properties with
  | nil => cases hmem
  | cons kv rest ih =>
    obtain ⟨k0, v0⟩ := kv
    unfold baggageProcessor.buildProperties
    cases hp : lib.NewKeyValueProperty k0 v0 with
    | error e =>
      exact ⟨"invalid baggage property " ++ k0 ++ "=" ++ v0 ++ ": " ++ e, by simp [hdrop]⟩
    | ok prop =>
      have hrest : (key, val) ∈ rest := by
        rcases List.mem_cons.mp hmem with h | h
        · cases h
          rw [hinvalid] at hp
          cases hp
        · exact h
      obtain ⟨err, herr⟩ := ih hrest
      exact ⟨err, by simp [herr]⟩

theorem injectBaggage_drop {B M P : Type} (lib : baggage.Library B M P)
    (AsString : pcommon.Value → String) (bp : baggageProcessor)
    (hdrop : bp.config.DropInvalidBaggage = true) (action : Action)
    (attrs : pcommon.Map) (currentBaggage : B) :
    (bp.injectBaggage lib AsString action attrs currentBaggage).2 = none := by
  unfold baggageProcessor.injectBaggage
  rw [buildProperties_drop lib bp hdrop]
  cases resolveValue AsString action attrs with
  | none => rfl
  | some value =>
    simp only []
    cases lib.NewMember action.Key value _ with
    | error e => simp [hdrop]
    | ok member =>
      simp only []
      cases lib.SetMember currentBaggage member with
      | error e => simp [hdrop]
      | ok newBaggage =>
        simp only [hdrop, if_true]
        split <;> rfl

theorem forEach_no_error {α : Type} (body : α → α × Option error)
    (h : ∀ x, (body x).2 = none) (xs : List α) : (forEach body xs).2 = none := by
  induction xs with
  | nil => rfl
  | cons x rest ih =>
    unfold forEach
    have hx := h x
    cases hb : body x with
    | mk x' err =>
      rw [hb] at hx
      simp only at hx
      subst hx
      exact ih

theorem keepError_drop (bp : baggageProcessor) (hdrop : bp.config.DropInvalidBaggage = true)
    (err : Option error) : bp.keepError err = none := by
  cases err <;> simp [baggageProcessor.keepError, hdrop]

end baggageprocessor
namespace baggageprocessor
open golang

/-- C26 (counterexample): with `MaxBaggageSize` 10, an update of the existing key `a` to
the value `a-much-longer-value` does not change the baggage: it returns an error, or nil
when invalid baggage is dropped, and `a` keeps the value `old`; likewise an upsert of an
absent key adds nothing. -/
theorem updateBaggage_rejected_keeps_old_value :
    resolveValue serialization.exampleAsString
        { Key := "a", Action := Update, Value := "a-much-longer-value" } pcommon.NewMap
      = some "a-much-longer-value" ∧
    (newTestProcessor (some { MaxBaggageSize := 10 })).updateBaggage baggage.reference
        serialization.exampleAsString
        { Key := "a", Action := Update, Value := "a-much-longer-value" }
        pcommon.NewMap testExistingBaggage false
      = ([{ key := "a", value := "old" }], some "baggage size 21 exceeds limit 10") ∧
    (newTestProcessor (some { MaxBaggageSize := 10, DropInvalidBaggage := true })).updateBaggage
        baggage.reference serialization.exampleAsString
        { Key := "a", Action := Update, Value := "a-much-longer-value" }
        pcommon.NewMap testExistingBaggage false
      = ([{ key := "a", value := "old" }], none) ∧
    (newTestProcessor (some { MaxBaggageSize := 10, DropInvalidBaggage := true })).updateBaggage
        baggage.reference serialization.exampleAsString
        { Key := "missing", Action := Upsert, Value := "a-much-longer-value" }
        pcommon.NewMap [] true
      = ([], none) := by
  refine ⟨by decide, by decide, by decide, by decide⟩

/-- C26 (amended): an update action for a key absent from the baggage is a no-op that
returns nil and leaves the baggage as it was.  For an action with a resolvable value whose
member the library accepts (the properties are built, `NewMember` and `SetMember` succeed)
and whose resulting baggage is within `MaxBaggageSize` when that is positive, an update
action for an existing key, and an upsert action for any key, replace the baggage by the
one in which the member with the new value is set, and return nil. -/
theorem updateBaggage_spec {B M P : Type} (lib : baggage.Library B M P)
    (AsString : pcommon.Value → String) (bp : baggageProcessor) (action : Action)
    (attrs : pcommon.Map) (currentBaggage : B) :
    (lib.MemberKey (lib.Member currentBaggage action.Key) = "" →
      bp.updateBaggage lib AsString action attrs currentBaggage false
        = (currentBaggage, none)) ∧
    (∀ (value : String) (props : List P) (member : M) (newBaggage : B),
      resolveValue AsString action attrs = some value →
      bp.buildProperties lib action.Properties = .ok props →
      lib.NewMember action.Key value props = .ok member →
      lib.SetMember currentBaggage member = .ok newBaggage →
      (bp.config.MaxBaggageSize ≤ 0 ∨
        ((lib.BaggageString newBaggage).utf8ByteSize : Int) ≤ bp.config.MaxBaggageSize) →
      (lib.MemberKey (lib.Member currentBaggage action.Key) ≠ "" →
        bp.updateBaggage lib AsString action attrs currentBaggage false
          = (newBaggage, none)) ∧
      bp.updateBaggage lib AsString action attrs currentBaggage true = (newBaggage, none) ∧
      (lib.Member newBaggage action.Key = member → lib.MemberValue member = value →
        lib.MemberValue (lib.Member newBaggage action.Key) = value)) := by
  constructor
  · intro hkey
    unfold baggageProcessor.updateBaggage
    simp [hkey]
  · intro value props member newBaggage hvalue hprops hmember hset hsize
    have hinject : bp.injectBaggage lib AsString action attrs currentBaggage
        = (newBaggage, none) := by
      rw [injectBaggage_of_set lib AsString bp action attrs currentBaggage value props member
        newBaggage hvalue hprops hmember hset]
      have : ¬ (0 < bp.config.MaxBaggageSize ∧
          bp.config.MaxBaggageSize < ((lib.BaggageString newBaggage).utf8ByteSize : Int)) := by
        rintro ⟨h1, h2⟩
        rcases hsize with h | h <;> omega
      simp only [this, if_false]
    refine ⟨fun hkey => ?_, ?_, fun h1 h2 => by rw [h1, h2]⟩
    · rw [updateBaggage_eq_inject lib AsString bp action attrs currentBaggage false
        (Or.inl hkey), hinject]
    · rw [updateBaggage_eq_inject lib AsString bp action attrs currentBaggage true
        (Or.inr rfl), hinject]

/-- C26 on `TestUpdateAndUpsertBehavior`: the update of `a` gives `a=new`, the update of
the absent key `missing` leaves the empty baggage empty, and the upsert adds
`missing=new`. -/
theorem updateBaggage_spec_witness :
    (newTestProcessor none).updateBaggage baggage.reference serialization.exampleAsString
        { Key := "a", Action := Update, FromAttribute := "newval" }
        ((pcommon.NewMap).PutStr "newval" "new") testExistingBaggage false
      = ([{ key := "a", value := "new" }], none) ∧
    (newTestProcessor none).updateBaggage baggage.reference serialization.exampleAsString
        { Key := "missing", Action := Update, FromAttribute := "newval" }
        ((pcommon.NewMap).PutStr "newval" "new") [] false
      = ([], none) ∧
    (newTestProcessor none).updateBaggage baggage.reference serialization.exampleAsString
        { Key := "missing", Action := Upsert, FromAttribute := "newval" }
        ((pcommon.NewMap).PutStr "newval" "new") [] true
      = ([{ key := "missing", value := "new" }], none) :=
  ⟨((updateBaggage_spec baggage.reference serialization.exampleAsString
        (newTestProcessor none) { Key := "a", Action := Update, FromAttribute := "newval" }
        ((pcommon.NewMap).PutStr "newval" "new") testExistingBaggage).2
        "new" [] { key := "a", value := "new" } [{ key := "a", value := "new" }]
        (by decide) rfl rfl rfl (Or.inr (by decide))).1 (by decide),
   (updateBaggage_spec baggage.reference serialization.exampleAsString
        (newTestProcessor none) { Key := "missing", Action := Update, FromAttribute := "newval" }
        ((pcommon.NewMap).PutStr "newval" "new") []).1 (by decide),
   ((updateBaggage_spec baggage.reference serialization.exampleAsString
        (newTestProcessor none) { Key := "missing", Action := Upsert, FromAttribute := "newval" }
        ((pcommon.NewMap).PutStr "newval" "new") []).2
        "new" [] { key := "missing", value := "new" } [{ key := "missing", value := "new" }]
        (by decide) rfl rfl rfl (Or.inr (by decide))).2.1⟩

/-- C27: for an inject whose member is built and set (the value resolves, the properties
are built, `NewMember` and `SetMember` succeed), when `MaxBaggageSize` is positive and the
serialized length of the resulting baggage is greater than it, `injectBaggage` returns an
error if `DropInvalidBaggage` is false and returns nil if it is true, and in both cases the
baggage is unchanged; when `MaxBaggageSize` is 0 (or negative), or the length is at most
`MaxBaggageSize`, the resulting baggage becomes the current one and nil is returned. -/
theorem injectBaggage_size_check {B M P : Type} (lib : baggage.Library B M P)
    (AsString : pcommon.Value → String) (bp : baggageProcessor) (action : Action)
    (attrs : pcommon.Map) (currentBaggage : B) (value : String) (props : List P) (member : M)
    (newBaggage : B)
    (hvalue : resolveValue AsString action attrs = some value)
    (hprops : bp.buildProperties lib action.Properties = .ok props)
    (hmember : lib.NewMember action.Key value props = .ok member)
    (hset : lib.SetMember currentBaggage member = .ok newBaggage) :
    (0 < bp.config.MaxBaggageSize →
      bp.config.MaxBaggageSize < ((lib.BaggageString newBaggage).utf8ByteSize : Int) →
      (bp.config.DropInvalidBaggage = false →
        bp.injectBaggage lib AsString action attrs currentBaggage
          = (currentBaggage,
              some ("baggage size " ++ itoa (lib.BaggageString newBaggage).utf8ByteSize ++
                " exceeds limit " ++ toString bp.config.MaxBaggageSize))) ∧
      (bp.config.DropInvalidBaggage = true →
        bp.injectBaggage lib AsString action attrs currentBaggage = (currentBaggage, none))) ∧
    (bp.config.MaxBaggageSize ≤ 0 ∨
        ((lib.BaggageString newBaggage).utf8ByteSize : Int) ≤ bp.config.MaxBaggageSize →
      bp.injectBaggage lib AsString action attrs currentBaggage = (newBaggage, none)) := by
  rw [injectBaggage_of_set lib AsString bp action attrs currentBaggage value props member
    newBaggage hvalue hprops hmember hset]
  constructor
  · intro h1 h2
    simp only [h1, h2, and_self, if_true]
    exact ⟨fun hd => by simp [hd], fun hd => by simp [hd]⟩
  · intro hsize
    have : ¬ (0 < bp.config.MaxBaggageSize ∧
        bp.config.MaxBaggageSize < ((lib.BaggageString newBaggage).utf8ByteSize : Int)) := by
      rintro ⟨h1, h2⟩
      rcases hsize with h | h <;> omega
    simp only [this, if_false]

/-- C27 on the scenario of `TestMaxBaggageSizeEnforced` with a shorter value: with the
limit 10 the member `big=aaaaaaaaaaaaaaaaaaaa` is rejected with an error, or skipped when
invalid baggage is dropped; with the limit 0 or 100 it is added. -/
theorem injectBaggage_size_check_witness :
    (newTestProcessor (some { MaxBaggageSize := 10, DropInvalidBaggage := false })).injectBaggage
        baggage.reference serialization.exampleAsString
        { Key := "big", Action := Inject, FromAttribute := "big" }
        ((pcommon.NewMap).PutStr "big" "aaaaaaaaaaaaaaaaaaaa") []
      = ([], some "baggage size 24 exceeds limit 10") ∧
    (newTestProcessor (some { MaxBaggageSize := 10, DropInvalidBaggage := true })).injectBaggage
        baggage.reference serialization.exampleAsString
        { Key := "big", Action := Inject, FromAttribute := "big" }
        ((pcommon.NewMap).PutStr "big" "aaaaaaaaaaaaaaaaaaaa") []
      = ([], none) ∧
    (newTestProcessor (some { MaxBaggageSize := 0 })).injectBaggage
        baggage.reference serialization.exampleAsString
        { Key := "big", Action := Inject, FromAttribute := "big" }
        ((pcommon.NewMap).PutStr "big" "aaaaaaaaaaaaaaaaaaaa") []
      = ([{ key := "big", value := "aaaaaaaaaaaaaaaaaaaa" }], none) ∧
    (newTestProcessor (some { MaxBaggageSize := 100 })).injectBaggage
        baggage.reference serialization.exampleAsString
        { Key := "big", Action := Inject, FromAttribute := "big" }
        ((pcommon.NewMap).PutStr "big" "aaaaaaaaaaaaaaaaaaaa") []
      = ([{ key := "big", value := "aaaaaaaaaaaaaaaaaaaa" }], none) :=
  ⟨((injectBaggage_size_check baggage.reference serialization.exampleAsString
        (newTestProcessor (some { MaxBaggageSize := 10, DropInvalidBaggage := false }))
        { Key := "big", Action := Inject, FromAttribute := "big" }
        ((pcommon.NewMap).PutStr "big" "aaaaaaaaaaaaaaaaaaaa") []
        "aaaaaaaaaaaaaaaaaaaa" [] { key := "big", value := "aaaaaaaaaaaaaaaaaaaa" }
        [{ key := "big", value := "aaaaaaaaaaaaaaaaaaaa" }]
        (by decide) rfl rfl rfl).1 (by decide) (by decide)).1 rfl,
   ((injectBaggage_size_check baggage.reference serialization.exampleAsString
        (newTestProcessor (some { MaxBaggageSize := 10, DropInvalidBaggage := true }))
        { Key := "big", Action := Inject, FromAttribute := "big" }
        ((pcommon.NewMap).PutStr "big" "aaaaaaaaaaaaaaaaaaaa") []
        "aaaaaaaaaaaaaaaaaaaa" [] { key := "big", value := "aaaaaaaaaaaaaaaaaaaa" }
        [{ key := "big", value := "aaaaaaaaaaaaaaaaaaaa" }]
        (by decide) rfl rfl rfl).1 (by decide) (by decide)).2 rfl,
   (injectBaggage_size_check baggage.reference serialization.exampleAsString
        (newTestProcessor (some { MaxBaggageSize := 0 }))
        { Key := "big", Action := Inject, FromAttribute := "big" }
        ((pcommon.NewMap).PutStr "big" "aaaaaaaaaaaaaaaaaaaa") []
        "aaaaaaaaaaaaaaaaaaaa" [] { key := "big", value := "aaaaaaaaaaaaaaaaaaaa" }
        [{ key := "big", value := "aaaaaaaaaaaaaaaaaaaa" }]
        (by decide) rfl rfl rfl).2 (Or.inl (by decide)),
   (injectBaggage_size_check baggage.reference serialization.exampleAsString
        (newTestProcessor (some { MaxBaggageSize := 100 }))
        { Key := "big", Action := Inject, FromAttribute := "big" }
        ((pcommon.NewMap).PutStr "big" "aaaaaaaaaaaaaaaaaaaa") []
        "aaaaaaaaaaaaaaaaaaaa" [] { key := "big", value := "aaaaaaaaaaaaaaaaaaaa" }
        [{ key := "big", value := "aaaaaaaaaaaaaaaaaaaa" }]
        (by decide) rfl rfl rfl).2 (Or.inr (by decide))⟩

end baggageprocessor
namespace baggageprocessor
open golang

theorem processAttributes_keepError_drop {B M P : Type} (lib : baggage.Library B M P)
    (AsString : pcommon.Value → String) (bp : baggageProcessor)
    (hdrop : bp.config.DropInvalidBaggage = true) (ctx : B) (attrs : pcommon.Map) :
    bp.keepError (bp.processAttributes lib AsString ctx attrs).2 = none :=
  keepError_drop bp hdrop _

/-- C28 (counterexample): with `DropInvalidBaggage` false, an inject from an attribute
that the map does not have returns nil although the action has the invalid property
`bad key`: the action is skipped before the properties are looked at. -/
theorem injectBaggage_absent_attribute_hides_invalid_property :
    (match baggage.reference.NewKeyValueProperty "bad key" "x" with
      | .ok _ => false
      | .error _ => true) = true ∧
    (newTestProcessor (some { DropInvalidBaggage := false })).injectBaggage baggage.reference
        serialization.exampleAsString
        { Key := "k", Action := Inject, FromAttribute := "missing",
          Properties := [("bad key", "x")] }
        ((pcommon.NewMap).PutStr "foo" "bar") []
      = ([], none) := by
  refine ⟨by decide, by decide⟩

/-- C28 (amended): when `DropInvalidBaggage` is true, `injectBaggage` and `updateBaggage`
return nil for every input, the invalid properties are skipped and the member is built
from the remaining ones, and `processTraces`, `processLogs` and `processMetrics` return a
nil error for every input.  When it is false, an invalid property makes `injectBaggage`
return an error and leave the baggage unchanged, provided the value to inject resolves
(the action has a value, or its source attribute is present). -/
theorem dropInvalidBaggage_spec {B M P : Type} (lib : baggage.Library B M P)
    (AsString : pcommon.Value → String) (bp : baggageProcessor) :
    (bp.config.DropInvalidBaggage = true →
      (∀ action attrs currentBaggage,
        (bp.injectBaggage lib AsString action attrs currentBaggage).2 = none ∧
        ∀ upsert, (bp.updateBaggage lib AsString action attrs currentBaggage upsert).2 = none) ∧
      (∀ properties,
        bp.buildProperties lib properties
          = .ok (properties.filterMap (fun kv =>
              match lib.NewKeyValueProperty kv.1 kv.2 with
              | .ok prop => some prop
              | .error _ => none))) ∧
      (∀ ctx td, (bp.processTraces lib AsString ctx td).2 = none) ∧
      (∀ ctx ld, (bp.processLogs lib AsString ctx ld).2 = none) ∧
      (∀ ctx md, (bp.processMetrics lib AsString ctx md).2 = none)) ∧
    (bp.config.DropInvalidBaggage = false →
      ∀ action attrs currentBaggage value key val propErr,
        resolveValue AsString action attrs = some value →
        (key, val) ∈ action.Properties →
        lib.NewKeyValueProperty key val = .error propErr →
        ∃ err, bp.injectBaggage lib AsString action attrs currentBaggage
          = (currentBaggage, some err)) := by
  constructor
  · intro hdrop
    refine ⟨fun action attrs currentBaggage => ⟨injectBaggage_drop lib AsString bp hdrop _ _ _,
      fun upsert => ?_⟩, buildProperties_drop lib bp hdrop, fun ctx td => ?_, fun ctx ld => ?_,
      fun ctx md => ?_⟩
    · unfold baggageProcessor.updateBaggage
      simp only []
      split
      · rfl
      · exact injectBaggage_drop lib AsString bp hdrop _ _ _
    · unfold baggageProcessor.processTraces
      simp only []
      apply forEach_no_error
      intro rs
      apply forEach_no_error
      intro ss
      apply forEach_no_error
      intro span
      exact keepError_drop bp hdrop _
    · unfold baggageProcessor.processLogs
      simp only []
      apply forEach_no_error
      intro rl
      apply forEach_no_error
      intro sl
      apply forEach_no_error
      intro logRecord
      exact keepError_drop bp hdrop _
    · unfold baggageProcessor.processMetrics
      simp only []
      apply forEach_no_error
      intro rm
      apply forEach_no_error
      intro sm
      apply forEach_no_error
      intro metric
      exact keepError_drop bp hdrop _
  · intro hdrop action attrs currentBaggage value key val propErr hvalue hmem hinvalid
    obtain ⟨err, herr⟩ :=
      buildProperties_invalid lib bp hdrop action.Properties key val propErr hmem hinvalid
    refine ⟨err, ?_⟩
    unfold baggageProcessor.injectBaggage
    simp only [hvalue, herr]

/-- C28 on `TestInjectBaggage_InvalidPropertyBehavior`: with the invalid property
`bad key`, the inject fails when `DropInvalidBaggage` is false, and adds the member
`k=bar` without the property when it is true. -/
theorem dropInvalidBaggage_spec_witness :
    (∃ err, (newTestProcessor (some { DropInvalidBaggage := false })).injectBaggage
        baggage.reference serialization.exampleAsString
        { Key := "k", Action := Inject, FromAttribute := "foo",
          Properties := [("bad key", "x")] }
        ((pcommon.NewMap).PutStr "foo" "bar") [] = ([], some err)) ∧
    (newTestProcessor (some { DropInvalidBaggage := true })).injectBaggage
        baggage.reference serialization.exampleAsString
        { Key := "k", Action := Inject, FromAttribute := "foo",
          Properties := [("bad key", "x")] }
        ((pcommon.NewMap).PutStr "foo" "bar") []
      = ([{ key := "k", value := "bar" }], none) ∧
    ((newTestProcessor (some testUnknownActionConfig)).processTraces
        baggage.reference serialization.exampleAsString []
        { ResourceSpans := [{ ScopeSpans := [{ Spans := [{ Name := "span" }] }] }] }).2
      = none :=
  ⟨(dropInvalidBaggage_spec baggage.reference serialization.exampleAsString
      (newTestProcessor (some { DropInvalidBaggage := false }))).2 rfl
      { Key := "k", Action := Inject, FromAttribute := "foo",
        Properties := [("bad key", "x")] }
      ((pcommon.NewMap).PutStr "foo" "bar") [] "bar" "bad key" "x" "invalid property"
      (by decide) (by decide) rfl,
   by decide,
   ((dropInvalidBaggage_spec baggage.reference serialization.exampleAsString
      (newTestProcessor (some testUnknownActionConfig))).1 rfl).2.2.1 []
      { ResourceSpans := [{ ScopeSpans := [{ Spans := [{ Name := "span" }] }] }] }⟩

end baggageprocessor

/-! ## Theorems: `formatBucket` -/

namespace golang

theorem padZero_eq_fixedDigits (w n : Nat) (hw : 1 ≤ w) (h : n < 10 ^ w) :
    (padZero w n).data = fixedDigits w n := by
  obtain ⟨e, he, he1, helt, hege⟩ := itoa_fixedDigits n
  have hlene : (itoa n).length = e := by
    rw [String.length, he, fixedDigits_length]
  have hew : e ≤ w := by
    rcases hege with h1 | hge
    · omega
    · by_contra hcon
      have hle : 10 ^ w ≤ 10 ^ (e - 1) := Nat.pow_le_pow_right (by decide) (by omega)
      omega
  unfold padZero
  rw [String.data_append, hlene, he]
  have := fixedDigits_pad e (w - e) n helt
  rw [Nat.sub_add_cancel hew] at this
  rw [this]

theorem rdropWhile_append (p : Char → Bool) (a b : List Char) :
    (a ++ b).rdropWhile p = if b.all p then a.rdropWhile p else a ++ b.rdropWhile p := by
  induction b using List.reverseRecOn with
  | nil => simp
  | append_singleton b c ih =>
    rw [← List.append_assoc]
    by_cases hc : p c = true
    · rw [List.rdropWhile_concat_pos _ _ _ hc, List.rdropWhile_concat_pos _ _ _ hc, ih]
      simp [hc]
    · rw [List.rdropWhile_concat_neg _ _ _ hc, List.rdropWhile_concat_neg _ _ _ hc]
      simp [hc]

theorem rdropWhile_of_forall_not (p : Char → Bool) (l : List Char)
    (h : ∀ c ∈ l, p c = false) : l.rdropWhile p = l := by
  rw [List.rdropWhile_eq_self_iff]
  intro hl
  rw [h _ (List.getLast_mem hl)]
  simp

end golang

namespace encode
open golang pdata objmodel

theorem sprintfF_finite_parts (neg : Bool) (m : Nat) (e : Int) :
    ∃ whole frac : List Char,
      (sprintfF (.finite neg m e)).data = whole ++ '.' :: frac ∧ whole ≠ [] ∧
      (∀ c ∈ whole, c = '-' ∨ ∃ k, k < 10 ∧ c = Nat.digitChar k) ∧
      frac.length = 6 ∧ (∀ c ∈ frac, ∃ k, k < 10 ∧ c = Nat.digitChar k) := by
  obtain ⟨scaled, hscaled⟩ : ∃ scaled, sprintfF (.finite neg m e)
      = (if neg then "-" else "") ++ itoa (scaled / 1000000) ++ "." ++
        padZero 6 (scaled % 1000000) := ⟨_, rfl⟩
  rw [hscaled]
  have hfrac : (padZero 6 (scaled % 1000000)).data = fixedDigits 6 (scaled % 1000000) :=
    padZero_eq_fixedDigits 6 _ (by decide) (Nat.mod_lt _ (by decide))
  refine ⟨((if neg then "-" else "") ++ itoa (scaled / 1000000)).data,
    (padZero 6 (scaled % 1000000)).data, ?_, ?_, ?_, ?_, ?_⟩
  · have hdot : (".": String).data = ['.'] := rfl
    simp only [String.data_append, hdot, List.append_assoc, List.singleton_append]
  · simp only [String.data_append, ne_eq, List.append_eq_nil, not_and]
    intro _
    exact repr_ne_nil _
  · intro c hc
    simp only [String.data_append, List.mem_append] at hc
    rcases hc with hc | hc
    · left
      cases neg
      · simp at hc
      · simpa using hc
    · exact Or.inr (repr_chars _ c hc)
  · rw [hfrac, fixedDigits_length]
  · intro c hc
    simp only [padZero, String.data_append, List.mem_append, List.mem_replicate] at hc
    rcases hc with hc | hc
    · exact ⟨0, by decide, hc.2⟩
    · exact repr_chars _ c hc

theorem digitChar_ne_dot (k : Nat) (hk : k < 10) : Nat.digitChar k ≠ '.' := by
  interval_cases k <;> decide

theorem formatBucket_of_parts (x : Float64) (whole frac : List Char)
    (hdata : (sprintfF x).data = whole ++ '.' :: frac)
    (hwc : ∀ c ∈ whole, c = '-' ∨ ∃ k, k < 10 ∧ c = Nat.digitChar k)
    (hfc : ∀ c ∈ frac, ∃ k, k < 10 ∧ c = Nat.digitChar k) :
    (formatBucket x).data
      = if frac.all (fun c => decide (c = '0')) then whole
        else whole ++ '.' :: frac.rdropWhile (fun c => decide (c = '0')) := by
  have hz : (fun c => ("0" : String).data.contains c) = (fun c => decide (c = '0')) := by
    funext c
    have : ("0" : String).data = ['0'] := rfl
    simp [this]
  have hd : (fun c => ("." : String).data.contains c) = (fun c => decide (c = '.')) := by
    funext c
    have : ("." : String).data = ['.'] := rfl
    simp [this]
  have hnotdot_whole : ∀ c ∈ whole, decide (c = '.') = false := by
    intro c hc
    rcases hwc c hc with rfl | ⟨k, hk, rfl⟩
    · decide
    · simpa using digitChar_ne_dot k hk
  unfold formatBucket TrimRight
  simp only [hdata, hz, hd]
  have hstep1 : (whole ++ '.' :: frac).rdropWhile (fun c => decide (c = '0'))
      = whole ++ '.' :: frac.rdropWhile (fun c => decide (c = '0')) := by
    rw [rdropWhile_append]
    have hnot : ('.' :: frac).all (fun c => decide (c = '0')) = false := by
      simp
    rw [hnot]
    simp only [Bool.false_eq_true, if_false]
    congr 1
    have := rdropWhile_append (fun c => decide (c = '0')) ['.'] frac
    simp only [List.singleton_append] at this
    rw [this]
    by_cases hall : frac.all (fun c => decide (c = '0')) = true
    · have hnil : frac.rdropWhile (fun c => decide (c = '0')) = [] := by
        rw [List.rdropWhile_eq_nil_iff]
        intro c hc
        exact List.all_eq_true.mp hall c hc
      rw [if_pos hall, hnil]
      decide
    · rw [if_neg hall]
  rw [hstep1]
  by_cases hall : frac.all (fun c => decide (c = '0')) = true
  · have hnil : frac.rdropWhile (fun c => decide (c = '0')) = [] := by
      rw [List.rdropWhile_eq_nil_iff]
      intro c hc
      exact List.all_eq_true.mp hall c hc
    rw [if_pos hall, hnil]
    have : whole ++ ['.'] = whole ++ ['.'] := rfl
    rw [List.rdropWhile_concat_pos _ _ _ (by decide)]
    exact rdropWhile_of_forall_not _ _ hnotdot_whole
  · rw [if_neg hall]
    have hne : frac.rdropWhile (fun c => decide (c = '0')) ≠ [] := by
      intro hnil
      apply hall
      rw [List.all_eq_true]
      exact List.rdropWhile_eq_nil_iff.mp hnil
    have hsub : ∀ c ∈ frac.rdropWhile (fun c => decide (c = '0')),
        decide (c = '.') = false := by
      intro c hc
      obtain ⟨k, hk, rfl⟩ := hfc c ((List.rdropWhile_prefix _ _).subset hc)
      simpa using digitChar_ne_dot k hk
    have hsplit : whole ++ '.' :: frac.rdropWhile (fun c => decide (c = '0'))
        = (whole ++ ['.']) ++ frac.rdropWhile (fun c => decide (c = '0')) := by simp
    rw [hsplit, rdropWhile_append]
    have hnotall : (frac.rdropWhile (fun c => decide (c = '0'))).all
        (fun c => decide (c = '.')) = false := by
      cases hl : frac.rdropWhile (fun c => decide (c = '0')) with
      | nil => exact absurd hl hne
      | cons a t =>
        have := hsub a (by rw [hl]; exact List.mem_cons_self _ _)
        simp [this]
    rw [hnotall]
    simp only [Bool.false_eq_true, if_false]
    rw [rdropWhile_of_forall_not _ _ hsub]

theorem getLast?_append_cons (a : List Char) (c : Char) (l : List Char) :
    (a ++ c :: l).getLast? = (c :: l).getLast? := by
  rw [List.getLast?_append]
  cases h : (c :: l).getLast? with
  | none => simp at h
  | some d => rfl

theorem getLast?_cons_of_ne (c : Char) (l : List Char) (hne : l ≠ []) :
    (c :: l).getLast? = some (l.getLast hne) := by
  cases l with
  | nil => exact absurd rfl hne
  | cons a t => rw [List.getLast?_cons_cons, List.getLast?_eq_getLast]

/-- C31: `formatBucket` renders a bound as a trimmed decimal string.  For a finite bound
the six-decimal rendering is `I.F`, with `I` a non-empty integer part without a point and
`F` six digits; the result is `I` when `F` is all zeros and otherwise `I.F'`, where `F'`
is `F` without its trailing zeros, so `I` is always kept whole.  For every bound the result
neither ends with a point nor, when it has a point, with a zero. -/
theorem formatBucket_trimmed (x : Float64) :
    (x.nonFinite = false →
      ∃ whole frac : List Char,
        (sprintfF x).data = whole ++ '.' :: frac ∧ whole ≠ [] ∧ '.' ∉ whole ∧
        frac.length = 6 ∧
        (formatBucket x).data
          = (if frac.all (fun c => decide (c = '0')) then whole
             else whole ++ '.' :: frac.rdropWhile (fun c => decide (c = '0'))) ∧
        whole <+: (formatBucket x).data) ∧
    (formatBucket x).data.getLast? ≠ some '.' ∧
    ('.' ∈ (formatBucket x).data → (formatBucket x).data.getLast? ≠ some '0') := by
  cases x with
  | nan => exact ⟨fun h => (by cases h), by decide, by decide⟩
  | inf neg => cases neg <;> exact ⟨fun h => (by cases h), by decide, by decide⟩
  | finite neg m e =>
    obtain ⟨whole, frac, hdata, hwhole, hwc, hlen, hfc⟩ := sprintfF_finite_parts neg m e
    have hres := formatBucket_of_parts (.finite neg m e) whole frac hdata hwc hfc
    have hnodot : '.' ∉ whole := by
      intro hmem
      rcases hwc '.' hmem with h | ⟨k, hk, h⟩
      · revert h; decide
      · exact digitChar_ne_dot k hk h.symm
    have hlastwhole : ∀ c, whole.getLast? = some c → c ∈ whole := fun c hc =>
      List.mem_of_getLast?_eq_some hc
    by_cases hall : frac.all (fun c => decide (c = '0')) = true
    · rw [if_pos hall] at hres
      refine ⟨fun _ => ⟨whole, frac, hdata, hwhole, hnodot, hlen, ?_, ?_⟩, ?_, ?_⟩
      · rw [hres, if_pos hall]
      · rw [hres]
      · rw [hres]
        intro hlast
        exact hnodot (hlastwhole _ hlast)
      · rw [hres]
        intro hmem
        exact absurd hmem hnodot
    · rw [if_neg hall] at hres
      have hne : frac.rdropWhile (fun c => decide (c = '0')) ≠ [] := by
        intro hnil
        apply hall
        rw [List.all_eq_true]
        exact List.rdropWhile_eq_nil_iff.mp hnil
      have hlast : (whole ++ '.' :: frac.rdropWhile (fun c => decide (c = '0'))).getLast?
          = some ((frac.rdropWhile (fun c => decide (c = '0'))).getLast hne) := by
        rw [getLast?_append_cons, getLast?_cons_of_ne _ _ hne]
      have hnot0 := List.rdropWhile_last_not (fun c => decide (c = '0')) frac hne
      have hmemlast : (frac.rdropWhile (fun c => decide (c = '0'))).getLast hne ∈ frac :=
        (List.rdropWhile_prefix _ _).subset (List.getLast_mem hne)
      refine ⟨fun _ => ⟨whole, frac, hdata, hwhole, hnodot, hlen, ?_, ?_⟩, ?_, ?_⟩
      · rw [hres, if_neg hall]
      · rw [hres]
        exact List.prefix_append _ _
      · rw [hres, hlast]
        intro h
        obtain ⟨k, hk, hd⟩ := hfc _ hmemlast
        rw [Option.some.inj h] at hd
        exact digitChar_ne_dot k hk hd.symm
      · rw [hres, hlast]
        intro _ h
        apply hnot0
        rw [Option.some.inj h]
        decide

/-- C31 on the bounds 10, 100, 5.87 and 0.5, and on the infinite bound. -/
theorem formatBucket_trimmed_witness :
    formatBucket (.finite false 10 0) = "10" ∧
    formatBucket (.finite false 100 0) = "100" ∧
    formatBucket float5_87 = "5.87" ∧
    formatBucket (.finite false 1 (-1)) = "0.5" ∧
    formatBucket (.finite true 25 (-2)) = "-6.25" ∧
    formatBucket (.inf false) = "+Inf" ∧
    (formatBucket (.finite false 100 0)).data.getLast? ≠ some '.' :=
  ⟨by decide, by decide, by decide, by decide, by decide, by decide,
   (formatBucket_trimmed (.finite false 100 0)).2.1⟩

end encode

/-! ## Theorems: the memcached hit ratio -/

namespace memcachedreceiver
open golang

theorem hitRatioPoint_value (operationKey : String) (now : pdata.Timestamp)
    (stats : GoMap String) (operation hitKey missKey : String) :
    (hitRatioPoint operationKey now stats operation hitKey missKey).map (fun p => p.Value)
      = match parseInt ((MapGet stats hitKey).getD ""),
          parseInt ((MapGet stats missKey).getD "") with
        | some parsedHit, some parsedMiss => some (calculateHitRatio parsedHit parsedMiss)
        | _, _ => none := by
  unfold hitRatioPoint
  cases parseInt ((MapGet stats hitKey).getD "") <;>
    cases parseInt ((MapGet stats missKey).getD "") <;> rfl

theorem hitRatioPoints_values (operationKey : String) (now : pdata.Timestamp)
    (allServerStats : List (GoMap String)) :
    (hitRatioPoints operationKey now allServerStats).map (fun p => p.Value)
      = allServerStats.flatMap (fun stats =>
          [(hitRatioPoint operationKey now stats "increment" "incr_hits" "incr_misses").map
              (fun p => p.Value),
           (hitRatioPoint operationKey now stats "decrement" "decr_hits" "decr_misses").map
              (fun p => p.Value),
           (hitRatioPoint operationKey now stats "get" "get_hits" "get_misses").map
              (fun p => p.Value)].filterMap id) := by
  unfold hitRatioPoints
  rw [List.map_flatMap]
  congr 1
  funext stats
  cases hitRatioPoint operationKey now stats "increment" "incr_hits" "incr_misses" <;>
    cases hitRatioPoint operationKey now stats "decrement" "decr_hits" "decr_misses" <;>
    cases hitRatioPoint operationKey now stats "get" "get_hits" "get_misses" <;> rfl

theorem calculateHitRatio_eq (misses hits : Int) (h : addInt64 misses hits ≠ 0) :
    calculateHitRatio misses hits = 100 * (hits : ℚ) / ((hits : ℚ) + (misses : ℚ)) := by
  unfold calculateHitRatio
  rw [if_neg h]
  ring

/-- C32 (the code at a failing input): for a server with 3 get hits and 1 get miss,
`scrape` records the get hit ratio 25, the share of the misses, where the claim gives
`100 * 3 / (3 + 1) = 75`; with no hit and no miss it records 0.  `calculateHitRatio`
names its first parameter `misses` and its second `hits`, and `scrape` passes the hits
first, so that in general the value recorded is `100 * m / (m + h)`. -/
theorem hitRatio_get_3_hits_1_miss :
    (hitRatioPoints "operation" 0 [[("get_hits", "3"), ("get_misses", "1")]]).map
        (fun p => p.Value) = [25] ∧
    (100 * 3 / (3 + 1) : ℚ) = 75 ∧
    (hitRatioPoints "operation" 0 [[("get_hits", "0"), ("get_misses", "0")]]).map
        (fun p => p.Value) = [0] ∧
    (∀ parsedHit parsedMiss : Int, addInt64 parsedHit parsedMiss ≠ 0 →
      calculateHitRatio parsedHit parsedMiss
        = 100 * (parsedMiss : ℚ) / ((parsedMiss : ℚ) + (parsedHit : ℚ))) := by
  have hnone : parseInt ((MapGet ([("get_hits", "3"), ("get_misses", "1")] : GoMap String)
      "incr_hits").getD "") = none := by decide
  have hnone2 : parseInt ((MapGet ([("get_hits", "3"), ("get_misses", "1")] : GoMap String)
      "decr_hits").getD "") = none := by decide
  have h3 : parseInt ((MapGet ([("get_hits", "3"), ("get_misses", "1")] : GoMap String)
      "get_hits").getD "") = some 3 := by decide
  have h1 : parseInt ((MapGet ([("get_hits", "3"), ("get_misses", "1")] : GoMap String)
      "get_misses").getD "") = some 1 := by decide
  have znone : parseInt ((MapGet ([("get_hits", "0"), ("get_misses", "0")] : GoMap String)
      "incr_hits").getD "") = none := by decide
  have znone2 : parseInt ((MapGet ([("get_hits", "0"), ("get_misses", "0")] : GoMap String)
      "decr_hits").getD "") = none := by decide
  have z3 : parseInt ((MapGet ([("get_hits", "0"), ("get_misses", "0")] : GoMap String)
      "get_hits").getD "") = some 0 := by decide
  have z1 : parseInt ((MapGet ([("get_hits", "0"), ("get_misses", "0")] : GoMap String)
      "get_misses").getD "") = some 0 := by decide
  have hsum : addInt64 3 1 ≠ 0 := by decide
  have hzero : addInt64 0 0 = 0 := by decide
  refine ⟨?_, by norm_num, ?_, fun h m hne => calculateHitRatio_eq h m hne⟩
  · rw [hitRatioPoints_values]
    simp only [List.flatMap_cons, List.flatMap_nil, List.append_nil, hitRatioPoint_value,
      hnone, hnone2, h3, h1, List.filterMap_cons, id, List.filterMap_nil]
    rw [calculateHitRatio_eq 3 1 hsum]
    norm_num
  · rw [hitRatioPoints_values]
    simp only [List.flatMap_cons, List.flatMap_nil, List.append_nil, hitRatioPoint_value,
      znone, znone2, z3, z1, List.filterMap_cons, id, List.filterMap_nil]
    simp [calculateHitRatio, hzero]

end memcachedreceiver

/-! ## Theorems: dispatch, atomicity and frame of the baggage actions -/

namespace baggageprocessor
open golang

theorem actionValid_type (a : Action) (h : ActionValid a) :
    a.Action = Extract ∨ a.Action = Inject ∨ a.Action = Update ∨ a.Action = Upsert ∨
      a.Action = Delete := by
  rcases h.2 with h1 | h1 | h1
  · exact Or.inl h1.1
  · rcases h1.1 with h2 | h2 | h2
    · exact Or.inr (Or.inl h2)
    · exact Or.inr (Or.inr (Or.inl h2))
    · exact Or.inr (Or.inr (Or.inr (Or.inl h2)))
  · exact Or.inr (Or.inr (Or.inr (Or.inr h1)))

theorem validate_actions_valid (cfg : Config) (h : cfg.Validate = none) :
    ∀ a ∈ cfg.Actions, ActionValid a := by
  unfold Config.Validate at h
  split at h
  · cases h
  · cases hv : validateActions cfg.Actions 0 with
    | some err => rw [hv] at h; cases h
    | none => exact (validateActions_eq_none_iff _ 0).mp hv

/-- C33: for a configuration that `Config.Validate` accepts, `processAction` applied to
any of its actions never takes the "unknown action type" branch: the type of the action is
one of extract, inject, update, upsert and delete, and `processAction` returns what the
function of that type returns. -/
theorem validated_action_dispatches {B M P : Type} (lib : baggage.Library B M P)
    (AsString : pcommon.Value → String) (bp : baggageProcessor)
    (hvalid : bp.config.Validate = none) (action : Action) (hmem : action ∈ bp.config.Actions)
    (attrs : pcommon.Map) (currentBaggage : B) :
    (action.Action = Extract ∧
      bp.processAction lib AsString action attrs currentBaggage
        = (((bp.extractBaggage lib action attrs currentBaggage).1, currentBaggage),
            (bp.extractBaggage lib action attrs currentBaggage).2)) ∨
    (action.Action = Inject ∧
      bp.processAction lib AsString action attrs currentBaggage
        = ((attrs, (bp.injectBaggage lib AsString action attrs currentBaggage).1),
            (bp.injectBaggage lib AsString action attrs currentBaggage).2)) ∨
    (action.Action = Update ∧
      bp.processAction lib AsString action attrs currentBaggage
        = ((attrs, (bp.updateBaggage lib AsString action attrs currentBaggage false).1),
            (bp.updateBaggage lib AsString action attrs currentBaggage false).2)) ∨
    (action.Action = Upsert ∧
      bp.processAction lib AsString action attrs currentBaggage
        = ((attrs, (bp.updateBaggage lib AsString action attrs currentBaggage true).1),
            (bp.updateBaggage lib AsString action attrs currentBaggage true).2)) ∨
    (action.Action = Delete ∧
      bp.processAction lib AsString action attrs currentBaggage
        = ((attrs, (deleteBaggage lib action currentBaggage).1),
            (deleteBaggage lib action currentBaggage).2)) := by
  have htype := actionValid_type action (validate_actions_valid bp.config hvalid action hmem)
  unfold baggageProcessor.processAction
  rcases htype with h | h | h | h | h
  · exact Or.inl ⟨h, by simp [h]⟩
  · exact Or.inr (Or.inl ⟨h, by simp [h, Inject, Extract]⟩)
  · exact Or.inr (Or.inr (Or.inl ⟨h, by simp [h, Update, Inject, Extract]⟩))
  · exact Or.inr (Or.inr (Or.inr (Or.inl ⟨h, by simp [h, Upsert, Update, Inject, Extract]⟩)))
  · exact Or.inr (Or.inr (Or.inr (Or.inr
      ⟨h, by simp [h, Delete, Upsert, Update, Inject, Extract]⟩)))

/-- C33 on a valid configuration with a delete action, and on the invalid configuration
with the action type `rename`, which `Config.Validate` rejects and `processAction` answers
with the error of the unknown type. -/
theorem validated_action_dispatches_witness :
    (newTestProcessor (some { Actions := [{ Key := "k1", Action := Delete }] })).processAction
        baggage.reference serialization.exampleAsString { Key := "k1", Action := Delete }
        pcommon.NewMap [{ key := "k1", value := "v1" }, { key := "k2", value := "v2" }]
      = ((pcommon.NewMap, [{ key := "k2", value := "v2" }]), none) ∧
    Config.Validate testUnknownActionConfig = some "action 0: unknown action type: rename" ∧
    ((newTestProcessor (some testUnknownActionConfig)).processAction baggage.reference
        serialization.exampleAsString { Key := "k", Action := "rename" } pcommon.NewMap []).2
      = some "unknown action type: rename" := by
  refine ⟨?_, by decide, by decide⟩
  rcases validated_action_dispatches baggage.reference serialization.exampleAsString
      (newTestProcessor (some { Actions := [{ Key := "k1", Action := Delete }] }))
      (by decide) { Key := "k1", Action := Delete } (List.mem_cons_self _ _)
      pcommon.NewMap [{ key := "k1", value := "v1" }, { key := "k2", value := "v2" }]
    with h | h | h | h | h
  · exact absurd h.1 (by decide)
  · exact absurd h.1 (by decide)
  · exact absurd h.1 (by decide)
  · exact absurd h.1 (by decide)
  · exact h.2

/-- C34: `injectBaggage` is atomic with respect to the baggage.  Whenever it returns an
error the baggage is the one it was given; so it is when it returns nil after skipping
(the source attribute is absent, the member is invalid, the member is rejected by
`SetMember`, or the size limit is exceeded); and the baggage is either unchanged or the
result of the fully successful path: the value resolves, the properties are built,
`NewMember` and `SetMember` succeed, the size limit is not exceeded, and nil is returned. -/
theorem injectBaggage_atomic {B M P : Type} (lib : baggage.Library B M P)
    (AsString : pcommon.Value → String) (bp : baggageProcessor) (action : Action)
    (attrs : pcommon.Map) (currentBaggage : B) :
    ((bp.injectBaggage lib AsString action attrs currentBaggage).2 ≠ none →
      (bp.injectBaggage lib AsString action attrs currentBaggage).1 = currentBaggage) ∧
    (resolveValue AsString action attrs = none →
      bp.injectBaggage lib AsString action attrs currentBaggage = (currentBaggage, none)) ∧
    (∀ value props err, resolveValue AsString action attrs = some value →
      bp.buildProperties lib action.Properties = .ok props →
      lib.NewMember action.Key value props = .error err →
      (bp.injectBaggage lib AsString action attrs currentBaggage).1 = currentBaggage) ∧
    (∀ value props member err, resolveValue AsString action attrs = some value →
      bp.buildProperties lib action.Properties = .ok props →
      lib.NewMember action.Key value props = .ok member →
      lib.SetMember currentBaggage member = .error err →
      (bp.injectBaggage lib AsString action attrs currentBaggage).1 = currentBaggage) ∧
    (∀ value props member newBaggage, resolveValue AsString action attrs = some value →
      bp.buildProperties lib action.Properties = .ok props →
      lib.NewMember action.Key value props = .ok member →
      lib.SetMember currentBaggage member = .ok newBaggage →
      0 < bp.config.MaxBaggageSize →
      bp.config.MaxBaggageSize < ((lib.BaggageString newBaggage).utf8ByteSize : Int) →
      (bp.injectBaggage lib AsString action attrs currentBaggage).1 = currentBaggage) ∧
    ((bp.injectBaggage lib AsString action attrs currentBaggage).1 = currentBaggage ∨
      ∃ value props member newBaggage,
        resolveValue AsString action attrs = some value ∧
        bp.buildProperties lib action.Properties = .ok props ∧
        lib.NewMember action.Key value props = .ok member ∧
        lib.SetMember currentBaggage member = .ok newBaggage ∧
        ¬ (0 < bp.config.MaxBaggageSize ∧
          bp.config.MaxBaggageSize < ((lib.BaggageString newBaggage).utf8ByteSize : Int)) ∧
        bp.injectBaggage lib AsString action attrs currentBaggage = (newBaggage, none)) := by
  have hmain : (bp.injectBaggage lib AsString action attrs currentBaggage).1 = currentBaggage ∨
      ∃ value props member newBaggage,
        resolveValue AsString action attrs = some value ∧
        bp.buildProperties lib action.Properties = .ok props ∧
        lib.NewMember action.Key value props = .ok member ∧
        lib.SetMember currentBaggage member = .ok newBaggage ∧
        ¬ (0 < bp.config.MaxBaggageSize ∧
          bp.config.MaxBaggageSize < ((lib.BaggageString newBaggage).utf8ByteSize : Int)) ∧
        bp.injectBaggage lib AsString action attrs currentBaggage = (newBaggage, none) := by
    cases hvalue : resolveValue AsString action attrs with
    | none => left; simp [baggageProcessor.injectBaggage, hvalue]
    | some value =>
      cases hprops : bp.buildProperties lib action.Properties with
      | error e => left; simp [baggageProcessor.injectBaggage, hvalue, hprops]
      | ok props =>
        cases hmember : lib.NewMember action.Key value props with
        | error e =>
          left
          simp only [baggageProcessor.injectBaggage, hvalue, hprops, hmember]
          split <;> rfl
        | ok member =>
          cases hset : lib.SetMember currentBaggage member with
          | error e =>
            left
            simp only [baggageProcessor.injectBaggage, hvalue, hprops, hmember, hset]
            split <;> rfl
          | ok newBaggage =>
            have heq := injectBaggage_of_set lib AsString bp action attrs currentBaggage value
              props member newBaggage hvalue hprops hmember hset
            by_cases hsize : 0 < bp.config.MaxBaggageSize ∧
                bp.config.MaxBaggageSize < ((lib.BaggageString newBaggage).utf8ByteSize : Int)
            · left
              rw [heq, if_pos hsize]
              split <;> rfl
            · right
              refine ⟨value, props, member, newBaggage, rfl, rfl, hmember, hset, hsize, ?_⟩
              rw [heq, if_neg hsize]
  refine ⟨?_, ?_, ?_, ?_, ?_, hmain⟩
  · intro herr
    rcases hmain with h | ⟨_, _, _, _, _, _, _, _, _, h⟩
    · exact h
    · rw [h] at herr
      exact absurd rfl herr
  · intro hvalue
    simp [baggageProcessor.injectBaggage, hvalue]
  · intro value props err hvalue hprops hmember
    simp only [baggageProcessor.injectBaggage, hvalue, hprops, hmember]
    split <;> rfl
  · intro value props member err hvalue hprops hmember hset
    simp only [baggageProcessor.injectBaggage, hvalue, hprops, hmember, hset]
    split <;> rfl
  · intro value props member newBaggage hvalue hprops hmember hset h1 h2
    rw [injectBaggage_of_set lib AsString bp action attrs currentBaggage value props member
      newBaggage hvalue hprops hmember hset, if_pos ⟨h1, h2⟩]
    split <;> rfl

/-- C34 on a rejected and on an accepted inject: with the invalid key `bad key` the baggage
`a=old` stays as it is, with or without an error; with the key `b` the member is added. -/
theorem injectBaggage_atomic_witness :
    (newTestProcessor (some { DropInvalidBaggage := false })).injectBaggage baggage.reference
        serialization.exampleAsString { Key := "bad key", Action := Inject, Value := "v" }
        pcommon.NewMap testExistingBaggage
      = (testExistingBaggage, some "failed to create baggage member: invalid member") ∧
    ((newTestProcessor (some { DropInvalidBaggage := false })).injectBaggage baggage.reference
        serialization.exampleAsString { Key := "bad key", Action := Inject, Value := "v" }
        pcommon.NewMap testExistingBaggage).1 = testExistingBaggage ∧
    (newTestProcessor (some { DropInvalidBaggage := true })).injectBaggage baggage.reference
        serialization.exampleAsString { Key := "bad key", Action := Inject, Value := "v" }
        pcommon.NewMap testExistingBaggage
      = (testExistingBaggage, none) ∧
    (newTestProcessor none).injectBaggage baggage.reference
        serialization.exampleAsString { Key := "b", Action := Inject, Value := "v" }
        pcommon.NewMap testExistingBaggage
      = ([{ key := "a", value := "old" }, { key := "b", value := "v" }], none) :=
  ⟨by decide,
   (injectBaggage_atomic baggage.reference serialization.exampleAsString
      (newTestProcessor (some { DropInvalidBaggage := false }))
      { Key := "bad key", Action := Inject, Value := "v" } pcommon.NewMap
      testExistingBaggage).1 (by decide),
   by decide, by decide⟩

theorem processAction_attrs_of_not_extract {B M P : Type} (lib : baggage.Library B M P)
    (AsString : pcommon.Value → String) (bp : baggageProcessor) (action : Action)
    (hne : action.Action ≠ Extract) (attrs : pcommon.Map) (currentBaggage : B) :
    (bp.processAction lib AsString action attrs currentBaggage).1.1 = attrs := by
  unfold baggageProcessor.processAction
  rw [if_neg hne]
  split
  · rfl
  · split
    · rfl
    · split
      · rfl
      · split <;> rfl

theorem processActions_attrs_of_no_extract {B M P : Type} (lib : baggage.Library B M P)
    (AsString : pcommon.Value → String) (bp : baggageProcessor) (actions : List Action)
    (hno : ∀ a ∈ actions, a.Action ≠ Extract) (attrs : pcommon.Map) (currentBaggage : B) :
    (bp.processActions lib AsString actions attrs currentBaggage).1.1 = attrs := by
  induction actions generalizing currentBaggage with
  | nil => rfl
  | cons action rest ih =>
    have hstep := processAction_attrs_of_not_extract lib AsString bp action
      (hno action (List.mem_cons_self _ _)) attrs currentBaggage
    unfold baggageProcessor.processActions
    cases hr : bp.processAction lib AsString action attrs currentBaggage with
    | mk state err =>
      rw [hr] at hstep
      cases err with
      | some e => exact hstep
      | none =>
        simp only []
        have hst : state.1 = attrs := hstep
        rw [hst]
        exact ih (fun a ha => hno a (List.mem_cons_of_mem _ ha)) state.2

/-- C35: `processAttributes` modifies the attribute map only through extract actions: for
every context, attribute map and configuration whose action list has no extract action,
the attribute map after `processAttributes` is the map before, whether or not an error is
returned. -/
theorem processAttributes_without_extract {B M P : Type} (lib : baggage.Library B M P)
    (AsString : pcommon.Value → String) (bp : baggageProcessor) (ctx : B)
    (attrs : pcommon.Map) (hno : ∀ a ∈ bp.config.Actions, a.Action ≠ Extract) :
    (bp.processAttributes lib AsString ctx attrs).1 = attrs := by
  unfold baggageProcessor.processAttributes
  exact processActions_attrs_of_no_extract lib AsString bp bp.config.Actions hno attrs ctx

/-- C35 on a configuration with an inject, an update, an upsert, a delete and an action of
unknown type: the attribute map `region=eu` comes back as it was, together with the error
of the last action. -/
theorem processAttributes_without_extract_witness :
    ((newTestProcessor (some testNoExtractConfig)).processAttributes baggage.reference
        serialization.exampleAsString testExistingBaggage
        ((pcommon.NewMap).PutStr "region" "eu")).1 = (pcommon.NewMap).PutStr "region" "eu" ∧
    ((newTestProcessor (some testNoExtractConfig)).processAttributes baggage.reference
        serialization.exampleAsString testExistingBaggage
        ((pcommon.NewMap).PutStr "region" "eu")).2
      = some "failed to process action for key c: unknown action type: rename" :=
  ⟨processAttributes_without_extract baggage.reference serialization.exampleAsString
      (newTestProcessor (some testNoExtractConfig)) testExistingBaggage
      ((pcommon.NewMap).PutStr "region" "eu") (by decide),
   by decide⟩

/-- C37: the upsert and inject actions are equivalent: for every action, attribute map
and baggage, `updateBaggage` with `upsert = true` returns the same error and leaves the
same baggage as `injectBaggage` on the same inputs, and `processAction` gives the same
result for an action of type upsert as for the same action with the type inject. -/
theorem upsert_eq_inject {B M P : Type} (lib : baggage.Library B M P)
    (AsString : pcommon.Value → String) (bp : baggageProcessor) (action : Action)
    (attrs : pcommon.Map) (currentBaggage : B) :
    bp.updateBaggage lib AsString action attrs currentBaggage true
      = bp.injectBaggage lib AsString action attrs currentBaggage ∧
    bp.processAction lib AsString
        { Key := action.Key, Action := Upsert, Value := action.Value,
          FromAttribute := action.FromAttribute, FromContext := action.FromContext,
          ToAttribute := action.ToAttribute, Properties := action.Properties }
        attrs currentBaggage
      = bp.processAction lib AsString
        { Key := action.Key, Action := Inject, Value := action.Value,
          FromAttribute := action.FromAttribute, FromContext := action.FromContext,
          ToAttribute := action.ToAttribute, Properties := action.Properties }
        attrs currentBaggage := by
  have hup := fun a : Action => updateBaggage_eq_inject lib AsString bp a attrs currentBaggage
    true (Or.inr rfl)
  refine ⟨hup action, ?_⟩
  unfold baggageProcessor.processAction
  simp only [Upsert, Update, Inject, Extract]
  simp only [String.reduceEq, if_false, if_true]
  rw [hup]
  unfold baggageProcessor.injectBaggage resolveValue
  rfl

/-- C37 on the existing key `a` and on an absent key: upsert and inject both overwrite
`a=old`, and both add `missing`. -/
theorem upsert_eq_inject_witness :
    (newTestProcessor none).updateBaggage baggage.reference serialization.exampleAsString
        { Key := "a", Action := Upsert, Value := "new" } pcommon.NewMap testExistingBaggage true
      = ([{ key := "a", value := "new" }], none) ∧
    (newTestProcessor none).injectBaggage baggage.reference serialization.exampleAsString
        { Key := "a", Action := Upsert, Value := "new" } pcommon.NewMap testExistingBaggage
      = ([{ key := "a", value := "new" }], none) ∧
    (newTestProcessor none).updateBaggage baggage.reference serialization.exampleAsString
        { Key := "missing", Action := Upsert, Value := "new" } pcommon.NewMap
        testExistingBaggage true
      = (newTestProcessor none).injectBaggage baggage.reference serialization.exampleAsString
        { Key := "missing", Action := Upsert, Value := "new" } pcommon.NewMap
        testExistingBaggage :=
  ⟨by decide, by decide,
   (upsert_eq_inject baggage.reference serialization.exampleAsString (newTestProcessor none)
      { Key := "missing", Action := Upsert, Value := "new" } pcommon.NewMap
      testExistingBaggage).1⟩

end baggageprocessor
namespace baggageprocessor
open golang

theorem extractBaggage_present {B M P : Type} (lib : baggage.Library B M P)
    (bp : baggageProcessor) (action : Action) (attrs : pcommon.Map) (currentBaggage : B)
    (hto : action.ToAttribute = "")
    (hkey : lib.MemberKey (lib.Member currentBaggage action.Key) ≠ "") :
    (bp.extractBaggage lib action attrs currentBaggage).2 = none ∧
    (bp.extractBaggage lib action attrs currentBaggage).1.Get
        (bp.config.AttributePrefix ++ action.Key)
      = some (.String (lib.MemberValue (lib.Member currentBaggage action.Key))) := by
  unfold baggageProcessor.extractBaggage
  simp only [hkey, if_false, hto, if_true, true_and]
  have hne : ¬ bp.config.AttributePrefix ++ action.Key ++ "_properties"
      = bp.config.AttributePrefix ++ action.Key := fun h => ne_append_properties _ h.symm
  split
  · simp [pcommon.Map.Get, pcommon.Map.PutStr, MapGet_MapSet, hne]
  · simp [pcommon.Map.Get, pcommon.Map.PutStr, MapGet_MapSet]

theorem extractBaggage_absent {B M P : Type} (lib : baggage.Library B M P)
    (bp : baggageProcessor) (action : Action) (attrs : pcommon.Map) (currentBaggage : B)
    (hkey : lib.MemberKey (lib.Member currentBaggage action.Key) = "") :
    bp.extractBaggage lib action attrs currentBaggage = (attrs, none) := by
  unfold baggageProcessor.extractBaggage
  simp [hkey]

theorem processActions_injectThenExtract {B M P : Type} (lib : baggage.Library B M P)
    (AsString : pcommon.Value → String) (bp : baggageProcessor) (ctx : B)
    (attrs : pcommon.Map) (k v : String) :
    bp.processActions lib AsString (injectThenExtract k v) attrs ctx
      = match bp.injectBaggage lib AsString { Key := k, Action := Inject, Value := v }
            attrs ctx with
        | (_, some err) =>
          ((attrs, (bp.injectBaggage lib AsString { Key := k, Action := Inject, Value := v }
              attrs ctx).1),
            some ("failed to process action for key " ++ k ++ ": " ++ err))
        | (newBaggage, none) =>
          (((bp.extractBaggage lib { Key := k, Action := Extract, FromContext := true }
              attrs newBaggage).1, newBaggage), none) := by
  unfold injectThenExtract
  simp only [baggageProcessor.processActions, baggageProcessor.processAction, Inject, Extract,
    String.reduceEq, if_false, if_true]
  cases hinj : bp.injectBaggage lib AsString { Key := k, Action := "inject", Value := v }
      attrs ctx with
  | mk b err =>
    cases err with
    | some e => rfl
    | none =>
      simp only []
      have hnone : (bp.extractBaggage lib { Key := k, Action := "extract", FromContext := true }
          attrs b).2 = none := by
        unfold baggageProcessor.extractBaggage
        simp only []
        split <;> rfl
      cases hext : bp.extractBaggage lib { Key := k, Action := "extract", FromContext := true }
          attrs b with
      | mk a e =>
        rw [hext] at hnone
        simp only at hnone
        subst hnone
        rfl

theorem processActions_deleteThenExtract {B M P : Type} (lib : baggage.Library B M P)
    (AsString : pcommon.Value → String) (bp : baggageProcessor) (ctx : B)
    (attrs : pcommon.Map) (k : String) :
    bp.processActions lib AsString (deleteThenExtract k) attrs ctx
      = (((bp.extractBaggage lib { Key := k, Action := Extract, FromContext := true }
            attrs (lib.DeleteMember ctx k)).1, lib.DeleteMember ctx k), none) := by
  unfold deleteThenExtract
  simp only [baggageProcessor.processActions, baggageProcessor.processAction, Delete, Upsert,
    Update, Inject, Extract, String.reduceEq, if_false, if_true, deleteBaggage]
  have hnone : (bp.extractBaggage lib { Key := k, Action := "extract", FromContext := true }
      attrs (lib.DeleteMember ctx k)).2 = none := by
    unfold baggageProcessor.extractBaggage
    simp only []
    split <;> rfl
  cases hext : bp.extractBaggage lib { Key := k, Action := "extract", FromContext := true }
      attrs (lib.DeleteMember ctx k) with
  | mk a e =>
    rw [hext] at hnone
    simp only at hnone
    subst hnone
    rfl

/-- C36 (counterexample): with `MaxBaggageSize` 10 the inject of `user` with the valid
value `a-much-longer-value` is rejected, and the list `[inject user, extract user]` does
not set `baggage.user` to that value: when invalid baggage is dropped the attribute gets
the value `old` of the context baggage, and otherwise the call fails before the extract. -/
theorem injectThenExtract_rejected_by_size :
    (baggage.validKey "user" && baggage.validValue "a-much-longer-value") = true ∧
    stringsOf
        ((newTestProcessor (some
            { AttributePrefix := "baggage.", MaxBaggageSize := 10, DropInvalidBaggage := true,
              Actions := injectThenExtract "user" "a-much-longer-value" })).processAttributes
          baggage.reference serialization.exampleAsString [{ key := "user", value := "old" }]
          pcommon.NewMap).1
      = [("baggage.user", "old")] ∧
    stringsOf
        ((newTestProcessor (some
            { AttributePrefix := "baggage.", MaxBaggageSize := 10, DropInvalidBaggage := false,
              Actions := injectThenExtract "user" "a-much-longer-value" })).processAttributes
          baggage.reference serialization.exampleAsString [{ key := "user", value := "old" }]
          pcommon.NewMap).1
      = [] ∧
    ((newTestProcessor (some
        { AttributePrefix := "baggage.", MaxBaggageSize := 10, DropInvalidBaggage := false,
          Actions := injectThenExtract "user" "a-much-longer-value" })).processAttributes
      baggage.reference serialization.exampleAsString [{ key := "user", value := "old" }]
      pcommon.NewMap).2
      = some "failed to process action for key user: baggage size 24 exceeds limit 10" := by
  refine ⟨by decide, by decide, by decide, by decide⟩

/-- C36 (amended): actions are applied in configuration order against one evolving
baggage per attribute map.  When the library accepts the member `k = v` (`NewMember` and
`SetMember` succeed and the new baggage holds `k` with the value `v`) and the new baggage
is within `MaxBaggageSize` when that is positive, the action list
`[inject k with Value v, extract k]` sets the attribute `AttributePrefix ++ k` to `v` and
returns nil, whatever the context baggage held for `k`; and when the baggage without `k`
has no member for `k`, the list `[delete k, extract k]` leaves the attribute map as it
was and returns nil, even when the context baggage had `k`. -/
theorem actions_applied_in_order {B M P : Type} (lib : baggage.Library B M P)
    (AsString : pcommon.Value → String) (bp : baggageProcessor) (ctx : B)
    (attrs : pcommon.Map) (k v : String) :
    (∀ member newBaggage,
      bp.config.Actions = injectThenExtract k v →
      lib.NewMember k v [] = .ok member →
      lib.SetMember ctx member = .ok newBaggage →
      (bp.config.MaxBaggageSize ≤ 0 ∨
        ((lib.BaggageString newBaggage).utf8ByteSize : Int) ≤ bp.config.MaxBaggageSize) →
      lib.MemberKey (lib.Member newBaggage k) ≠ "" →
      lib.MemberValue (lib.Member newBaggage k) = v →
      (bp.processAttributes lib AsString ctx attrs).2 = none ∧
      (bp.processAttributes lib AsString ctx attrs).1.Get (bp.config.AttributePrefix ++ k)
        = some (.String v)) ∧
    (bp.config.Actions = deleteThenExtract k →
      lib.MemberKey (lib.Member (lib.DeleteMember ctx k) k) = "" →
      bp.processAttributes lib AsString ctx attrs = (attrs, none)) := by
  constructor
  · intro member newBaggage hactions hmember hset hsize hkey hval
    have hvalue : resolveValue AsString { Key := k, Action := Inject, Value := v } attrs
        = some v := by
      unfold resolveValue
      by_cases hv : v = ""
      · simp [hv]
      · simp [hv]
    have hinject : bp.injectBaggage lib AsString { Key := k, Action := Inject, Value := v }
        attrs ctx = (newBaggage, none) := by
      rw [injectBaggage_of_set lib AsString bp { Key := k, Action := Inject, Value := v } attrs
        ctx v [] member newBaggage hvalue rfl hmember hset]
      have : ¬ (0 < bp.config.MaxBaggageSize ∧
          bp.config.MaxBaggageSize < ((lib.BaggageString newBaggage).utf8ByteSize : Int)) := by
        rintro ⟨h1, h2⟩
        rcases hsize with h | h <;> omega
      simp only [this, if_false]
    have hext := extractBaggage_present lib bp
      { Key := k, Action := Extract, FromContext := true } attrs newBaggage rfl hkey
    unfold baggageProcessor.processAttributes
    simp only []
    rw [hactions, processActions_injectThenExtract, hinject]
    simp only []
    refine ⟨trivial, ?_⟩
    rw [hext.2, hval]
  · intro hactions hkey
    unfold baggageProcessor.processAttributes
    simp only []
    rw [hactions, processActions_deleteThenExtract,
      extractBaggage_absent lib bp { Key := k, Action := Extract, FromContext := true } attrs
        (lib.DeleteMember ctx k) hkey]

/-- C36 on the key `user`: `[inject user=alice, extract user]` sets `baggage.user` to
`alice` whether the context baggage is empty or holds `user=bob`, and
`[delete user, extract user]` sets nothing although the context baggage holds `user`. -/
theorem actions_applied_in_order_witness :
    ((newTestProcessor (some
        { AttributePrefix := "baggage.", MaxBaggageSize := 8192,
          Actions := injectThenExtract "user" "alice" })).processAttributes
      baggage.reference serialization.exampleAsString [{ key := "user", value := "bob" }]
      pcommon.NewMap).1.Get ("baggage." ++ "user") = some (.String "alice") ∧
    stringsOf
        ((newTestProcessor (some
            { AttributePrefix := "baggage.", MaxBaggageSize := 8192,
              Actions := injectThenExtract "user" "alice" })).processAttributes
          baggage.reference serialization.exampleAsString [] pcommon.NewMap).1
      = [("baggage.user", "alice")] ∧
    (newTestProcessor (some
        { AttributePrefix := "baggage.", MaxBaggageSize := 8192,
          Actions := deleteThenExtract "user" })).processAttributes
      baggage.reference serialization.exampleAsString [{ key := "user", value := "bob" }]
      pcommon.NewMap = (pcommon.NewMap, none) :=
  ⟨((actions_applied_in_order baggage.reference serialization.exampleAsString
      (newTestProcessor (some
        { AttributePrefix := "baggage.", MaxBaggageSize := 8192,
          Actions := injectThenExtract "user" "alice" }))
      [{ key := "user", value := "bob" }] pcommon.NewMap "user" "alice").1
      { key := "user", value := "alice" } [{ key := "user", value := "alice" }]
      rfl rfl rfl (Or.inr (by decide)) (by decide) (by decide)).2,
   by decide,
   (actions_applied_in_order baggage.reference serialization.exampleAsString
      (newTestProcessor (some
        { AttributePrefix := "baggage.", MaxBaggageSize := 8192,
          Actions := deleteThenExtract "user" }))
      [{ key := "user", value := "bob" }] pcommon.NewMap "user" "alice").2 rfl (by decide)⟩

end baggageprocessor

/-! ## Theorems: the buckets of the `Histogram` encoder -/

namespace encode
open golang pdata objmodel

theorem lookupField_histogramDocument_counts (resource : Resource)
    (lib : InstrumentationLibrary) (metric : Metric) (dp : HistogramDataPoint)
    (w bucketID v : Nat) :
    lookupField (record (histogramDocument resource lib metric dp w bucketID v)) "bucketCount"
      = some (.UIntValue v) ∧
    lookupField (record (histogramDocument resource lib metric dp w bucketID v)) "count"
      = some (.UIntValue dp.Count) ∧
    lookupField (record (histogramDocument resource lib metric dp w bucketID v)) "sum"
      = some (.DoubleValue dp.Sum) := by
  simp only [lookupField_record]
  unfold histogramDocument
  cases h : dp.ExplicitBounds[bucketID]? <;>
    simp [h, initCommonFields, Document.AddAttributes, Document.AddString, Document.AddUInt,
      Document.AddDouble, Document.AddTimestamp, Document.Add, lookupField]

/-- C38: for every histogram data point, whatever the lengths of its bucket counts and of
its explicit bounds, the `Histogram` encoder returns (it reads no bound out of range) and
yields exactly one document or error per bucket count, none when there is no bucket count.
The record of bucket `i` has the `bucketId` `i`, the label `formatBucket(bounds[i])` when
`i` is below the number of bounds and `"+inf"` otherwise, the `bucketCount` of that bucket
alone, and the `count` and `sum` of the point. -/
theorem Histogram_bucket_records (Serialize : Serializer) (resource : Resource)
    (lib : InstrumentationLibrary) (name unit : String) (temporality : AggregationTemporality)
    (dps : List HistogramDataPoint) (dp : HistogramDataPoint) :
    Histogram Serialize resource lib ⟨name, unit, .Histogram temporality dps⟩
      = some
        (documentsOf ((dps.flatMap
            (histogramDocuments resource lib ⟨name, unit, .Histogram temporality dps⟩)).map
            (serializeDocument Serialize)),
         errorsOf ((dps.flatMap
            (histogramDocuments resource lib ⟨name, unit, .Histogram temporality dps⟩)).map
            (serializeDocument Serialize))) ∧
    (histogramDocuments resource lib ⟨name, unit, .Histogram temporality dps⟩ dp).length
      = dp.BucketCounts.length ∧
    (documentsOf ((histogramDocuments resource lib ⟨name, unit, .Histogram temporality dps⟩
        dp).map (serializeDocument Serialize))).length
      + (errorsOf ((histogramDocuments resource lib ⟨name, unit, .Histogram temporality dps⟩
        dp).map (serializeDocument Serialize))).length
      = dp.BucketCounts.length ∧
    (dp.BucketCounts = [] →
      histogramDocuments resource lib ⟨name, unit, .Histogram temporality dps⟩ dp = []) ∧
    (∀ i (hi : i < dp.BucketCounts.length),
      ∃ document,
        (histogramDocuments resource lib ⟨name, unit, .Histogram temporality dps⟩ dp)[i]?
          = some document ∧
        lookupField (record document) "bucketId" = some (.UIntValue i) ∧
        lookupField (record document) "bucket"
          = some (.StringValue
              (if h : i < dp.ExplicitBounds.length then formatBucket dp.ExplicitBounds[i]
               else "+inf")) ∧
        lookupField (record document) "bucketCount" = some (.UIntValue dp.BucketCounts[i]) ∧
        lookupField (record document) "count" = some (.UIntValue dp.Count) ∧
        lookupField (record document) "sum" = some (.DoubleValue dp.Sum)) := by
  refine ⟨?_, ?_, ?_, ?_, ?_⟩
  · simp only [Histogram]
    rw [Histogram_loop]
    simp
  · simp [histogramDocuments, List.enum_length]
  · rw [documentsOf_length_add_errorsOf_length]
    simp [histogramDocuments, List.enum_length]
  · intro hnil
    simp [histogramDocuments, hnil]
  · intro i hi
    refine ⟨histogramDocument resource lib ⟨name, unit, .Histogram temporality dps⟩ dp
      (itoa dp.BucketCounts.length).length i dp.BucketCounts[i], ?_,
      lookupField_histogramDocument_bucketId _ _ _ _ _ _ _, ?_,
      lookupField_histogramDocument_counts _ _ _ _ _ _ _⟩
    · rw [histogramDocuments_getElem?, List.getElem?_eq_getElem hi]
      rfl
    · rw [lookupField_histogramDocument_bucket]
      by_cases h : i < dp.ExplicitBounds.length
      · rw [List.getElem?_eq_getElem h, dif_pos h]
      · rw [List.getElem?_eq_none (by omega), dif_neg h]

/-- C38 on a point with two bounds and four bucket counts, and on one with two bounds and
a single bucket count: four records with the labels `5.87`, `10.5`, `+inf`, `+inf`, and
one record with the label `5.87`. -/
theorem Histogram_bucket_records_witness :
    (histogramDocuments testResource testLibrary ⟨"hist-metric", "", .Histogram .Delta []⟩
        { Attributes := [], Timestamp := testTimestamp, Count := 7, Sum := .finite false 0 0,
          BucketCounts := [1, 2, 0, 4], ExplicitBounds := [float5_87, float10_5] }).map
        (fun document =>
          (lookupField (record document) "bucket", lookupField (record document) "bucketCount"))
      = [(some (.StringValue "5.87"), some (.UIntValue 1)),
         (some (.StringValue "10.5"), some (.UIntValue 2)),
         (some (.StringValue "+inf"), some (.UIntValue 0)),
         (some (.StringValue "+inf"), some (.UIntValue 4))] ∧
    (histogramDocuments testResource testLibrary ⟨"hist-metric", "", .Histogram .Delta []⟩
        { Attributes := [], Timestamp := testTimestamp, Count := 7, Sum := .finite false 0 0,
          BucketCounts := [9], ExplicitBounds := [float5_87, float10_5] }).map
        (fun document =>
          (lookupField (record document) "bucket", lookupField (record document) "bucketCount"))
      = [(some (.StringValue "5.87"), some (.UIntValue 9))] ∧
    (histogramDocuments testResource testLibrary ⟨"hist-metric", "", .Histogram .Delta []⟩
        { Attributes := [], Timestamp := testTimestamp, Count := 7, Sum := .finite false 0 0,
          BucketCounts := [1, 2, 0, 4], ExplicitBounds := [float5_87, float10_5] }).length
      = 4 :=
  ⟨rfl, rfl,
   (Histogram_bucket_records (Serialize formatFloatSixTrim) testResource testLibrary
      "hist-metric" "" .Delta []
      { Attributes := [], Timestamp := testTimestamp, Count := 7, Sum := .finite false 0 0,
        BucketCounts := [1, 2, 0, 4], ExplicitBounds := [float5_87, float10_5] }).2.1⟩

end encode

/-! ## Theorems: configured exclude patterns -/

namespace headerprocessor
open golang

/-- C39: configured exclude patterns replace the default exclusions.  When `IncludeAll` is
true and `ExcludePatterns` is not empty, a header name is excluded if and only if one of
the configured patterns matches it; a header with a value whose lower-cased name matches
none of them, `authorization` and `cookie` included, is emitted as an attribute, and a
header whose lower-cased name matches one of them is not.  The patterns see the lower-cased
name only, so a pattern that matches only strings with an upper-case letter matches no
header, when lower-casing leaves no upper-case letter. -/
theorem configured_patterns_replace_defaults
    (Compile : String → Except error regexp.Regexp) (ToLower : String → String)
    (cfg : Config) (he : headerEnricher) (ctx : client.Context)
    (hnew : newHeaderEnricher Compile cfg = .ok he)
    (hall : cfg.IncludeAll = true) (hpat : cfg.ExcludePatterns ≠ []) :
    (∀ s, he.excluded s = true ↔
      ∃ p ∈ cfg.ExcludePatterns, ∃ r, Compile p = .ok r ∧ r.MatchString s = true) ∧
    (∀ k ∈ ctx.Metadata.Keys, ctx.Metadata.Get k ≠ [] →
      (∀ p ∈ cfg.ExcludePatterns, ∀ r, Compile p = .ok r →
        r.MatchString (ToLower k) = false) →
      MapGet (he.attributesFromContext ToLower ctx) (TrimSpace cfg.GlobalPrefix ++ k)
        = some (Join (ctx.Metadata.Get k) he.sep)) ∧
    (∀ k, (∃ p ∈ cfg.ExcludePatterns, ∃ r, Compile p = .ok r ∧
        r.MatchString (ToLower k) = true) →
      MapGet (he.attributesFromContext ToLower ctx) (TrimSpace cfg.GlobalPrefix ++ k)
        = none) ∧
    ((∀ s c, c ∈ (ToLower s).data → c.isUpper = false) →
      ∀ p ∈ cfg.ExcludePatterns, ∀ r, Compile p = .ok r →
        (∀ s, r.MatchString s = true → ∃ c ∈ s.data, c.isUpper = true) →
        ∀ k, r.MatchString (ToLower k) = false) := by
  have hcfg : he.cfg = cfg := (newHeaderEnricher_ok Compile cfg he hnew).1
  have hmode : he.cfg.IncludeAll = true := by rw [hcfg]; exact hall
  have hpats : excludePatternsOf cfg = cfg.ExcludePatterns := by
    have hlen : ¬ cfg.ExcludePatterns.length = 0 := fun h => hpat (List.length_eq_zero.mp h)
    simp [excludePatternsOf, hlen]
  have hiff : ∀ s, he.excluded s = true ↔
      ∃ p ∈ cfg.ExcludePatterns, ∃ r, Compile p = .ok r ∧ r.MatchString s = true := by
    intro s
    rw [excluded_iff Compile cfg he hnew, hpats]
  refine ⟨hiff, ?_, ?_, ?_⟩
  · intro k hk hne hnomatch
    have hex : he.excluded (ToLower k) = false := by
      cases h : he.excluded (ToLower k) with
      | false => rfl
      | true =>
        obtain ⟨p, hp, r, hr, hm⟩ := (hiff _).mp h
        rw [hnomatch p hp r hr] at hm
        cases hm
    have := includeAll_present ToLower he ctx hmode k hk hne hex
    rw [hcfg] at this
    exact this
  · intro k hmatch
    have hex : he.excluded (ToLower k) = true := (hiff _).mpr hmatch
    cases hget : MapGet (he.attributesFromContext ToLower ctx)
        (TrimSpace cfg.GlobalPrefix ++ k) with
    | none => rfl
    | some v =>
      obtain ⟨k', _, _, hex', hK, _⟩ := includeAll_lookup ToLower he ctx hmode _ _ hget
      rw [hcfg] at hK
      have hkk : k = k' := string_append_left_cancel _ _ _ hK
      subst hkk
      rw [hex] at hex'
      cases hex'
  · intro hlower p _ r _ hupper k
    cases hm : r.MatchString (ToLower k) with
    | false => rfl
    | true =>
      obtain ⟨c, hc, hup⟩ := hupper _ hm
      rw [hlower k c hc] at hup
      cases hup

/-- C39 on a request with `Authorization`, `Cookie` and `User-Agent` headers: with the
single pattern `^x-forwarded-.*$` all three are emitted, `authorization` included, and with
the pattern `^Authorization$` nothing is excluded either. -/
theorem configured_patterns_replace_defaults_witness :
    MapGet ((enricherOf { IncludeAll := true, ExcludePatterns := ["^x-forwarded-.*$"] }
        ).attributesFromContext toLowerASCII { Metadata := testSensitiveMetadata })
      "authorization" = some "secret" ∧
    extractSimple { IncludeAll := true, ExcludePatterns := ["^x-forwarded-.*$"] }
        { Metadata := testSensitiveMetadata }
      = some [("authorization", "secret"), ("cookie", "sid=1"), ("user-agent", "UA-1")] ∧
    extractSimple { IncludeAll := true, ExcludePatterns := ["^Authorization$"] }
        { Metadata := testSensitiveMetadata }
      = some [("authorization", "secret"), ("cookie", "sid=1"), ("user-agent", "UA-1")] ∧
    extractSimple { IncludeAll := true, ExcludePatterns := ["^authorization$"] }
        { Metadata := testSensitiveMetadata }
      = some [("cookie", "sid=1"), ("user-agent", "UA-1")] :=
  ⟨(configured_patterns_replace_defaults compileSimple toLowerASCII
      { IncludeAll := true, ExcludePatterns := ["^x-forwarded-.*$"] }
      (enricherOf { IncludeAll := true, ExcludePatterns := ["^x-forwarded-.*$"] })
      { Metadata := testSensitiveMetadata } rfl rfl (by decide)).2.1 "authorization"
      (by decide) (by decide)
      (fun p hp r hr => by
        have hm : (match compileSimple "^x-forwarded-.*$" with
          | .ok r => r.MatchString (toLowerASCII "authorization")
          | .error _ => true) = false := by decide
        rw [List.mem_singleton.mp hp] at hr
        rw [hr] at hm
        exact hm),
   by decide, by decide, by decide⟩

end headerprocessor

/-! ## Theorems: frame and idempotence of the header processors -/

namespace golang

theorem MapSet_of_MapGet {V : Type} (m : GoMap V) (k : String) (v : V)
    (h : MapGet m k = some v) : MapSet m k v = m := by
  induction m with
  | nil => simp [MapGet] at h
  | cons kv rest ih =>
    obtain ⟨k0, v0⟩ := kv
    unfold MapGet at h
    unfold MapSet
    by_cases h0 : k0 = k
    · simp only [h0, if_true, Option.some.injEq] at h
      simp [h0, h]
    · simp only [h0, if_false] at h
      simp only [h0, if_false, ih h]

theorem MapGet_of_mem_nodup {V : Type} (m : GoMap V) (k : String) (v : V)
    (hnodup : (m.map Prod.fst).Nodup) (hmem : (k, v) ∈ m) : MapGet m k = some v := by
  induction m with
  | nil => cases hmem
  | cons kv rest ih =>
    obtain ⟨k0, v0⟩ := kv
    simp only [List.map_cons, List.nodup_cons] at hnodup
    rcases List.mem_cons.mp hmem with h | h
    · cases h
      simp [MapGet]
    · have hne : ¬ k0 = k := by
        intro e
        apply hnodup.1
        rw [e]
        exact List.mem_map.mpr ⟨(k, v), h, rfl⟩
      simp only [MapGet, hne, if_false]
      exact ih hnodup.2 h

end golang

namespace headerprocessor
open golang

theorem putAll_eq_self (attrs : pcommon.Map) (kvs : GoMap String)
    (h : ∀ kv ∈ kvs, MapGet attrs kv.1 = some (.String kv.2)) : putAll attrs kvs = attrs := by
  induction kvs with
  | nil => rfl
  | cons kv rest ih =>
    unfold putAll
    rw [List.foldl_cons]
    have hstep : attrs.PutStr kv.1 kv.2 = attrs :=
      MapSet_of_MapGet attrs kv.1 (.String kv.2) (h kv (List.mem_cons_self _ _))
    rw [hstep]
    exact ih (fun kv' hkv' => h kv' (List.mem_cons_of_mem _ hkv'))

theorem putAll_idempotent (attrs : pcommon.Map) (kvs : GoMap String)
    (hnodup : (kvs.map Prod.fst).Nodup) : putAll (putAll attrs kvs) kvs = putAll attrs kvs := by
  apply putAll_eq_self
  intro kv hkv
  have hget := Get_putAll attrs kvs hnodup kv.1
  rw [MapGet_of_mem_nodup kvs kv.1 kv.2 hnodup hkv] at hget
  exact hget

theorem Get_putAll_of_not_mem (attrs : pcommon.Map) (kvs : GoMap String)
    (hnodup : (kvs.map Prod.fst).Nodup) (K : String) (hK : K ∉ kvs.map Prod.fst) :
    (putAll attrs kvs).Get K = attrs.Get K := by
  rw [Get_putAll attrs kvs hnodup K, MapGet_eq_none_of_not_mem kvs K hK]

theorem processTraces_eq (ToLower : String → String) (p : tracesProcessor)
    (ctx : client.Context) (td : ptrace.Traces) :
    p.processTraces ToLower ctx td
      = (td.withAttributes
          (fun attrs => putAll attrs (p.enricher.attributesFromContext ToLower ctx)), none) := by
  unfold tracesProcessor.processTraces ptrace.Traces.withAttributes
  simp only []
  split
  · next h =>
    rw [List.length_eq_zero.mp h]
    simp [putAll]
  · rfl

theorem processLogs_eq (ToLower : String → String) (p : logsProcessor)
    (ctx : client.Context) (ld : plog.Logs) :
    p.processLogs ToLower ctx ld
      = (ld.withAttributes
          (fun attrs => putAll attrs (p.enricher.attributesFromContext ToLower ctx)), none) := by
  unfold logsProcessor.processLogs plog.Logs.withAttributes
  simp only []
  split
  · next h =>
    rw [List.length_eq_zero.mp h]
    simp [putAll]
  · rfl

theorem applyToMetric_eq (m : pmetric.Metric) (kvs : GoMap String) :
    metricsProcessor.applyToMetric m kvs = m.withAttributes (fun attrs => putAll attrs kvs) := by
  unfold metricsProcessor.applyToMetric pmetric.Metric.withAttributes
  obtain ⟨name, desc, unit, data⟩ := m
  cases data <;> rfl

theorem processMetrics_eq (ToLower : String → String) (p : metricsProcessor)
    (ctx : client.Context) (md : pmetric.Metrics) :
    p.processMetrics ToLower ctx md
      = (md.withAttributes
          (fun attrs => putAll attrs (p.enricher.attributesFromContext ToLower ctx)), none) := by
  unfold metricsProcessor.processMetrics pmetric.Metrics.withAttributes
  simp only []
  split
  · next h =>
    rw [List.length_eq_zero.mp h]
    simp [applyToMetric_nil, ← applyToMetric_eq]
  · simp [applyToMetric_eq]

theorem traces_withAttributes_comp (f g : pcommon.Map → pcommon.Map) (td : ptrace.Traces) :
    (td.withAttributes f).withAttributes g = td.withAttributes (fun attrs => g (f attrs)) := by
  simp [ptrace.Traces.withAttributes, Function.comp_def]

theorem logs_withAttributes_comp (f g : pcommon.Map → pcommon.Map) (ld : plog.Logs) :
    (ld.withAttributes f).withAttributes g = ld.withAttributes (fun attrs => g (f attrs)) := by
  simp [plog.Logs.withAttributes, Function.comp_def]

theorem metric_withAttributes_comp (f g : pcommon.Map → pcommon.Map) (m : pmetric.Metric) :
    (m.withAttributes f).withAttributes g = m.withAttributes (fun attrs => g (f attrs)) := by
  obtain ⟨name, desc, unit, data⟩ := m
  cases data <;> simp [pmetric.Metric.withAttributes, Function.comp_def]

theorem metrics_withAttributes_comp (f g : pcommon.Map → pcommon.Map) (md : pmetric.Metrics) :
    (md.withAttributes f).withAttributes g = md.withAttributes (fun attrs => g (f attrs)) := by
  simp [pmetric.Metrics.withAttributes, Function.comp_def, metric_withAttributes_comp]

theorem metric_withAttributes_frame (f : pcommon.Map → pcommon.Map) (m : pmetric.Metric) :
    (m.withAttributes f).Name = m.Name ∧ (m.withAttributes f).Description = m.Description ∧
    (m.withAttributes f).Unit = m.Unit ∧ (m.withAttributes f).pointCount = m.pointCount ∧
    (m.withAttributes f).pointAttributes = m.pointAttributes.map f := by
  obtain ⟨name, desc, unit, data⟩ := m
  cases data <;>
    simp [pmetric.Metric.withAttributes, pmetric.Metric.pointCount,
      pmetric.Metric.pointAttributes, Function.comp_def]

/-- C40: header enrichment changes nothing but the extracted attribute keys and is
idempotent.  Each of `processTraces`, `processLogs` and `processMetrics` returns nil and
its input with the extracted attributes put on the attribute map of every span, log record
or data point.  So the telemetry with all these attribute maps erased is the same before
and after (the number and order of resources, scopes, spans, log records, metrics and data
points, and every field that is not such an attribute map); every attribute whose key is
not extracted keeps its value; and processing the result again with the same context
gives the same telemetry. -/
theorem enrichment_frame_idempotent (ToLower : String → String) (he : headerEnricher)
    (ctx : client.Context) :
    (∀ td,
      tracesProcessor.processTraces ToLower ⟨he⟩ ctx td
        = (td.withAttributes
            (fun attrs => putAll attrs (he.attributesFromContext ToLower ctx)), none) ∧
      (tracesProcessor.processTraces ToLower ⟨he⟩ ctx td).1.withAttributes (fun _ => [])
        = td.withAttributes (fun _ => []) ∧
      (tracesProcessor.processTraces ToLower ⟨he⟩ ctx td).1.allSpans.map (fun s => s.Name)
        = td.allSpans.map (fun s => s.Name) ∧
      tracesProcessor.processTraces ToLower ⟨he⟩ ctx
          (tracesProcessor.processTraces ToLower ⟨he⟩ ctx td).1
        = tracesProcessor.processTraces ToLower ⟨he⟩ ctx td) ∧
    (∀ ld,
      logsProcessor.processLogs ToLower ⟨he⟩ ctx ld
        = (ld.withAttributes
            (fun attrs => putAll attrs (he.attributesFromContext ToLower ctx)), none) ∧
      (logsProcessor.processLogs ToLower ⟨he⟩ ctx ld).1.withAttributes (fun _ => [])
        = ld.withAttributes (fun _ => []) ∧
      (logsProcessor.processLogs ToLower ⟨he⟩ ctx ld).1.allRecords.length
        = ld.allRecords.length ∧
      logsProcessor.processLogs ToLower ⟨he⟩ ctx
          (logsProcessor.processLogs ToLower ⟨he⟩ ctx ld).1
        = logsProcessor.processLogs ToLower ⟨he⟩ ctx ld) ∧
    (∀ md,
      metricsProcessor.processMetrics ToLower ⟨he⟩ ctx md
        = (md.withAttributes
            (fun attrs => putAll attrs (he.attributesFromContext ToLower ctx)), none) ∧
      (metricsProcessor.processMetrics ToLower ⟨he⟩ ctx md).1.withAttributes (fun _ => [])
        = md.withAttributes (fun _ => []) ∧
      (metricsProcessor.processMetrics ToLower ⟨he⟩ ctx md).1.allMetrics.map
          (fun m => (m.Name, m.pointCount))
        = md.allMetrics.map (fun m => (m.Name, m.pointCount)) ∧
      metricsProcessor.processMetrics ToLower ⟨he⟩ ctx
          (metricsProcessor.processMetrics ToLower ⟨he⟩ ctx md).1
        = metricsProcessor.processMetrics ToLower ⟨he⟩ ctx md) ∧
    (∀ (attrs : pcommon.Map) (K : String),
      K ∉ (he.attributesFromContext ToLower ctx).map Prod.fst →
      (putAll attrs (he.attributesFromContext ToLower ctx)).Get K = attrs.Get K) := by
  have hnodup := attributesFromContext_keys_nodup ToLower he ctx
  have hidem : ∀ attrs : pcommon.Map,
      putAll (putAll attrs (he.attributesFromContext ToLower ctx))
        (he.attributesFromContext ToLower ctx)
      = putAll attrs (he.attributesFromContext ToLower ctx) :=
    fun attrs => putAll_idempotent attrs _ hnodup
  refine ⟨fun td => ⟨processTraces_eq ToLower ⟨he⟩ ctx td, ?_, ?_, ?_⟩,
    fun ld => ⟨processLogs_eq ToLower ⟨he⟩ ctx ld, ?_, ?_, ?_⟩,
    fun md => ⟨processMetrics_eq ToLower ⟨he⟩ ctx md, ?_, ?_, ?_⟩,
    fun attrs K hK => Get_putAll_of_not_mem attrs _ hnodup K hK⟩
  · rw [processTraces_eq, traces_withAttributes_comp]
  · rw [allSpans_processTraces, List.map_map]
    rfl
  · rw [processTraces_eq, processTraces_eq, traces_withAttributes_comp]
    simp only [hidem]
  · rw [processLogs_eq, logs_withAttributes_comp]
  · rw [allRecords_processLogs, List.length_map]
  · rw [processLogs_eq, processLogs_eq, logs_withAttributes_comp]
    simp only [hidem]
  · rw [processMetrics_eq, metrics_withAttributes_comp]
  · rw [allMetrics_processMetrics, List.map_map]
    apply List.map_congr_left
    intro m _
    have hframe := metric_withAttributes_frame
      (fun attrs => putAll attrs (he.attributesFromContext ToLower ctx)) m
    simp only [Function.comp, applyToMetric_eq, hframe.1, hframe.2.2.2.1]
  · rw [processMetrics_eq, processMetrics_eq, metrics_withAttributes_comp]
    simp only [hidem]

/-- C40 on the processor tests with a span that already has attributes: the attribute
`keep` stays, `test_attr` is overwritten by the header value, the name of the span stays,
and a second pass changes nothing. -/
theorem enrichment_frame_idempotent_witness :
    (tracesProcessor.processTraces toLowerASCII ⟨enricherOf testProcessorConfig⟩
        testProcessorContext
        { ResourceSpans := [{ ScopeSpans := [{ Spans := [
            { Name := "test-span",
              Attributes := [("keep", .String "me"), ("test_attr", .String "old")] }] }] }]
          }).1.allSpans.map (fun s => (s.Name, baggageprocessor.stringsOf s.Attributes))
      = [("test-span", [("keep", "me"), ("test_attr", "val1")])] ∧
    tracesProcessor.processTraces toLowerASCII ⟨enricherOf testProcessorConfig⟩
        testProcessorContext
        (tracesProcessor.processTraces toLowerASCII ⟨enricherOf testProcessorConfig⟩
          testProcessorContext testTraces).1
      = tracesProcessor.processTraces toLowerASCII ⟨enricherOf testProcessorConfig⟩
          testProcessorContext testTraces ∧
    (metricsProcessor.processMetrics toLowerASCII ⟨enricherOf testProcessorConfig⟩
        testProcessorContext testMetrics).1.allMetrics.map (fun m => (m.Name, m.pointCount))
      = [("gauge", 1), ("sum", 1), ("histogram", 1), ("exp_histogram", 1), ("summary", 1),
         ("empty", 0)] :=
  ⟨by decide,
   ((enrichment_frame_idempotent toLowerASCII (enricherOf testProcessorConfig)
      testProcessorContext).1 testTraces).2.2.2,
   by decide⟩

end headerprocessor
